import Mathlib

/-!
# SUSS brain component: a shallow embedding of `SussBrainComponent.cpp`

The utility-AI brain (`USussBrainComponent`) is modelled as a record of its member
variables; each member function becomes a function on that record.  Everything the
brain asks of the engine or of the registered providers during one call (tags on the
owner, provider look-ups and their answers, the clock, the random draw) is gathered in
a `World` record that the functions take as an argument.

Conventions
* `float`/`double` values are rationals (`ℚ`): arithmetic is exact, the engine
  tolerances `UE_SMALL_NUMBER` and `UE_KINDA_SMALL_NUMBER` are kept.
* `TArray` is `List`, `TMap` is an association list with unique keys.
* A pointer that may be null is an `Option`.
* `TArray::operator[]` outside the array is a checked engine fault; the model reads a
  default-constructed element there, and results that depend on the element assume the
  index valid.
* Logging (`UE_LOG`, `UE_VLOG`) and delegate broadcasts have no effect on the state and
  are left out.
-/

namespace SUSS

/-! ## Engine values -/

/-- Engine constant `UE_SMALL_NUMBER` (1.e-8f), the default tolerance of
`FMath::IsNearlyZero`. -/
def UE_SMALL_NUMBER : ℚ := 1 / 100000000

/-- Engine constant `UE_KINDA_SMALL_NUMBER` (1.e-4f). -/
def UE_KINDA_SMALL_NUMBER : ℚ := 1 / 10000

/-- Engine function `FMath::IsNearlyZero(Value)`: `Abs(Value) <= UE_SMALL_NUMBER`. -/
def IsNearlyZero (Value : ℚ) : Bool := decide (|Value| ≤ UE_SMALL_NUMBER)

/-- Engine function `FMath::Clamp(X, Min, Max)`. -/
def Clamp (X Min Max : ℚ) : ℚ := if X < Min then Min else if X < Max then X else Max

/-- Engine function `FMath::GetRangePct(MinValue, MaxValue, Value)`: the fraction of the way
from `MinValue` to `MaxValue` at which `Value` lies.  When the range is a point the engine
avoids the division and reports whether `Value` is before the point (0) or not (1). -/
def GetRangePct (MinValue MaxValue Value : ℚ) : ℚ :=
  let Divisor := MaxValue - MinValue
  if IsNearlyZero Divisor then
    (if Value ≥ MaxValue then 1 else 0)
  else
    (Value - MinValue) / Divisor

/-- Engine type `FVector`. -/
structure FVector where
  X : ℚ := 0
  Y : ℚ := 0
  Z : ℚ := 0
deriving DecidableEq

/-- Engine function `FVector::DistSquared`. -/
def FVector.DistSquared (A B : FVector) : ℚ :=
  (B.X - A.X) * (B.X - A.X) + (B.Y - A.Y) * (B.Y - A.Y) + (B.Z - A.Z) * (B.Z - A.Z)

/-- Engine type `FName`. -/
abbrev FName := String

/-- Engine type `AActor*` (non-null): actors are told apart by identity. -/
abbrev AActor := Nat

/-- Engine type `FGameplayTag`: a dot-separated path, held as its list of segments.
The empty path is the invalid (none) tag. -/
structure FGameplayTag where
  Path : List String := []
deriving DecidableEq

/-- Engine function `FGameplayTag::IsValid`. -/
def FGameplayTag.IsValid (T : FGameplayTag) : Bool := !T.Path.isEmpty

/-- Engine function `FGameplayTag::MatchesTag`: the tag is `TagToCheck` or one of its
descendants. -/
def FGameplayTag.MatchesTag (T TagToCheck : FGameplayTag) : Bool :=
  TagToCheck.IsValid && TagToCheck.Path.isPrefixOf T.Path

/-- Engine type `FGameplayTagContainer`. -/
abbrev FGameplayTagContainer := List FGameplayTag

/-- Parent tag of all input providers (`TAG_SussInputParentTag`, "Suss.Input"). -/
def TAG_SussInputParentTag : FGameplayTag := ⟨["Suss", "Input"]⟩

/-- Parent tag of all parameter providers (`TAG_SussParamParentTag`, "Suss.Param"). -/
def TAG_SussParamParentTag : FGameplayTag := ⟨["Suss", "Param"]⟩

/-- Engine container `TMap<K, V>` as an association list with unique keys. -/
abbrev TMap (K V : Type) := List (K × V)

/-- Engine function `TMap::Find`. -/
def TMap.Find {K V : Type} [DecidableEq K] (M : TMap K V) (Key : K) : Option V :=
  (List.find? (fun KV => decide (KV.1 = Key)) M).map Prod.snd

/-- Engine function `TMap::Add`: the value of an existing key is replaced. -/
def TMap.Add {K V : Type} [DecidableEq K] : TMap K V → K → V → TMap K V
  | [], Key, Value => [(Key, Value)]
  | KV :: M, Key, Value =>
    if KV.1 = Key then (Key, Value) :: M else KV :: TMap.Add M Key Value

/-! ### `TArray::Sort`

`TArray::Sort(Predicate)` is the engine's introspective sort.  It is not part of the
plugin, so the functions that call it take the sorting routine as an argument
(`TArraySort`), and what the engine documents about it is the contract `IsTArraySort`:
the result is a rearrangement of the input in which no element is ordered before an
earlier one by the predicate.  The engine does not promise to keep the relative order
of elements the predicate does not tell apart (that is `TArray::StableSort`).

`SimpleSort` below is the loop the engine's introspective sort runs on partitions of at
most eight elements: it repeatedly finds the first greatest element of the unsorted part
and swaps it with the last element of that part. -/

/-- The type of a sorting routine taking the `Predicate` and the array. -/
abbrev TArraySort (α : Type) := (α → α → Bool) → List α → List α

/-- The predicate is one the engine can sort by, a strict weak ordering: two elements
are never each before the other, and when an element is before another, any third one
is after the former or before the latter. -/
def IsSortPredicate {α : Type} (Predicate : α → α → Bool) : Prop :=
  (∀ a b, Predicate a b = true → Predicate b a = false) ∧
  (∀ a b c, Predicate a c = true → Predicate a b = true ∨ Predicate b c = true)

/-- Contract of `TArray::Sort`: for a strict weak ordering the result is a permutation
of the input and no element is ordered by the predicate before an earlier one. -/
def IsTArraySort {α : Type} (SortFn : TArraySort α) : Prop :=
  ∀ (Predicate : α → α → Bool) (l : List α), IsSortPredicate Predicate →
    (SortFn Predicate l).Perm l ∧
    (SortFn Predicate l).Pairwise (fun a b => Predicate b a = false)

/-- Inner `for` of the small-partition loop: `Max` starts at the first element and moves
to `Item` whenever `Predicate(*Max, *Item)`; the result is the index `Max` ends at. -/
def SelectMax {α : Type} (Predicate : α → α → Bool) : α → Nat → Nat → List α → Nat
  | _, MaxIdx, _, [] => MaxIdx
  | Max, MaxIdx, Item, x :: xs =>
    if Predicate Max x then SelectMax Predicate x Item (Item + 1) xs
    else SelectMax Predicate Max MaxIdx (Item + 1) xs

/-- The statement `Swap(*Max, *Current.Max)`: exchange the element at index `m` with the
last element. -/
def SwapWithLast {α : Type} : Nat → List α → List α
  | _, [] => []
  | _, [x] => [x]
  | 0, x :: y :: ys => (y :: ys).getLast (List.cons_ne_nil y ys) :: ((y :: ys).dropLast ++ [x])
  | m + 1, x :: y :: ys => x :: SwapWithLast m (y :: ys)

/-- One round of the `while (Current.Max > Current.Min)` loop on the unsorted part. -/
def SimpleSortPass {α : Type} (Predicate : α → α → Bool) : List α → List α
  | [] => []
  | x :: xs => SwapWithLast (SelectMax Predicate x 0 1 xs) (x :: xs)

/-- The `while` loop: after each round the last element of the unsorted part is in
place and the part shrinks by one (`Current.Max--`). -/
def SimpleSortLoop {α : Type} (Predicate : α → α → Bool) : Nat → List α → List α
  | 0, l => l
  | n + 1, l =>
    let p := SimpleSortPass Predicate l
    SimpleSortLoop Predicate n p.dropLast ++ p.drop (p.length - 1)

/-- The engine's sort of a small array: `Num - 1` rounds of the loop. -/
def SimpleSort {α : Type} : TArraySort α :=
  fun Predicate l => SimpleSortLoop Predicate (l.length - 1) l

/-! ## Data model of the plugin -/

/-- Kind of an `FSussParameter`.  The enumeration is declared in a header that is not
among the sources; the brain only tests for `AutoParameter`. -/
inductive ESussParamType where
  | Float
  | Int
  | Tag
  | Input
  | AutoParameter
deriving DecidableEq

/-- Parameter value `FSussParameter`: a literal, or a reference to an input or parameter
provider that is resolved against a context. -/
structure FSussParameter where
  ParamType : ESussParamType := ESussParamType.Float
  FloatValue : ℚ := 0
  IntValue : Int := 0
  Tag : FGameplayTag := {}
  InputOrParameterTag : FGameplayTag := {}
deriving DecidableEq

/-- Conversion `FSussParameter(float)` used when an input provider resolves a parameter. -/
def FSussParameter.ofFloat (Value : ℚ) : FSussParameter :=
  { ParamType := ESussParamType.Float, FloatValue := Value }

/-- Value of a named context slot (`FSussContextValue`): a typed value, an actor or a
location. -/
inductive FSussContextValue where
  | Float (Value : ℚ)
  | Int (Value : Int)
  | Tag (Value : FGameplayTag)
  | Actor (Value : Option AActor)
  | Location (Value : FVector)
deriving DecidableEq

/-- Evaluation context `FSussContext`: the controlled actor, the target (a weak pointer),
the location and the named values. `FSussContext { Self }` sets only the first. -/
structure FSussContext where
  Self : AActor
  Target : Option AActor := none
  Location : FVector := {}
  NamedValues : TMap FName FSussContextValue := []
deriving DecidableEq

/-- One scoring factor `FSussConsideration`: input, bookends and response curve. -/
structure FSussConsideration where
  InputTag : FGameplayTag := {}
  Description : String := ""
  Parameters : TMap FName FSussParameter := []
  BookendMin : FSussParameter := FSussParameter.ofFloat 0
  BookendMax : FSussParameter := FSussParameter.ofFloat 1
  EvaluateCurve : ℚ → ℚ := fun x => x

/-- A query of an action definition, `FSussQuery`. -/
structure FSussQuery where
  QueryTag : FGameplayTag := {}
  Params : TMap FName FSussParameter := []
  MaxFrequency : ℚ := 0

/-- Action definition `FSussActionDef`. -/
structure FSussActionDef where
  ActionTag : FGameplayTag := {}
  Description : String := ""
  Priority : Int := 0
  Weight : ℚ := 1
  Inertia : ℚ := 0
  RequiredTags : FGameplayTagContainer := []
  BlockingTags : FGameplayTagContainer := []
  Queries : List FSussQuery := []
  Considerations : List FSussConsideration := []
  ActionParams : TMap FName FSussParameter := []
  RepetitionPenalty : ℚ := 0
  RepetitionPenaltyCooldown : ℚ := 0
  ScoreCooldownTime : ℚ := 0

/-- Per-action bookkeeping `FSussActionHistory`; a default-constructed entry is all zero. -/
structure FSussActionHistory where
  LastStartTime : ℚ := 0
  LastEndTime : ℚ := 0
  LastRunScore : ℚ := 0
  LastContext : Option FSussContext := none
  RepetitionPenalty : ℚ := 0
  TempScoreAdjust : ℚ := 0
  TempScoreAdjustCooldownRate : ℚ := 0
deriving DecidableEq

/-- Result of scoring one action in one context, `FSussActionScoringResult`.
`ActionDefIndex` is -1 when it refers to no action. -/
structure FSussActionScoringResult where
  ActionDefIndex : Int := -1
  Context : FSussContext := { Self := 0 }
  Score : ℚ := 0
deriving DecidableEq

/-- How the selector picks among the candidates of a priority group. -/
inductive ESussActionChoiceMethod where
  | HighestScoring
  | WeightedRandomTopN
  | WeightedRandomTopNPercent
deriving DecidableEq

/-- Choice method override for one priority group. -/
structure FSussPriorityGroupActionChoiceOverride where
  Priority : Int := 0
  ChoiceMethod : ESussActionChoiceMethod := ESussActionChoiceMethod.HighestScoring
  ChoiceTopN : Int := 0

/-- A named bundle of action definitions (`USussActionSetAsset`). -/
structure USussActionSetAsset where
  Actions : List FSussActionDef := []

/-- Accessor `USussActionSetAsset::GetActions`. -/
def USussActionSetAsset.GetActions (S : USussActionSetAsset) : List FSussActionDef := S.Actions

/-- Brain configuration `FSussBrainConfig`.  An entry of `ActionSets` is a pointer, `none`
when it does not pass `IsValid`. -/
structure FSussBrainConfig where
  ActionSets : List (Option USussActionSetAsset) := []
  ActionDefs : List FSussActionDef := []
  PreventBrainUpdateIfAnyTags : FGameplayTagContainer := []
  ActionChoiceMethod : ESussActionChoiceMethod := ESussActionChoiceMethod.HighestScoring
  ActionChoiceTopN : Int := 0
  PriorityGroupActionChoiceOverrides : List FSussPriorityGroupActionChoiceOverride := []

/-- Class of an action (`TSubclassOf<USussAction>`), told apart by identity. -/
abbrev FActionClass := Nat

/-- A pooled action instance (`USussAction`) as the brain sees it: its identity as an
object (`Address`, what pointers to it compare by), its class, the answers of its two
interruption queries, and what `Init` stored in it. -/
structure USussAction where
  Address : Nat := 0
  Class : FActionClass := 0
  bAllowInterruptions : Bool := true
  bAllowInterruptionsFromHigherPriorityGroupsOnly : Bool := false
  CurrentContext : Option FSussContext := none
  BrainActionIndex : Int := -1
deriving DecidableEq

/-- Default `USussAction::CanBeInterrupted_Implementation` (SussAction.cpp). -/
def USussAction.CanBeInterrupted (A : USussAction) : Bool := A.bAllowInterruptions

/-- Query `USussAction::AllowInterruptionsFromHigherPriorityGroupsOnly`. -/
def USussAction.AllowInterruptionsFromHigherPriorityGroupsOnly (A : USussAction) : Bool :=
  A.bAllowInterruptionsFromHigherPriorityGroupsOnly

/-- Initialiser `USussAction::Init(Brain, Context, ActionDefIndex)`. -/
def USussAction.Init (A : USussAction) (Context : FSussContext) (ActionDefIndex : Int) :
    USussAction :=
  { A with CurrentContext := some Context, BrainActionIndex := ActionDefIndex }

/-- A call the brain makes on an action instance, recorded in order. -/
inductive FActionCall where
  | PerformAction (Class : FActionClass) (Context : FSussContext)
      (Params : TMap FName FSussParameter) (PreviousActionClass : Option FActionClass)
  | ContinueAction (Class : FActionClass) (Context : FSussContext)
      (Params : TMap FName FSussParameter)
  | CancelAction (Class : FActionClass) (Interrupter : Option FActionClass)
deriving DecidableEq

/-- Distance tier of the agent, `ESussDistanceCategory`. -/
inductive ESussDistanceCategory where
  | Near
  | MidRange
  | Far
  | OutOfRange
deriving DecidableEq

/-- The timer behind the handle `UpdateRequestTimer` as the timer manager keeps it:
whether the handle is valid, whether the timer is paused, and its interval. -/
structure FTimerHandle where
  bIsValid : Bool := false
  bIsPaused : Bool := false
  Rate : ℚ := 0
deriving DecidableEq

/-- Engine function `FTimerManager::SetTimer` for a looping timer: a rate that is not
positive clears the timer instead. -/
def FTimerHandle.SetTimer (_H : FTimerHandle) (InRate : ℚ) : FTimerHandle :=
  if InRate > 0 then { bIsValid := true, bIsPaused := false, Rate := InRate } else {}

/-- Engine function `FTimerManager::PauseTimer`. -/
def FTimerHandle.PauseTimer (H : FTimerHandle) : FTimerHandle :=
  if H.bIsValid then { H with bIsPaused := true } else H

/-- Engine function `FTimerManager::UnPauseTimer`. -/
def FTimerHandle.UnPauseTimer (H : FTimerHandle) : FTimerHandle :=
  if H.bIsValid then { H with bIsPaused := false } else H

/-- Engine function `FTimerManager::ClearTimer`, which also invalidates the handle. -/
def FTimerHandle.ClearTimer (_H : FTimerHandle) : FTimerHandle := {}

/-- Member variables of `USussBrainComponent` that the decision logic reads or writes,
with `ActionCalls` recording the calls made on action instances and
`QueueBrainUpdateCalls` counting the calls of `QueueBrainUpdate` on the world subsystem.
`BrainConfigAsset` is the `BrainConfig` of the linked asset, `none` for a null pointer. -/
structure USussBrainComponent where
  bQueuedForUpdate : Bool := false
  bWasPreventedFromUpdating : Bool := false
  bIsLogicStopped : Bool := false
  BrainConfig : FSussBrainConfig := {}
  CombinedActionsByPriority : List FSussActionDef := []
  ActionHistory : List FSussActionHistory := []
  CurrentActionInstance : Option USussAction := none
  CurrentActionResult : FSussActionScoringResult := {}
  CandidateActions : List FSussActionScoringResult := []
  ActionCalls : List FActionCall := []
  QueueBrainUpdateCalls : Nat := 0
  LogicStoppedReason : String := ""
  BrainConfigAsset : Option FSussBrainConfig := none
  DistanceCategory : ESussDistanceCategory := ESussDistanceCategory.OutOfRange
  CurrentUpdateInterval : ℚ := 0
  UpdateRequestTimer : FTimerHandle := {}

/-- Input provider `USussInputProvider`. -/
structure USussInputProvider where
  Evaluate : USussBrainComponent → FSussContext → TMap FName FSussParameter → ℚ

/-- Parameter provider `USussParameterProvider`. -/
structure USussParameterProvider where
  Evaluate : USussBrainComponent → FSussContext → TMap FName FSussParameter → FSussParameter

/-- Context slot a query fills. -/
inductive ESussQueryContextElement where
  | Target
  | Location
  | NamedValue
deriving DecidableEq

/-- Query provider `USussQueryProvider`.  Results of the element type are carried as
context values (`Actor` for targets, `Location` for locations); `QueryValueName` is
present when the provider is a `USussNamedValueQueryProvider`. -/
structure USussQueryProvider where
  ProvidedContextElement : ESussQueryContextElement
  QueryValueName : Option FName := none
  bIsCorrelatedWithContext : Bool := false
  GetResults : USussBrainComponent → AActor → ℚ → TMap FName FSussParameter →
    List FSussContextValue
  GetResultsInContext : USussBrainComponent → AActor → FSussContext →
    TMap FName FSussParameter → List FSussContextValue

/-- Settings of one distance tier (`NearAgentSettings` and its siblings in
`USussSettings`; the type is declared in SussSettings.h, which is not among the sources). -/
structure FSussAgentSettings where
  MaxDistance : ℚ := 0
  BrainUpdateRequestIntervalSeconds : ℚ := 1

/-- The fields of the project settings `USussSettings` that the brain reads. -/
structure USussSettings where
  NearAgentSettings : FSussAgentSettings := {}
  MidRangeAgentSettings : FSussAgentSettings := {}
  FarAgentSettings : FSussAgentSettings := {}
  OutOfBoundsDistanceCheckInterval : ℚ := 1
  BrainUpdateOnPerceptionChanges : Bool := true

/-- Everything outside the brain that one call consults: authority of the owner, the
clock, the tags on the owner, the provider registry, the action pool and the random
number source; whether the brain has a pawn, the pawn an ability system component, and
the world a SUSS world subsystem; and which tags the ability system component matches.
`Settings` is what `GetDefault<USussSettings>()` returns, `DistanceToAnyPlayer` what
`GetDistanceToAnyPlayer` returns, `IsPaused` the answer of the engine query
`UBrainComponent::IsPaused`, and `bDoLogicRestartOnUnlock` the engine flag that makes
`UBrainComponent::ResumeLogic` restart the logic instead of resuming it. -/
structure World where
  HasAuthority : Bool := true
  TimeSeconds : ℚ := 0
  Self : AActor := 0
  IsActionEnabled : FGameplayTag → Bool := fun _ => true
  ActorHasAllTags : FGameplayTagContainer → Bool := fun _ => true
  ActorHasAnyTags : FGameplayTagContainer → Bool := fun _ => false
  GetInputProvider : FGameplayTag → Option USussInputProvider := fun _ => none
  GetParameterProvider : FGameplayTag → Option USussParameterProvider := fun _ => none
  GetQueryProvider : FGameplayTag → Option USussQueryProvider := fun _ => none
  GetActionClass : FGameplayTag → Option FActionClass := fun _ => none
  ReserveAction : FActionClass → USussAction := fun C => { Class := C }
  RandRange : ℚ → ℚ → ℚ := fun Min _ => Min
  HasPawn : Bool := true
  HasAbilitySystemComponent : Bool := true
  HasAnyMatchingGameplayTags : FGameplayTagContainer → Bool := fun _ => false
  HasWorldSubsystem : Bool := true
  Settings : Option USussSettings := some {}
  DistanceToAnyPlayer : ℚ := 0
  IsPaused : Bool := false
  bDoLogicRestartOnUnlock : Bool := false

/-! ## Array helpers -/

instance : Inhabited FSussActionDef := ⟨{}⟩
instance : Inhabited FSussActionHistory := ⟨{}⟩
instance : Inhabited FSussActionScoringResult := ⟨{}⟩

/-- Read `Array[Index]` with an `int` index. -/
def TArray.At {α : Type} [Inhabited α] (l : List α) (Index : Int) : α :=
  if 0 ≤ Index then l.getD Index.toNat default else default

/-- Write through the reference `auto& X = Array[Index]`. -/
def TArray.Modify {α : Type} [Inhabited α] (l : List α) (Index : Int) (f : α → α) : List α :=
  if 0 ≤ Index then l.set Index.toNat (f (l.getD Index.toNat default)) else l

/-- Engine function `TArray::SetNum`: truncate, or grow with default-constructed elements. -/
def TArray.SetNum {α : Type} [Inhabited α] (l : List α) (NewNum : Nat) : List α :=
  l.take NewNum ++ List.replicate (NewNum - l.length) default

/-! ## Catalogue -/

/-- First loop of `InitActions`: the actions of every valid action set, in order. -/
def CollectActionSets : List (Option USussActionSetAsset) → List FSussActionDef
  | [] => []
  | some ActionSet :: rest => ActionSet.GetActions ++ CollectActionSets rest
  | none :: rest => CollectActionSets rest

/-- The definitions `InitActions` adds to `CombinedActionsByPriority` before sorting:
those of the action sets, then the brain's own `ActionDefs`. -/
def CollectActions (Config : FSussBrainConfig) : List FSussActionDef :=
  CollectActionSets Config.ActionSets ++ Config.ActionDefs

/-- The sort predicate of `InitActions`: `A.Priority < B.Priority`. -/
def PriorityLess (A B : FSussActionDef) : Bool := decide (A.Priority < B.Priority)

/-- Member function `USussBrainComponent::InitActions`. -/
def InitActions (SortFn : TArraySort FSussActionDef) (B : USussBrainComponent) :
    USussBrainComponent :=
  let Combined := SortFn PriorityLess (CollectActions B.BrainConfig)
  { B with
    CombinedActionsByPriority := Combined
    ActionHistory := TArray.SetNum B.ActionHistory Combined.length }

/-- Member function `USussBrainComponent::GetActionChoiceMethod`; the second component is
`OutTopN`. -/
def GetActionChoiceMethod (B : USussBrainComponent) (Priority : Int) :
    ESussActionChoiceMethod × Int :=
  match B.BrainConfig.PriorityGroupActionChoiceOverrides.find?
      (fun C => decide (C.Priority = Priority)) with
  | some C => (C.ChoiceMethod, C.ChoiceTopN)
  | none => (B.BrainConfig.ActionChoiceMethod, B.BrainConfig.ActionChoiceTopN)

/-! ## Current action -/

/-- Member function `USussBrainComponent::IsActionInProgress`. -/
def IsActionInProgress (B : USussBrainComponent) : Bool := B.CurrentActionInstance.isSome

/-- Squared distance within which two locations count as the same
(`LocationToleranceSq = 30*30`). -/
def LocationToleranceSq : ℚ := 30 * 30

/-- Member function `USussBrainComponent::IsActionSameAsCurrent`. -/
def IsActionSameAsCurrent (B : USussBrainComponent) (NewActionIndex : Int)
    (NewCtx : FSussContext) : Bool :=
  if IsActionInProgress B && decide (NewActionIndex = B.CurrentActionResult.ActionDefIndex) then
    let CurrCtx := B.CurrentActionResult.Context
    if CurrCtx.Target ≠ NewCtx.Target then false
    else if FVector.DistSquared CurrCtx.Location NewCtx.Location > LocationToleranceSq then false
    else if CurrCtx.NamedValues.length ≠ NewCtx.NamedValues.length then false
    else CurrCtx.NamedValues.all (fun KV =>
      match TMap.Find NewCtx.NamedValues KV.1 with
      | some Val => decide (KV.2 = Val)
      | none => false)
  else false

/-- Member function
`USussBrainComponent::ShouldSubtractRepetitionPenaltyToProposedAction`. -/
def ShouldSubtractRepetitionPenaltyToProposedAction (B : USussBrainComponent)
    (NewActionIndex : Int) (_NewContext : FSussContext) : Bool :=
  if !IsActionInProgress B || decide (NewActionIndex ≠ B.CurrentActionResult.ActionDefIndex) then
    decide ((TArray.At B.ActionHistory NewActionIndex).LastEndTime > 0)
  else false

/-! ## Parameters -/

/-- Member function `USussBrainComponent::ResolveParameter`. -/
def ResolveParameter (W : World) (B : USussBrainComponent) (SelfContext : FSussContext)
    (Value : FSussParameter) : FSussParameter :=
  if Value.ParamType = ESussParamType.AutoParameter then
    if Value.InputOrParameterTag.MatchesTag TAG_SussInputParentTag then
      match W.GetInputProvider Value.InputOrParameterTag with
      | some InputProvider => FSussParameter.ofFloat (InputProvider.Evaluate B SelfContext [])
      | none => Value
    else if Value.InputOrParameterTag.MatchesTag TAG_SussParamParentTag then
      match W.GetParameterProvider Value.InputOrParameterTag with
      | some ParamProvider => ParamProvider.Evaluate B SelfContext []
      | none => Value
    else Value
  else Value

/-- Loop of `ResolveParameters` over the entries of `InParams`. -/
def ResolveParametersLoop (W : World) (B : USussBrainComponent) (SelfContext : FSussContext) :
    TMap FName FSussParameter → TMap FName FSussParameter → TMap FName FSussParameter
  | [], OutParams => OutParams
  | Param :: rest, OutParams =>
    ResolveParametersLoop W B SelfContext rest
      (TMap.Add OutParams Param.1 (ResolveParameter W B SelfContext Param.2))

/-- Member function `USussBrainComponent::ResolveParameters`: every parameter is resolved
against the context `FSussContext { Self }`. -/
def ResolveParameters (W : World) (B : USussBrainComponent) (Self : AActor)
    (InParams OutParams : TMap FName FSussParameter) : TMap FName FSussParameter :=
  ResolveParametersLoop W B { Self := Self } InParams OutParams

/-! ## Context generation -/

/-- The value setters passed by the callers of the context templates: a target result
overwrites `Ctx.Target`, a location result overwrites `Ctx.Location`, a named value is
added to `Ctx.NamedValues` under the provider's value name. -/
def SetContextElement (Element : ESussQueryContextElement) (ValueName : Option FName)
    (Value : FSussContextValue) (Ctx : FSussContext) : FSussContext :=
  match Element with
  | ESussQueryContextElement.Target =>
    { Ctx with Target := match Value with
                         | FSussContextValue.Actor A => A
                         | _ => none }
  | ESussQueryContextElement.Location =>
    { Ctx with Location := match Value with
                           | FSussContextValue.Location L => L
                           | _ => {} }
  | ESussQueryContextElement.NamedValue =>
    match ValueName with
    | some Name => { Ctx with NamedValues := TMap.Add Ctx.NamedValues Name Value }
    | none => Ctx

/-- Modelled from the spec: the template `AppendUncorrelatedContexts<T>` is defined in
SussBrainComponent.h, which is not among the sources.  The results are combined with the
existing contexts in every combination (§4.5 step 3e); the first query combines with the
context holding only `Self`. -/
def AppendUncorrelatedContextsT (Self : AActor) (Values : List FSussContextValue)
    (OutContexts : List FSussContext) (ValueSetter : FSussContextValue → FSussContext → FSussContext) :
    List FSussContext :=
  if OutContexts.isEmpty then Values.map (fun V => ValueSetter V { Self := Self })
  else (OutContexts.map (fun Ctx => Values.map (fun V => ValueSetter V Ctx))).flatten

/-- Member function `USussBrainComponent::AppendUncorrelatedContexts`: the flag
`bAnyResults` and the new contexts. -/
def AppendUncorrelatedContexts (B : USussBrainComponent) (Self : AActor)
    (Query : FSussQuery) (QueryProvider : USussQueryProvider)
    (Params : TMap FName FSussParameter) (OutContexts : List FSussContext) :
    Bool × List FSussContext :=
  let Element := QueryProvider.ProvidedContextElement
  match Element, QueryProvider.QueryValueName with
  | ESussQueryContextElement.NamedValue, none => (false, OutContexts)
  | _, ValueName =>
    let Values := QueryProvider.GetResults B Self Query.MaxFrequency Params
    (decide (Values.length > 0),
      AppendUncorrelatedContextsT Self Values OutContexts (SetContextElement Element ValueName))

/-- Modelled from the spec: the template `AppendCorrelatedContexts<T>` is defined in
SussBrainComponent.h, which is not among the sources.  For a source context with results,
one context per result is emitted, each a clone of the source context with the slot
written (§4.5 step 3d): the source context takes the first result in place and the clones
for the further results are added at the end of the array.  The result is the source
context after the call and the contexts added. -/
def AppendCorrelatedContextsT (Values : List FSussContextValue) (SourceContext : FSussContext)
    (ValueSetter : FSussContextValue → FSussContext → FSussContext) :
    FSussContext × List FSussContext :=
  match Values with
  | [] => (SourceContext, [])
  | First :: More =>
    (ValueSetter First SourceContext, More.map (fun V => ValueSetter V SourceContext))

/-- The results that the `switch` of `IntersectCorrelatedContexts` fetches for the incoming
context `SourceContext` (lines 1084-1148): those of `GetResultsInContext`, and none when
the provider of a named value is not a `USussNamedValueQueryProvider`. -/
def CorrelatedResults (B : USussBrainComponent) (Self : AActor)
    (QueryProvider : USussQueryProvider) (Params : TMap FName FSussParameter)
    (SourceContext : FSussContext) : List FSussContextValue :=
  match QueryProvider.ProvidedContextElement, QueryProvider.QueryValueName with
  | ESussQueryContextElement.NamedValue, none => []
  | _, _ => QueryProvider.GetResultsInContext B Self SourceContext Params

/-- Loop of `IntersectCorrelatedContexts` over the incoming contexts.  A context with no
results is removed from the array; for a context with results the template
`AppendCorrelatedContexts<T>` is called.  `Kept` are the contexts left in place,
`Appended` those added at the end of the array. -/
def IntersectCorrelatedContextsLoop (B : USussBrainComponent) (Self : AActor)
    (QueryProvider : USussQueryProvider) (Params : TMap FName FSussParameter) :
    List FSussContext → List FSussContext → List FSussContext → List FSussContext
  | [], Kept, Appended => Kept ++ Appended
  | SourceContext :: rest, Kept, Appended =>
    let Element := QueryProvider.ProvidedContextElement
    let Results := CorrelatedResults B Self QueryProvider Params SourceContext
    if Results.length > 0 then
      let R := AppendCorrelatedContextsT Results SourceContext
        (SetContextElement Element QueryProvider.QueryValueName)
      IntersectCorrelatedContextsLoop B Self QueryProvider Params rest
        (Kept ++ [R.1]) (Appended ++ R.2)
    else IntersectCorrelatedContextsLoop B Self QueryProvider Params rest Kept Appended

/-- Member function `USussBrainComponent::IntersectCorrelatedContexts`. -/
def IntersectCorrelatedContexts (B : USussBrainComponent) (Self : AActor)
    (QueryProvider : USussQueryProvider) (Params : TMap FName FSussParameter)
    (InOutContexts : List FSussContext) : List FSussContext :=
  IntersectCorrelatedContextsLoop B Self QueryProvider Params InOutContexts [] []

/-- Loop of `GenerateContexts` over `Action.Queries`, with the sets `ContextElements` and
`NamedQueryValues` of what earlier queries provide. -/
def GenerateContextsLoop (W : World) (B : USussBrainComponent) (Self : AActor) :
    List FSussQuery → List ESussQueryContextElement → List FName → List FSussContext →
    List FSussContext
  | [], _, _, OutContexts => OutContexts
  | Query :: rest, ContextElements, NamedQueryValues, OutContexts =>
    match W.GetQueryProvider Query.QueryTag with
    | none => GenerateContextsLoop W B Self rest ContextElements NamedQueryValues OutContexts
    | some QueryProvider =>
      let ResolvedParams := ResolveParameters W B Self Query.Params []
      let Element := QueryProvider.ProvidedContextElement
      if Element ≠ ESussQueryContextElement.NamedValue ∧ Element ∈ ContextElements then
        GenerateContextsLoop W B Self rest ContextElements NamedQueryValues OutContexts
      else
        let ContextElements := Element :: ContextElements
        let SeenName : Option FName :=
          if Element = ESussQueryContextElement.NamedValue then QueryProvider.QueryValueName
          else none
        if (match SeenName with
            | some ValueName => decide (ValueName ∈ NamedQueryValues)
            | none => false) then
          GenerateContextsLoop W B Self rest ContextElements NamedQueryValues OutContexts
        else
          let NamedQueryValues :=
            match SeenName with
            | some ValueName => ValueName :: NamedQueryValues
            | none => NamedQueryValues
          if QueryProvider.bIsCorrelatedWithContext then
            GenerateContextsLoop W B Self rest ContextElements NamedQueryValues
              (IntersectCorrelatedContexts B Self QueryProvider ResolvedParams OutContexts)
          else
            let R := AppendUncorrelatedContexts B Self Query QueryProvider ResolvedParams
              OutContexts
            if !R.1 then []
            else GenerateContextsLoop W B Self rest ContextElements NamedQueryValues R.2

/-- Member function `USussBrainComponent::GenerateContexts`. -/
def GenerateContexts (W : World) (B : USussBrainComponent) (Self : AActor)
    (Action : FSussActionDef) : List FSussContext :=
  if Action.Queries.length > 0 then GenerateContextsLoop W B Self Action.Queries [] [] []
  else [{ Self := Self }]

/-! ## Scoring -/

/-- The input of a consideration normalised to its bookends and clamped to [0, 1]
(`Update`, "Normalise to bookends and clamp"). -/
def NormalisedInput (W : World) (B : USussBrainComponent) (Ctx : FSussContext)
    (Consideration : FSussConsideration) (RawInputValue : ℚ) : ℚ :=
  Clamp (GetRangePct (ResolveParameter W B Ctx Consideration.BookendMin).FloatValue
      (ResolveParameter W B Ctx Consideration.BookendMax).FloatValue RawInputValue) 0 1

/-- The curve output `ConScore` of one consideration whose input provider is registered. -/
def ConsiderationScore (W : World) (B : USussBrainComponent) (Self : AActor)
    (Ctx : FSussContext) (InputProvider : USussInputProvider)
    (Consideration : FSussConsideration) : ℚ :=
  let ResolvedParams := ResolveParameters W B Self Consideration.Parameters []
  let RawInputValue := InputProvider.Evaluate B Ctx ResolvedParams
  Consideration.EvaluateCurve (NormalisedInput W B Ctx Consideration RawInputValue)

/-- The loop of `Update` over `NextAction.Considerations`, from the running `Score`. -/
def ScoreConsiderations (W : World) (B : USussBrainComponent) (Self : AActor)
    (Ctx : FSussContext) : ℚ → List FSussConsideration → ℚ
  | Score, [] => Score
  | Score, Consideration :: rest =>
    match W.GetInputProvider Consideration.InputTag with
    | some InputProvider =>
      let Score := Score * ConsiderationScore W B Self Ctx InputProvider Consideration
      if IsNearlyZero Score then Score
      else ScoreConsiderations W B Self Ctx Score rest
    | none => ScoreConsiderations W B Self Ctx Score rest

/-- The score of `NextAction` in `Ctx` after the considerations (`Update`, lines 827-870). -/
def RawScore (W : World) (B : USussBrainComponent) (NextAction : FSussActionDef)
    (Ctx : FSussContext) : ℚ :=
  ScoreConsiderations W B W.Self Ctx NextAction.Weight NextAction.Considerations

/-- The score after the current action's live score has been preserved if better
(`Update`, lines 872-885). -/
def RetainedScore (B : USussBrainComponent) (i : Nat) (Ctx : FSussContext) (Score : ℚ) : ℚ :=
  if IsActionSameAsCurrent B i Ctx then
    if B.CurrentActionResult.Score > Score then B.CurrentActionResult.Score else Score
  else Score

/-- The score after the repetition penalty (`Update`, lines 887-895). -/
def PenalisedScore (B : USussBrainComponent) (i : Nat) (Ctx : FSussContext) (Score : ℚ) : ℚ :=
  if ShouldSubtractRepetitionPenaltyToProposedAction B i Ctx then
    Score - (TArray.At B.ActionHistory i).RepetitionPenalty
  else Score

/-- The score after the temporary adjustment (`Update`, lines 896-904). -/
def AdjustedScore (B : USussBrainComponent) (i : Nat) (Score : ℚ) : ℚ :=
  if !IsNearlyZero (TArray.At B.ActionHistory i).TempScoreAdjust then
    Score + (TArray.At B.ActionHistory i).TempScoreAdjust
  else Score

/-- The total score of action `i` in `Ctx` (`TOTAL` in the log of `Update`). -/
def FinalScore (W : World) (B : USussBrainComponent) (i : Nat) (NextAction : FSussActionDef)
    (Ctx : FSussContext) : ℚ :=
  AdjustedScore B i (PenalisedScore B i Ctx (RetainedScore B i Ctx (RawScore W B NextAction Ctx)))

/-- Local variables of `Update` that its loops change. -/
structure FUpdateScoring where
  CurrentPriority : Int
  CandidateActions : List FSussActionScoringResult := []
  bAddedCurrentAction : Bool := false

/-- The loop of `Update` over the contexts of one action (lines 822-918). -/
def ScoreContexts (W : World) (B : USussBrainComponent) (i : Nat) (NextAction : FSussActionDef) :
    List FSussContext → FUpdateScoring → FUpdateScoring
  | [], S => S
  | Ctx :: rest, S =>
    let Score := FinalScore W B i NextAction Ctx
    let bIsCurrentAction := IsActionSameAsCurrent B i Ctx
    if !IsNearlyZero Score then
      ScoreContexts W B i NextAction rest
        { S with
          CandidateActions :=
            S.CandidateActions ++ [{ ActionDefIndex := i, Context := Ctx, Score := Score }]
          bAddedCurrentAction := if bIsCurrentAction then true else S.bAddedCurrentAction }
    else ScoreContexts W B i NextAction rest S

/-- The conditions under which `Update` skips an action with `continue` (lines 793-805). -/
def IsActionSkipped (W : World) (NextAction : FSussActionDef) : Bool :=
  decide (NextAction.Weight < UE_KINDA_SMALL_NUMBER)
  || (!NextAction.ActionTag.IsValid || !W.IsActionEnabled NextAction.ActionTag)
  || (decide (NextAction.RequiredTags.length > 0) && !W.ActorHasAllTags NextAction.RequiredTags)
  || (decide (NextAction.BlockingTags.length > 0) && W.ActorHasAnyTags NextAction.BlockingTags)

/-- The first `break` of the loop of `Update` (lines 773-777): the current action only
allows interruptions from higher priority groups and `NextAction` is not in one. -/
def IsBlockedByCurrentAction (B : USussBrainComponent) (NextAction : FSussActionDef) : Bool :=
  match B.CurrentActionInstance with
  | some Instance =>
    Instance.AllowInterruptionsFromHigherPriorityGroupsOnly
    && decide ((TArray.At B.CombinedActionsByPriority
          B.CurrentActionResult.ActionDefIndex).Priority ≤ NextAction.Priority)
  | none => false

/-- The body of the catalogue loop for an action that passed the two `break` tests
(lines 793-918): the action is skipped, or scored in each of its contexts. -/
def ScoreAction (W : World) (B : USussBrainComponent) (i : Nat) (NextAction : FSussActionDef)
    (S : FUpdateScoring) : FUpdateScoring :=
  if IsActionSkipped W NextAction then S
  else ScoreContexts W B i NextAction (GenerateContexts W B W.Self NextAction) S

/-- The loop of `Update` over the catalogue (lines 769-920); `i` is the index of the
first definition of the list. -/
def UpdateLoop (W : World) (B : USussBrainComponent) :
    Nat → List FSussActionDef → FUpdateScoring → FUpdateScoring
  | _, [], S => S
  | i, NextAction :: rest, S =>
    if IsBlockedByCurrentAction B NextAction then S
    else if S.CurrentPriority ≠ NextAction.Priority ∧ ¬ S.CandidateActions.isEmpty then S
    else
      UpdateLoop W B (i + 1) rest
        (ScoreAction W B i NextAction
          (if S.CurrentPriority ≠ NextAction.Priority then
            { S with CurrentPriority := NextAction.Priority } else S))

/-- The state of the loops of `Update` when the catalogue loop ends. -/
def UpdateScoring (W : World) (B : USussBrainComponent) : FUpdateScoring :=
  UpdateLoop W B 0 B.CombinedActionsByPriority
    { CurrentPriority := (TArray.At B.CombinedActionsByPriority 0).Priority }

/-- Whether `Update` adds `CurrentActionResult` back after the loop (line 922). -/
def ShouldReinjectCurrentAction (B : USussBrainComponent) (S : FUpdateScoring) : Bool :=
  !S.bAddedCurrentAction && IsActionInProgress B && decide (B.CurrentActionResult.Score > 0)

/-- The array `CandidateActions` that `Update` hands to `ChooseActionFromCandidates`. -/
def UpdateCandidates (W : World) (B : USussBrainComponent) : List FSussActionScoringResult :=
  let S := UpdateScoring W B
  if ShouldReinjectCurrentAction B S then S.CandidateActions ++ [B.CurrentActionResult]
  else S.CandidateActions

/-! ## Choosing and starting actions -/

/-- Member function `USussBrainComponent::RecordAndResetCurrentAction`. -/
def RecordAndResetCurrentAction (W : World) (B : USussBrainComponent) : USussBrainComponent :=
  let Index := B.CurrentActionResult.ActionDefIndex
  { B with
    ActionHistory := TArray.Modify B.ActionHistory Index (fun History =>
      { History with
        LastEndTime := W.TimeSeconds
        RepetitionPenalty := History.RepetitionPenalty
          + (TArray.At B.CombinedActionsByPriority Index).RepetitionPenalty })
    CurrentActionInstance := none
    CurrentActionResult := { B.CurrentActionResult with ActionDefIndex := -1, Score := 0 } }

/-- Member function `USussBrainComponent::CancelCurrentAction`. -/
def CancelCurrentAction (W : World) (B : USussBrainComponent)
    (Interrupter : Option FActionClass) : USussBrainComponent :=
  match B.CurrentActionInstance with
  | some Instance =>
    RecordAndResetCurrentAction W
      { B with ActionCalls := B.ActionCalls ++ [FActionCall.CancelAction Instance.Class Interrupter] }
  | none => B

/-- Member function `USussBrainComponent::StopCurrentAction`. -/
def StopCurrentAction (W : World) (B : USussBrainComponent) : USussBrainComponent :=
  CancelCurrentAction W B none

/-- The part of `ChooseAction` that starts a new action (lines 672-713). -/
def StartNewAction (W : World) (B : USussBrainComponent) (ActionResult : FSussActionScoringResult) :
    USussBrainComponent :=
  let Def := TArray.At B.CombinedActionsByPriority ActionResult.ActionDefIndex
  let ActionClass := W.GetActionClass Def.ActionTag
  let PreviousActionClass := B.CurrentActionInstance.map (fun I => I.Class)
  let B := StopCurrentAction W B
  let B := { B with
    CurrentActionResult := { ActionResult with Score := ActionResult.Score + Def.Inertia } }
  match ActionClass with
  | some Class =>
    let Instance := (W.ReserveAction Class).Init ActionResult.Context ActionResult.ActionDefIndex
    { B with
      ActionHistory := TArray.Modify B.ActionHistory ActionResult.ActionDefIndex (fun History =>
        { History with
          LastStartTime := W.TimeSeconds
          LastRunScore := ActionResult.Score
          LastContext := some ActionResult.Context })
      CurrentActionInstance := some Instance
      ActionCalls := B.ActionCalls
        ++ [FActionCall.PerformAction Instance.Class ActionResult.Context Def.ActionParams
              PreviousActionClass] }
  | none => { B with CurrentActionInstance := none }

/-- Member function `USussBrainComponent::ChooseAction`. -/
def ChooseAction (W : World) (B : USussBrainComponent) (ActionResult : FSussActionScoringResult) :
    USussBrainComponent :=
  let Def := TArray.At B.CombinedActionsByPriority ActionResult.ActionDefIndex
  match B.CurrentActionInstance with
  | some Instance =>
    if IsActionSameAsCurrent B ActionResult.ActionDefIndex ActionResult.Context then
      { B with
        CurrentActionResult := { B.CurrentActionResult with Score := ActionResult.Score }
        ActionCalls := B.ActionCalls
          ++ [FActionCall.ContinueAction Instance.Class ActionResult.Context Def.ActionParams] }
    else StartNewAction W B ActionResult
  | none => StartNewAction W B ActionResult

/-- The sort predicate of `ChooseActionFromCandidates`: highest score first. -/
def ScoreGreater (L R : FSussActionScoringResult) : Bool := decide (L.Score > R.Score)

/-- First loop of the weighted choice (lines 578-596): `TotalScores` and `ChoiceCount`
over the candidates from index `i` on. -/
def WeightedChoiceTotals (ChoiceMethod : ESussActionChoiceMethod) (TopN : Int) (ScoreLimit : ℚ) :
    Nat → List FSussActionScoringResult → ℚ × Nat → ℚ × Nat
  | _, [], Acc => Acc
  | i, Candidate :: rest, Acc =>
    if ChoiceMethod = ESussActionChoiceMethod.WeightedRandomTopN ∧ (i : Int) = TopN then Acc
    else if ChoiceMethod = ESussActionChoiceMethod.WeightedRandomTopNPercent
        ∧ Candidate.Score < ScoreLimit then Acc
    else WeightedChoiceTotals ChoiceMethod TopN ScoreLimit (i + 1) rest
      (Acc.1 + Candidate.Score, Acc.2 + 1)

/-- Second loop of the weighted choice (lines 600-617): the first of the `ChoiceCount`
leading candidates at which the accumulated score exceeds `Rand`, if any. -/
def WeightedPick (Rand : ℚ) : Nat → List FSussActionScoringResult → ℚ →
    Option FSussActionScoringResult
  | 0, _, _ => none
  | _, [], _ => none
  | ChoiceCount + 1, Candidate :: rest, ScoreAccum =>
    let ScoreAccum := ScoreAccum + Candidate.Score
    if Rand < ScoreAccum then some Candidate
    else WeightedPick Rand ChoiceCount rest ScoreAccum

/-- Member function `USussBrainComponent::ChooseActionFromCandidates`. -/
def ChooseActionFromCandidates (W : World) (SortFn : TArraySort FSussActionScoringResult)
    (B : USussBrainComponent) : USussBrainComponent :=
  if B.CandidateActions.isEmpty then B
  else
    let B := { B with CandidateActions := SortFn ScoreGreater B.CandidateActions }
    let Best := TArray.At B.CandidateActions 0
    let Priority := (TArray.At B.CombinedActionsByPriority Best.ActionDefIndex).Priority
    let Choice := GetActionChoiceMethod B Priority
    let ChoiceMethod := Choice.1
    let TopN := Choice.2
    if ChoiceMethod = ESussActionChoiceMethod.HighestScoring then ChooseAction W B Best
    else
      let BestScore := Best.Score
      let ScoreLimit : ℚ :=
        if ChoiceMethod = ESussActionChoiceMethod.WeightedRandomTopNPercent then
          BestScore - BestScore * ((TopN : ℚ) / 100)
        else 0
      let Totals := WeightedChoiceTotals ChoiceMethod TopN ScoreLimit 0 B.CandidateActions (0, 0)
      let Rand := W.RandRange 0 Totals.1
      match WeightedPick Rand Totals.2 B.CandidateActions 0 with
      | some Candidate => ChooseAction W B Candidate
      | none => B

/-- Member function `USussBrainComponent::Update`. -/
def Update (W : World) (SortFn : TArraySort FSussActionScoringResult)
    (B : USussBrainComponent) : USussBrainComponent :=
  let B := { B with bQueuedForUpdate := false }
  if !W.HasAuthority then B
  else if B.bIsLogicStopped then B
  else if B.CombinedActionsByPriority.isEmpty then B
  else if (match B.CurrentActionInstance with
           | some Instance => !Instance.CanBeInterrupted
           | none => false) then B
  else
    let B := { B with CandidateActions := [] }
    ChooseActionFromCandidates W SortFn { B with CandidateActions := UpdateCandidates W B }

/-! ## Update requests and completion -/

/-- Member function `USussBrainComponent::IsUpdatePrevented`. -/
def IsUpdatePrevented (W : World) (B : USussBrainComponent) : Bool :=
  decide (B.BrainConfig.PreventBrainUpdateIfAnyTags.length > 0)
  && W.HasPawn && W.HasAbilitySystemComponent
  && W.HasAnyMatchingGameplayTags B.BrainConfig.PreventBrainUpdateIfAnyTags

/-- Member function `USussBrainComponent::QueueForUpdate`. -/
def QueueForUpdate (W : World) (B : USussBrainComponent) : USussBrainComponent :=
  if !B.bQueuedForUpdate then
    if IsUpdatePrevented W B then { B with bWasPreventedFromUpdating := true }
    else if W.HasWorldSubsystem then
      { B with
        QueueBrainUpdateCalls := B.QueueBrainUpdateCalls + 1
        bQueuedForUpdate := true
        bWasPreventedFromUpdating := false }
    else B
  else B

/-- Member function `USussBrainComponent::OnActionCompleted`; `SussAction` is the instance
that signals its completion. -/
def OnActionCompleted (W : World) (B : USussBrainComponent) (SussAction : USussAction) :
    USussBrainComponent :=
  match B.CurrentActionInstance with
  | some Instance =>
    if Instance.Address = SussAction.Address then
      QueueForUpdate W (RecordAndResetCurrentAction W B)
    else B
  | none => B

/-! ## Score adjustments over time -/

/-- First part of `UpdateActionScoreAdjustments` (lines 148-162): the live score of the
current action after `DeltaTime`.  `FMath::Max` is `max`. -/
def CooledCurrentScore (B : USussBrainComponent) (DeltaTime : ℚ) : ℚ :=
  if IsActionInProgress B && decide (B.CurrentActionResult.Score > 0) then
    let ActionDef := TArray.At B.CombinedActionsByPriority B.CurrentActionResult.ActionDefIndex
    if ActionDef.ScoreCooldownTime > 0 then
      let H := TArray.At B.ActionHistory B.CurrentActionResult.ActionDefIndex
      let Decay := H.LastRunScore * (DeltaTime / ActionDef.ScoreCooldownTime)
      max (B.CurrentActionResult.Score - Decay) 0
    else 0
  else B.CurrentActionResult.Score

/-- Body of the loop of `UpdateActionScoreAdjustments` for the history entry `H` of
action `i` (lines 167-200).  `FMath::Max` is `max`, `FMath::Min` is `min`. -/
def AdjustHistoryEntry (B : USussBrainComponent) (DeltaTime : ℚ) (i : Nat)
    (H : FSussActionHistory) : FSussActionHistory :=
  let ActionDef := TArray.At B.CombinedActionsByPriority i
  let H :=
    if H.RepetitionPenalty > 0 then
      if (i : Int) ≠ B.CurrentActionResult.ActionDefIndex then
        if ActionDef.RepetitionPenaltyCooldown > 0 then
          let Decay := ActionDef.RepetitionPenalty * (DeltaTime / ActionDef.RepetitionPenaltyCooldown)
          { H with RepetitionPenalty := max (H.RepetitionPenalty - Decay) 0 }
        else { H with RepetitionPenalty := 0 }
      else H
    else H
  if !IsNearlyZero H.TempScoreAdjust && !IsNearlyZero H.TempScoreAdjustCooldownRate then
    if H.TempScoreAdjust > 0 then
      { H with TempScoreAdjust := max (H.TempScoreAdjust - H.TempScoreAdjustCooldownRate * DeltaTime) 0 }
    else
      { H with TempScoreAdjust := min (H.TempScoreAdjust + H.TempScoreAdjustCooldownRate * DeltaTime) 0 }
  else H

/-- Loop of `UpdateActionScoreAdjustments` over `ActionHistory`; `i` is the index of the
first entry of the list. -/
def AdjustHistoryLoop (B : USussBrainComponent) (DeltaTime : ℚ) :
    Nat → List FSussActionHistory → List FSussActionHistory
  | _, [] => []
  | i, H :: rest => AdjustHistoryEntry B DeltaTime i H :: AdjustHistoryLoop B DeltaTime (i + 1) rest

/-- Member function `USussBrainComponent::UpdateActionScoreAdjustments`. -/
def UpdateActionScoreAdjustments (B : USussBrainComponent) (DeltaTime : ℚ) :
    USussBrainComponent :=
  { B with
    CurrentActionResult := { B.CurrentActionResult with Score := CooledCurrentScore B DeltaTime }
    ActionHistory := AdjustHistoryLoop B DeltaTime 0 B.ActionHistory }

/-! ## Temporary score adjustments -/

/-- Engine function `TArray::IsValidIndex`. -/
def TArray.IsValidIndex {α : Type} (l : List α) (Index : Int) : Bool :=
  decide (0 ≤ Index ∧ Index < (l.length : Int))

/-- Member function `USussBrainComponent::SetTemporaryActionScoreAdjustment`, the overload
that takes the index of the action. -/
def SetTemporaryActionScoreAdjustment (B : USussBrainComponent) (ActionIndex : Int)
    (Value CooldownTime : ℚ) : USussBrainComponent :=
  if TArray.IsValidIndex B.ActionHistory ActionIndex then
    { B with
      ActionHistory := TArray.Modify B.ActionHistory ActionIndex (fun H =>
        { H with
          TempScoreAdjust := Value
          TempScoreAdjustCooldownRate := if CooldownTime > 0 then Value / CooldownTime else 0 }) }
  else B

/-- Member function `USussBrainComponent::AddTemporaryActionScoreAdjustment`, the overload
that takes the index of the action. -/
def AddTemporaryActionScoreAdjustment (B : USussBrainComponent) (ActionIndex : Int)
    (Value CooldownTime : ℚ) : USussBrainComponent :=
  if TArray.IsValidIndex B.ActionHistory ActionIndex then
    { B with
      ActionHistory := TArray.Modify B.ActionHistory ActionIndex (fun H =>
        let PrevCooldownTimeRemaining : ℚ :=
          if !IsNearlyZero H.TempScoreAdjust && !IsNearlyZero H.TempScoreAdjustCooldownRate then
            if H.TempScoreAdjustCooldownRate > 0 then
              H.TempScoreAdjust / H.TempScoreAdjustCooldownRate
            else 0
          else 0
        let TempScoreAdjust := H.TempScoreAdjust + Value
        let NewCooldownTime := CooldownTime + PrevCooldownTimeRemaining
        { H with
          TempScoreAdjust := TempScoreAdjust
          TempScoreAdjustCooldownRate :=
            if NewCooldownTime > 0 then TempScoreAdjust / NewCooldownTime else 0 }) }
  else B

/-- Member function `USussBrainComponent::ResetTemporaryActionScoreAdjustment`, the
overload that takes the index of the action. -/
def ResetTemporaryActionScoreAdjustment (B : USussBrainComponent) (ActionIndex : Int) :
    USussBrainComponent :=
  if TArray.IsValidIndex B.ActionHistory ActionIndex then
    { B with
      ActionHistory := TArray.Modify B.ActionHistory ActionIndex (fun H =>
        { H with TempScoreAdjust := 0, TempScoreAdjustCooldownRate := 0 }) }
  else B

/-- The loop shared by the overloads that take an action tag: `Apply` is called with every
index of `CombinedActionsByPriority` whose definition has the tag `ActionTag`. -/
def ForEachActionWithTag (B : USussBrainComponent) (ActionTag : FGameplayTag)
    (Apply : USussBrainComponent → Int → USussBrainComponent) : USussBrainComponent :=
  (List.range B.CombinedActionsByPriority.length).foldl
    (fun X (i : Nat) =>
      if (TArray.At X.CombinedActionsByPriority (i : Int)).ActionTag = ActionTag then
        Apply X (i : Int)
      else X)
    B

/-- Member function `USussBrainComponent::SetTemporaryActionScoreAdjustment`, the overload
that takes the tag of the action. -/
def SetTemporaryActionScoreAdjustmentByTag (B : USussBrainComponent) (ActionTag : FGameplayTag)
    (Value CooldownTime : ℚ) : USussBrainComponent :=
  ForEachActionWithTag B ActionTag
    (fun X i => SetTemporaryActionScoreAdjustment X i Value CooldownTime)

/-- Member function `USussBrainComponent::AddTemporaryActionScoreAdjustment`, the overload
that takes the tag of the action. -/
def AddTemporaryActionScoreAdjustmentByTag (B : USussBrainComponent) (ActionTag : FGameplayTag)
    (Value CooldownTime : ℚ) : USussBrainComponent :=
  ForEachActionWithTag B ActionTag
    (fun X i => AddTemporaryActionScoreAdjustment X i Value CooldownTime)

/-- Member function `USussBrainComponent::ResetTemporaryActionScoreAdjustment`, the
overload that takes the tag of the action. -/
def ResetTemporaryActionScoreAdjustmentByTag (B : USussBrainComponent)
    (ActionTag : FGameplayTag) : USussBrainComponent :=
  ForEachActionWithTag B ActionTag (fun X i => ResetTemporaryActionScoreAdjustment X i)

/-- Member function `USussBrainComponent::ResetAllTemporaryActionScoreAdjustments`. -/
def ResetAllTemporaryActionScoreAdjustments (B : USussBrainComponent) : USussBrainComponent :=
  { B with ActionHistory := B.ActionHistory.map (fun H => { H with TempScoreAdjust := 0 }) }

/-! ## Logic control and update requests -/

/-- Member function `USussBrainComponent::UpdateDistanceCategory`.  The random first
delay of the timer is not part of the state. -/
def UpdateDistanceCategory (W : World) (B : USussBrainComponent) : USussBrainComponent :=
  let Dist := W.DistanceToAnyPlayer
  let Tier : ESussDistanceCategory × ℚ :=
    match W.Settings with
    | some Settings =>
      if Dist ≤ Settings.NearAgentSettings.MaxDistance then
        (ESussDistanceCategory.Near, Settings.NearAgentSettings.BrainUpdateRequestIntervalSeconds)
      else if Dist ≤ Settings.MidRangeAgentSettings.MaxDistance then
        (ESussDistanceCategory.MidRange,
          Settings.MidRangeAgentSettings.BrainUpdateRequestIntervalSeconds)
      else if Dist ≤ Settings.FarAgentSettings.MaxDistance then
        (ESussDistanceCategory.Far, Settings.FarAgentSettings.BrainUpdateRequestIntervalSeconds)
      else (ESussDistanceCategory.OutOfRange, Settings.OutOfBoundsDistanceCheckInterval)
    | none => (B.DistanceCategory, 1)
  let NewInterval := Tier.2
  let B := { B with DistanceCategory := Tier.1 }
  let B :=
    if !B.UpdateRequestTimer.bIsValid || decide (NewInterval ≠ B.CurrentUpdateInterval) then
      { B with
        UpdateRequestTimer := B.UpdateRequestTimer.SetTimer NewInterval
        CurrentUpdateInterval := NewInterval }
    else B
  if W.IsPaused then { B with UpdateRequestTimer := B.UpdateRequestTimer.PauseTimer } else B

/-- Member function `USussBrainComponent::BrainConfigChanged`. -/
def BrainConfigChanged (W : World) (SortFn : TArraySort FSussActionDef)
    (B : USussBrainComponent) : USussBrainComponent :=
  if W.HasAuthority then InitActions SortFn B else B

/-- Member function `USussBrainComponent::SetBrainConfig`. -/
def SetBrainConfig (W : World) (SortFn : TArraySort FSussActionDef)
    (B : USussBrainComponent) (NewConfig : FSussBrainConfig) : USussBrainComponent :=
  BrainConfigChanged W SortFn { B with BrainConfig := NewConfig }

/-- Member function `USussBrainComponent::SetBrainConfigFromAsset`; `Asset` is the
`BrainConfig` of the asset. -/
def SetBrainConfigFromAsset (W : World) (SortFn : TArraySort FSussActionDef)
    (B : USussBrainComponent) (Asset : FSussBrainConfig) : USussBrainComponent :=
  BrainConfigChanged W SortFn { B with BrainConfig := Asset }

/-- Member function `USussBrainComponent::StartLogic`, without the registration of the
gameplay tag delegates. -/
def StartLogic (W : World) (SortFn : TArraySort FSussActionDef)
    (B : USussBrainComponent) : USussBrainComponent :=
  let B := { B with bIsLogicStopped := false, LogicStoppedReason := "" }
  if W.HasAuthority then
    let B := UpdateDistanceCategory W B
    match B.BrainConfigAsset with
    | some Asset => SetBrainConfigFromAsset W SortFn B Asset
    | none => BrainConfigChanged W SortFn B
  else B

/-- Member function `USussBrainComponent::StopLogic`, without the removal of the gameplay
tag delegates. -/
def StopLogic (W : World) (B : USussBrainComponent) (Reason : String) : USussBrainComponent :=
  let B := { B with bIsLogicStopped := true, LogicStoppedReason := Reason }
  let B := StopCurrentAction W B
  if B.UpdateRequestTimer.bIsValid then
    { B with UpdateRequestTimer := B.UpdateRequestTimer.ClearTimer }
  else B

/-- Member function `USussBrainComponent::RestartLogic`. -/
def RestartLogic (W : World) (B : USussBrainComponent) : USussBrainComponent :=
  let B := { B with bIsLogicStopped := true, LogicStoppedReason := "" }
  let B := StopCurrentAction W B
  UpdateDistanceCategory W B

/-- Member function `USussBrainComponent::PauseLogic`. -/
def PauseLogic (B : USussBrainComponent) (Reason : String) : USussBrainComponent :=
  let B := { B with bIsLogicStopped := true, LogicStoppedReason := Reason }
  if B.UpdateRequestTimer.bIsValid then
    { B with UpdateRequestTimer := B.UpdateRequestTimer.PauseTimer }
  else B

/-- Result of `ResumeLogic`, `EAILogicResuming::Type`. -/
inductive EAILogicResuming where
  | Continue
  | RestartedInstead
deriving DecidableEq

/-- Member function `USussBrainComponent::ResumeLogic`.  The engine's
`UBrainComponent::ResumeLogic` calls the virtual `RestartLogic` and returns
`RestartedInstead` when a restart was requested while the logic was locked, and returns
`Continue` otherwise. -/
def ResumeLogic (W : World) (B : USussBrainComponent) (_Reason : String) :
    USussBrainComponent × EAILogicResuming :=
  if W.bDoLogicRestartOnUnlock then (RestartLogic W B, EAILogicResuming.RestartedInstead)
  else
    let B :=
      if B.UpdateRequestTimer.bIsValid then
        { B with UpdateRequestTimer := B.UpdateRequestTimer.UnPauseTimer }
      else B
    ({ B with bIsLogicStopped := false, LogicStoppedReason := "" }, EAILogicResuming.Continue)

/-- Member function `USussBrainComponent::RequestUpdate`. -/
def RequestUpdate (W : World) (B : USussBrainComponent) : USussBrainComponent :=
  if W.HasAuthority then QueueForUpdate W B else B

/-- Member function `USussBrainComponent::OnGameplayTagEvent`. -/
def OnGameplayTagEvent (W : World) (B : USussBrainComponent) (_InTag : FGameplayTag)
    (NewCount : Int) : USussBrainComponent :=
  if NewCount = 0 ∧ B.bWasPreventedFromUpdating = true then QueueForUpdate W B else B

/-- Member function `USussBrainComponent::TimerCallback`. -/
def TimerCallback (W : World) (B : USussBrainComponent) : USussBrainComponent :=
  let B := UpdateActionScoreAdjustments B B.CurrentUpdateInterval
  let B := UpdateDistanceCategory W B
  if B.DistanceCategory ≠ ESussDistanceCategory.OutOfRange then QueueForUpdate W B else B

/-- Member function `USussBrainComponent::OnPerceptionUpdated`. -/
def OnPerceptionUpdated (W : World) (B : USussBrainComponent) : USussBrainComponent :=
  if B.DistanceCategory ≠ ESussDistanceCategory.OutOfRange then QueueForUpdate W B else B

/-! ## Specification-level definitions and scenarios

Definitions used to state the properties below: what the claims call the curve outputs,
the candidates of an action and of a priority group, and the concrete scenarios on which
the properties are exercised. -/

/-- Stability of the catalogue sort: within every priority group the definitions keep the
order in which they were collected. -/
def IsStableCatalogue (Collected Combined : List FSussActionDef) : Prop :=
  ∀ p : Int, Combined.filter (fun D => decide (D.Priority = p))
    = Collected.filter (fun D => decide (D.Priority = p))

/-- Configuration with two actions of equal priority, `A` declared before `B`. -/
def ConfigEqualPriority : FSussBrainConfig :=
  { ActionDefs := [{ ActionTag := ⟨["A"]⟩, Priority := 0 }, { ActionTag := ⟨["B"]⟩, Priority := 0 }] }

/-- Configuration with an action set and own definitions in descending priority. -/
def ConfigMixed : FSussBrainConfig :=
  { ActionSets := [some { Actions := [{ ActionTag := ⟨["C"]⟩, Priority := 2 }] }, none]
    ActionDefs := [{ ActionTag := ⟨["A"]⟩, Priority := 1 }, { ActionTag := ⟨["B"]⟩, Priority := 0 }] }

/-- The curve outputs of the considerations that have a registered input provider, in
declared order. -/
def CurveOutputs (W : World) (B : USussBrainComponent) (Self : AActor) (Ctx : FSussContext)
    (Considerations : List FSussConsideration) : List ℚ :=
  Considerations.filterMap (fun C =>
    (W.GetInputProvider C.InputTag).map (fun P => ConsiderationScore W B Self Ctx P C))

/-- World for the scenario S5: the input "Suss.Input.Health" evaluates to 1/10. -/
def WorldS5 : World :=
  { GetInputProvider := fun T =>
      if T = ⟨["Suss", "Input", "Health"]⟩ then some { Evaluate := fun _ _ _ => 1 / 10 } else none
    GetActionClass := fun _ => some 7 }

/-- Action of the scenario S5: weight 2, inertia 3, one consideration with bookends 0 and 1
and the identity curve. -/
def ActionS5 : FSussActionDef :=
  { ActionTag := ⟨["A"]⟩, Weight := 2, Inertia := 3,
    Considerations := [{ InputTag := ⟨["Suss", "Input", "Health"]⟩ }] }

/-- World in which the input "Suss.Input.Zero" evaluates to 0 and "Suss.Input.Big" to 1. -/
def WorldZero : World :=
  { GetInputProvider := fun T =>
      if T = ⟨["Suss", "Input", "Zero"]⟩ then some { Evaluate := fun _ _ _ => 0 }
      else if T = ⟨["Suss", "Input", "Big"]⟩ then some { Evaluate := fun _ _ _ => 1 }
      else none }

/-- Consideration on the input "Suss.Input.Zero", identity curve. -/
def ConsiderationZero : FSussConsideration := { InputTag := ⟨["Suss", "Input", "Zero"]⟩ }

/-- Consideration on the input "Suss.Input.Big" whose curve multiplies by 1000. -/
def ConsiderationBig : FSussConsideration :=
  { InputTag := ⟨["Suss", "Input", "Big"]⟩, EvaluateCurve := fun x => 1000 * x }

/-- Consideration whose two bookends are the literal 3. -/
def ConsiderationPoint : FSussConsideration :=
  { BookendMin := FSussParameter.ofFloat 3, BookendMax := FSussParameter.ofFloat 3 }

/-- World for the scenario S5 at first: the input "Suss.Input.Health" evaluates to 1. -/
def WorldS5Healthy : World :=
  { GetInputProvider := fun T =>
      if T = ⟨["Suss", "Input", "Health"]⟩ then some { Evaluate := fun _ _ _ => 1 } else none
    GetActionClass := fun _ => some 7 }

/-- Brain of the scenario S5 before the first update: the catalogue holds `ActionS5`. -/
def BrainS5 : USussBrainComponent :=
  InitActions SimpleSort { BrainConfig := { ActionDefs := [ActionS5] } }

/-- Brain of the scenario S5 after the first update: `ActionS5` runs with live score 5. -/
def BrainS5Running : USussBrainComponent := Update WorldS5Healthy SimpleSort BrainS5

/-- The candidate is the running action in the running context. -/
def IsCurrentCandidate (B : USussBrainComponent) (C : FSussActionScoringResult) : Bool :=
  IsActionSameAsCurrent B C.ActionDefIndex C.Context

/-- The flag `bAddedCurrentAction` says whether a candidate matching the current action
and context is in `CandidateActions`. -/
def AddedFlagExact (B : USussBrainComponent) (S : FUpdateScoring) : Prop :=
  S.bAddedCurrentAction = true ↔ ∃ C ∈ S.CandidateActions, IsCurrentCandidate B C = true

/-- The candidates `Update` adds for the contexts `Contexts` of action `i`: one for each
context whose total score is not nearly zero. -/
def ContextCandidates (W : World) (B : USussBrainComponent) (i : Nat)
    (NextAction : FSussActionDef) (Contexts : List FSussContext) :
    List FSussActionScoringResult :=
  Contexts.filterMap (fun Ctx =>
    if IsNearlyZero (FinalScore W B i NextAction Ctx) then none
    else some { ActionDefIndex := i, Context := Ctx, Score := FinalScore W B i NextAction Ctx })

/-- The candidates action `i` produces when it is scored: none if it is skipped. -/
def ActionCandidates (W : World) (B : USussBrainComponent) (i : Nat)
    (NextAction : FSussActionDef) : List FSussActionScoringResult :=
  if IsActionSkipped W NextAction then []
  else ContextCandidates W B i NextAction (GenerateContexts W B W.Self NextAction)

/-- The candidates of all actions of priority `p` in the list `Defs`, whose first
definition has index `i`, in catalogue order. -/
def GroupCandidates (W : World) (B : USussBrainComponent) (p : Int) :
    Nat → List FSussActionDef → List FSussActionScoringResult
  | _, [] => []
  | i, D :: rest =>
    (if D.Priority = p then ActionCandidates W B i D else [])
      ++ GroupCandidates W B p (i + 1) rest

/-- Configuration of scenario S2: `A` with priority 0 and weight 1, `B` with priority 1
and weight 10, no considerations and no queries. -/
def ConfigS2 : FSussBrainConfig :=
  { ActionDefs :=
      [{ ActionTag := ⟨["A"]⟩, Priority := 0, Weight := 1 },
       { ActionTag := ⟨["B"]⟩, Priority := 1, Weight := 10 }] }

/-- Brain of scenario S2 after `InitActions`: no history, no action in progress. -/
def BrainS2 : USussBrainComponent := InitActions SimpleSort { BrainConfig := ConfigS2 }

/-- World of scenario S2: every action tag has the action class 7. -/
def WorldS2 : World := { GetActionClass := fun _ => some 7 }

/-- World of scenario S2 while the action `A` is globally disabled. -/
def WorldS2Disabled : World :=
  { GetActionClass := fun _ => some 7
    IsActionEnabled := fun T => decide (T ≠ ⟨["A"]⟩) }

/-- The brain of scenario S2 after an update made while `A` was disabled: `B` runs. -/
def BrainS2RunningB : USussBrainComponent := Update WorldS2Disabled SimpleSort BrainS2

/-- All entries of a candidate list have the same catalogue priority. -/
def CandidatesSamePriority (B : USussBrainComponent) (Candidates : List FSussActionScoringResult) :
    Prop :=
  ∀ X ∈ Candidates, ∀ Y ∈ Candidates,
    (TArray.At B.CombinedActionsByPriority X.ActionDefIndex).Priority
      = (TArray.At B.CombinedActionsByPriority Y.ActionDefIndex).Priority

/-- The choice method and `TopN` that `ChooseActionFromCandidates` uses for the sorted
candidate array `Sorted`: those of the priority group of its first entry. -/
def CandidateChoice (B : USussBrainComponent) (Sorted : List FSussActionScoringResult) :
    ESussActionChoiceMethod × Int :=
  GetActionChoiceMethod B
    (TArray.At B.CombinedActionsByPriority (TArray.At Sorted 0).ActionDefIndex).Priority

/-- The threshold `ScoreLimit` of the method `WeightedRandomTopNPercent`:
`BestScore - BestScore * (TopN / 100)`. -/
def PercentScoreLimit (BestScore : ℚ) (TopN : Int) : ℚ :=
  BestScore - BestScore * ((TopN : ℚ) / 100)

/-- The pair (`TotalScores`, `ChoiceCount`) the first loop of the weighted choice computes
for the sorted candidate array `Sorted` (lines 573-596). -/
def WeightedTotals (B : USussBrainComponent) (Sorted : List FSussActionScoringResult) :
    ℚ × Nat :=
  WeightedChoiceTotals (CandidateChoice B Sorted).1 (CandidateChoice B Sorted).2
    (if (CandidateChoice B Sorted).1 = ESussActionChoiceMethod.WeightedRandomTopNPercent then
      PercentScoreLimit (TArray.At Sorted 0).Score (CandidateChoice B Sorted).2
     else 0)
    0 Sorted (0, 0)

/-- The accumulated score `ScoreAccum` after the first `n` candidates of the list. -/
def PrefixScore (Candidates : List FSussActionScoringResult) (n : Nat) : ℚ :=
  ((Candidates.take n).map (fun C => C.Score)).sum

/-- The sum of the scores of a candidate list. -/
def TotalScore (Candidates : List FSussActionScoringResult) : ℚ :=
  (Candidates.map (fun C => C.Score)).sum

/-- Candidate of action `Index` with score `Score`, in the context holding only actor 0. -/
def CandidateOf (Index : Int) (Score : ℚ) : FSussActionScoringResult :=
  { ActionDefIndex := Index, Context := { Self := 0 }, Score := Score }

/-- Brain of scenario S6: four actions of priority 0, the method
`WeightedRandomTopNPercent` with `TopN` = 20, candidates with scores 5, 10, 1, 9. -/
def BrainS6 : USussBrainComponent :=
  { BrainConfig :=
      { ActionChoiceMethod := ESussActionChoiceMethod.WeightedRandomTopNPercent
        ActionChoiceTopN := 20 }
    CombinedActionsByPriority :=
      [{ ActionTag := ⟨["A"]⟩ }, { ActionTag := ⟨["B"]⟩ }, { ActionTag := ⟨["C"]⟩ },
       { ActionTag := ⟨["D"]⟩ }]
    ActionHistory := [{}, {}, {}, {}]
    CandidateActions := [CandidateOf 2 5, CandidateOf 0 10, CandidateOf 3 1, CandidateOf 1 9] }

/-- Brain of scenario S6 with the method `HighestScoring`. -/
def BrainS6Highest : USussBrainComponent :=
  { BrainS6 with BrainConfig := {} }

/-- Configuration of scenario S1: the single action `A` with weight 1 and inertia 2, no
considerations and no queries. -/
def ConfigS1 : FSussBrainConfig :=
  { ActionDefs := [{ ActionTag := ⟨["A"]⟩, Weight := 1, Inertia := 2 }] }

/-- Brain of scenario S1 after `InitActions`. -/
def BrainS1 : USussBrainComponent := InitActions SimpleSort { BrainConfig := ConfigS1 }

/-- World in which no action tag has a registered action class. -/
def WorldNoClass : World := {}

/-- World of scenario S1 at time 4: every action tag has the action class 7. -/
def WorldS1 : World := { GetActionClass := fun _ => some 7, TimeSeconds := 4 }

/-- World of scenario S1 at time 9 in which the ability system component of the pawn
matches one of the tags that prevent brain updates. -/
def WorldS1Prevented : World :=
  { GetActionClass := fun _ => some 7, TimeSeconds := 9
    HasAnyMatchingGameplayTags := fun _ => true }

/-- World of scenario S1 at time 9, nothing prevents updates. -/
def WorldS1Later : World := { GetActionClass := fun _ => some 7, TimeSeconds := 9 }

/-- Brain of scenario S1 whose configuration names a tag that prevents updates and whose
action has the repetition penalty 1/2, after `Update` has started the action. -/
def BrainS1Running : USussBrainComponent :=
  Update WorldS1 SimpleSort
    (InitActions SimpleSort
      { BrainConfig :=
          { ActionDefs := [{ ActionTag := ⟨["A"]⟩, Weight := 1, Inertia := 2,
                             RepetitionPenalty := 1 / 2 }]
            PreventBrainUpdateIfAnyTags := [⟨["State", "Stunned"]⟩] } })

/-- The brain after one `Update` per world of the list, in order. -/
def UpdateRepeatedly (SortFn : TArraySort FSussActionScoringResult) (B : USussBrainComponent)
    (Worlds : List World) : USussBrainComponent :=
  Worlds.foldl (fun X W => Update W SortFn X) B

/-- World of scenario S2 whose pool hands out instances that cannot be interrupted. -/
def WorldS2Busy : World :=
  { GetActionClass := fun _ => some 7
    ReserveAction := fun C => { Class := C, bAllowInterruptions := false } }

/-- The brain of scenario S2 running `A` in an instance that cannot be interrupted. -/
def BrainS2Busy : USussBrainComponent := Update WorldS2Busy SimpleSort BrainS2

/-- Configuration for C19: `A` (priority 0, weight 20), `C` (priority 1, weight 30), `B`
(priority 1, weight 10) and `D` (priority 2, weight 99); the small-array sort leaves the
catalogue in the order `A`, `B`, `C`, `D`. -/
def ConfigGuarded : FSussBrainConfig :=
  { ActionDefs :=
      [{ ActionTag := ⟨["A"]⟩, Priority := 0, Weight := 20 },
       { ActionTag := ⟨["C"]⟩, Priority := 1, Weight := 30 },
       { ActionTag := ⟨["B"]⟩, Priority := 1, Weight := 10 },
       { ActionTag := ⟨["D"]⟩, Priority := 2, Weight := 99 }] }

/-- World whose pool hands out instances that allow interruptions from higher priority
groups only. -/
def WorldGuarded : World :=
  { GetActionClass := fun _ => some 7
    ReserveAction := fun C =>
      { Class := C, bAllowInterruptionsFromHigherPriorityGroupsOnly := true } }

/-- The world `WorldGuarded` while every action but `B` is globally disabled. -/
def WorldGuardedOnlyB : World :=
  { WorldGuarded with IsActionEnabled := fun T => decide (T = ⟨["B"]⟩) }

/-- The brain running `B` (priority 1) in an instance that allows interruptions from
higher priority groups only. -/
def BrainGuarded : USussBrainComponent :=
  Update WorldGuardedOnlyB SimpleSort (InitActions SimpleSort { BrainConfig := ConfigGuarded })

/-- Brain for C20: the action `A` with `ScoreCooldownTime` 10 runs with live score 5 and
`LastRunScore` 2; the action `B` has `ScoreCooldownTime` 0. -/
def BrainCooling : USussBrainComponent :=
  { CombinedActionsByPriority :=
      [{ ActionTag := ⟨["A"]⟩, ScoreCooldownTime := 10 }, { ActionTag := ⟨["B"]⟩ }]
    ActionHistory := [{ LastStartTime := 1, LastRunScore := 2 }, {}]
    CurrentActionInstance := some { Class := 7 }
    CurrentActionResult := CandidateOf 0 5 }

/-- The brain as the loops of `Update` see it: `bQueuedForUpdate` cleared and
`CandidateActions` reset. -/
def UpdateEntry (B : USussBrainComponent) : USussBrainComponent :=
  { B with bQueuedForUpdate := false, CandidateActions := [] }

/-- The priority of the action `CurrentActionResult` refers to. -/
def CurrentPriorityOf (B : USussBrainComponent) : Int :=
  (TArray.At B.CombinedActionsByPriority B.CurrentActionResult.ActionDefIndex).Priority

/-- Brain of scenario S1 after `SetTemporaryActionScoreAdjustment(0, -2, 4)`: the action
`A` carries the temporary adjustment -2 with the cooldown time 4. -/
def BrainNegativeAdjust : USussBrainComponent :=
  SetTemporaryActionScoreAdjustment BrainS1 0 (-2) 4

/-- Brain of scenario S1 after `AddTemporaryActionScoreAdjustment(0, -2, 4)`. -/
def BrainNegativeAdjustAdded : USussBrainComponent :=
  AddTemporaryActionScoreAdjustment BrainS1 0 (-2) 4

/-- Brain of scenario S1 after `SetTemporaryActionScoreAdjustment(0, 2, 4)`. -/
def BrainPositiveAdjust : USussBrainComponent :=
  SetTemporaryActionScoreAdjustment BrainS1 0 2 4

/-- The calls that change the state of a brain: every member function of
SussBrainComponent.cpp that writes a member variable and can be called from outside, by
the engine, by an action or by a timer. -/
inductive BrainOperation where
  | StartLogic (W : World)
  | SetBrainConfig (W : World) (NewConfig : FSussBrainConfig)
  | SetBrainConfigFromAsset (W : World) (Asset : FSussBrainConfig)
  | StopLogic (W : World) (Reason : String)
  | RestartLogic (W : World)
  | PauseLogic (Reason : String)
  | ResumeLogic (W : World) (Reason : String)
  | RequestUpdate (W : World)
  | Update (W : World)
  | OnActionCompleted (W : World) (SussAction : USussAction)
  | OnGameplayTagEvent (W : World) (InTag : FGameplayTag) (NewCount : Int)
  | TimerCallback (W : World)
  | OnPerceptionUpdated (W : World)
  | UpdateActionScoreAdjustments (DeltaTime : ℚ)
  | StopCurrentAction (W : World)
  | CancelCurrentAction (W : World) (Interrupter : Option FActionClass)
  | SetTemporaryActionScoreAdjustment (ActionIndex : Int) (Value CooldownTime : ℚ)
  | AddTemporaryActionScoreAdjustment (ActionIndex : Int) (Value CooldownTime : ℚ)
  | ResetTemporaryActionScoreAdjustment (ActionIndex : Int)
  | SetTemporaryActionScoreAdjustmentByTag (ActionTag : FGameplayTag) (Value CooldownTime : ℚ)
  | AddTemporaryActionScoreAdjustmentByTag (ActionTag : FGameplayTag) (Value CooldownTime : ℚ)
  | ResetTemporaryActionScoreAdjustmentByTag (ActionTag : FGameplayTag)
  | ResetAllTemporaryActionScoreAdjustments

/-- The brain after one operation; `SortActions` and `SortCandidates` are the engine sort
at its two element types. -/
def Perform (SortActions : TArraySort FSussActionDef)
    (SortCandidates : TArraySort FSussActionScoringResult) (B : USussBrainComponent) :
    BrainOperation → USussBrainComponent
  | BrainOperation.StartLogic W => StartLogic W SortActions B
  | BrainOperation.SetBrainConfig W NewConfig => SetBrainConfig W SortActions B NewConfig
  | BrainOperation.SetBrainConfigFromAsset W Asset => SetBrainConfigFromAsset W SortActions B Asset
  | BrainOperation.StopLogic W Reason => StopLogic W B Reason
  | BrainOperation.RestartLogic W => RestartLogic W B
  | BrainOperation.PauseLogic Reason => PauseLogic B Reason
  | BrainOperation.ResumeLogic W Reason => (ResumeLogic W B Reason).1
  | BrainOperation.RequestUpdate W => RequestUpdate W B
  | BrainOperation.Update W => Update W SortCandidates B
  | BrainOperation.OnActionCompleted W SussAction => OnActionCompleted W B SussAction
  | BrainOperation.OnGameplayTagEvent W InTag NewCount => OnGameplayTagEvent W B InTag NewCount
  | BrainOperation.TimerCallback W => TimerCallback W B
  | BrainOperation.OnPerceptionUpdated W => OnPerceptionUpdated W B
  | BrainOperation.UpdateActionScoreAdjustments DeltaTime =>
    UpdateActionScoreAdjustments B DeltaTime
  | BrainOperation.StopCurrentAction W => StopCurrentAction W B
  | BrainOperation.CancelCurrentAction W Interrupter => CancelCurrentAction W B Interrupter
  | BrainOperation.SetTemporaryActionScoreAdjustment ActionIndex Value CooldownTime =>
    SetTemporaryActionScoreAdjustment B ActionIndex Value CooldownTime
  | BrainOperation.AddTemporaryActionScoreAdjustment ActionIndex Value CooldownTime =>
    AddTemporaryActionScoreAdjustment B ActionIndex Value CooldownTime
  | BrainOperation.ResetTemporaryActionScoreAdjustment ActionIndex =>
    ResetTemporaryActionScoreAdjustment B ActionIndex
  | BrainOperation.SetTemporaryActionScoreAdjustmentByTag ActionTag Value CooldownTime =>
    SetTemporaryActionScoreAdjustmentByTag B ActionTag Value CooldownTime
  | BrainOperation.AddTemporaryActionScoreAdjustmentByTag ActionTag Value CooldownTime =>
    AddTemporaryActionScoreAdjustmentByTag B ActionTag Value CooldownTime
  | BrainOperation.ResetTemporaryActionScoreAdjustmentByTag ActionTag =>
    ResetTemporaryActionScoreAdjustmentByTag B ActionTag
  | BrainOperation.ResetAllTemporaryActionScoreAdjustments =>
    ResetAllTemporaryActionScoreAdjustments B

/-- The brain after a sequence of operations, in order. -/
def PerformAll (SortActions : TArraySort FSussActionDef)
    (SortCandidates : TArraySort FSussActionScoringResult) (B : USussBrainComponent)
    (Operations : List BrainOperation) : USussBrainComponent :=
  Operations.foldl (Perform SortActions SortCandidates) B

/-- Whether an operation is a call of `Update`. -/
def BrainOperation.IsUpdate : BrainOperation → Bool
  | BrainOperation.Update _ => true
  | _ => false

/-- The brain after one `QueueForUpdate` per world of the list, in order. -/
def QueueForUpdateRepeatedly (B : USussBrainComponent) (Worlds : List World) :
    USussBrainComponent :=
  Worlds.foldl (fun X W => QueueForUpdate W X) B

/-- What the functions that choose, start, continue and end actions leave alone: the
update request flags and counter, the stopped flag and its reason, the configuration, the
catalogue, the length of the history, the distance tier and the timer. -/
def SameOutsideActionSlot (B X : USussBrainComponent) : Prop :=
  X.bQueuedForUpdate = B.bQueuedForUpdate ∧
  X.bWasPreventedFromUpdating = B.bWasPreventedFromUpdating ∧
  X.bIsLogicStopped = B.bIsLogicStopped ∧
  X.BrainConfig = B.BrainConfig ∧
  X.CombinedActionsByPriority = B.CombinedActionsByPriority ∧
  X.ActionHistory.length = B.ActionHistory.length ∧
  X.QueueBrainUpdateCalls = B.QueueBrainUpdateCalls ∧
  X.LogicStoppedReason = B.LogicStoppedReason ∧
  X.BrainConfigAsset = B.BrainConfigAsset ∧
  X.DistanceCategory = B.DistanceCategory ∧
  X.CurrentUpdateInterval = B.CurrentUpdateInterval ∧
  X.UpdateRequestTimer = B.UpdateRequestTimer

/-- The brain `Y` is queued for update and `QueueBrainUpdate` has been called as often as
on `X`. -/
def StillQueued (X Y : USussBrainComponent) : Prop :=
  Y.bQueuedForUpdate = true ∧ Y.QueueBrainUpdateCalls = X.QueueBrainUpdateCalls

/-- Brain of scenario S1 whose configuration names a tag that prevents updates, after
`InitActions` and a `QueueForUpdate` at a time when nothing prevents updates: the brain is
queued and runs no action. -/
def BrainS1Queued : USussBrainComponent :=
  QueueForUpdate WorldS1
    (InitActions SimpleSort
      { BrainConfig :=
          { ActionDefs := [{ ActionTag := ⟨["A"]⟩, Weight := 1, Inertia := 2 }]
            PreventBrainUpdateIfAnyTags := [⟨["State", "Stunned"]⟩] } })

/-- Brain of scenario S1 after `StartLogic` and one `Update`: the update timer is set and
the action `A` runs. -/
def BrainS1Started : USussBrainComponent :=
  Update WorldS1 SimpleSort (StartLogic WorldS1 SimpleSort { BrainConfig := ConfigS1 })

/-- Whether the loop of `GenerateContexts` passes over a query of `QueryProvider` as a
duplicate (lines 1010-1040), when `Seen` holds the sets `ContextElements` and
`NamedQueryValues`: the element kind is `Target` or `Location` and an earlier query
provides it, or it is a named value whose name an earlier query provides. -/
def IsDuplicateQuery (Seen : List ESussQueryContextElement × List FName)
    (QueryProvider : USussQueryProvider) : Bool :=
  if QueryProvider.ProvidedContextElement = ESussQueryContextElement.NamedValue then
    match QueryProvider.QueryValueName with
    | some ValueName => decide (ValueName ∈ Seen.2)
    | none => false
  else decide (QueryProvider.ProvidedContextElement ∈ Seen.1)

/-- Whether the loop of `GenerateContexts` passes over `Query` with one of its three
`continue` statements: no provider is registered, or the query is a duplicate. -/
def IsQuerySkipped (W : World) (Seen : List ESussQueryContextElement × List FName)
    (Query : FSussQuery) : Bool :=
  match W.GetQueryProvider Query.QueryTag with
  | none => true
  | some QueryProvider => IsDuplicateQuery Seen QueryProvider

/-- The sets `ContextElements` and `NamedQueryValues` after the body of the loop of
`GenerateContexts` has handled `Query`. -/
def ProvidedStep (W : World) (Seen : List ESussQueryContextElement × List FName)
    (Query : FSussQuery) : List ESussQueryContextElement × List FName :=
  match W.GetQueryProvider Query.QueryTag with
  | none => Seen
  | some QueryProvider =>
    let Element := QueryProvider.ProvidedContextElement
    if Element = ESussQueryContextElement.NamedValue then
      match QueryProvider.QueryValueName with
      | some ValueName =>
        if ValueName ∈ Seen.2 then (Element :: Seen.1, Seen.2)
        else (Element :: Seen.1, ValueName :: Seen.2)
      | none => (Element :: Seen.1, Seen.2)
    else if Element ∈ Seen.1 then Seen
    else (Element :: Seen.1, Seen.2)

/-- The sets `ContextElements` and `NamedQueryValues` after the loop of `GenerateContexts`
has gone over `Queries`: what the non-skipped queries among them provide. -/
def ProvidedAfter (W : World) (Queries : List FSussQuery)
    (Seen : List ESussQueryContextElement × List FName) :
    List ESussQueryContextElement × List FName :=
  Queries.foldl (ProvidedStep W) Seen

/-- The array `OutContexts` after the body of the loop of `GenerateContexts` has handled
`Query`, `none` when the function returns the empty array from there. -/
def ContextsStep (W : World) (B : USussBrainComponent) (Self : AActor)
    (Seen : List ESussQueryContextElement × List FName) (OutContexts : List FSussContext)
    (Query : FSussQuery) : Option (List FSussContext) :=
  match W.GetQueryProvider Query.QueryTag with
  | none => some OutContexts
  | some QueryProvider =>
    if IsDuplicateQuery Seen QueryProvider then some OutContexts
    else if QueryProvider.bIsCorrelatedWithContext then
      some (IntersectCorrelatedContexts B Self QueryProvider
        (ResolveParameters W B Self Query.Params []) OutContexts)
    else if (AppendUncorrelatedContexts B Self Query QueryProvider
        (ResolveParameters W B Self Query.Params []) OutContexts).1 then
      some (AppendUncorrelatedContexts B Self Query QueryProvider
        (ResolveParameters W B Self Query.Params []) OutContexts).2
    else none

/-- The array `OutContexts` after the loop of `GenerateContexts` has gone over `Queries`,
`none` when the function has returned the empty array on the way. -/
def ContextsAfter (W : World) (B : USussBrainComponent) (Self : AActor) :
    List FSussQuery → List ESussQueryContextElement × List FName → List FSussContext →
    Option (List FSussContext)
  | [], _, OutContexts => some OutContexts
  | Query :: rest, Seen, OutContexts =>
    match ContextsStep W B Self Seen OutContexts Query with
    | none => none
    | some Next => ContextsAfter W B Self rest (ProvidedStep W Seen Query) Next

/-- The positions in the query list, counted from `k`, of the queries that the loop of
`GenerateContexts` runs: those it hands to `IntersectCorrelatedContexts` or to
`AppendUncorrelatedContexts`. -/
def QueriesRun (W : World) (B : USussBrainComponent) (Self : AActor) :
    Nat → List FSussQuery → List ESussQueryContextElement × List FName → List FSussContext →
    List Nat
  | _, [], _, _ => []
  | k, Query :: rest, Seen, OutContexts =>
    let Later :=
      match ContextsStep W B Self Seen OutContexts Query with
      | none => []
      | some Next => QueriesRun W B Self (k + 1) rest (ProvidedStep W Seen Query) Next
    if IsQuerySkipped W Seen Query then Later else k :: Later

/-- Whether one of the queries `Before` has a registered provider that provides what
`QueryProvider` provides: the same element kind and, for named values, the same value
name. -/
def IsProvidedBefore (W : World) (Before : List FSussQuery) (QueryProvider : USussQueryProvider) :
    Prop :=
  ∃ Earlier ∈ Before, ∃ EarlierProvider, W.GetQueryProvider Earlier.QueryTag = some EarlierProvider ∧
    EarlierProvider.ProvidedContextElement = QueryProvider.ProvidedContextElement ∧
    (QueryProvider.ProvidedContextElement = ESussQueryContextElement.NamedValue →
      ∃ ValueName, EarlierProvider.QueryValueName = some ValueName ∧
        QueryProvider.QueryValueName = some ValueName)

/-- The contexts that take the place of the incoming context `SourceContext` in a
correlated query: one per result of the query in that context, equal to `SourceContext`
with the slot of the query overwritten by the result. -/
def CorrelatedReplacements (B : USussBrainComponent) (Self : AActor)
    (QueryProvider : USussQueryProvider) (Params : TMap FName FSussParameter)
    (SourceContext : FSussContext) : List FSussContext :=
  (QueryProvider.GetResultsInContext B Self SourceContext Params).map
    (fun V => SetContextElement QueryProvider.ProvidedContextElement
      QueryProvider.QueryValueName V SourceContext)

/-- Tag of the target query of scenarios S3 and S4. -/
def TagTargetQuery : FGameplayTag := ⟨["Suss", "Query", "Targets"]⟩

/-- Tag of the location query of scenarios S3 and S4. -/
def TagLocationQuery : FGameplayTag := ⟨["Suss", "Query", "Locations"]⟩

/-- Tag of a query for the named value `Cover`. -/
def TagCoverQuery : FGameplayTag := ⟨["Suss", "Query", "Cover"]⟩

/-- The location `L1` of scenario S4. -/
def LocationL1 : FVector := { X := 100, Y := 200, Z := 0 }

/-- Uncorrelated target query of scenarios S3 and S4: the targets `t1` = 1 and `t2` = 2. -/
def TargetProvider : USussQueryProvider :=
  { ProvidedContextElement := ESussQueryContextElement.Target
    GetResults := fun _ _ _ _ => [FSussContextValue.Actor (some 1), FSussContextValue.Actor (some 2)]
    GetResultsInContext := fun _ _ _ _ => [] }

/-- World of scenario S3: the location query is uncorrelated and returns no results, the
target query returns `t1` and `t2`. -/
def WorldS3 : World :=
  { GetQueryProvider := fun T =>
      if T = TagLocationQuery then
        some { ProvidedContextElement := ESussQueryContextElement.Location
               GetResults := fun _ _ _ _ => []
               GetResultsInContext := fun _ _ _ _ => [] }
      else if T = TagTargetQuery then some TargetProvider
      else none }

/-- Action of scenario S3: the location query, then the target query. -/
def ActionS3 : FSussActionDef :=
  { ActionTag := ⟨["A"]⟩
    Queries := [{ QueryTag := TagLocationQuery }, { QueryTag := TagTargetQuery }] }

/-- Action of scenario S3 with the queries in the other order. -/
def ActionS3Reversed : FSussActionDef :=
  { ActionTag := ⟨["A"]⟩
    Queries := [{ QueryTag := TagTargetQuery }, { QueryTag := TagLocationQuery }] }

/-- Correlated location query of scenario S4: no results for the target `t1`, the
location `L1` for the target `t2`. -/
def LocationProviderS4 : USussQueryProvider :=
  { ProvidedContextElement := ESussQueryContextElement.Location
    bIsCorrelatedWithContext := true
    GetResults := fun _ _ _ _ => []
    GetResultsInContext := fun _ _ Ctx _ =>
      if Ctx.Target = some 2 then [FSussContextValue.Location LocationL1] else [] }

/-- World of scenario S4. -/
def WorldS4 : World :=
  { GetQueryProvider := fun T =>
      if T = TagTargetQuery then some TargetProvider
      else if T = TagLocationQuery then some LocationProviderS4
      else none }

/-- Action of scenario S4: the target query, then the correlated location query. -/
def ActionS4 : FSussActionDef :=
  { ActionTag := ⟨["A"]⟩
    Queries := [{ QueryTag := TagTargetQuery }, { QueryTag := TagLocationQuery }] }

/-- Action of scenario S4 with the target query a second time at the end, and with a
query whose tag has no registered provider in the middle. -/
def ActionS4Duplicate : FSussActionDef :=
  { ActionTag := ⟨["A"]⟩
    Queries := [{ QueryTag := TagTargetQuery }, { QueryTag := ⟨["Suss", "Query", "Unknown"]⟩ },
                { QueryTag := TagLocationQuery }, { QueryTag := TagTargetQuery }] }

/-- World in which the correlated location query returns no results for any context, and
an uncorrelated query returns one value for the named value `Cover`. -/
def WorldAllDropped : World :=
  { GetActionClass := fun _ => some 7
    GetQueryProvider := fun T =>
      if T = TagTargetQuery then some TargetProvider
      else if T = TagLocationQuery then
        some { ProvidedContextElement := ESussQueryContextElement.Location
               bIsCorrelatedWithContext := true
               GetResults := fun _ _ _ _ => []
               GetResultsInContext := fun _ _ _ _ => [] }
      else if T = TagCoverQuery then
        some { ProvidedContextElement := ESussQueryContextElement.NamedValue
               QueryValueName := some "Cover"
               GetResults := fun _ _ _ _ => [FSussContextValue.Float 1]
               GetResultsInContext := fun _ _ _ _ => [] }
      else none }

/-- Action with the target query, the correlated location query and the query for the
named value `Cover`, in this order. -/
def ActionAllDropped : FSussActionDef :=
  { ActionTag := ⟨["A"]⟩
    Queries := [{ QueryTag := TagTargetQuery }, { QueryTag := TagLocationQuery },
                { QueryTag := TagCoverQuery }] }

/-- Brain whose only action is `ActionAllDropped`. -/
def BrainAllDropped : USussBrainComponent :=
  InitActions SimpleSort { BrainConfig := { ActionDefs := [ActionAllDropped] } }

/-- Every action definition that `InitActions` collects from `Config` has a
`RepetitionPenalty` that is not negative. -/
def HasNonNegativePenalties (Config : FSussBrainConfig) : Prop :=
  ∀ D ∈ CollectActions Config, 0 ≤ D.RepetitionPenalty

/-- The operations the invariants of the repetition penalty are about, on the brain `B`:
time does not run backwards (`DeltaTime >= 0`, and for `TimerCallback` the update interval
it passes on), and a configuration that is installed has no negative
`RepetitionPenalty`. -/
def OperationOk (B : USussBrainComponent) : BrainOperation → Prop
  | BrainOperation.SetBrainConfig _ NewConfig => HasNonNegativePenalties NewConfig
  | BrainOperation.SetBrainConfigFromAsset _ Asset => HasNonNegativePenalties Asset
  | BrainOperation.UpdateActionScoreAdjustments DeltaTime => 0 ≤ DeltaTime
  | BrainOperation.TimerCallback _ => 0 ≤ B.CurrentUpdateInterval
  | _ => True

/-- Every operation of the sequence satisfies `OperationOk` on the brain it is applied
to. -/
def OperationsOk (SortActions : TArraySort FSussActionDef)
    (SortCandidates : TArraySort FSussActionScoringResult) :
    USussBrainComponent → List BrainOperation → Prop
  | _, [] => True
  | B, Op :: rest =>
    OperationOk B Op ∧ OperationsOk SortActions SortCandidates
      (Perform SortActions SortCandidates B Op) rest

/-- The brain as its constructor leaves it, with the configuration and the configuration
asset set in the editor. -/
def NewBrain (Config : FSussBrainConfig) (Asset : Option FSussBrainConfig) :
    USussBrainComponent :=
  { BrainConfig := Config, BrainConfigAsset := Asset }

/-- The brain states the invariants of the repetition penalty are about: those reached
from a new brain, whose configuration and asset have no negative `RepetitionPenalty`, by a
sequence of operations that satisfy `OperationOk`. -/
def IsReachable (SortActions : TArraySort FSussActionDef)
    (SortCandidates : TArraySort FSussActionScoringResult) (B : USussBrainComponent) : Prop :=
  ∃ (Config : FSussBrainConfig) (Asset : Option FSussBrainConfig)
    (Operations : List BrainOperation),
    HasNonNegativePenalties Config ∧
    (∀ A, Asset = some A → HasNonNegativePenalties A) ∧
    OperationsOk SortActions SortCandidates (NewBrain Config Asset) Operations ∧
    B = PerformAll SortActions SortCandidates (NewBrain Config Asset) Operations

/-- The repetition penalties of the history entries, in order. -/
def Penalties (B : USussBrainComponent) : List ℚ :=
  B.ActionHistory.map (fun H => H.RepetitionPenalty)

/-- No configuration and no definition of the catalogue of the brain has a negative
`RepetitionPenalty`. -/
def CatalogueNonNegative (B : USussBrainComponent) : Prop :=
  HasNonNegativePenalties B.BrainConfig ∧
  (∀ A, B.BrainConfigAsset = some A → HasNonNegativePenalties A) ∧
  (∀ D ∈ B.CombinedActionsByPriority, 0 ≤ D.RepetitionPenalty)

/-- No configuration, catalogue or history entry of the brain has a negative
`RepetitionPenalty`. -/
def PenaltiesNonNegative (B : USussBrainComponent) : Prop :=
  CatalogueNonNegative B ∧ ∀ p ∈ Penalties B, 0 ≤ p

/-- The action with index `i` that runs in `B` has ended on the way to `X`: it was the
current action of an instance, and in `X` there is no current instance or `CancelAction`
has been called on that instance. -/
def CurrentActionEnded (B X : USussBrainComponent) (i : Nat) : Prop :=
  ∃ Instance, B.CurrentActionInstance = some Instance ∧
    B.CurrentActionResult.ActionDefIndex = (i : Int) ∧
    (X.CurrentActionInstance = none ∨
      ∃ Interrupter Later, X.ActionCalls
        = B.ActionCalls ++ FActionCall.CancelAction Instance.Class Interrupter :: Later)

/-- The penalties after the end of the current action has been recorded. -/
def PenaltiesAfterEnd (B : USussBrainComponent) : List ℚ :=
  (TArray.Modify B.ActionHistory B.CurrentActionResult.ActionDefIndex (fun H =>
    { H with RepetitionPenalty := H.RepetitionPenalty
        + (TArray.At B.CombinedActionsByPriority
            B.CurrentActionResult.ActionDefIndex).RepetitionPenalty })).map
    (fun H => H.RepetitionPenalty)

/-- On the way from `B` to `X` the current action ends and its penalty is added to its
history entry: there is a current instance in `B`; in `X` there is none, or `CancelAction`
has been called on that instance; and the penalties are those after the end. -/
def EndsCurrentAction (B X : USussBrainComponent) : Prop :=
  (∃ Instance, B.CurrentActionInstance = some Instance ∧
    (X.CurrentActionInstance = none ∨
      ∃ Interrupter Later, X.ActionCalls
        = B.ActionCalls ++ FActionCall.CancelAction Instance.Class Interrupter :: Later)) ∧
  Penalties X = PenaltiesAfterEnd B

/-- What an operation can do to the repetition penalties on the way from `B` to `X`:
nothing; or the current action ends and its penalty is added to its entry; or they decay
over a time that is not negative; or the history is resized. -/
def PenaltyEffect (B X : USussBrainComponent) : Prop :=
  Penalties X = Penalties B ∨
  EndsCurrentAction B X ∨
  (∃ DeltaTime : ℚ, 0 ≤ DeltaTime ∧
    Penalties X = Penalties (UpdateActionScoreAdjustments B DeltaTime)) ∨
  (∃ n : Nat, X.ActionHistory = TArray.SetNum B.ActionHistory n)

/-- The configuration, its asset and the catalogue are the same in `B` and `X`. -/
def SameCatalogue (B X : USussBrainComponent) : Prop :=
  X.BrainConfig = B.BrainConfig ∧ X.BrainConfigAsset = B.BrainConfigAsset ∧
  X.CombinedActionsByPriority = B.CombinedActionsByPriority

/-- In `B` and `X` the history, the current instance and the calls made on actions are
the same. -/
def SameActionState (B X : USussBrainComponent) : Prop :=
  X.ActionHistory = B.ActionHistory ∧ X.CurrentActionInstance = B.CurrentActionInstance ∧
  X.ActionCalls = B.ActionCalls

/-- Configuration for C21: the action `A` with the repetition penalty 1/2, which cools
down over 4 seconds. -/
def ConfigPenalised : FSussBrainConfig :=
  { ActionDefs := [{ ActionTag := ⟨["A"]⟩, Weight := 1, RepetitionPenalty := 1 / 2,
                     RepetitionPenaltyCooldown := 4 }] }

/-- The brain with the configuration `ConfigPenalised` after `StartLogic`, an `Update`
that starts `A` at time 4, and the completion of `A` at time 9. -/
def BrainPenalised : USussBrainComponent :=
  PerformAll SimpleSort SimpleSort (NewBrain ConfigPenalised none)
    [BrainOperation.StartLogic WorldS1, BrainOperation.Update WorldS1,
     BrainOperation.OnActionCompleted WorldS1Later {}]

/-- Whether an operation clears the stopped flag `bIsLogicStopped`: `StartLogic`, and a
`ResumeLogic` that the engine does not turn into a restart. -/
def BrainOperation.ClearsStoppedFlag : BrainOperation → Bool
  | BrainOperation.StartLogic _ => true
  | BrainOperation.ResumeLogic W _ => !W.bDoLogicRestartOnUnlock
  | _ => false

/-- World of scenario S1 in which the engine turns `ResumeLogic` into a restart. -/
def WorldS1Restarting : World :=
  { GetActionClass := fun _ => some 7, TimeSeconds := 9, bDoLogicRestartOnUnlock := true }

/-- Configuration of scenario S5 in which the live score of the action cools down over
10 seconds (`ScoreCooldownTime` = 10). -/
def ConfigS5Cooling : FSussBrainConfig :=
  { ActionDefs := [{ ActionS5 with ScoreCooldownTime := 10 }] }

/-- Brain of scenario S5 with `ScoreCooldownTime` = 10 after the first update: the action
has been chosen with the candidate score 2 and the inertia 3. -/
def BrainS5Cooling : USussBrainComponent :=
  Update WorldS5Healthy SimpleSort (InitActions SimpleSort { BrainConfig := ConfigS5Cooling })

/-- The brain after one call of `UpdateActionScoreAdjustments` per entry of `DeltaTimes`,
in order: the timer ticks without any update in between. -/
def TimerTicks (B : USussBrainComponent) (DeltaTimes : List ℚ) : USussBrainComponent :=
  DeltaTimes.foldl UpdateActionScoreAdjustments B

/-- World in which every action tag has the action class 7 and the random draw
`FMath::RandRange(Min, Max)` returns `Max`. -/
def WorldDrawMax : World := { GetActionClass := fun _ => some 7, RandRange := fun _ Max => Max }

/-- World in which every action tag has the action class 7 and the random draw
`FMath::RandRange(Min, Max)` returns `Max - 1/1000`. -/
def WorldDrawBelowMax : World :=
  { GetActionClass := fun _ => some 7, RandRange := fun _ Max => Max - 1 / 1000 }

/-- Brain of scenario S1 with the temporary adjustment 2 on `A`, after the update that
starts `A`. -/
def BrainAdjustedRunning : USussBrainComponent := Update WorldS1 SimpleSort BrainPositiveAdjust

/-- Configuration for C37: `A` with priority 0, weight 1 and repetition penalty 2, and `B`
with priority 1 and weight 10; no considerations and no queries. -/
def ConfigRepeated : FSussBrainConfig :=
  { ActionDefs :=
      [{ ActionTag := ⟨["A"]⟩, Priority := 0, Weight := 1, RepetitionPenalty := 2 },
       { ActionTag := ⟨["B"]⟩, Priority := 1, Weight := 10 }] }

/-- The brain with the configuration `ConfigRepeated` after `StartLogic`, an `Update` that
starts `A` at time 4, and the completion of `A` at time 9. -/
def BrainRepeated : USussBrainComponent :=
  PerformAll SimpleSort SimpleSort (NewBrain ConfigRepeated none)
    [BrainOperation.StartLogic WorldS1, BrainOperation.Update WorldS1,
     BrainOperation.OnActionCompleted WorldS1Later {}]

/-- The two named-value maps have the same keys with equal values: every key is bound to
the same value in both, or is in neither. -/
def SameNamedValues (M N : TMap FName FSussContextValue) : Prop :=
  ∀ Key : FName, TMap.Find M Key = TMap.Find N Key

/-- Brain for C32: the action with index 1 runs for the target 5 at the location
(100, 200, 0) with the named value `Cover` = 1. -/
def BrainWithContext : USussBrainComponent :=
  { CombinedActionsByPriority := [{ ActionTag := ⟨["A"]⟩ }, { ActionTag := ⟨["B"]⟩ }]
    ActionHistory := [{}, {}]
    CurrentActionInstance := some { Class := 7 }
    CurrentActionResult :=
      { ActionDefIndex := 1
        Context := { Self := 0, Target := some 5, Location := { X := 100, Y := 200, Z := 0 }
                     NamedValues := [("Cover", FSussContextValue.Float 1)] }
        Score := 3 } }

/-- Context for C32: the target 5, a location 30 units away from that of the running
action, and the named value `Cover` = 1. -/
def ContextNearby : FSussContext :=
  { Self := 0, Target := some 5, Location := { X := 118, Y := 224, Z := 0 }
    NamedValues := [("Cover", FSussContextValue.Float 1)] }

/-- Tag of the parameter provider of the scenario for C31. -/
def TagRangeParam : FGameplayTag := ⟨["Suss", "Param", "TargetRange"]⟩

/-- Tag of the input provider of the scenario for C31. -/
def TagRangeInput : FGameplayTag := ⟨["Suss", "Input", "Range"]⟩

/-- World for C31.  The target query returns the targets 1 and 2.  The parameter provider
"Suss.Param.TargetRange" answers 1 for a context with the target 1, 1/4 for one with the
target 2 and 1/2 for any other context.  The input provider "Suss.Input.Range" returns the
value of the parameter `Range` it is given. -/
def WorldParams : World :=
  { GetActionClass := fun _ => some 7
    GetQueryProvider := fun T => if T = TagTargetQuery then some TargetProvider else none
    GetParameterProvider := fun T =>
      if T = TagRangeParam then
        some { Evaluate := fun _ Ctx _ =>
                 FSussParameter.ofFloat
                   (if Ctx.Target = some 1 then 1 else if Ctx.Target = some 2 then 1 / 4 else 1 / 2) }
      else none
    GetInputProvider := fun T =>
      if T = TagRangeInput then
        some { Evaluate := fun _ _ Params =>
                 match TMap.Find Params "Range" with
                 | some P => P.FloatValue
                 | none => 0 }
      else none }

/-- The parameters of the consideration of the scenario for C31: `Range` is an
`AutoParameter` that refers to the parameter provider "Suss.Param.TargetRange". -/
def ParamsRange : TMap FName FSussParameter :=
  [("Range", { ParamType := ESussParamType.AutoParameter, InputOrParameterTag := TagRangeParam })]

/-- The consideration of the scenario for C31. -/
def ConsiderationRange : FSussConsideration :=
  { InputTag := TagRangeInput, Parameters := ParamsRange }

/-- Brain for C31: one action with the target query and the consideration
`ConsiderationRange`. -/
def BrainParams : USussBrainComponent :=
  InitActions SimpleSort
    { BrainConfig :=
        { ActionDefs := [{ ActionTag := ⟨["A"]⟩, Queries := [{ QueryTag := TagTargetQuery }]
                           Considerations := [ConsiderationRange] }] } }

/-- The context of actor 0 with the target `Target`. -/
def ContextWithTarget (Target : AActor) : FSussContext := { Self := 0, Target := some Target }

/-- The arrays `CombinedActionsByPriority` and `ActionHistory` have the same length. -/
def HistoryMatchesCatalogue (B : USussBrainComponent) : Prop :=
  B.ActionHistory.length = B.CombinedActionsByPriority.length

/-- The index `CurrentActionResult.ActionDefIndex` is a valid index into both
`CombinedActionsByPriority` and `ActionHistory`. -/
def IsCurrentIndexValid (B : USussBrainComponent) : Bool :=
  TArray.IsValidIndex B.CombinedActionsByPriority B.CurrentActionResult.ActionDefIndex
  && TArray.IsValidIndex B.ActionHistory B.CurrentActionResult.ActionDefIndex

/-- The brain with the configuration of scenario S2 after `StartLogic` and an `Update`
made while `A` is disabled, so that `B` (index 1) runs. -/
def BrainBeforeShrink : USussBrainComponent :=
  PerformAll SimpleSort SimpleSort (NewBrain ConfigS2 none)
    [BrainOperation.StartLogic WorldS2Disabled, BrainOperation.Update WorldS2Disabled]

/-- The brain `BrainBeforeShrink` after `SetBrainConfig` has installed the configuration of
scenario S1, which has a single action, while `B` runs. -/
def BrainShrunk : USussBrainComponent :=
  Perform SimpleSort SimpleSort BrainBeforeShrink (BrainOperation.SetBrainConfig WorldS2 ConfigS1)

/-- Action whose only query has a tag without a registered provider. -/
def ActionUnknownQuery : FSussActionDef :=
  { ActionTag := ⟨["A"]⟩, Queries := [{ QueryTag := ⟨["Suss", "Query", "Unknown"]⟩ }] }

/-- Configuration for C15: `A` (priority 0, weight 1, inertia 2) and `B` (priority 1,
weight 10, repetition penalty 1/2); no considerations and no queries. -/
def ConfigSwitch : FSussBrainConfig :=
  { ActionDefs :=
      [{ ActionTag := ⟨["A"]⟩, Priority := 0, Weight := 1, Inertia := 2 },
       { ActionTag := ⟨["B"]⟩, Priority := 1, Weight := 10, RepetitionPenalty := 1 / 2 }] }

/-- World at time 4 in which `A` has the action class 7 and is disabled, and every other
action tag has the action class 8. -/
def WorldSwitchDisabled : World :=
  { GetActionClass := fun T => if T = ⟨["A"]⟩ then some 7 else some 8
    TimeSeconds := 4
    IsActionEnabled := fun T => decide (T ≠ ⟨["A"]⟩) }

/-- The same world at time 9 with `A` enabled. -/
def WorldSwitch : World :=
  { GetActionClass := fun T => if T = ⟨["A"]⟩ then some 7 else some 8, TimeSeconds := 9 }

/-- The brain with the configuration `ConfigSwitch` after an update at time 4, made while
`A` was disabled: `B` (index 1) runs in an instance of class 8. -/
def BrainSwitch : USussBrainComponent :=
  Update WorldSwitchDisabled SimpleSort (InitActions SimpleSort { BrainConfig := ConfigSwitch })

/-- World of scenario S1 at time 9 in which no action tag has a registered action class. -/
def WorldNoClassLater : World := { TimeSeconds := 9 }

/-- The brain `BrainPenalised` after an `Update` at time 9 in a world without a class for
`A`: `A` is chosen, no instance is created, and `CurrentActionResult` keeps the index 0. -/
def BrainPenalisedStale : USussBrainComponent :=
  Update WorldNoClassLater SimpleSort BrainPenalised

/-- World at the time `Time` in which only the action tag `A` has a registered class. -/
def WorldOnlyA (Time : ℚ) : World :=
  { GetActionClass := fun T => if T = ⟨["A"]⟩ then some 7 else none, TimeSeconds := Time }

/-- Configuration with the single action `B` (weight 1, repetition penalty 1/2, cooldown
4 seconds). -/
def ConfigOther : FSussBrainConfig :=
  { ActionDefs := [{ ActionTag := ⟨["B"]⟩, Weight := 1, RepetitionPenalty := 1 / 2,
                     RepetitionPenaltyCooldown := 4 }] }

/-- The brain with the configuration `ConfigPenalised` in the world `WorldOnlyA` after
`StartLogic`, an `Update` that starts `A` at time 4, the completion of `A` at time 9,
`SetBrainConfig` with `ConfigOther`, and an `Update` that chooses `B`, which has no
class. -/
def BrainOtherStale : USussBrainComponent :=
  PerformAll SimpleSort SimpleSort (NewBrain ConfigPenalised none)
    [BrainOperation.StartLogic (WorldOnlyA 4), BrainOperation.Update (WorldOnlyA 4),
     BrainOperation.OnActionCompleted (WorldOnlyA 9) {},
     BrainOperation.SetBrainConfig (WorldOnlyA 9) ConfigOther,
     BrainOperation.Update (WorldOnlyA 9)]

/-! ## Theorems -/

/-- A sort predicate is transitive. -/
theorem IsSortPredicate.trans {α : Type} {P : α → α → Bool} (h : IsSortPredicate P)
    {a b c : α} (hab : P a b = true) (hbc : P b c = true) : P a c = true := by
  rcases h.2 a c b hab with h1 | h1
  · exact h1
  · have := h.1 b c hbc
    rw [h1] at this
    exact absurd this (by simp)

/-- A sort predicate is irreflexive. -/
theorem IsSortPredicate.irrefl {α : Type} {P : α → α → Bool} (h : IsSortPredicate P)
    (a : α) : P a a = false := by
  cases hP : P a a
  · rfl
  · have := h.1 a a hP
    rw [hP] at this
    exact absurd this (by simp)

/-- Swapping an element with the last one rearranges the list. -/
theorem SwapWithLast_perm {α : Type} : ∀ (m : Nat) (l : List α), (SwapWithLast m l).Perm l
  | _, [] => by simp [SwapWithLast]
  | 0, [x] => by simp [SwapWithLast]
  | _ + 1, [x] => by simp [SwapWithLast]
  | 0, x :: y :: ys => by
    have h := List.dropLast_append_getLast (List.cons_ne_nil y ys)
    have h1 : ((y :: ys).getLast (List.cons_ne_nil y ys) :: ((y :: ys).dropLast ++ [x])).Perm
        (x :: ((y :: ys).dropLast ++ [(y :: ys).getLast (List.cons_ne_nil y ys)])) := by
      have h2 : ((y :: ys).dropLast ++ [x]).Perm (x :: (y :: ys).dropLast) :=
        List.perm_append_comm
      have h3 : ((y :: ys).getLast (List.cons_ne_nil y ys) :: (y :: ys).dropLast).Perm
          ((y :: ys).dropLast ++ [(y :: ys).getLast (List.cons_ne_nil y ys)]) :=
        (@List.perm_append_comm _ (y :: ys).dropLast
          [(y :: ys).getLast (List.cons_ne_nil y ys)]).symm
      exact ((List.Perm.cons _ h2).trans (List.Perm.swap _ _ _)).trans (List.Perm.cons _ h3)
    rw [h] at h1
    simpa [SwapWithLast] using h1
  | m + 1, x :: y :: ys => by
    simpa [SwapWithLast] using SwapWithLast_perm m (y :: ys)

/-- After the swap the element that was at index `m` is last. -/
theorem SwapWithLast_last {α : Type} : ∀ (m : Nat) (l : List α) (a : α), l[m]? = some a →
    ∃ rest, SwapWithLast m l = rest ++ [a]
  | _, [], a, h => by simp at h
  | 0, [x], a, h => by
    simp at h
    exact ⟨[], by simp [SwapWithLast, h]⟩
  | m + 1, [x], a, h => by simp at h
  | 0, x :: y :: ys, a, h => by
    simp at h
    refine ⟨(y :: ys).getLast (List.cons_ne_nil y ys) :: (y :: ys).dropLast, ?_⟩
    simp [SwapWithLast, h]
  | m + 1, x :: y :: ys, a, h => by
    have h1 : (y :: ys)[m]? = some a := by simpa using h
    obtain ⟨rest, hrest⟩ := SwapWithLast_last m (y :: ys) a h1
    exact ⟨x :: rest, by simp [SwapWithLast, hrest]⟩

/-- The element `SelectMax` ends at is not ordered before any element of the list. -/
theorem SelectMax_spec {α : Type} {P : α → α → Bool} (hP : IsSortPredicate P) :
    ∀ (xs pre : List α) (Max : α) (MaxIdx : Nat), (pre ++ xs)[MaxIdx]? = some Max →
      (∀ y ∈ pre, P Max y = false) →
      ∃ m, (pre ++ xs)[SelectMax P Max MaxIdx pre.length xs]? = some m ∧
        ∀ y ∈ pre ++ xs, P m y = false
  | [], pre, Max, MaxIdx, hidx, hmax => by
    refine ⟨Max, by simpa [SelectMax] using hidx, ?_⟩
    simpa using hmax
  | x :: xs, pre, Max, MaxIdx, hidx, hmax => by
    have happ : pre ++ x :: xs = (pre ++ [x]) ++ xs := by simp
    have hlen : (pre ++ [x]).length = pre.length + 1 := by simp
    unfold SelectMax
    by_cases hlt : P Max x = true
    · rw [if_pos hlt, happ, ← hlen]
      apply SelectMax_spec hP xs (pre ++ [x]) x pre.length
      · rw [List.getElem?_append_left (by simp)]
        simp
      · intro y hy
        rcases List.mem_append.1 hy with hy | hy
        · cases hxy : P x y
          · rfl
          · have := hP.trans hlt hxy
            rw [hmax y hy] at this
            exact absurd this (by simp)
        · have : y = x := by simpa using hy
          subst this
          exact hP.irrefl y
    · rw [if_neg hlt, happ, ← hlen]
      apply SelectMax_spec hP xs (pre ++ [x]) Max MaxIdx
      · rw [← happ]; exact hidx
      · intro y hy
        rcases List.mem_append.1 hy with hy | hy
        · exact hmax y hy
        · have : y = x := by simpa using hy
          subst this
          simpa using hlt

/-- One round moves a greatest element to the end of the unsorted part. -/
theorem SimpleSortPass_spec {α : Type} {P : α → α → Bool} (hP : IsSortPredicate P)
    (l : List α) (hl : l ≠ []) :
    ∃ rest m, SimpleSortPass P l = rest ++ [m] ∧ (rest ++ [m]).Perm l ∧
      ∀ y ∈ rest, P m y = false := by
  cases l with
  | nil => exact absurd rfl hl
  | cons x xs =>
    obtain ⟨m, hm, hmax⟩ := SelectMax_spec hP xs [x] x 0 (by simp) (by
      intro y hy
      have : y = x := by simpa using hy
      subst this
      exact hP.irrefl y)
    have hm1 : (x :: xs)[SelectMax P x 0 1 xs]? = some m := by simpa using hm
    obtain ⟨rest, hrest⟩ := SwapWithLast_last _ _ _ hm1
    have hperm : (rest ++ [m]).Perm (x :: xs) := by
      rw [← hrest]; exact SwapWithLast_perm _ _
    refine ⟨rest, m, by simpa [SimpleSortPass] using hrest, hperm, ?_⟩
    intro y hy
    apply hmax
    have : y ∈ rest ++ [m] := List.mem_append_left _ hy
    simpa using hperm.subset this

/-- The rounds of the loop sort a list of at most `n + 1` elements. -/
theorem SimpleSortLoop_spec {α : Type} {P : α → α → Bool} (hP : IsSortPredicate P) :
    ∀ (n : Nat) (l : List α), l.length ≤ n + 1 →
      (SimpleSortLoop P n l).Perm l ∧
      (SimpleSortLoop P n l).Pairwise (fun a b => P b a = false)
  | 0, l, hlen => by
    refine ⟨by simp [SimpleSortLoop], ?_⟩
    match l, hlen with
    | [], _ => simp [SimpleSortLoop]
    | [x], _ => simp [SimpleSortLoop]
    | _ :: _ :: _, h => simp at h
  | n + 1, l, hlen => by
    by_cases hl : l = []
    · subst hl
      have := SimpleSortLoop_spec hP n [] (by simp)
      simpa [SimpleSortLoop, SimpleSortPass] using this
    · obtain ⟨rest, m, hpass, hperm, hmax⟩ := SimpleSortPass_spec hP l hl
      have hrl : rest.length ≤ n + 1 := by
        have := hperm.length_eq
        simp at this
        omega
      obtain ⟨ih1, ih2⟩ := SimpleSortLoop_spec hP n rest hrl
      have hstep : SimpleSortLoop P (n + 1) l = SimpleSortLoop P n rest ++ [m] := by
        simp [SimpleSortLoop, hpass]
      rw [hstep]
      refine ⟨(List.Perm.append_right _ ih1).trans hperm, ?_⟩
      rw [List.pairwise_append]
      refine ⟨ih2, by simp, ?_⟩
      intro a ha b hb
      have : b = m := by simpa using hb
      subst this
      exact hmax a (ih1.subset ha)

/-- The engine's small-array loop meets the contract of `TArray::Sort`. -/
theorem SimpleSort_isTArraySort {α : Type} : IsTArraySort (SimpleSort : TArraySort α) := by
  intro P l hP
  exact SimpleSortLoop_spec hP (l.length - 1) l (by omega)

/-- The predicate of `InitActions` is a strict weak ordering. -/
theorem PriorityLess_isSortPredicate : IsSortPredicate PriorityLess := by
  constructor
  · intro a b h
    simp only [PriorityLess, decide_eq_true_eq, decide_eq_false_iff_not] at *
    omega
  · intro a b c h
    simp only [PriorityLess, decide_eq_true_eq] at *
    omega

/-- The first loop of `InitActions` concatenates the actions of the valid action sets. -/
theorem CollectActionSets_eq (Sets : List (Option USussActionSetAsset)) :
    CollectActionSets Sets = ((Sets.filterMap id).map USussActionSetAsset.GetActions).flatten := by
  induction Sets with
  | nil => rfl
  | cons S rest ih =>
    cases S with
    | none => simpa [CollectActionSets] using ih
    | some A => simp [CollectActionSets, ih]

/-- C3: after `InitActions`, `CombinedActionsByPriority` is sorted by non-decreasing
`Priority` and is a permutation of the collected definitions, which are the actions of
every valid referenced action set followed by the brain's own `ActionDefs`. -/
theorem InitActions_sorted_perm (SortFn : TArraySort FSussActionDef)
    (hSort : IsTArraySort SortFn) (B : USussBrainComponent) :
    (InitActions SortFn B).CombinedActionsByPriority.Pairwise
        (fun X Y => X.Priority ≤ Y.Priority) ∧
    (InitActions SortFn B).CombinedActionsByPriority.Perm (CollectActions B.BrainConfig) ∧
    CollectActions B.BrainConfig =
      ((B.BrainConfig.ActionSets.filterMap id).map USussActionSetAsset.GetActions).flatten
        ++ B.BrainConfig.ActionDefs := by
  obtain ⟨hperm, hsorted⟩ := hSort PriorityLess (CollectActions B.BrainConfig)
    PriorityLess_isSortPredicate
  refine ⟨?_, hperm, by simp [CollectActions, CollectActionSets_eq]⟩
  refine List.Pairwise.imp ?_ hsorted
  intro X Y h
  simp only [PriorityLess, decide_eq_false_iff_not] at h
  omega

/-- Witness for C3 with the engine's small-array sort on a configuration with one valid
action set, one invalid action set pointer and two own definitions. -/
theorem InitActions_sorted_perm_witness :
    IsTArraySort (SimpleSort : TArraySort FSussActionDef) ∧
    (InitActions SimpleSort { BrainConfig := ConfigMixed }).CombinedActionsByPriority.Pairwise
        (fun X Y => X.Priority ≤ Y.Priority) ∧
    (InitActions SimpleSort { BrainConfig := ConfigMixed }).CombinedActionsByPriority.Perm
        (CollectActions ConfigMixed) ∧
    CollectActions ConfigMixed =
      ((ConfigMixed.ActionSets.filterMap id).map USussActionSetAsset.GetActions).flatten
        ++ ConfigMixed.ActionDefs :=
  ⟨SimpleSort_isTArraySort,
    InitActions_sorted_perm SimpleSort SimpleSort_isTArraySort { BrainConfig := ConfigMixed }⟩

/-- C4 (as stated) fails: the engine's small-array sort meets the contract of
`TArray::Sort`, yet for two definitions of equal `Priority`, `A` collected before `B`,
it leaves `B` at index 0 and `A` at index 1. -/
theorem InitActions_not_stable :
    IsTArraySort (SimpleSort : TArraySort FSussActionDef) ∧
    (CollectActions ConfigEqualPriority).map (fun D => (D.ActionTag.Path, D.Priority))
      = [(["A"], 0), (["B"], 0)] ∧
    (InitActions SimpleSort { BrainConfig := ConfigEqualPriority }).CombinedActionsByPriority.map
      (fun D => (D.ActionTag.Path, D.Priority)) = [(["B"], 0), (["A"], 0)] ∧
    ¬ IsStableCatalogue (CollectActions ConfigEqualPriority)
      (InitActions SimpleSort { BrainConfig := ConfigEqualPriority }).CombinedActionsByPriority := by
  refine ⟨SimpleSort_isTArraySort, by decide, by decide, ?_⟩
  intro h
  have h0 := congrArg (List.map (fun D => D.ActionTag.Path)) (h 0)
  revert h0
  decide

/-- C4 (amended): the catalogue sort orders by `Priority` only.  A definition with a
smaller `Priority` than another has the smaller index in `CombinedActionsByPriority`,
and each priority group holds the same definitions as were collected, in some order. -/
theorem InitActions_orders_by_priority_only (SortFn : TArraySort FSussActionDef)
    (hSort : IsTArraySort SortFn) (B : USussBrainComponent) :
    (∀ (i j : Nat) (X Y : FSussActionDef),
      (InitActions SortFn B).CombinedActionsByPriority[i]? = some X →
      (InitActions SortFn B).CombinedActionsByPriority[j]? = some Y →
      X.Priority < Y.Priority → i < j) ∧
    (∀ p : Int,
      ((InitActions SortFn B).CombinedActionsByPriority.filter
          (fun D => decide (D.Priority = p))).Perm
        ((CollectActions B.BrainConfig).filter (fun D => decide (D.Priority = p)))) := by
  obtain ⟨hperm, hsorted⟩ := hSort PriorityLess (CollectActions B.BrainConfig)
    PriorityLess_isSortPredicate
  refine ⟨?_, fun p => hperm.filter _⟩
  intro i j X Y hi hj hlt
  by_contra hij
  have hji : j ≤ i := Nat.le_of_not_lt hij
  rcases Nat.eq_or_lt_of_le hji with heq | hlt2
  · subst heq
    rw [hi] at hj
    cases hj
    omega
  · have hsorted2 : (InitActions SortFn B).CombinedActionsByPriority.Pairwise
        (fun a b => PriorityLess b a = false) := hsorted
    rw [List.pairwise_iff_getElem] at hsorted2
    obtain ⟨hj1, hj2⟩ := List.getElem?_eq_some_iff.1 hj
    obtain ⟨hi1, hi2⟩ := List.getElem?_eq_some_iff.1 hi
    have := hsorted2 j i hj1 hi1 hlt2
    rw [hj2, hi2] at this
    simp only [PriorityLess, decide_eq_false_iff_not] at this
    omega

/-- Witness for C4 (amended) on a configuration with an action set and two own
definitions: `B` (priority 0) ends at index 0, before `C` (priority 2) at index 2. -/
theorem InitActions_orders_by_priority_only_witness :
    IsTArraySort (SimpleSort : TArraySort FSussActionDef) ∧
    (InitActions SimpleSort { BrainConfig := ConfigMixed }).CombinedActionsByPriority[0]?
      = some { ActionTag := ⟨["B"]⟩, Priority := 0 } ∧
    (InitActions SimpleSort { BrainConfig := ConfigMixed }).CombinedActionsByPriority[2]?
      = some { ActionTag := ⟨["C"]⟩, Priority := 2 } ∧
    (0 : Int) < 2 ∧ (0 : Nat) < 2 ∧
    ((InitActions SimpleSort { BrainConfig := ConfigMixed }).CombinedActionsByPriority.filter
        (fun D => decide (D.Priority = 0))).Perm
      ((CollectActions ConfigMixed).filter (fun D => decide (D.Priority = 0))) :=
  ⟨SimpleSort_isTArraySort, rfl, rfl, by decide,
    (InitActions_orders_by_priority_only SimpleSort SimpleSort_isTArraySort
      { BrainConfig := ConfigMixed }).1 0 2 { ActionTag := ⟨["B"]⟩, Priority := 0 }
      { ActionTag := ⟨["C"]⟩, Priority := 2 } rfl rfl (by decide),
    (InitActions_orders_by_priority_only SimpleSort SimpleSort_isTArraySort
      { BrainConfig := ConfigMixed }).2 0⟩

/-- While no running product is nearly zero the loop multiplies all curve outputs in. -/
theorem ScoreConsiderations_eq_prod (W : World) (B : USussBrainComponent) (Self : AActor)
    (Ctx : FSussContext) : ∀ (Considerations : List FSussConsideration) (Score : ℚ),
    (∀ n, 0 < n → n ≤ (CurveOutputs W B Self Ctx Considerations).length →
      IsNearlyZero (Score * ((CurveOutputs W B Self Ctx Considerations).take n).prod) = false) →
    ScoreConsiderations W B Self Ctx Score Considerations
      = Score * (CurveOutputs W B Self Ctx Considerations).prod
  | [], Score, _ => by simp [ScoreConsiderations, CurveOutputs]
  | C :: rest, Score, h => by
    cases hP : W.GetInputProvider C.InputTag with
    | none =>
      have hout : CurveOutputs W B Self Ctx (C :: rest) = CurveOutputs W B Self Ctx rest := by
        simp [CurveOutputs, hP]
      rw [hout] at h ⊢
      simp only [ScoreConsiderations, hP]
      exact ScoreConsiderations_eq_prod W B Self Ctx rest Score h
    | some P =>
      have hout : CurveOutputs W B Self Ctx (C :: rest)
          = ConsiderationScore W B Self Ctx P C :: CurveOutputs W B Self Ctx rest := by
        simp [CurveOutputs, hP]
      rw [hout] at h ⊢
      have h1 := h 1 (by omega) (by simp)
      simp only [List.take_succ_cons, List.take_zero, List.prod_cons, List.prod_nil, mul_one] at h1
      simp only [ScoreConsiderations, hP, h1]
      rw [ScoreConsiderations_eq_prod W B Self Ctx rest _ ?_]
      · simp [mul_assoc]
      · intro n hn hlen
        have := h (n + 1) (by omega) (by simp; omega)
        simpa [mul_assoc] using this

/-- Curve outputs equal to 1 leave the running score unchanged. -/
theorem ScoreConsiderations_all_one (W : World) (B : USussBrainComponent) (Self : AActor)
    (Ctx : FSussContext) : ∀ (Considerations : List FSussConsideration) (Score : ℚ),
    (∀ y ∈ CurveOutputs W B Self Ctx Considerations, y = 1) →
    ScoreConsiderations W B Self Ctx Score Considerations = Score
  | [], Score, _ => by simp [ScoreConsiderations]
  | C :: rest, Score, h => by
    cases hP : W.GetInputProvider C.InputTag with
    | none =>
      have hout : CurveOutputs W B Self Ctx (C :: rest) = CurveOutputs W B Self Ctx rest := by
        simp [CurveOutputs, hP]
      rw [hout] at h
      simp only [ScoreConsiderations, hP]
      exact ScoreConsiderations_all_one W B Self Ctx rest Score h
    | some P =>
      have hout : CurveOutputs W B Self Ctx (C :: rest)
          = ConsiderationScore W B Self Ctx P C :: CurveOutputs W B Self Ctx rest := by
        simp [CurveOutputs, hP]
      rw [hout] at h
      have h1 : ConsiderationScore W B Self Ctx P C = 1 := h _ (by simp)
      have h2 := ScoreConsiderations_all_one W B Self Ctx rest Score
        (fun y hy => h y (List.mem_cons_of_mem _ hy))
      simp only [ScoreConsiderations, hP, h1, mul_one, h2]
      simp

/-- C5: when no running product becomes nearly zero, the raw score is `Weight` times the
curve outputs of the considerations that have a registered input provider, in declared
order; with no considerations, or when every curve output is 1, it is `Weight`. -/
theorem RawScore_eq_weight_mul_curve_outputs (W : World) (B : USussBrainComponent)
    (NextAction : FSussActionDef) (Ctx : FSussContext) :
    ((∀ n, 0 < n → n ≤ (CurveOutputs W B W.Self Ctx NextAction.Considerations).length →
        IsNearlyZero (NextAction.Weight
          * ((CurveOutputs W B W.Self Ctx NextAction.Considerations).take n).prod) = false) →
      RawScore W B NextAction Ctx
        = NextAction.Weight * (CurveOutputs W B W.Self Ctx NextAction.Considerations).prod) ∧
    (NextAction.Considerations = [] → RawScore W B NextAction Ctx = NextAction.Weight) ∧
    ((∀ y ∈ CurveOutputs W B W.Self Ctx NextAction.Considerations, y = 1) →
      RawScore W B NextAction Ctx = NextAction.Weight) := by
  refine ⟨fun h => ScoreConsiderations_eq_prod W B W.Self Ctx _ _ h, ?_,
    fun h => ScoreConsiderations_all_one W B W.Self Ctx _ _ h⟩
  intro h
  simp [RawScore, h, ScoreConsiderations]

/-- The single curve output of scenario S5 in its second update. -/
theorem CurveOutputs_S5 : CurveOutputs WorldS5 {} WorldS5.Self { Self := 0 } ActionS5.Considerations = [1 / 10] := by
  decide!

/-- Witness for C5: scenario S5 (weight 2, curve output 0.1, raw score 0.2) and an action
without considerations (raw score equal to its weight 3). -/
theorem RawScore_eq_weight_mul_curve_outputs_witness :
    (∀ n, 0 < n →
        n ≤ (CurveOutputs WorldS5 {} WorldS5.Self { Self := 0 } ActionS5.Considerations).length →
        IsNearlyZero (ActionS5.Weight
          * ((CurveOutputs WorldS5 {} WorldS5.Self { Self := 0 }
              ActionS5.Considerations).take n).prod) = false) ∧
    RawScore WorldS5 {} ActionS5 { Self := 0 }
      = ActionS5.Weight
        * (CurveOutputs WorldS5 {} WorldS5.Self { Self := 0 } ActionS5.Considerations).prod ∧
    RawScore WorldS5 {} ActionS5 { Self := 0 } = 1 / 5 ∧
    RawScore WorldS5 {} { Weight := 3 } { Self := 0 } = 3 :=
  have h : ∀ n, 0 < n →
      n ≤ (CurveOutputs WorldS5 {} WorldS5.Self { Self := 0 } ActionS5.Considerations).length →
      IsNearlyZero (ActionS5.Weight
        * ((CurveOutputs WorldS5 {} WorldS5.Self { Self := 0 }
            ActionS5.Considerations).take n).prod) = false := by
    rw [CurveOutputs_S5]
    intro n hn hlen
    have hn1 : n = 1 := by
      simp at hlen
      omega
    subst hn1
    decide!
  ⟨h, (RawScore_eq_weight_mul_curve_outputs WorldS5 {} ActionS5 { Self := 0 }).1 h,
    by decide!,
    (RawScore_eq_weight_mul_curve_outputs WorldS5 {} { Weight := 3 } { Self := 0 }).2.1 rfl⟩

/-- Considerations that follow one after which the running score is nearly zero do not
change the result of the loop. -/
theorem ScoreConsiderations_append_nearlyZero (W : World) (B : USussBrainComponent) (Self : AActor)
    (Ctx : FSussContext) (K : FSussConsideration) (P : USussInputProvider)
    (Post : List FSussConsideration) (hK : W.GetInputProvider K.InputTag = some P) :
    ∀ (Pre : List FSussConsideration) (Score : ℚ),
    IsNearlyZero (ScoreConsiderations W B Self Ctx Score (Pre ++ [K])) = true →
    ScoreConsiderations W B Self Ctx Score (Pre ++ K :: Post)
      = ScoreConsiderations W B Self Ctx Score (Pre ++ [K])
  | [], Score, h => by
    simp only [List.nil_append, ScoreConsiderations, hK] at h ⊢
    by_cases hz : IsNearlyZero (Score * ConsiderationScore W B Self Ctx P K) = true
    · simp [hz]
    · simp only [hz] at h
      simp at h
      exact absurd h hz
  | C :: Pre, Score, h => by
    simp only [List.cons_append, ScoreConsiderations] at h ⊢
    cases hP : W.GetInputProvider C.InputTag with
    | none =>
      simp only [hP] at h ⊢
      exact ScoreConsiderations_append_nearlyZero W B Self Ctx K P Post hK Pre Score h
    | some Q =>
      simp only [hP] at h ⊢
      by_cases hz : IsNearlyZero (Score * ConsiderationScore W B Self Ctx Q C) = true
      · simp [hz]
      · simp only [hz] at h ⊢
        exact ScoreConsiderations_append_nearlyZero W B Self Ctx K P Post hK Pre _ h

/-- C6: if the running score is nearly zero after multiplying in consideration `K`, the
raw score is that value and does not depend on the considerations after `K`: replacing
them by any others leaves the raw score unchanged. -/
theorem RawScore_short_circuit (W : World) (B : USussBrainComponent)
    (NextAction : FSussActionDef) (Ctx : FSussContext) (K : FSussConsideration)
    (P : USussInputProvider) (Pre Post : List FSussConsideration)
    (hK : W.GetInputProvider K.InputTag = some P)
    (hCons : NextAction.Considerations = Pre ++ K :: Post)
    (hZero : IsNearlyZero
      (ScoreConsiderations W B W.Self Ctx NextAction.Weight (Pre ++ [K])) = true) :
    RawScore W B NextAction Ctx
      = ScoreConsiderations W B W.Self Ctx NextAction.Weight (Pre ++ [K]) ∧
    ∀ Other : List FSussConsideration,
      RawScore W B { NextAction with Considerations := Pre ++ K :: Other } Ctx
        = RawScore W B NextAction Ctx := by
  have h := fun Q => ScoreConsiderations_append_nearlyZero W B W.Self Ctx K P Q hK Pre
    NextAction.Weight hZero
  refine ⟨by rw [RawScore, hCons]; exact h Post, ?_⟩
  intro Other
  simp only [RawScore]
  rw [hCons, h Other, h Post]

/-- Witness for C6: a consideration with curve output 0 followed by one with curve output
1000. -/
theorem RawScore_short_circuit_witness :
    IsNearlyZero (ScoreConsiderations WorldZero {} WorldZero.Self { Self := 0 } 1
      ([] ++ [ConsiderationZero])) = true ∧
    RawScore WorldZero {} { Considerations := [ConsiderationZero, ConsiderationBig] } { Self := 0 }
      = ScoreConsiderations WorldZero {} WorldZero.Self { Self := 0 } 1
          ([] ++ [ConsiderationZero]) ∧
    ∀ Other : List FSussConsideration,
      RawScore WorldZero {} { Considerations := [] ++ ConsiderationZero :: Other } { Self := 0 }
        = RawScore WorldZero {} { Considerations := [ConsiderationZero, ConsiderationBig] }
            { Self := 0 } :=
  ⟨by decide!,
    RawScore_short_circuit WorldZero {} { Considerations := [ConsiderationZero, ConsiderationBig] }
      { Self := 0 } ConsiderationZero { Evaluate := fun _ _ _ => 0 } [] [ConsiderationBig]
      rfl rfl (by decide!)⟩

/-- C7 (as stated) fails: with both bookends equal to 3, the raw inputs 3 and 5 are
normalised to 1, not 0. -/
theorem NormalisedInput_equal_bookends_not_zero :
    (ResolveParameter {} {} { Self := 0 } ConsiderationPoint.BookendMin).FloatValue
      = (ResolveParameter {} {} { Self := 0 } ConsiderationPoint.BookendMax).FloatValue ∧
    NormalisedInput {} {} { Self := 0 } ConsiderationPoint 3 = 1 ∧
    NormalisedInput {} {} { Self := 0 } ConsiderationPoint 5 = 1 ∧
    ¬ (∀ RawInputValue : ℚ, NormalisedInput {} {} { Self := 0 } ConsiderationPoint RawInputValue = 0) := by
  refine ⟨by decide!, by decide!, by decide!, ?_⟩
  intro h
  have h3 := h 3
  revert h3
  decide!

/-- C7 (amended): when the resolved `BookendMin` equals the resolved `BookendMax`, the
normalised input passed to the curve is 0 for a raw input below the bookend and 1 for a
raw input equal to or above it. -/
theorem NormalisedInput_equal_bookends (W : World) (B : USussBrainComponent)
    (Ctx : FSussContext) (Consideration : FSussConsideration) (RawInputValue : ℚ)
    (hEq : (ResolveParameter W B Ctx Consideration.BookendMin).FloatValue
      = (ResolveParameter W B Ctx Consideration.BookendMax).FloatValue) :
    NormalisedInput W B Ctx Consideration RawInputValue
      = if RawInputValue < (ResolveParameter W B Ctx Consideration.BookendMax).FloatValue
        then 0 else 1 := by
  have hz : IsNearlyZero 0 = true := by
    simp [IsNearlyZero, UE_SMALL_NUMBER]
  simp only [NormalisedInput, GetRangePct, hEq, sub_self, hz, if_true]
  by_cases h : RawInputValue < (ResolveParameter W B Ctx Consideration.BookendMax).FloatValue
  · have h2 : ¬ RawInputValue ≥ (ResolveParameter W B Ctx Consideration.BookendMax).FloatValue :=
      not_le.2 h
    simp [h, h2, Clamp]
  · have h2 : RawInputValue ≥ (ResolveParameter W B Ctx Consideration.BookendMax).FloatValue :=
      not_lt.1 h
    simp [h, h2, Clamp]

/-- Witness for C7 (amended): both bookends 3, raw input 2. -/
theorem NormalisedInput_equal_bookends_witness :
    (ResolveParameter {} {} { Self := 0 } ConsiderationPoint.BookendMin).FloatValue
      = (ResolveParameter {} {} { Self := 0 } ConsiderationPoint.BookendMax).FloatValue ∧
    NormalisedInput {} {} { Self := 0 } ConsiderationPoint 2
      = if (2 : ℚ) < (ResolveParameter {} {} { Self := 0 } ConsiderationPoint.BookendMax).FloatValue
        then 0 else 1 :=
  ⟨by decide!, NormalisedInput_equal_bookends {} {} { Self := 0 } ConsiderationPoint 2 (by decide!)⟩

/-- C8: the score before repetition penalty and temp adjust is the greater of the raw
score and the live score when the (action, context) pair is the current one, and the raw
score otherwise.  In scenario S5 the action is started with live score 5; in the next
update its raw score is 0.2, the retained score is 5 and the action is continued. -/
theorem RetainedScore_eq_max (W : World) (B : USussBrainComponent) (i : Nat)
    (NextAction : FSussActionDef) (Ctx : FSussContext) :
    FinalScore W B i NextAction Ctx
      = AdjustedScore B i (PenalisedScore B i Ctx
          (RetainedScore B i Ctx (RawScore W B NextAction Ctx))) ∧
    RetainedScore B i Ctx (RawScore W B NextAction Ctx)
      = (if IsActionSameAsCurrent B i Ctx = true
         then max (RawScore W B NextAction Ctx) B.CurrentActionResult.Score
         else RawScore W B NextAction Ctx) ∧
    (BrainS5Running.CurrentActionResult.Score = 5 ∧
      RawScore WorldS5 BrainS5Running ActionS5 { Self := 0 } = 1 / 5 ∧
      RetainedScore BrainS5Running 0 { Self := 0 }
        (RawScore WorldS5 BrainS5Running ActionS5 { Self := 0 }) = 5 ∧
      (Update WorldS5 SimpleSort BrainS5Running).CurrentActionResult.Score = 5 ∧
      (Update WorldS5 SimpleSort BrainS5Running).ActionCalls
        = [FActionCall.PerformAction 7 { Self := 0 } [] none,
           FActionCall.ContinueAction 7 { Self := 0 } []]) := by
  refine ⟨rfl, ?_, by decide!, by decide!, by decide!, by decide!, by decide!⟩
  unfold RetainedScore
  by_cases h : IsActionSameAsCurrent B i Ctx = true
  · simp only [h, if_true]
    by_cases h2 : B.CurrentActionResult.Score > RawScore W B NextAction Ctx
    · rw [if_pos h2, max_eq_right (le_of_lt h2)]
    · rw [if_neg h2, max_eq_left (not_lt.1 h2)]
  · simp [h]

/-- The context loop keeps the flag exact. -/
theorem ScoreContexts_addedFlag (W : World) (B : USussBrainComponent) (i : Nat)
    (NextAction : FSussActionDef) : ∀ (Contexts : List FSussContext) (S : FUpdateScoring),
    AddedFlagExact B S → AddedFlagExact B (ScoreContexts W B i NextAction Contexts S)
  | [], S, h => by simpa [ScoreContexts] using h
  | Ctx :: rest, S, h => by
    unfold ScoreContexts
    by_cases hz : IsNearlyZero (FinalScore W B i NextAction Ctx) = true
    · simp only [hz, Bool.not_true, Bool.false_eq_true, if_false]
      exact ScoreContexts_addedFlag W B i NextAction rest S h
    · simp only [hz, Bool.not_eq_true] at hz ⊢
      simp only [hz, Bool.not_false, if_true]
      apply ScoreContexts_addedFlag W B i NextAction rest
      unfold AddedFlagExact at h ⊢
      by_cases hc : IsActionSameAsCurrent B i Ctx = true
      · simp only [hc, if_true, true_iff]
        exact ⟨_, List.mem_append_right _ (List.mem_singleton.2 rfl), by
          simpa [IsCurrentCandidate] using hc⟩
      · simp only [hc, if_false, Bool.false_eq_true]
        rw [h]
        constructor
        · rintro ⟨C, hC, hCur⟩
          exact ⟨C, List.mem_append_left _ hC, hCur⟩
        · rintro ⟨C, hC, hCur⟩
          rcases List.mem_append.1 hC with hC | hC
          · exact ⟨C, hC, hCur⟩
          · have hCeq := List.mem_singleton.1 hC
            subst hCeq
            exact absurd hCur (by simpa [IsCurrentCandidate] using hc)

/-- The body of the catalogue loop keeps the flag exact. -/
theorem ScoreAction_addedFlag (W : World) (B : USussBrainComponent) (i : Nat)
    (NextAction : FSussActionDef) (S : FUpdateScoring) (h : AddedFlagExact B S) :
    AddedFlagExact B (ScoreAction W B i NextAction S) := by
  unfold ScoreAction
  split
  · exact h
  · exact ScoreContexts_addedFlag W B i NextAction _ S h

/-- The catalogue loop keeps the flag exact. -/
theorem UpdateLoop_addedFlag (W : World) (B : USussBrainComponent) :
    ∀ (Defs : List FSussActionDef) (i : Nat) (S : FUpdateScoring),
    AddedFlagExact B S → AddedFlagExact B (UpdateLoop W B i Defs S)
  | [], i, S, h => by simpa [UpdateLoop] using h
  | NextAction :: rest, i, S, h => by
    unfold UpdateLoop
    split
    · exact h
    · split
      · exact h
      · apply UpdateLoop_addedFlag W B rest (i + 1)
        apply ScoreAction_addedFlag
        split
        · exact h
        · exact h

/-- C10: after the scoring loop `CurrentActionResult` is appended to `CandidateActions`
exactly when an action is in progress, its live score is positive and no candidate
matching the current action and context was added during scoring; the appended entry
is `CurrentActionResult` itself, live score included. -/
theorem UpdateCandidates_reinjects_iff (W : World) (B : USussBrainComponent) :
    (ShouldReinjectCurrentAction B (UpdateScoring W B) = true ↔
      IsActionInProgress B = true ∧ B.CurrentActionResult.Score > 0 ∧
        ∀ C ∈ (UpdateScoring W B).CandidateActions,
          IsActionSameAsCurrent B C.ActionDefIndex C.Context = false) ∧
    UpdateCandidates W B
      = (if IsActionInProgress B = true ∧ B.CurrentActionResult.Score > 0 ∧
            ∀ C ∈ (UpdateScoring W B).CandidateActions,
              IsActionSameAsCurrent B C.ActionDefIndex C.Context = false
         then (UpdateScoring W B).CandidateActions ++ [B.CurrentActionResult]
         else (UpdateScoring W B).CandidateActions) := by
  have hflag : AddedFlagExact B (UpdateScoring W B) := by
    apply UpdateLoop_addedFlag
    simp [AddedFlagExact]
  have hiff : ShouldReinjectCurrentAction B (UpdateScoring W B) = true ↔
      IsActionInProgress B = true ∧ B.CurrentActionResult.Score > 0 ∧
        ∀ C ∈ (UpdateScoring W B).CandidateActions,
          IsActionSameAsCurrent B C.ActionDefIndex C.Context = false := by
    unfold AddedFlagExact at hflag
    have hnot : (UpdateScoring W B).bAddedCurrentAction = false ↔
        ∀ C ∈ (UpdateScoring W B).CandidateActions,
          IsActionSameAsCurrent B C.ActionDefIndex C.Context = false := by
      rw [← Bool.not_eq_true, hflag]
      simp [IsCurrentCandidate]
    simp only [ShouldReinjectCurrentAction, Bool.and_eq_true, Bool.not_eq_true',
      decide_eq_true_eq, hnot]
    tauto
  refine ⟨hiff, ?_⟩
  unfold UpdateCandidates
  by_cases h : ShouldReinjectCurrentAction B (UpdateScoring W B) = true
  · simp only [h, if_true]
    rw [if_pos (hiff.1 h)]
  · simp only [h]
    rw [if_neg (fun h2 => h (hiff.2 h2))]
    simp

/-- With no action in progress nothing is the same as the current action. -/
theorem IsActionSameAsCurrent_of_none (B : USussBrainComponent) (i : Int) (Ctx : FSussContext)
    (hNone : IsActionInProgress B = false) : IsActionSameAsCurrent B i Ctx = false := by
  simp [IsActionSameAsCurrent, hNone]

/-- With no action in progress the first `break` of the loop is never taken. -/
theorem IsBlockedByCurrentAction_of_none (B : USussBrainComponent) (D : FSussActionDef)
    (hNone : IsActionInProgress B = false) : IsBlockedByCurrentAction B D = false := by
  unfold IsActionInProgress at hNone
  unfold IsBlockedByCurrentAction
  cases h : B.CurrentActionInstance with
  | none => rfl
  | some I => rw [h] at hNone; simp at hNone

/-- With no action in progress the context loop appends the candidates of the contexts. -/
theorem ScoreContexts_of_none (W : World) (B : USussBrainComponent) (i : Nat)
    (NextAction : FSussActionDef) (hNone : IsActionInProgress B = false) :
    ∀ (Contexts : List FSussContext) (S : FUpdateScoring),
    ScoreContexts W B i NextAction Contexts S
      = { S with CandidateActions :=
            S.CandidateActions ++ ContextCandidates W B i NextAction Contexts }
  | [], S => by simp [ScoreContexts, ContextCandidates]
  | Ctx :: rest, S => by
    unfold ScoreContexts
    have hsame := IsActionSameAsCurrent_of_none B i Ctx hNone
    by_cases hz : IsNearlyZero (FinalScore W B i NextAction Ctx) = true
    · simp only [hz, Bool.not_true, Bool.false_eq_true, if_false]
      rw [ScoreContexts_of_none W B i NextAction hNone rest S]
      simp [ContextCandidates, hz]
    · simp only [Bool.not_eq_true] at hz
      simp only [hz, Bool.not_false, if_true, hsame, Bool.false_eq_true, if_false]
      rw [ScoreContexts_of_none W B i NextAction hNone rest _]
      simp [ContextCandidates, hz]

/-- With no action in progress the loop body appends the candidates of the action. -/
theorem ScoreAction_of_none (W : World) (B : USussBrainComponent) (i : Nat)
    (NextAction : FSussActionDef) (hNone : IsActionInProgress B = false) (S : FUpdateScoring) :
    ScoreAction W B i NextAction S
      = { S with CandidateActions := S.CandidateActions ++ ActionCandidates W B i NextAction } := by
  unfold ScoreAction ActionCandidates
  split
  · simp
  · exact ScoreContexts_of_none W B i NextAction hNone _ S

/-- One round of the catalogue loop with no action in progress. -/
theorem UpdateLoop_cons_of_none (W : World) (B : USussBrainComponent) (i : Nat)
    (D : FSussActionDef) (rest : List FSussActionDef) (S : FUpdateScoring)
    (hNone : IsActionInProgress B = false) :
    UpdateLoop W B i (D :: rest) S
      = if S.CurrentPriority ≠ D.Priority ∧ S.CandidateActions ≠ [] then S
        else UpdateLoop W B (i + 1) rest
          { CurrentPriority := D.Priority
            CandidateActions := S.CandidateActions ++ ActionCandidates W B i D
            bAddedCurrentAction := S.bAddedCurrentAction } := by
  have hstep : (if S.CurrentPriority ≠ D.Priority then
      { S with CurrentPriority := D.Priority } else S)
      = { S with CurrentPriority := D.Priority } := by
    split
    · rfl
    · rename_i h
      simp only [ne_eq, Decidable.not_not] at h
      cases S
      simp_all
  conv_lhs => unfold UpdateLoop
  rw [IsBlockedByCurrentAction_of_none B D hNone, hstep, ScoreAction_of_none W B i D hNone]
  simp [List.isEmpty_iff]

/-- While candidates exist, the loop goes on through the actions of the current
priority and stops at the first action of another priority. -/
theorem UpdateLoop_group (W : World) (B : USussBrainComponent)
    (hNone : IsActionInProgress B = false) (p : Int) :
    ∀ (Defs : List FSussActionDef) (i : Nat) (S : FUpdateScoring),
    S.CurrentPriority = p → S.CandidateActions ≠ [] →
    Defs.Pairwise (fun X Y => X.Priority ≤ Y.Priority) → (∀ X ∈ Defs, p ≤ X.Priority) →
    UpdateLoop W B i Defs S
      = { S with CandidateActions := S.CandidateActions ++ GroupCandidates W B p i Defs }
  | [], i, S, _, _, _, _ => by simp [UpdateLoop, GroupCandidates]
  | D :: rest, i, S, hp, hne, hsorted, hge => by
    rw [UpdateLoop_cons_of_none W B i D rest S hNone]
    have hs := List.pairwise_cons.1 hsorted
    by_cases hD : D.Priority = p
    · have hcond : ¬ (S.CurrentPriority ≠ D.Priority ∧ S.CandidateActions ≠ []) := by
        rw [hp, hD]; simp
      rw [if_neg hcond]
      rw [UpdateLoop_group W B hNone p rest (i + 1) _ hD (by simp [hne]) hs.2
        (fun X hX => hge X (List.mem_cons_of_mem _ hX))]
      simp [GroupCandidates, hD, ← hp]
    · have hcond : S.CurrentPriority ≠ D.Priority ∧ S.CandidateActions ≠ [] := by
        refine ⟨?_, hne⟩
        rw [hp]; exact fun h => hD h.symm
      rw [if_pos hcond]
      have hlt : p < D.Priority := lt_of_le_of_ne (hge D (List.mem_cons_self _ _)) (Ne.symm hD)
      have hnil : ∀ (L : List FSussActionDef) (j : Nat), (∀ X ∈ L, p < X.Priority) →
          GroupCandidates W B p j L = [] := by
        intro L
        induction L with
        | nil => intro j _; rfl
        | cons X L ih =>
          intro j hX
          have h1 : X.Priority ≠ p := ne_of_gt (hX X (List.mem_cons_self _ _))
          simp [GroupCandidates, h1, ih (j + 1) (fun Y hY => hX Y (List.mem_cons_of_mem _ hY))]
      rw [hnil (D :: rest) i]
      · simp
      · intro X hX
        rcases List.mem_cons.1 hX with h | h
        · rw [h]; exact hlt
        · exact lt_of_lt_of_le hlt (hs.1 X h)

/-- A list without actions of priority `p` has no candidates of that group. -/
theorem GroupCandidates_eq_nil (W : World) (B : USussBrainComponent) (p : Int) :
    ∀ (L : List FSussActionDef) (j : Nat), (∀ X ∈ L, X.Priority ≠ p) →
      GroupCandidates W B p j L = []
  | [], _, _ => rfl
  | X :: L, j, hX => by
    have h1 : X.Priority ≠ p := hX X (List.mem_cons_self _ _)
    simp [GroupCandidates, h1,
      GroupCandidates_eq_nil W B p L (j + 1) (fun Y hY => hX Y (List.mem_cons_of_mem _ hY))]

/-- From a state without candidates, the loop ends with exactly the candidates of the
first priority group that produces any. -/
theorem UpdateLoop_first_group (W : World) (B : USussBrainComponent)
    (hNone : IsActionInProgress B = false) (p : Int) :
    ∀ (Defs : List FSussActionDef) (i : Nat) (S : FUpdateScoring),
    S.CandidateActions = [] →
    Defs.Pairwise (fun X Y => X.Priority ≤ Y.Priority) →
    (∃ j D, Defs[j]? = some D ∧ D.Priority = p ∧ ActionCandidates W B (i + j) D ≠ []) →
    (∀ j D, Defs[j]? = some D → D.Priority < p → ActionCandidates W B (i + j) D = []) →
    UpdateLoop W B i Defs S
      = { CurrentPriority := p
          CandidateActions := GroupCandidates W B p i Defs
          bAddedCurrentAction := S.bAddedCurrentAction } ∧
    GroupCandidates W B p i Defs ≠ []
  | [], i, S, _, _, hProd, _ => by
    obtain ⟨j, D, h, _⟩ := hProd
    simp at h
  | D :: rest, i, S, hS, hsorted, hProd, hFirst => by
    rw [UpdateLoop_cons_of_none W B i D rest S hNone]
    have hs := List.pairwise_cons.1 hsorted
    have hcond : ¬ (S.CurrentPriority ≠ D.Priority ∧ S.CandidateActions ≠ []) := by
      simp [hS]
    rw [if_neg hcond, hS, List.nil_append]
    by_cases hD : D.Priority = p ∧ ActionCandidates W B i D ≠ []
    · rw [UpdateLoop_group W B hNone p rest (i + 1) _ hD.1 hD.2 hs.2
        (fun X hX => hD.1 ▸ hs.1 X hX)]
      simp [GroupCandidates, hD.1, hD.2]
    · have hnil : ActionCandidates W B i D = [] := by
        by_contra hne
        have hDp : D.Priority ≠ p := fun h => hD ⟨h, hne⟩
        rcases lt_or_gt_of_ne hDp with hlt | hgt
        · exact hne (hFirst 0 D (by simp) hlt)
        · obtain ⟨j, X, hj, hXp, _⟩ := hProd
          cases j with
          | zero =>
            simp at hj
            exact hDp (hj ▸ hXp)
          | succ j =>
            have hX : X ∈ rest := List.getElem?_mem (by simpa using hj : rest[j]? = some X)
            have := hs.1 X hX
            omega
      have hProd2 : ∃ j X, rest[j]? = some X ∧ X.Priority = p
          ∧ ActionCandidates W B (i + 1 + j) X ≠ [] := by
        obtain ⟨j, X, hj, hXp, hXc⟩ := hProd
        cases j with
        | zero =>
          simp at hj
          subst hj
          exact absurd hnil hXc
        | succ j =>
          refine ⟨j, X, by simpa using hj, hXp, ?_⟩
          rw [show i + 1 + j = i + (j + 1) by omega]
          exact hXc
      have hFirst2 : ∀ j X, rest[j]? = some X → X.Priority < p
          → ActionCandidates W B (i + 1 + j) X = [] := by
        intro j X hj hlt
        rw [show i + 1 + j = i + (j + 1) by omega]
        exact hFirst (j + 1) X (by simpa using hj) hlt
      obtain ⟨ih1, ih2⟩ := UpdateLoop_first_group W B hNone p rest (i + 1)
        { CurrentPriority := D.Priority, CandidateActions := ActionCandidates W B i D,
          bAddedCurrentAction := S.bAddedCurrentAction } hnil hs.2 hProd2 hFirst2
      rw [ih1]
      simp only [GroupCandidates, hnil, ite_self, List.nil_append]
      exact ⟨trivial, ih2⟩

/-- Once candidates exist, definitions of other priorities appended to the list are
not reached. -/
theorem UpdateLoop_append_stop (W : World) (B : USussBrainComponent)
    (Later : List FSussActionDef) :
    ∀ (Defs : List FSussActionDef) (i : Nat) (S : FUpdateScoring),
    (UpdateLoop W B i Defs S).CandidateActions ≠ [] →
    (∀ X ∈ Later, X.Priority ≠ (UpdateLoop W B i Defs S).CurrentPriority) →
    UpdateLoop W B i (Defs ++ Later) S = UpdateLoop W B i Defs S
  | [], i, S, hne, hLater => by
    simp only [UpdateLoop] at hne hLater
    cases Later with
    | nil => rfl
    | cons X rest =>
      simp only [List.nil_append, UpdateLoop]
      split
      · rfl
      · have hX := hLater X (List.mem_cons_self _ _)
        have hcond : S.CurrentPriority ≠ X.Priority ∧ ¬ S.CandidateActions.isEmpty = true := by
          refine ⟨fun h => hX h.symm, ?_⟩
          simpa [List.isEmpty_iff] using hne
        rw [if_pos hcond]
  | D :: rest, i, S, hne, hLater => by
    simp only [List.cons_append]
    unfold UpdateLoop at hne hLater ⊢
    split
    · rfl
    · rename_i hb
      simp only [hb] at hne hLater
      split
      · rfl
      · rename_i hc
        simp only [hc, if_false] at hne hLater
        exact UpdateLoop_append_stop W B Later rest (i + 1) _ hne hLater

/-- Candidates of action `i` carry the index `i`. -/
theorem ContextCandidates_index (W : World) (B : USussBrainComponent) (i : Nat)
    (D : FSussActionDef) (Contexts : List FSussContext) :
    ∀ C ∈ ContextCandidates W B i D Contexts, C.ActionDefIndex = (i : Int) := by
  intro C hC
  simp only [ContextCandidates, List.mem_filterMap] at hC
  obtain ⟨Ctx, _, h⟩ := hC
  split at h
  · simp at h
  · simp only [Option.some.injEq] at h
    rw [← h]

/-- Every candidate of group `p` carries the index of a definition of priority `p`. -/
theorem GroupCandidates_index (W : World) (B : USussBrainComponent) (p : Int) :
    ∀ (Defs : List FSussActionDef) (i : Nat), ∀ C ∈ GroupCandidates W B p i Defs,
      ∃ j D, Defs[j]? = some D ∧ D.Priority = p ∧ C.ActionDefIndex = ((i + j : Nat) : Int)
  | [], _, C, hC => by simp [GroupCandidates] at hC
  | D :: rest, i, C, hC => by
    simp only [GroupCandidates, List.mem_append] at hC
    rcases hC with hC | hC
    · by_cases hD : D.Priority = p
      · rw [if_pos hD] at hC
        refine ⟨0, D, by simp, hD, ?_⟩
        unfold ActionCandidates at hC
        split at hC
        · simp at hC
        · simpa using ContextCandidates_index W B i D _ C hC
      · rw [if_neg hD] at hC
        simp at hC
    · obtain ⟨j, X, hj, hX, hidx⟩ := GroupCandidates_index W B p rest (i + 1) C hC
      refine ⟨j + 1, X, by simpa using hj, hX, ?_⟩
      rw [hidx]
      congr 1
      omega

/-- A sorted catalogue is its groups up to `p` followed by its later groups. -/
theorem sorted_split_by_priority (p : Int) : ∀ (L : List FSussActionDef),
    L.Pairwise (fun X Y => X.Priority ≤ Y.Priority) →
    L = L.filter (fun D => decide (D.Priority ≤ p)) ++ L.filter (fun D => decide (p < D.Priority))
  | [], _ => rfl
  | D :: rest, h => by
    have hs := List.pairwise_cons.1 h
    by_cases hD : D.Priority ≤ p
    · have hD2 : ¬ p < D.Priority := not_lt.2 hD
      simp only [List.filter_cons, hD, hD2, decide_True, decide_False, if_true,
        Bool.false_eq_true, if_false, List.cons_append]
      congr 1
      exact sorted_split_by_priority p rest hs.2
    · have hD2 : p < D.Priority := not_le.1 hD
      have h1 : (D :: rest).filter (fun D => decide (D.Priority ≤ p)) = [] := by
        rw [List.filter_eq_nil_iff]
        intro X hX
        rcases List.mem_cons.1 hX with hX | hX
        · subst hX; simpa using hD
        · have := hs.1 X hX
          simp only [decide_eq_true_eq, not_le]
          omega
      have h2 : (D :: rest).filter (fun D => decide (p < D.Priority)) = D :: rest := by
        rw [List.filter_eq_self]
        intro X hX
        rcases List.mem_cons.1 hX with hX | hX
        · subst hX; simpa using hD2
        · have := hs.1 X hX
          simp only [decide_eq_true_eq]
          omega
      rw [h1, h2]
      rfl

/-- C1: with a catalogue sorted by ascending priority and no action in progress, the
candidates collected by `Update` are exactly those of the first priority group `p` in
which some action produces a candidate; all of them have priority `p`, and the actions of
later groups are not reached: replacing them by any others leaves the loop's result
unchanged. -/
theorem UpdateCandidates_first_group (W : World) (B : USussBrainComponent) (p : Int)
    (hNone : IsActionInProgress B = false)
    (hSorted : B.CombinedActionsByPriority.Pairwise (fun X Y => X.Priority ≤ Y.Priority))
    (hProd : ∃ j D, B.CombinedActionsByPriority[j]? = some D ∧ D.Priority = p
      ∧ ActionCandidates W B j D ≠ [])
    (hFirst : ∀ j D, B.CombinedActionsByPriority[j]? = some D → D.Priority < p
      → ActionCandidates W B j D = []) :
    UpdateCandidates W B = GroupCandidates W B p 0 B.CombinedActionsByPriority ∧
    UpdateCandidates W B ≠ [] ∧
    (∀ C ∈ UpdateCandidates W B,
      (TArray.At B.CombinedActionsByPriority C.ActionDefIndex).Priority = p) ∧
    (∀ Later : List FSussActionDef, (∀ X ∈ Later, p < X.Priority) →
      UpdateLoop W B 0
        (B.CombinedActionsByPriority.filter (fun D => decide (D.Priority ≤ p)) ++ Later)
        { CurrentPriority := (TArray.At B.CombinedActionsByPriority 0).Priority }
      = UpdateScoring W B) := by
  have hidx : ∀ (L : List FSussActionDef),
      (∃ j D, L[j]? = some D ∧ D.Priority = p ∧ ActionCandidates W B j D ≠ []) →
      ∃ j D, L[j]? = some D ∧ D.Priority = p ∧ ActionCandidates W B (0 + j) D ≠ [] := by
    intro L h
    simpa using h
  have hidx2 : ∀ (L : List FSussActionDef),
      (∀ j D, L[j]? = some D → D.Priority < p → ActionCandidates W B j D = []) →
      ∀ j D, L[j]? = some D → D.Priority < p → ActionCandidates W B (0 + j) D = [] := by
    intro L h
    simpa using h
  obtain ⟨hloop, hne⟩ := UpdateLoop_first_group W B hNone p B.CombinedActionsByPriority 0
    { CurrentPriority := (TArray.At B.CombinedActionsByPriority 0).Priority } rfl hSorted
    (hidx _ hProd) (hidx2 _ hFirst)
  have hcand : UpdateCandidates W B = GroupCandidates W B p 0 B.CombinedActionsByPriority := by
    simp [UpdateCandidates, ShouldReinjectCurrentAction, hNone, UpdateScoring, hloop]
  refine ⟨hcand, by rw [hcand]; exact hne, ?_, ?_⟩
  · intro C hC
    rw [hcand] at hC
    obtain ⟨j, D, hj, hD, hidx⟩ := GroupCandidates_index W B p _ 0 C hC
    obtain ⟨hj1, hj2⟩ := List.getElem?_eq_some_iff.1 hj
    rw [hidx]
    simp [TArray.At, List.getD_eq_getElem?_getD, hj, hD]
  · have hsplit := sorted_split_by_priority p B.CombinedActionsByPriority hSorted
    generalize hP : B.CombinedActionsByPriority.filter (fun D => decide (D.Priority ≤ p)) = P
      at hsplit
    generalize hQ : B.CombinedActionsByPriority.filter (fun D => decide (p < D.Priority)) = Q
      at hsplit
    have hQgt : ∀ X ∈ Q, p < X.Priority := by
      intro X hX
      rw [← hQ] at hX
      simpa using (List.mem_filter.1 hX).2
    have hPsorted : P.Pairwise (fun X Y => X.Priority ≤ Y.Priority) := by
      rw [← hP]
      exact hSorted.sublist (List.filter_sublist _)
    have hPprod : ∃ j D, P[j]? = some D ∧ D.Priority = p ∧ ActionCandidates W B (0 + j) D ≠ [] := by
      obtain ⟨j, D, hj, hD, hc⟩ := hProd
      refine ⟨j, D, ?_, hD, by simpa using hc⟩
      rw [hsplit] at hj
      by_cases hjP : j < P.length
      · rwa [List.getElem?_append_left hjP] at hj
      · rw [List.getElem?_append_right (not_lt.1 hjP)] at hj
        have := hQgt D (List.getElem?_mem hj)
        omega
    have hPfirst : ∀ j D, P[j]? = some D → D.Priority < p
        → ActionCandidates W B (0 + j) D = [] := by
      intro j D hj hlt
      rw [Nat.zero_add]
      apply hFirst j D _ hlt
      rw [hsplit]
      have hjP : j < P.length := (List.getElem?_eq_some_iff.1 hj).1
      rwa [List.getElem?_append_left hjP]
    obtain ⟨hloopP, hneP⟩ := UpdateLoop_first_group W B hNone p P 0
      { CurrentPriority := (TArray.At B.CombinedActionsByPriority 0).Priority } rfl hPsorted
      hPprod hPfirst
    have hstop : ∀ Later : List FSussActionDef, (∀ X ∈ Later, p < X.Priority) →
        UpdateLoop W B 0 (P ++ Later)
          { CurrentPriority := (TArray.At B.CombinedActionsByPriority 0).Priority }
        = UpdateLoop W B 0 P
          { CurrentPriority := (TArray.At B.CombinedActionsByPriority 0).Priority } := by
      intro Later hLater
      apply UpdateLoop_append_stop
      · rw [hloopP]; exact hneP
      · rw [hloopP]
        intro X hX
        exact ne_of_gt (hLater X hX)
    have hfull : UpdateLoop W B 0 (P ++ Q)
        { CurrentPriority := (TArray.At B.CombinedActionsByPriority 0).Priority }
        = UpdateScoring W B := by
      rw [← hsplit]
      rfl
    intro Later hLater
    rw [hstop Later hLater, ← hfull, hstop Q hQgt]

/-- The catalogue of scenario S2. -/
theorem BrainS2_catalogue : BrainS2.CombinedActionsByPriority
    = [{ ActionTag := ⟨["A"]⟩, Priority := 0, Weight := 1 },
       { ActionTag := ⟨["B"]⟩, Priority := 1, Weight := 10 }] := rfl

/-- No definition of scenario S2 has a priority below 0. -/
theorem BrainS2_first (j : Nat) (D : FSussActionDef)
    (hj : BrainS2.CombinedActionsByPriority[j]? = some D) (hlt : D.Priority < 0) :
    ActionCandidates WorldS2 BrainS2 j D = [] := by
  exfalso
  rw [BrainS2_catalogue] at hj
  match j, hj with
  | 0, hj =>
    simp at hj
    subst hj
    simp at hlt
  | 1, hj =>
    simp at hj
    subst hj
    simp at hlt
  | _ + 2, hj => simp at hj

/-- Witness for C1, scenario S2: the only candidate is `A` with score 1, and `Update`
starts `A` although `B` has the greater weight. -/
theorem UpdateCandidates_first_group_witness :
    IsActionInProgress BrainS2 = false ∧
    BrainS2.CombinedActionsByPriority.Pairwise (fun X Y => X.Priority ≤ Y.Priority) ∧
    (UpdateCandidates WorldS2 BrainS2
        = GroupCandidates WorldS2 BrainS2 0 0 BrainS2.CombinedActionsByPriority ∧
      UpdateCandidates WorldS2 BrainS2 ≠ [] ∧
      (∀ C ∈ UpdateCandidates WorldS2 BrainS2,
        (TArray.At BrainS2.CombinedActionsByPriority C.ActionDefIndex).Priority = 0) ∧
      (∀ Later : List FSussActionDef, (∀ X ∈ Later, 0 < X.Priority) →
        UpdateLoop WorldS2 BrainS2 0
          (BrainS2.CombinedActionsByPriority.filter (fun D => decide (D.Priority ≤ 0)) ++ Later)
          { CurrentPriority := (TArray.At BrainS2.CombinedActionsByPriority 0).Priority }
        = UpdateScoring WorldS2 BrainS2)) ∧
    UpdateCandidates WorldS2 BrainS2
      = [{ ActionDefIndex := 0, Context := { Self := 0 }, Score := 1 }] ∧
    (Update WorldS2 SimpleSort BrainS2).CurrentActionResult
      = { ActionDefIndex := 0, Context := { Self := 0 }, Score := 1 } ∧
    (Update WorldS2 SimpleSort BrainS2).ActionCalls
      = [FActionCall.PerformAction 7 { Self := 0 } [] none] :=
  have hSorted : BrainS2.CombinedActionsByPriority.Pairwise
      (fun X Y => X.Priority ≤ Y.Priority) := by
    rw [BrainS2_catalogue]
    simp
  ⟨rfl, hSorted,
    UpdateCandidates_first_group WorldS2 BrainS2 0 rfl hSorted
      ⟨0, { ActionTag := ⟨["A"]⟩, Priority := 0, Weight := 1 }, rfl, rfl, by decide!⟩
      BrainS2_first,
    by decide!, by decide!, by decide!⟩

/-- C2 (code defect): in the state reached from scenario S2 by one update made while `A`
was disabled, `B` (priority 1) runs with live score 10.  The next update scores `A`
(priority 0), stops before `B`, and re-injects `CurrentActionResult`: the candidate list
holds entries of priority 0 and 1, and the action continued is `B`, although the group of
priority 0 produced a candidate. -/
theorem Update_candidates_mixed_priority :
    IsActionInProgress BrainS2RunningB = true ∧
    BrainS2RunningB.CurrentActionResult
      = { ActionDefIndex := 1, Context := { Self := 0 }, Score := 10 } ∧
    UpdateCandidates WorldS2 { BrainS2RunningB with bQueuedForUpdate := false, CandidateActions := [] }
      = [{ ActionDefIndex := 0, Context := { Self := 0 }, Score := 1 },
         { ActionDefIndex := 1, Context := { Self := 0 }, Score := 10 }] ∧
    ¬ CandidatesSamePriority BrainS2RunningB
      (UpdateCandidates WorldS2
        { BrainS2RunningB with bQueuedForUpdate := false, CandidateActions := [] }) ∧
    (Update WorldS2 SimpleSort BrainS2RunningB).CandidateActions.map
      (fun C => (TArray.At BrainS2RunningB.CombinedActionsByPriority C.ActionDefIndex).Priority)
      = [1, 0] ∧
    (Update WorldS2 SimpleSort BrainS2RunningB).CurrentActionResult.ActionDefIndex = 1 ∧
    (Update WorldS2 SimpleSort BrainS2RunningB).ActionCalls
      = [FActionCall.PerformAction 7 { Self := 0 } [] none,
         FActionCall.ContinueAction 7 { Self := 0 } []] := by
  have hc : UpdateCandidates WorldS2
      { BrainS2RunningB with bQueuedForUpdate := false, CandidateActions := [] }
      = [{ ActionDefIndex := 0, Context := { Self := 0 }, Score := 1 },
         { ActionDefIndex := 1, Context := { Self := 0 }, Score := 10 }] := by decide!
  refine ⟨by decide!, by decide!, hc, ?_, by decide!, by decide!, by decide!⟩
  rw [hc]
  intro h
  have h01 := h _ (List.mem_cons_self _ _) _ (List.mem_cons_of_mem _ (List.mem_cons_self _ _))
  revert h01
  decide!

/-- The predicate of `ChooseActionFromCandidates` is a strict weak ordering. -/
theorem ScoreGreater_isSortPredicate : IsSortPredicate ScoreGreater := by
  constructor
  · intro a b h
    simp only [ScoreGreater, decide_eq_true_eq, decide_eq_false_iff_not, gt_iff_lt, not_lt] at *
    exact le_of_lt h
  · intro a b c h
    simp only [ScoreGreater, decide_eq_true_eq, gt_iff_lt] at *
    rcases lt_or_le b.Score a.Score with h1 | h1
    · exact Or.inl h1
    · exact Or.inr (lt_of_lt_of_le h h1)

/-- After the sort the first entry of a non-empty candidate array is one of the
candidates, no candidate scores more, and the array is in descending order of score. -/
theorem sorted_candidates_head (SortFn : TArraySort FSussActionScoringResult)
    (hSort : IsTArraySort SortFn) (Candidates : List FSussActionScoringResult)
    (hNe : Candidates ≠ []) :
    TArray.At (SortFn ScoreGreater Candidates) 0 ∈ Candidates ∧
    (∀ C ∈ Candidates, C.Score ≤ (TArray.At (SortFn ScoreGreater Candidates) 0).Score) ∧
    (SortFn ScoreGreater Candidates).Pairwise (fun X Y => Y.Score ≤ X.Score) ∧
    (SortFn ScoreGreater Candidates).Perm Candidates := by
  obtain ⟨hperm, hsorted⟩ := hSort ScoreGreater Candidates ScoreGreater_isSortPredicate
  have hdesc : (SortFn ScoreGreater Candidates).Pairwise (fun X Y => Y.Score ≤ X.Score) := by
    refine List.Pairwise.imp ?_ hsorted
    intro X Y h
    simpa [ScoreGreater] using h
  cases hS : SortFn ScoreGreater Candidates with
  | nil =>
    rw [hS] at hperm
    exact absurd hperm.symm.eq_nil hNe
  | cons Best rest =>
    rw [hS] at hperm hdesc
    have hAt : TArray.At (Best :: rest) 0 = Best := by simp [TArray.At]
    rw [hAt]
    refine ⟨hperm.subset (List.mem_cons_self _ _), ?_, hdesc, hperm⟩
    intro C hC
    rcases List.mem_cons.1 (hperm.symm.subset hC) with h | h
    · rw [h]
    · exact (List.pairwise_cons.1 hdesc).1 C h

/-- C11: with the method `HighestScoring` and a non-empty candidate list,
`ChooseActionFromCandidates` passes to `ChooseAction` one of the candidates, and no
candidate of the list has a greater score. -/
theorem ChooseActionFromCandidates_highestScoring (W : World)
    (SortFn : TArraySort FSussActionScoringResult) (B : USussBrainComponent)
    (hSort : IsTArraySort SortFn) (hNe : B.CandidateActions ≠ [])
    (hMethod : (CandidateChoice B (SortFn ScoreGreater B.CandidateActions)).1
      = ESussActionChoiceMethod.HighestScoring) :
    ∃ Best ∈ B.CandidateActions,
      (∀ C ∈ B.CandidateActions, C.Score ≤ Best.Score) ∧
      ChooseActionFromCandidates W SortFn B
        = ChooseAction W { B with CandidateActions := SortFn ScoreGreater B.CandidateActions }
            Best := by
  obtain ⟨hmem, hmax, _, _⟩ := sorted_candidates_head SortFn hSort B.CandidateActions hNe
  refine ⟨_, hmem, hmax, ?_⟩
  have hE : B.CandidateActions.isEmpty = false := by
    cases h : B.CandidateActions with
    | nil => exact absurd h hNe
    | cons _ _ => rfl
  unfold CandidateChoice at hMethod
  unfold ChooseActionFromCandidates
  simp only [hE, Bool.false_eq_true, if_false]
  have hM : (GetActionChoiceMethod
      { B with CandidateActions := SortFn ScoreGreater B.CandidateActions }
      (TArray.At B.CombinedActionsByPriority
        (TArray.At (SortFn ScoreGreater B.CandidateActions) 0).ActionDefIndex).Priority).1
      = ESussActionChoiceMethod.HighestScoring := hMethod
  simp only [hM, if_true]

/-- Witness for C11: the candidates of scenario S6 under `HighestScoring`; the candidate
passed on is the one of action 0 with score 10. -/
theorem ChooseActionFromCandidates_highestScoring_witness :
    IsTArraySort (SimpleSort : TArraySort FSussActionScoringResult) ∧
    BrainS6Highest.CandidateActions ≠ [] ∧
    (CandidateChoice BrainS6Highest (SimpleSort ScoreGreater BrainS6Highest.CandidateActions)).1
      = ESussActionChoiceMethod.HighestScoring ∧
    (∃ Best ∈ BrainS6Highest.CandidateActions,
      (∀ C ∈ BrainS6Highest.CandidateActions, C.Score ≤ Best.Score) ∧
      ChooseActionFromCandidates WorldS2 SimpleSort BrainS6Highest
        = ChooseAction WorldS2
            { BrainS6Highest with
              CandidateActions := SimpleSort ScoreGreater BrainS6Highest.CandidateActions }
            Best) ∧
    (ChooseActionFromCandidates WorldS2 SimpleSort BrainS6Highest).CurrentActionResult
      = CandidateOf 0 10 :=
  ⟨SimpleSort_isTArraySort, by decide, by decide!,
    ChooseActionFromCandidates_highestScoring WorldS2 SimpleSort BrainS6Highest
      SimpleSort_isTArraySort (by decide) (by decide!),
    by decide!⟩


/-- On an array in descending order of score the first loop of the weighted choice under
`WeightedRandomTopNPercent` counts and sums exactly the candidates that reach the limit,
and these are the leading entries of the array. -/
theorem WeightedChoiceTotals_percent (TopN : Int) (ScoreLimit : ℚ) :
    ∀ (L : List FSussActionScoringResult) (i : Nat) (Acc : ℚ × Nat),
    L.Pairwise (fun X Y => Y.Score ≤ X.Score) →
    WeightedChoiceTotals ESussActionChoiceMethod.WeightedRandomTopNPercent TopN ScoreLimit i L Acc
      = (Acc.1 + TotalScore (L.filter (fun C => decide (ScoreLimit ≤ C.Score))),
         Acc.2 + (L.filter (fun C => decide (ScoreLimit ≤ C.Score))).length) ∧
    L.take (L.filter (fun C => decide (ScoreLimit ≤ C.Score))).length
      = L.filter (fun C => decide (ScoreLimit ≤ C.Score))
  | [], i, Acc, _ => by simp [WeightedChoiceTotals, TotalScore]
  | X :: rest, i, Acc, hdesc => by
    have hd := List.pairwise_cons.1 hdesc
    by_cases hX : X.Score < ScoreLimit
    · have hnil : (X :: rest).filter (fun C => decide (ScoreLimit ≤ C.Score)) = [] := by
        rw [List.filter_eq_nil_iff]
        intro C hC
        simp only [decide_eq_true_eq, not_le]
        rcases List.mem_cons.1 hC with h | h
        · rw [h]; exact hX
        · exact lt_of_le_of_lt (hd.1 C h) hX
      rw [hnil]
      simp [WeightedChoiceTotals, hX, TotalScore]
    · obtain ⟨ih1, ih2⟩ := WeightedChoiceTotals_percent TopN ScoreLimit rest (i + 1)
        (Acc.1 + X.Score, Acc.2 + 1) hd.2
      have hX2 : ScoreLimit ≤ X.Score := not_lt.1 hX
      have hcons : (X :: rest).filter (fun C => decide (ScoreLimit ≤ C.Score))
          = X :: rest.filter (fun C => decide (ScoreLimit ≤ C.Score)) := by
        simp [List.filter_cons, hX2]
      rw [hcons]
      refine ⟨?_, by simp [ih2]⟩
      simp only [WeightedChoiceTotals, hX, and_false, if_false]
      rw [if_neg (by simp), ih1]
      simp [TotalScore, add_assoc, Nat.add_assoc, Nat.add_comm 1]

/-- With a weighted-random method `ChooseActionFromCandidates` passes to `ChooseAction`
the candidate found by the second loop, if any. -/
theorem ChooseActionFromCandidates_weighted (W : World)
    (SortFn : TArraySort FSussActionScoringResult) (B : USussBrainComponent)
    (hNe : B.CandidateActions ≠ [])
    (hMethod : (CandidateChoice B (SortFn ScoreGreater B.CandidateActions)).1
      ≠ ESussActionChoiceMethod.HighestScoring) :
    ChooseActionFromCandidates W SortFn B
      = (match WeightedPick
            (W.RandRange 0 (WeightedTotals B (SortFn ScoreGreater B.CandidateActions)).1)
            (WeightedTotals B (SortFn ScoreGreater B.CandidateActions)).2
            (SortFn ScoreGreater B.CandidateActions) 0 with
         | some Candidate =>
           ChooseAction W
             { B with CandidateActions := SortFn ScoreGreater B.CandidateActions } Candidate
         | none => { B with CandidateActions := SortFn ScoreGreater B.CandidateActions }) := by
  have hE : B.CandidateActions.isEmpty = false := by
    cases h : B.CandidateActions with
    | nil => exact absurd h hNe
    | cons _ _ => rfl
  unfold ChooseActionFromCandidates
  simp only [hE, Bool.false_eq_true, if_false]
  have hM : (GetActionChoiceMethod
      { B with CandidateActions := SortFn ScoreGreater B.CandidateActions }
      (TArray.At B.CombinedActionsByPriority
        (TArray.At (SortFn ScoreGreater B.CandidateActions) 0).ActionDefIndex).Priority).1
      ≠ ESussActionChoiceMethod.HighestScoring := hMethod
  rw [if_neg hM]
  rfl

/-- C12: with the method `WeightedRandomTopNPercent` and a non-empty candidate list, the
candidates the weighted pick chooses among (the first `ChoiceCount` entries of the sorted
array) are exactly the candidates whose score is at least `best - best * (N / 100)`,
where `best` is the greatest candidate score, and `TotalScores` is the sum of their
scores. -/
theorem ChooseActionFromCandidates_percent_eligible (W : World)
    (SortFn : TArraySort FSussActionScoringResult) (B : USussBrainComponent)
    (hSort : IsTArraySort SortFn) (hNe : B.CandidateActions ≠ [])
    (hMethod : (CandidateChoice B (SortFn ScoreGreater B.CandidateActions)).1
      = ESussActionChoiceMethod.WeightedRandomTopNPercent) :
    ∃ (Best : FSussActionScoringResult) (Eligible : List FSussActionScoringResult),
      Best ∈ B.CandidateActions ∧ (∀ C ∈ B.CandidateActions, C.Score ≤ Best.Score) ∧
      Eligible.Perm (B.CandidateActions.filter (fun C => decide
        (PercentScoreLimit Best.Score
          (CandidateChoice B (SortFn ScoreGreater B.CandidateActions)).2 ≤ C.Score))) ∧
      WeightedTotals B (SortFn ScoreGreater B.CandidateActions)
        = (TotalScore Eligible, Eligible.length) ∧
      (SortFn ScoreGreater B.CandidateActions).take Eligible.length = Eligible ∧
      ChooseActionFromCandidates W SortFn B
        = (match WeightedPick (W.RandRange 0 (TotalScore Eligible)) Eligible.length
              (SortFn ScoreGreater B.CandidateActions) 0 with
           | some Candidate =>
             ChooseAction W
               { B with CandidateActions := SortFn ScoreGreater B.CandidateActions } Candidate
           | none => { B with CandidateActions := SortFn ScoreGreater B.CandidateActions }) := by
  obtain ⟨hmem, hmax, hdesc, hperm⟩ :=
    sorted_candidates_head SortFn hSort B.CandidateActions hNe
  obtain ⟨htot, htake⟩ := WeightedChoiceTotals_percent
    (CandidateChoice B (SortFn ScoreGreater B.CandidateActions)).2
    (PercentScoreLimit (TArray.At (SortFn ScoreGreater B.CandidateActions) 0).Score
      (CandidateChoice B (SortFn ScoreGreater B.CandidateActions)).2)
    (SortFn ScoreGreater B.CandidateActions) 0 (0, 0) hdesc
  have hW : WeightedTotals B (SortFn ScoreGreater B.CandidateActions)
      = (TotalScore ((SortFn ScoreGreater B.CandidateActions).filter (fun C => decide
          (PercentScoreLimit (TArray.At (SortFn ScoreGreater B.CandidateActions) 0).Score
            (CandidateChoice B (SortFn ScoreGreater B.CandidateActions)).2 ≤ C.Score))),
         ((SortFn ScoreGreater B.CandidateActions).filter (fun C => decide
          (PercentScoreLimit (TArray.At (SortFn ScoreGreater B.CandidateActions) 0).Score
            (CandidateChoice B (SortFn ScoreGreater B.CandidateActions)).2 ≤ C.Score))).length) := by
    unfold WeightedTotals
    rw [hMethod, if_pos rfl, htot]
    simp
  refine ⟨_, _, hmem, hmax, hperm.filter _, hW, htake, ?_⟩
  rw [ChooseActionFromCandidates_weighted W SortFn B hNe (by rw [hMethod]; simp), hW]


/-- Witness for C12, scenario S6: scores 10, 9, 5, 1 with `TopN` = 20 give the eligible
candidates with scores 10 and 9, and the total 19. -/
theorem ChooseActionFromCandidates_percent_eligible_witness :
    IsTArraySort (SimpleSort : TArraySort FSussActionScoringResult) ∧
    BrainS6.CandidateActions ≠ [] ∧
    (CandidateChoice BrainS6 (SimpleSort ScoreGreater BrainS6.CandidateActions))
      = (ESussActionChoiceMethod.WeightedRandomTopNPercent, 20) ∧
    (∃ (Best : FSussActionScoringResult) (Eligible : List FSussActionScoringResult),
      Best ∈ BrainS6.CandidateActions ∧ (∀ C ∈ BrainS6.CandidateActions, C.Score ≤ Best.Score) ∧
      Eligible.Perm (BrainS6.CandidateActions.filter (fun C => decide
        (PercentScoreLimit Best.Score
          (CandidateChoice BrainS6 (SimpleSort ScoreGreater BrainS6.CandidateActions)).2
            ≤ C.Score))) ∧
      WeightedTotals BrainS6 (SimpleSort ScoreGreater BrainS6.CandidateActions)
        = (TotalScore Eligible, Eligible.length) ∧
      (SimpleSort ScoreGreater BrainS6.CandidateActions).take Eligible.length = Eligible ∧
      ChooseActionFromCandidates WorldS2 SimpleSort BrainS6
        = (match WeightedPick (WorldS2.RandRange 0 (TotalScore Eligible)) Eligible.length
              (SimpleSort ScoreGreater BrainS6.CandidateActions) 0 with
           | some Candidate =>
             ChooseAction WorldS2
               { BrainS6 with
                 CandidateActions := SimpleSort ScoreGreater BrainS6.CandidateActions } Candidate
           | none =>
             { BrainS6 with
               CandidateActions := SimpleSort ScoreGreater BrainS6.CandidateActions })) ∧
    SimpleSort ScoreGreater BrainS6.CandidateActions
      = [CandidateOf 0 10, CandidateOf 1 9, CandidateOf 2 5, CandidateOf 3 1] ∧
    PercentScoreLimit 10 20 = 8 ∧
    WeightedTotals BrainS6 (SimpleSort ScoreGreater BrainS6.CandidateActions) = (19, 2) :=
  ⟨SimpleSort_isTArraySort, by decide, by decide!,
    ChooseActionFromCandidates_percent_eligible WorldS2 SimpleSort BrainS6
      SimpleSort_isTArraySort (by decide) (by decide!),
    by decide!, by decide!, by decide!⟩

/-- The accumulated score does not decrease while the scores are positive. -/
theorem PrefixScore_mono (L : List FSussActionScoringResult) (k : Nat)
    (hpos : ∀ C ∈ L.take k, 0 < C.Score) :
    ∀ (n m : Nat), n ≤ m → m ≤ k → PrefixScore L n ≤ PrefixScore L m := by
  intro n m hnm hmk
  induction m with
  | zero =>
    have : n = 0 := by omega
    rw [this]
  | succ m ih =>
    rcases Nat.eq_or_lt_of_le hnm with h | h
    · rw [h]
    · refine le_trans (ih (by omega) (by omega)) ?_
      unfold PrefixScore
      by_cases hm : m < L.length
      · rw [List.take_succ, List.getElem?_eq_getElem hm]
        have hmem : L[m] ∈ L.take k := by
          rw [List.mem_take_iff_getElem]
          exact ⟨m, by omega, rfl⟩
        have := hpos _ hmem
        simp only [Option.toList_some, List.map_append, List.sum_append, List.map_cons,
          List.map_nil, List.sum_cons, List.sum_nil]
        linarith
      · rw [List.take_of_length_le (by omega), List.take_of_length_le (by omega)]

/-- The second loop of the weighted choice from an accumulated score `Acc` at most the
draw: the candidate returned is the first at which the accumulated score exceeds the
draw. -/
theorem WeightedPick_first_exceeding (Rand : ℚ) :
    ∀ (k : Nat) (L : List FSussActionScoringResult) (Acc : ℚ),
    k ≤ L.length → Acc ≤ Rand → Rand < Acc + PrefixScore L k →
    ∃ i, i < k ∧ WeightedPick Rand k L Acc = L[i]? ∧
      Acc + PrefixScore L i ≤ Rand ∧ Rand < Acc + PrefixScore L (i + 1)
  | 0, L, Acc, _, h1, h2 => by
    simp [PrefixScore] at h2
    linarith
  | k + 1, [], Acc, hk, _, _ => by simp at hk
  | k + 1, X :: rest, Acc, hk, h1, h2 => by
    by_cases hX : Rand < Acc + X.Score
    · refine ⟨0, by omega, by simp [WeightedPick, hX], by simpa [PrefixScore] using h1, ?_⟩
      simpa [PrefixScore] using hX
    · have hk2 : k ≤ rest.length := by simpa using hk
      have h3 : Rand < Acc + X.Score + PrefixScore rest k := by
        have : PrefixScore (X :: rest) (k + 1) = X.Score + PrefixScore rest k := by
          simp [PrefixScore]
        rw [this] at h2
        linarith
      obtain ⟨i, hi, hpick, hlo, hhi⟩ :=
        WeightedPick_first_exceeding Rand k rest (Acc + X.Score) hk2 (not_lt.1 hX) h3
      refine ⟨i + 1, by omega, by simp [WeightedPick, hX, hpick], ?_, ?_⟩
      · have : PrefixScore (X :: rest) (i + 1) = X.Score + PrefixScore rest i := by
          simp [PrefixScore]
        rw [this]
        linarith
      · have : PrefixScore (X :: rest) (i + 1 + 1) = X.Score + PrefixScore rest (i + 1) := by
          simp [PrefixScore]
        rw [this]
        linarith

/-- C13: for `k` eligible candidates with positive scores and a draw `r` with
`0 <= r < total`, the weighted pick returns the candidate at the unique index `i` with
`s_0 + .. + s_(i-1) <= r < s_0 + .. + s_i`. -/
theorem WeightedPick_unique_index (Rand : ℚ) (k : Nat) (L : List FSussActionScoringResult)
    (hk : k ≤ L.length) (hpos : ∀ C ∈ L.take k, 0 < C.Score)
    (h0 : 0 ≤ Rand) (hlt : Rand < PrefixScore L k) :
    ∃ i, i < k ∧ WeightedPick Rand k L 0 = L[i]? ∧
      PrefixScore L i ≤ Rand ∧ Rand < PrefixScore L (i + 1) ∧
      ∀ j, j < k → PrefixScore L j ≤ Rand → Rand < PrefixScore L (j + 1) → j = i := by
  obtain ⟨i, hi, hpick, hlo, hhi⟩ :=
    WeightedPick_first_exceeding Rand k L 0 hk h0 (by simpa using hlt)
  rw [zero_add] at hlo hhi
  refine ⟨i, hi, hpick, hlo, hhi, ?_⟩
  intro j hj hjlo hjhi
  by_contra hne
  rcases Nat.lt_or_gt_of_ne hne with h | h
  · have := PrefixScore_mono L k hpos (j + 1) i (by omega) (by omega)
    linarith
  · have := PrefixScore_mono L k hpos (i + 1) j (by omega) (by omega)
    linarith

/-- Witness for C13, scenario S6: among the eligible scores 10 and 9 the draw 12 picks
the candidate with score 9, and the candidate with score 10 is picked exactly for the
draws below 10. -/
theorem WeightedPick_unique_index_witness :
    (∃ i, i < 2 ∧
      WeightedPick 12 2 [CandidateOf 0 10, CandidateOf 1 9, CandidateOf 2 5, CandidateOf 3 1] 0
        = [CandidateOf 0 10, CandidateOf 1 9, CandidateOf 2 5, CandidateOf 3 1][i]? ∧
      PrefixScore [CandidateOf 0 10, CandidateOf 1 9, CandidateOf 2 5, CandidateOf 3 1] i ≤ 12 ∧
      (12 : ℚ) < PrefixScore [CandidateOf 0 10, CandidateOf 1 9, CandidateOf 2 5, CandidateOf 3 1]
        (i + 1) ∧
      ∀ j, j < 2 →
        PrefixScore [CandidateOf 0 10, CandidateOf 1 9, CandidateOf 2 5, CandidateOf 3 1] j ≤ 12 →
        (12 : ℚ) < PrefixScore [CandidateOf 0 10, CandidateOf 1 9, CandidateOf 2 5, CandidateOf 3 1]
          (j + 1) → j = i) ∧
    WeightedPick 12 2 [CandidateOf 0 10, CandidateOf 1 9, CandidateOf 2 5, CandidateOf 3 1] 0
      = some (CandidateOf 1 9) ∧
    (∀ r : ℚ, 0 ≤ r → r < 19 →
      (WeightedPick r 2 [CandidateOf 0 10, CandidateOf 1 9, CandidateOf 2 5, CandidateOf 3 1] 0
        = some (CandidateOf 0 10) ↔ r < 10)) :=
  ⟨WeightedPick_unique_index 12 2
      [CandidateOf 0 10, CandidateOf 1 9, CandidateOf 2 5, CandidateOf 3 1]
      (by decide) (by decide!) (by decide!) (by decide!),
    by decide!,
    by
      intro r _ h19
      have h10 : (CandidateOf 0 10).Score = 10 := rfl
      have h9 : (CandidateOf 1 9).Score = 9 := rfl
      have hne : CandidateOf 1 9 ≠ CandidateOf 0 10 := by decide!
      by_cases hr : r < 10
      · simp [WeightedPick, h10, hr]
      · have hr2 : r < 10 + 9 := by linarith
        simp [WeightedPick, h10, h9, hr, hr2, hne]⟩

/-- Reading the entry that `TArray.Modify` wrote, at a valid index. -/
theorem TArray.At_Modify {α : Type} [Inhabited α] (l : List α) (Index : Int) (f : α → α)
    (h0 : 0 ≤ Index) (h1 : Index.toNat < l.length) :
    TArray.At (TArray.Modify l Index f) Index = f (TArray.At l Index) := by
  simp [TArray.At, TArray.Modify, h0, List.getD_eq_getElem?_getD, h1]

/-- C14: `ChooseAction` on a candidate that matches the running action and context sets
the live score to the candidate's score and calls `ContinueAction` on the current
instance; the instance, the index and context of `CurrentActionResult`, the history and
everything else are unchanged. -/
theorem ChooseAction_continue (W : World) (B : USussBrainComponent)
    (ActionResult : FSussActionScoringResult)
    (hProgress : IsActionInProgress B = true)
    (hSame : IsActionSameAsCurrent B ActionResult.ActionDefIndex ActionResult.Context = true) :
    ∃ Instance, B.CurrentActionInstance = some Instance ∧
      ChooseAction W B ActionResult
        = { B with
            CurrentActionResult := { B.CurrentActionResult with Score := ActionResult.Score }
            ActionCalls := B.ActionCalls ++ [FActionCall.ContinueAction Instance.Class
              ActionResult.Context
              (TArray.At B.CombinedActionsByPriority ActionResult.ActionDefIndex).ActionParams] } ∧
      (ChooseAction W B ActionResult).CurrentActionResult.Score = ActionResult.Score ∧
      (ChooseAction W B ActionResult).CurrentActionResult.ActionDefIndex
        = B.CurrentActionResult.ActionDefIndex ∧
      (ChooseAction W B ActionResult).CurrentActionResult.Context
        = B.CurrentActionResult.Context ∧
      (ChooseAction W B ActionResult).CurrentActionInstance = some Instance ∧
      (ChooseAction W B ActionResult).ActionHistory = B.ActionHistory := by
  obtain ⟨Instance, hI⟩ : ∃ Instance, B.CurrentActionInstance = some Instance := by
    unfold IsActionInProgress at hProgress
    exact Option.isSome_iff_exists.1 hProgress
  · have hEq : ChooseAction W B ActionResult
        = { B with
            CurrentActionResult := { B.CurrentActionResult with Score := ActionResult.Score }
            ActionCalls := B.ActionCalls ++ [FActionCall.ContinueAction Instance.Class
              ActionResult.Context
              (TArray.At B.CombinedActionsByPriority ActionResult.ActionDefIndex).ActionParams] } := by
      simp only [ChooseAction, hI, hSame, if_true]
    refine ⟨Instance, hI, hEq, ?_, ?_, ?_, ?_, ?_⟩ <;> rw [hEq]
    exact hI

/-- Witness for C14: scenario S5 while the action runs with live score 5, and a
candidate for the same action and context with score 1/5. -/
theorem ChooseAction_continue_witness :
    IsActionInProgress BrainS5Running = true ∧
    IsActionSameAsCurrent BrainS5Running (CandidateOf 0 (1 / 5)).ActionDefIndex
      (CandidateOf 0 (1 / 5)).Context = true ∧
    (∃ Instance, BrainS5Running.CurrentActionInstance = some Instance ∧
      ChooseAction WorldS5 BrainS5Running (CandidateOf 0 (1 / 5))
        = { BrainS5Running with
            CurrentActionResult :=
              { BrainS5Running.CurrentActionResult with Score := (CandidateOf 0 (1 / 5)).Score }
            ActionCalls := BrainS5Running.ActionCalls ++ [FActionCall.ContinueAction Instance.Class
              (CandidateOf 0 (1 / 5)).Context
              (TArray.At BrainS5Running.CombinedActionsByPriority
                (CandidateOf 0 (1 / 5)).ActionDefIndex).ActionParams] } ∧
      (ChooseAction WorldS5 BrainS5Running (CandidateOf 0 (1 / 5))).CurrentActionResult.Score
        = (CandidateOf 0 (1 / 5)).Score ∧
      (ChooseAction WorldS5 BrainS5Running (CandidateOf 0 (1 / 5))).CurrentActionResult.ActionDefIndex
        = BrainS5Running.CurrentActionResult.ActionDefIndex ∧
      (ChooseAction WorldS5 BrainS5Running (CandidateOf 0 (1 / 5))).CurrentActionResult.Context
        = BrainS5Running.CurrentActionResult.Context ∧
      (ChooseAction WorldS5 BrainS5Running (CandidateOf 0 (1 / 5))).CurrentActionInstance
        = some Instance ∧
      (ChooseAction WorldS5 BrainS5Running (CandidateOf 0 (1 / 5))).ActionHistory
        = BrainS5Running.ActionHistory) ∧
    BrainS5Running.CurrentActionResult.Score = 5 ∧
    (ChooseAction WorldS5 BrainS5Running (CandidateOf 0 (1 / 5))).CurrentActionResult.Score
      = 1 / 5 :=
  ⟨by decide!, by decide!,
    ChooseAction_continue WorldS5 BrainS5Running (CandidateOf 0 (1 / 5)) (by decide!) (by decide!),
    by decide!, by decide!⟩


/-- C16 (code defect): a candidate whose action tag has no registered action class.  In
scenario S1 with no class registered, `Update` chooses `A`; afterwards no action is in
progress, but `CurrentActionResult` still names action 0 with score 1 + 2, whereas
`RecordAndResetCurrentAction` leaves index -1 and score 0. -/
theorem ChooseAction_no_class_keeps_result :
    WorldNoClass.GetActionClass
      (TArray.At BrainS1.CombinedActionsByPriority (CandidateOf 0 1).ActionDefIndex).ActionTag
      = none ∧
    UpdateCandidates WorldNoClass BrainS1 = [CandidateOf 0 1] ∧
    IsActionInProgress (ChooseAction WorldNoClass BrainS1 (CandidateOf 0 1)) = false ∧
    (ChooseAction WorldNoClass BrainS1 (CandidateOf 0 1)).CurrentActionResult = CandidateOf 0 3 ∧
    IsActionInProgress (Update WorldNoClass SimpleSort BrainS1) = false ∧
    (Update WorldNoClass SimpleSort BrainS1).CurrentActionResult.ActionDefIndex = 0 ∧
    (Update WorldNoClass SimpleSort BrainS1).CurrentActionResult.Score = 3 ∧
    (RecordAndResetCurrentAction WorldNoClass
      (Update WorldS1 SimpleSort BrainS1)).CurrentActionResult.ActionDefIndex = -1 ∧
    (RecordAndResetCurrentAction WorldNoClass
      (Update WorldS1 SimpleSort BrainS1)).CurrentActionResult.Score = 0 := by
  refine ⟨by decide!, by decide!, by decide!, by decide!, by decide!, by decide!, by decide!,
    by decide!, by decide!⟩


/-- C17 (as stated) fails: when the action of scenario S1 completes while a tag that
prevents updates is present, the end is recorded and the slot cleared, but the brain is
not queued for update: `QueueBrainUpdate` is not called and only
`bWasPreventedFromUpdating` is set. -/
theorem OnActionCompleted_not_queued_when_prevented :
    BrainS1Running.CurrentActionInstance
      = some { Class := 7, CurrentContext := some { Self := 0 }, BrainActionIndex := 0 } ∧
    BrainS1Running.bQueuedForUpdate = false ∧
    IsUpdatePrevented WorldS1Prevented BrainS1Running = true ∧
    IsActionInProgress (OnActionCompleted WorldS1Prevented BrainS1Running
      { Class := 7, CurrentContext := some { Self := 0 }, BrainActionIndex := 0 }) = false ∧
    (OnActionCompleted WorldS1Prevented BrainS1Running
      { Class := 7, CurrentContext := some { Self := 0 }, BrainActionIndex := 0 }).ActionHistory
      = [{ LastStartTime := 4, LastEndTime := 9, LastRunScore := 1,
           LastContext := some { Self := 0 }, RepetitionPenalty := 1 / 2 }] ∧
    (OnActionCompleted WorldS1Prevented BrainS1Running
      { Class := 7, CurrentContext := some { Self := 0 }, BrainActionIndex := 0 }).bQueuedForUpdate
      = false ∧
    (OnActionCompleted WorldS1Prevented BrainS1Running
      { Class := 7, CurrentContext := some { Self := 0 },
        BrainActionIndex := 0 }).QueueBrainUpdateCalls = 0 ∧
    (OnActionCompleted WorldS1Prevented BrainS1Running
      { Class := 7, CurrentContext := some { Self := 0 },
        BrainActionIndex := 0 }).bWasPreventedFromUpdating = true := by
  refine ⟨by decide!, by decide!, by decide!, by decide!, by decide!, by decide!, by decide!,
    by decide!⟩

/-- C17 (amended): `OnActionCompleted` called with the current action instance records
the end time and adds the definition's `RepetitionPenalty` in the history entry of the
current index, leaves no action in progress with `ActionDefIndex` -1 and `Score` 0, and
calls `QueueForUpdate`, which queues the brain when it is not queued yet, updates are
not prevented and the world subsystem exists; called with any other instance, or with no
action in progress, it changes nothing. -/
theorem OnActionCompleted_records_and_requests_update (W : World) (B : USussBrainComponent)
    (SussAction : USussAction) :
    (∀ Instance, B.CurrentActionInstance = some Instance →
      Instance.Address = SussAction.Address →
      OnActionCompleted W B SussAction = QueueForUpdate W (RecordAndResetCurrentAction W B) ∧
      (OnActionCompleted W B SussAction).ActionHistory
        = TArray.Modify B.ActionHistory B.CurrentActionResult.ActionDefIndex (fun History =>
            { History with
              LastEndTime := W.TimeSeconds
              RepetitionPenalty := History.RepetitionPenalty
                + (TArray.At B.CombinedActionsByPriority
                    B.CurrentActionResult.ActionDefIndex).RepetitionPenalty }) ∧
      (0 ≤ B.CurrentActionResult.ActionDefIndex →
        B.CurrentActionResult.ActionDefIndex.toNat < B.ActionHistory.length →
        (TArray.At (OnActionCompleted W B SussAction).ActionHistory
            B.CurrentActionResult.ActionDefIndex).LastEndTime = W.TimeSeconds ∧
        (TArray.At (OnActionCompleted W B SussAction).ActionHistory
            B.CurrentActionResult.ActionDefIndex).RepetitionPenalty
          = (TArray.At B.ActionHistory B.CurrentActionResult.ActionDefIndex).RepetitionPenalty
            + (TArray.At B.CombinedActionsByPriority
                B.CurrentActionResult.ActionDefIndex).RepetitionPenalty) ∧
      IsActionInProgress (OnActionCompleted W B SussAction) = false ∧
      (OnActionCompleted W B SussAction).CurrentActionResult.ActionDefIndex = -1 ∧
      (OnActionCompleted W B SussAction).CurrentActionResult.Score = 0 ∧
      (IsUpdatePrevented W B = false → W.HasWorldSubsystem = true →
        (OnActionCompleted W B SussAction).bQueuedForUpdate = true) ∧
      (B.bQueuedForUpdate = false → IsUpdatePrevented W B = false →
        W.HasWorldSubsystem = true →
        (OnActionCompleted W B SussAction).QueueBrainUpdateCalls
          = B.QueueBrainUpdateCalls + 1)) ∧
    ((∀ Instance, B.CurrentActionInstance = some Instance →
        Instance.Address ≠ SussAction.Address) →
      OnActionCompleted W B SussAction = B) := by
  constructor
  · intro Instance hI hAddr
    have hEq : OnActionCompleted W B SussAction
        = QueueForUpdate W (RecordAndResetCurrentAction W B) := by
      simp only [OnActionCompleted, hI, hAddr, if_true]
    have hPrev : IsUpdatePrevented W (RecordAndResetCurrentAction W B)
        = IsUpdatePrevented W B := rfl
    have hQ : ∀ X : USussBrainComponent,
        (QueueForUpdate W X).ActionHistory = X.ActionHistory ∧
        (QueueForUpdate W X).CurrentActionInstance = X.CurrentActionInstance ∧
        (QueueForUpdate W X).CurrentActionResult = X.CurrentActionResult := by
      intro X
      unfold QueueForUpdate
      split
      · split
        · exact ⟨rfl, rfl, rfl⟩
        · split <;> exact ⟨rfl, rfl, rfl⟩
      · exact ⟨rfl, rfl, rfl⟩
    have hHist : (OnActionCompleted W B SussAction).ActionHistory
        = TArray.Modify B.ActionHistory B.CurrentActionResult.ActionDefIndex (fun History =>
            { History with
              LastEndTime := W.TimeSeconds
              RepetitionPenalty := History.RepetitionPenalty
                + (TArray.At B.CombinedActionsByPriority
                    B.CurrentActionResult.ActionDefIndex).RepetitionPenalty }) := by
      rw [hEq, (hQ _).1]
      rfl
    refine ⟨hEq, hHist, ?_, ?_, ?_, ?_, ?_, ?_⟩
    · intro h0 h1
      rw [hHist, TArray.At_Modify _ _ _ h0 h1]
      exact ⟨rfl, rfl⟩
    · rw [hEq]
      unfold IsActionInProgress
      rw [(hQ _).2.1]
      rfl
    · rw [hEq, (hQ _).2.2]
      rfl
    · rw [hEq, (hQ _).2.2]
      rfl
    · intro hNP hSS
      rw [hEq]
      unfold QueueForUpdate
      rw [hPrev, hNP, hSS]
      by_cases hq : B.bQueuedForUpdate = true
      · have : (RecordAndResetCurrentAction W B).bQueuedForUpdate = true := hq
        simp [this]
      · have : (RecordAndResetCurrentAction W B).bQueuedForUpdate = false := by
          simpa using hq
        simp [this]
    · intro hq hNP hSS
      rw [hEq]
      unfold QueueForUpdate
      have : (RecordAndResetCurrentAction W B).bQueuedForUpdate = false := hq
      rw [hPrev, hNP, hSS, this]
      rfl
  · intro hOther
    unfold OnActionCompleted
    cases hI : B.CurrentActionInstance with
    | none => rfl
    | some Instance =>
      simp only [hOther Instance hI, if_false]

/-- Witness for C17 (amended): the action of scenario S1 completes at time 9 with nothing
preventing updates, and a completion signalled by another instance (address 5) is
ignored. -/
theorem OnActionCompleted_records_and_requests_update_witness :
    BrainS1Running.CurrentActionInstance
      = some { Class := 7, CurrentContext := some { Self := 0 }, BrainActionIndex := 0 } ∧
    (OnActionCompleted WorldS1Later BrainS1Running { Address := 0 }).ActionHistory
      = TArray.Modify BrainS1Running.ActionHistory
          BrainS1Running.CurrentActionResult.ActionDefIndex (fun History =>
            { History with
              LastEndTime := WorldS1Later.TimeSeconds
              RepetitionPenalty := History.RepetitionPenalty
                + (TArray.At BrainS1Running.CombinedActionsByPriority
                    BrainS1Running.CurrentActionResult.ActionDefIndex).RepetitionPenalty }) ∧
    (OnActionCompleted WorldS1Later BrainS1Running { Address := 0 }).ActionHistory
      = [{ LastStartTime := 4, LastEndTime := 9, LastRunScore := 1,
           LastContext := some { Self := 0 }, RepetitionPenalty := 1 / 2 }] ∧
    (OnActionCompleted WorldS1Later BrainS1Running { Address := 0 }).bQueuedForUpdate = true ∧
    (OnActionCompleted WorldS1Later BrainS1Running { Address := 0 }).QueueBrainUpdateCalls = 1 ∧
    OnActionCompleted WorldS1Later BrainS1Running { Address := 5 } = BrainS1Running :=
  ⟨by decide!,
    ((OnActionCompleted_records_and_requests_update WorldS1Later BrainS1Running
      { Address := 0 }).1
      { Class := 7, CurrentContext := some { Self := 0 }, BrainActionIndex := 0 }
      (by decide!) rfl).2.1,
    by decide!, by decide!, by decide!,
    (OnActionCompleted_records_and_requests_update WorldS1Later BrainS1Running
      { Address := 5 }).2 (by
        intro Instance hI
        have h : Instance
            = { Class := 7, CurrentContext := some { Self := 0 }, BrainActionIndex := 0 } := by
          have h2 : BrainS1Running.CurrentActionInstance
              = some { Class := 7, CurrentContext := some { Self := 0 },
                       BrainActionIndex := 0 } := by decide!
          rw [hI] at h2
          exact Option.some.inj h2
        rw [h]
        decide)⟩

/-- While the current instance cannot be interrupted, `Update` only clears
`bQueuedForUpdate`. -/
theorem Update_of_not_interruptible (W : World) (SortFn : TArraySort FSussActionScoringResult)
    (B : USussBrainComponent) (Instance : USussAction)
    (hI : B.CurrentActionInstance = some Instance) (hNo : Instance.CanBeInterrupted = false) :
    Update W SortFn B = { B with bQueuedForUpdate := false } := by
  unfold Update
  simp only [hI, hNo, Bool.not_false, if_true]
  split
  · rfl
  · split
    · rfl
    · split <;> rfl

/-- C18: any number of updates, in whatever worlds, made while the current instance
reports `CanBeInterrupted() = false` leave the same instance current and leave
`CurrentActionResult`, `ActionHistory` and the catalogue unchanged; no call is made on
any action instance. -/
theorem Update_keeps_non_interruptible_action (SortFn : TArraySort FSussActionScoringResult)
    (Instance : USussAction) (hNo : Instance.CanBeInterrupted = false) :
    ∀ (Worlds : List World) (B : USussBrainComponent),
    B.CurrentActionInstance = some Instance →
    (UpdateRepeatedly SortFn B Worlds).CurrentActionInstance = some Instance ∧
    (UpdateRepeatedly SortFn B Worlds).CurrentActionResult = B.CurrentActionResult ∧
    (UpdateRepeatedly SortFn B Worlds).ActionHistory = B.ActionHistory ∧
    (UpdateRepeatedly SortFn B Worlds).CombinedActionsByPriority = B.CombinedActionsByPriority ∧
    (UpdateRepeatedly SortFn B Worlds).ActionCalls = B.ActionCalls
  | [], B, hI => ⟨hI, rfl, rfl, rfl, rfl⟩
  | W :: rest, B, hI => by
    have hstep := Update_of_not_interruptible W SortFn B Instance hI hNo
    have ih := Update_keeps_non_interruptible_action SortFn Instance hNo rest
      (Update W SortFn B) (by rw [hstep]; exact hI)
    simp only [UpdateRepeatedly, List.foldl_cons] at ih ⊢
    rw [hstep] at ih ⊢
    exact ih

/-- Witness for C18: in scenario S2 `A` runs in an instance that cannot be interrupted;
three further updates, in worlds where `B` would win, change nothing. -/
theorem Update_keeps_non_interruptible_action_witness :
    USussAction.CanBeInterrupted
      { Class := 7, bAllowInterruptions := false, CurrentContext := some { Self := 0 },
        BrainActionIndex := 0 } = false ∧
    BrainS2Busy.CurrentActionInstance
      = some { Class := 7, bAllowInterruptions := false, CurrentContext := some { Self := 0 },
               BrainActionIndex := 0 } ∧
    (UpdateRepeatedly SimpleSort BrainS2Busy
        [WorldS2Disabled, WorldS2, WorldS2Disabled]).CurrentActionInstance
      = some { Class := 7, bAllowInterruptions := false, CurrentContext := some { Self := 0 },
               BrainActionIndex := 0 } ∧
    (UpdateRepeatedly SimpleSort BrainS2Busy
        [WorldS2Disabled, WorldS2, WorldS2Disabled]).CurrentActionResult
      = BrainS2Busy.CurrentActionResult ∧
    (UpdateRepeatedly SimpleSort BrainS2Busy
        [WorldS2Disabled, WorldS2, WorldS2Disabled]).ActionHistory = BrainS2Busy.ActionHistory ∧
    (UpdateRepeatedly SimpleSort BrainS2Busy
        [WorldS2Disabled, WorldS2, WorldS2Disabled]).CombinedActionsByPriority
      = BrainS2Busy.CombinedActionsByPriority ∧
    (UpdateRepeatedly SimpleSort BrainS2Busy
        [WorldS2Disabled, WorldS2, WorldS2Disabled]).ActionCalls = BrainS2Busy.ActionCalls :=
  ⟨rfl, by decide!,
    Update_keeps_non_interruptible_action SimpleSort
      { Class := 7, bAllowInterruptions := false, CurrentContext := some { Self := 0 },
        BrainActionIndex := 0 } rfl [WorldS2Disabled, WorldS2, WorldS2Disabled] BrainS2Busy
      (by decide!)⟩


/-- A map with unique keys contains each of its entries. -/
theorem TMap.Find_of_mem {V : Type} : ∀ (M : TMap FName V),
    (M.map Prod.fst).Nodup → ∀ KV ∈ M, TMap.Find M KV.1 = some KV.2
  | [], _, KV, h => by simp at h
  | X :: rest, hN, KV, h => by
    have hN2 := List.nodup_cons.1 (by simpa using hN : (X.1 :: rest.map Prod.fst).Nodup)
    rcases List.mem_cons.1 h with h | h
    · subst h
      simp [TMap.Find]
    · have hne : X.1 ≠ KV.1 := by
        intro heq
        apply hN2.1
        rw [heq]
        exact List.mem_map_of_mem Prod.fst h
      have ih := TMap.Find_of_mem rest hN2.2 KV h
      simp only [TMap.Find] at ih ⊢
      simp [List.find?_cons, hne, ih]

/-- The running action in its own context is the same as the current action, provided
the keys of its named values are unique. -/
theorem IsActionSameAsCurrent_self (B : USussBrainComponent)
    (hProgress : IsActionInProgress B = true)
    (hKeys : (B.CurrentActionResult.Context.NamedValues.map Prod.fst).Nodup) :
    IsActionSameAsCurrent B B.CurrentActionResult.ActionDefIndex B.CurrentActionResult.Context
      = true := by
  unfold IsActionSameAsCurrent
  have hd : FVector.DistSquared B.CurrentActionResult.Context.Location
      B.CurrentActionResult.Context.Location = 0 := by
    simp [FVector.DistSquared]
  have hall : (B.CurrentActionResult.Context.NamedValues.all (fun KV =>
      match TMap.Find B.CurrentActionResult.Context.NamedValues KV.1 with
      | some Val => decide (KV.2 = Val)
      | none => false)) = true := by
    rw [List.all_eq_true]
    intro KV hKV
    rw [TMap.Find_of_mem _ hKeys KV hKV]
    simp
  rw [List.all_eq_true] at hall
  simp only [hProgress, decide_True, Bool.and_self, if_true, ne_eq, not_true_eq_false,
    if_false, hd, LocationToleranceSq]
  rw [if_neg (by norm_num)]
  rw [List.all_eq_true]
  exact hall

/-- Every candidate the context loop leaves was there before or belongs to action `i`. -/
theorem ScoreContexts_mem (W : World) (B : USussBrainComponent) (i : Nat)
    (NextAction : FSussActionDef) : ∀ (Contexts : List FSussContext) (S : FUpdateScoring),
    ∀ C ∈ (ScoreContexts W B i NextAction Contexts S).CandidateActions,
      C ∈ S.CandidateActions ∨ C.ActionDefIndex = (i : Int)
  | [], S, C, hC => Or.inl (by simpa [ScoreContexts] using hC)
  | Ctx :: rest, S, C, hC => by
    unfold ScoreContexts at hC
    simp only at hC
    split at hC
    · rcases ScoreContexts_mem W B i NextAction rest _ C hC with h | h
      · rcases List.mem_append.1 h with h | h
        · exact Or.inl h
        · right
          rw [List.mem_singleton.1 h]
      · exact Or.inr h
    · exact ScoreContexts_mem W B i NextAction rest S C hC

/-- The second loop of the weighted choice returns an entry of the array. -/
theorem WeightedPick_mem (Rand : ℚ) : ∀ (k : Nat) (L : List FSussActionScoringResult) (Acc : ℚ)
    (C : FSussActionScoringResult), WeightedPick Rand k L Acc = some C → C ∈ L
  | 0, L, Acc, C, h => by simp [WeightedPick] at h
  | k + 1, [], Acc, C, h => by simp [WeightedPick] at h
  | k + 1, X :: rest, Acc, C, h => by
    unfold WeightedPick at h
    simp only at h
    split at h
    · rw [← Option.some.inj h]
      exact List.mem_cons_self _ _
    · exact List.mem_cons_of_mem _ (WeightedPick_mem Rand k rest _ C h)

/-- What `ChooseActionFromCandidates` does: nothing, or it sorts the candidates, or it
also passes one of them to `ChooseAction`. -/
theorem ChooseActionFromCandidates_cases (W : World)
    (SortFn : TArraySort FSussActionScoringResult) (hSort : IsTArraySort SortFn)
    (B : USussBrainComponent) :
    ChooseActionFromCandidates W SortFn B = B ∨
    ChooseActionFromCandidates W SortFn B
      = { B with CandidateActions := SortFn ScoreGreater B.CandidateActions } ∨
    ∃ C ∈ B.CandidateActions, ChooseActionFromCandidates W SortFn B
      = ChooseAction W { B with CandidateActions := SortFn ScoreGreater B.CandidateActions } C := by
  by_cases hNe : B.CandidateActions = []
  · left
    simp [ChooseActionFromCandidates, hNe]
  · obtain ⟨hmem, _, _, hperm⟩ := sorted_candidates_head SortFn hSort B.CandidateActions hNe
    by_cases hM : (CandidateChoice B (SortFn ScoreGreater B.CandidateActions)).1
        = ESussActionChoiceMethod.HighestScoring
    · right; right
      refine ⟨_, hmem, ?_⟩
      have hE : B.CandidateActions.isEmpty = false := by
        cases h : B.CandidateActions with
        | nil => exact absurd h hNe
        | cons _ _ => rfl
      unfold CandidateChoice at hM
      unfold ChooseActionFromCandidates
      simp only [hE, Bool.false_eq_true, if_false]
      have hM2 : (GetActionChoiceMethod
          { B with CandidateActions := SortFn ScoreGreater B.CandidateActions }
          (TArray.At B.CombinedActionsByPriority
            (TArray.At (SortFn ScoreGreater B.CandidateActions) 0).ActionDefIndex).Priority).1
          = ESussActionChoiceMethod.HighestScoring := hM
      simp only [hM2, if_true]
    · rw [ChooseActionFromCandidates_weighted W SortFn B hNe hM]
      cases hP : WeightedPick
          (W.RandRange 0 (WeightedTotals B (SortFn ScoreGreater B.CandidateActions)).1)
          (WeightedTotals B (SortFn ScoreGreater B.CandidateActions)).2
          (SortFn ScoreGreater B.CandidateActions) 0 with
      | none => right; left; rfl
      | some C =>
        right; right
        exact ⟨C, hperm.subset (WeightedPick_mem _ _ _ _ _ hP), rfl⟩


/-- With a current instance that allows interruptions from higher priority groups only,
the first `break` of the loop is taken exactly at an action whose priority is not
strictly less than the current action's. -/
theorem IsBlockedByCurrentAction_of_only (B : USussBrainComponent) (Instance : USussAction)
    (hI : B.CurrentActionInstance = some Instance)
    (hOnly : Instance.AllowInterruptionsFromHigherPriorityGroupsOnly = true)
    (D : FSussActionDef) :
    IsBlockedByCurrentAction B D = decide (CurrentPriorityOf B ≤ D.Priority) := by
  simp [IsBlockedByCurrentAction, hI, hOnly, CurrentPriorityOf]

/-- The catalogue loop does not go beyond the leading actions of strictly smaller
priority than the current action. -/
theorem UpdateLoop_higher_priority_leading (W : World) (B : USussBrainComponent)
    (Instance : USussAction) (hI : B.CurrentActionInstance = some Instance)
    (hOnly : Instance.AllowInterruptionsFromHigherPriorityGroupsOnly = true) :
    ∀ (L : List FSussActionDef) (i : Nat) (S : FUpdateScoring),
    UpdateLoop W B i L S
      = UpdateLoop W B i (L.takeWhile (fun D => decide (D.Priority < CurrentPriorityOf B))) S
  | [], i, S => rfl
  | D :: rest, i, S => by
    have hB := IsBlockedByCurrentAction_of_only B Instance hI hOnly D
    by_cases hD : D.Priority < CurrentPriorityOf B
    · have hnb : IsBlockedByCurrentAction B D = false := by
        rw [hB]
        simpa using hD
      rw [List.takeWhile_cons_of_pos (by simpa using hD)]
      unfold UpdateLoop
      simp only [hnb, Bool.false_eq_true, if_false]
      split
      · rfl
      · exact UpdateLoop_higher_priority_leading W B Instance hI hOnly rest (i + 1) _
    · have hb : IsBlockedByCurrentAction B D = true := by
        rw [hB]
        simpa using hD
      rw [List.takeWhile_cons_of_neg (by simpa using hD)]
      simp [UpdateLoop, hb]

/-- Every candidate the catalogue loop collects belongs to an action of strictly smaller
priority than the current action. -/
theorem UpdateLoop_candidates_higher_priority (W : World) (B : USussBrainComponent)
    (Instance : USussAction) (hI : B.CurrentActionInstance = some Instance)
    (hOnly : Instance.AllowInterruptionsFromHigherPriorityGroupsOnly = true) :
    ∀ (L : List FSussActionDef) (i : Nat) (S : FUpdateScoring),
    (∀ j D, L[j]? = some D → B.CombinedActionsByPriority[i + j]? = some D) →
    (∀ C ∈ S.CandidateActions,
      (TArray.At B.CombinedActionsByPriority C.ActionDefIndex).Priority < CurrentPriorityOf B) →
    ∀ C ∈ (UpdateLoop W B i L S).CandidateActions,
      (TArray.At B.CombinedActionsByPriority C.ActionDefIndex).Priority < CurrentPriorityOf B
  | [], i, S, _, hS => by simpa [UpdateLoop] using hS
  | D :: rest, i, S, hL, hS => by
    have hB := IsBlockedByCurrentAction_of_only B Instance hI hOnly D
    unfold UpdateLoop
    split
    · exact hS
    · rename_i hnb
      split
      · exact hS
      · have hD : D.Priority < CurrentPriorityOf B := by
          rw [hB] at hnb
          simpa using hnb
        have hAt : TArray.At B.CombinedActionsByPriority (i : Int) = D := by
          have := hL 0 D (by simp)
          simp only [Nat.add_zero] at this
          simp [TArray.At, List.getD_eq_getElem?_getD, this]
        apply UpdateLoop_candidates_higher_priority W B Instance hI hOnly rest (i + 1)
        · intro j X hj
          have := hL (j + 1) X (by simpa using hj)
          rwa [show i + 1 + j = i + (j + 1) by omega]
        · intro C hC
          have hmem : C ∈ S.CandidateActions ∨ C.ActionDefIndex = (i : Int) := by
            unfold ScoreAction at hC
            split at hC
            · split at hC
              · exact Or.inl hC
              · exact Or.inl hC
            · rcases ScoreContexts_mem W B i D _ _ C hC with h | h
              · left
                split at h
                · exact h
                · exact h
              · exact Or.inr h
          rcases hmem with h | h
          · exact hS C h
          · rw [h, hAt]
            exact hD

/-- What `ChooseAction` leaves in the current-action slot: on a candidate that matches
the running action and context the instance and the index are unchanged, otherwise the
index is the candidate's. -/
theorem ChooseAction_index (W : World) (B : USussBrainComponent)
    (C : FSussActionScoringResult) :
    (IsActionSameAsCurrent B C.ActionDefIndex C.Context = true →
      (ChooseAction W B C).CurrentActionInstance = B.CurrentActionInstance ∧
      (ChooseAction W B C).CurrentActionResult.ActionDefIndex
        = B.CurrentActionResult.ActionDefIndex) ∧
    (IsActionSameAsCurrent B C.ActionDefIndex C.Context = false →
      (ChooseAction W B C).CurrentActionResult.ActionDefIndex = C.ActionDefIndex) := by
  constructor
  · intro hSame
    have hP : IsActionInProgress B = true := by
      by_contra h
      rw [IsActionSameAsCurrent_of_none B _ _ (by simpa using h)] at hSame
      exact absurd hSame (by simp)
    obtain ⟨Instance, hI⟩ : ∃ Instance, B.CurrentActionInstance = some Instance :=
      Option.isSome_iff_exists.1 hP
    simp only [ChooseAction, hI, hSame, if_true]
    exact ⟨trivial, trivial⟩
  · intro hNot
    have hStart : ChooseAction W B C = StartNewAction W B C := by
      unfold ChooseAction
      cases hI : B.CurrentActionInstance with
      | none => rfl
      | some Instance => simp only [hNot, Bool.false_eq_true, if_false]
    rw [hStart]
    unfold StartNewAction
    simp only
    split <;> rfl


/-- What `Update` does: it clears `bQueuedForUpdate` and returns, or goes on to collect
the candidates and hand them to `ChooseActionFromCandidates`. -/
theorem Update_cases (W : World) (SortFn : TArraySort FSussActionScoringResult)
    (B : USussBrainComponent) :
    Update W SortFn B = { B with bQueuedForUpdate := false } ∨
    Update W SortFn B
      = ChooseActionFromCandidates W SortFn
          { UpdateEntry B with CandidateActions := UpdateCandidates W (UpdateEntry B) } := by
  unfold Update
  simp only
  split
  · exact Or.inl rfl
  · split
    · exact Or.inl rfl
    · split
      · exact Or.inl rfl
      · split
        · exact Or.inl rfl
        · exact Or.inr rfl

/-- C19: when the current instance allows interruptions from higher priority groups
only, the loop of `Update` visits only the leading catalogue actions whose `Priority` is
strictly less than the current action's, so every scored candidate has a strictly smaller
priority; after `Update` either the current instance and index are unchanged, or the
action now in the current-action slot has a strictly smaller priority than the one it
replaced.  The named values of the current context have unique keys, as in every `TMap`. -/
theorem Update_higher_priority_only (W : World) (SortFn : TArraySort FSussActionScoringResult)
    (B : USussBrainComponent) (Instance : USussAction) (hSort : IsTArraySort SortFn)
    (hI : B.CurrentActionInstance = some Instance)
    (hOnly : Instance.AllowInterruptionsFromHigherPriorityGroupsOnly = true)
    (hKeys : (B.CurrentActionResult.Context.NamedValues.map Prod.fst).Nodup) :
    UpdateScoring W B
      = UpdateLoop W B 0
          (B.CombinedActionsByPriority.takeWhile
            (fun D => decide (D.Priority < CurrentPriorityOf B)))
          { CurrentPriority := (TArray.At B.CombinedActionsByPriority 0).Priority } ∧
    (∀ C ∈ (UpdateScoring W B).CandidateActions,
      (TArray.At B.CombinedActionsByPriority C.ActionDefIndex).Priority < CurrentPriorityOf B) ∧
    (((Update W SortFn B).CurrentActionInstance = B.CurrentActionInstance ∧
        (Update W SortFn B).CurrentActionResult.ActionDefIndex
          = B.CurrentActionResult.ActionDefIndex) ∨
      (TArray.At B.CombinedActionsByPriority
          (Update W SortFn B).CurrentActionResult.ActionDefIndex).Priority
        < CurrentPriorityOf B) := by
  have hScored : ∀ X : USussBrainComponent, X.CurrentActionInstance = some Instance →
      X.CombinedActionsByPriority = B.CombinedActionsByPriority →
      X.CurrentActionResult = B.CurrentActionResult →
      ∀ C ∈ (UpdateScoring W X).CandidateActions,
        (TArray.At B.CombinedActionsByPriority C.ActionDefIndex).Priority
          < CurrentPriorityOf B := by
    intro X hXI hXC hXR C hC
    have hP : CurrentPriorityOf X = CurrentPriorityOf B := by
      unfold CurrentPriorityOf
      rw [hXC, hXR]
    have := UpdateLoop_candidates_higher_priority W X Instance hXI hOnly
      X.CombinedActionsByPriority 0
      { CurrentPriority := (TArray.At X.CombinedActionsByPriority 0).Priority }
      (by intro j D hj; simpa using hj) (by intro C hC; simp at hC) C hC
    rw [hXC, hP] at this
    exact this
  refine ⟨UpdateLoop_higher_priority_leading W B Instance hI hOnly _ 0 _,
    hScored B hI rfl rfl, ?_⟩
  rcases Update_cases W SortFn B with hU | hU
  · rw [hU]
    exact Or.inl ⟨rfl, rfl⟩
  · rw [hU]
    have hB0I : (UpdateEntry B).CurrentActionInstance = some Instance := hI
    have hB0P : IsActionInProgress (UpdateEntry B) = true := by
      simp [IsActionInProgress, hB0I]
    have hSelf : IsActionSameAsCurrent (UpdateEntry B)
        (UpdateEntry B).CurrentActionResult.ActionDefIndex
        (UpdateEntry B).CurrentActionResult.Context = true :=
      IsActionSameAsCurrent_self (UpdateEntry B) hB0P hKeys
    rcases ChooseActionFromCandidates_cases W SortFn hSort
      { UpdateEntry B with CandidateActions := UpdateCandidates W (UpdateEntry B) }
      with h | h | ⟨C, hC, h⟩
    · rw [h]
      exact Or.inl ⟨rfl, rfl⟩
    · rw [h]
      exact Or.inl ⟨rfl, rfl⟩
    · rw [h]
      have hCmem : C ∈ UpdateCandidates W (UpdateEntry B) := hC
      obtain ⟨hsame, hnot⟩ := ChooseAction_index W
        { UpdateEntry B with
          CandidateActions := SortFn ScoreGreater (UpdateCandidates W (UpdateEntry B)) } C
      have hSameEq : IsActionSameAsCurrent
          { UpdateEntry B with
            CandidateActions := SortFn ScoreGreater (UpdateCandidates W (UpdateEntry B)) }
          C.ActionDefIndex C.Context
          = IsActionSameAsCurrent (UpdateEntry B) C.ActionDefIndex C.Context := rfl
      by_cases hS : IsActionSameAsCurrent (UpdateEntry B) C.ActionDefIndex C.Context = true
      · left
        have := hsame (by rw [hSameEq]; exact hS)
        exact ⟨this.1, this.2⟩
      · right
        have hS2 : IsActionSameAsCurrent (UpdateEntry B) C.ActionDefIndex C.Context = false := by
          simpa using hS
        have hidx := hnot (by rw [hSameEq]; exact hS2)
        have hCs : C ∈ (UpdateScoring W (UpdateEntry B)).CandidateActions := by
          unfold UpdateCandidates at hCmem
          simp only at hCmem
          split at hCmem
          · rcases List.mem_append.1 hCmem with h1 | h1
            · exact h1
            · have hCeq := List.mem_singleton.1 h1
              rw [hCeq, hSelf] at hS2
              exact absurd hS2 (by simp)
          · exact hCmem
        have := hScored (UpdateEntry B) hB0I rfl rfl C hCs
        rw [← hidx] at this
        exact this


/-- Witness for C19: `B` (priority 1) runs in an instance that allows interruptions from
higher priority groups only; the next update scores `A` (priority 0) alone, neither `C`
(priority 1, weight 30) nor `D` (priority 2, weight 99), and replaces `B` by `A`. -/
theorem Update_higher_priority_only_witness :
    IsTArraySort (SimpleSort : TArraySort FSussActionScoringResult) ∧
    BrainGuarded.CurrentActionInstance
      = some { Class := 7, bAllowInterruptionsFromHigherPriorityGroupsOnly := true,
               CurrentContext := some { Self := 0 }, BrainActionIndex := 1 } ∧
    (BrainGuarded.CurrentActionResult.Context.NamedValues.map Prod.fst).Nodup ∧
    CurrentPriorityOf BrainGuarded = 1 ∧
    (UpdateScoring WorldGuarded BrainGuarded
        = UpdateLoop WorldGuarded BrainGuarded 0
            (BrainGuarded.CombinedActionsByPriority.takeWhile
              (fun D => decide (D.Priority < CurrentPriorityOf BrainGuarded)))
            { CurrentPriority := (TArray.At BrainGuarded.CombinedActionsByPriority 0).Priority } ∧
      (∀ C ∈ (UpdateScoring WorldGuarded BrainGuarded).CandidateActions,
        (TArray.At BrainGuarded.CombinedActionsByPriority C.ActionDefIndex).Priority
          < CurrentPriorityOf BrainGuarded) ∧
      (((Update WorldGuarded SimpleSort BrainGuarded).CurrentActionInstance
            = BrainGuarded.CurrentActionInstance ∧
          (Update WorldGuarded SimpleSort BrainGuarded).CurrentActionResult.ActionDefIndex
            = BrainGuarded.CurrentActionResult.ActionDefIndex) ∨
        (TArray.At BrainGuarded.CombinedActionsByPriority
            (Update WorldGuarded SimpleSort BrainGuarded).CurrentActionResult.ActionDefIndex).Priority
          < CurrentPriorityOf BrainGuarded)) ∧
    BrainGuarded.CombinedActionsByPriority.map (fun D => (D.ActionTag.Path, D.Priority))
      = [(["A"], 0), (["B"], 1), (["C"], 1), (["D"], 2)] ∧
    (UpdateScoring WorldGuarded BrainGuarded).CandidateActions = [CandidateOf 0 20] ∧
    (Update WorldGuarded SimpleSort BrainGuarded).CurrentActionResult = CandidateOf 0 20 ∧
    (Update WorldGuarded SimpleSort BrainGuarded).ActionCalls
      = [FActionCall.PerformAction 7 { Self := 0 } [] none,
         FActionCall.CancelAction 7 none,
         FActionCall.PerformAction 7 { Self := 0 } [] (some 7)] :=
  ⟨SimpleSort_isTArraySort, by decide!, by decide!, by decide!,
    Update_higher_priority_only WorldGuarded SimpleSort BrainGuarded
      { Class := 7, bAllowInterruptionsFromHigherPriorityGroupsOnly := true,
        CurrentContext := some { Self := 0 }, BrainActionIndex := 1 }
      SimpleSort_isTArraySort (by decide!) rfl (by decide!),
    by decide!, by decide!, by decide!, by decide!⟩

/-- C20: `UpdateActionScoreAdjustments(dt)` with an action in progress and live score
`s > 0` leaves the live score `max(s - LastRunScore * dt / ScoreCooldownTime, 0)` when
the definition's `ScoreCooldownTime` is positive, and 0 when it is 0; with no action in
progress, or `s <= 0`, the live score is unchanged.  The index and the context of
`CurrentActionResult` and the catalogue are never changed. -/
theorem UpdateActionScoreAdjustments_live_score (B : USussBrainComponent) (DeltaTime : ℚ) :
    (IsActionInProgress B = true → B.CurrentActionResult.Score > 0 →
      (TArray.At B.CombinedActionsByPriority
        B.CurrentActionResult.ActionDefIndex).ScoreCooldownTime > 0 →
      (UpdateActionScoreAdjustments B DeltaTime).CurrentActionResult.Score
        = max (B.CurrentActionResult.Score
            - (TArray.At B.ActionHistory B.CurrentActionResult.ActionDefIndex).LastRunScore
              * DeltaTime
              / (TArray.At B.CombinedActionsByPriority
                  B.CurrentActionResult.ActionDefIndex).ScoreCooldownTime) 0) ∧
    (IsActionInProgress B = true → B.CurrentActionResult.Score > 0 →
      (TArray.At B.CombinedActionsByPriority
        B.CurrentActionResult.ActionDefIndex).ScoreCooldownTime = 0 →
      (UpdateActionScoreAdjustments B DeltaTime).CurrentActionResult.Score = 0) ∧
    (IsActionInProgress B = false ∨ B.CurrentActionResult.Score ≤ 0 →
      (UpdateActionScoreAdjustments B DeltaTime).CurrentActionResult.Score
        = B.CurrentActionResult.Score) ∧
    (UpdateActionScoreAdjustments B DeltaTime).CurrentActionResult.ActionDefIndex
      = B.CurrentActionResult.ActionDefIndex ∧
    (UpdateActionScoreAdjustments B DeltaTime).CurrentActionResult.Context
      = B.CurrentActionResult.Context ∧
    (UpdateActionScoreAdjustments B DeltaTime).CurrentActionInstance = B.CurrentActionInstance ∧
    (UpdateActionScoreAdjustments B DeltaTime).CombinedActionsByPriority
      = B.CombinedActionsByPriority := by
  have hS : (UpdateActionScoreAdjustments B DeltaTime).CurrentActionResult.Score
      = CooledCurrentScore B DeltaTime := rfl
  refine ⟨?_, ?_, ?_, rfl, rfl, rfl, rfl⟩
  · intro hP hs hc
    rw [hS]
    unfold CooledCurrentScore
    simp only [hP, hs, decide_True, Bool.and_self, if_true, hc, mul_div_assoc]
  · intro hP hs hc
    rw [hS]
    unfold CooledCurrentScore
    simp only [hP, hs, decide_True, Bool.and_self, if_true, hc, lt_irrefl, gt_iff_lt, if_false]
  · intro h
    rw [hS]
    unfold CooledCurrentScore
    rcases h with h | h
    · simp [h]
    · have : ¬ B.CurrentActionResult.Score > 0 := not_lt.2 h
      simp [this]

/-- Witness for C20: live score 5, `LastRunScore` 2, `ScoreCooldownTime` 10 and `dt` 1
give 5 - 2 * 1 / 10 = 24/5; the same state with `B` (cooldown 0) as the current action
gives 0; with no action in progress the score stays 5. -/
theorem UpdateActionScoreAdjustments_live_score_witness :
    IsActionInProgress BrainCooling = true ∧ BrainCooling.CurrentActionResult.Score > 0 ∧
    (TArray.At BrainCooling.CombinedActionsByPriority
      BrainCooling.CurrentActionResult.ActionDefIndex).ScoreCooldownTime > 0 ∧
    (UpdateActionScoreAdjustments BrainCooling 1).CurrentActionResult.Score
      = max (BrainCooling.CurrentActionResult.Score
          - (TArray.At BrainCooling.ActionHistory
              BrainCooling.CurrentActionResult.ActionDefIndex).LastRunScore * 1
            / (TArray.At BrainCooling.CombinedActionsByPriority
                BrainCooling.CurrentActionResult.ActionDefIndex).ScoreCooldownTime) 0 ∧
    (UpdateActionScoreAdjustments BrainCooling 1).CurrentActionResult.Score = 24 / 5 ∧
    (UpdateActionScoreAdjustments
      { BrainCooling with CurrentActionResult := CandidateOf 1 5 } 1).CurrentActionResult.Score
      = 0 ∧
    (UpdateActionScoreAdjustments
      { BrainCooling with CurrentActionInstance := none } 1).CurrentActionResult.Score = 5 :=
  ⟨by decide!, by decide!, by decide!,
    (UpdateActionScoreAdjustments_live_score BrainCooling 1).1 (by decide!) (by decide!)
      (by decide!),
    by decide!,
    (UpdateActionScoreAdjustments_live_score
      { BrainCooling with CurrentActionResult := CandidateOf 1 5 } 1).2.1 (by decide!)
      (by decide!) (by decide!),
    (UpdateActionScoreAdjustments_live_score
      { BrainCooling with CurrentActionInstance := none } 1).2.2.1 (Or.inl (by decide!))⟩

/-- The loop of `UpdateActionScoreAdjustments` changes entry `j` of the history by the
loop body for the action index of that entry. -/
theorem AdjustHistoryLoop_getElem? (B : USussBrainComponent) (DeltaTime : ℚ) :
    ∀ (l : List FSussActionHistory) (k j : Nat),
      (AdjustHistoryLoop B DeltaTime k l)[j]?
        = (l[j]?).map (AdjustHistoryEntry B DeltaTime (k + j))
  | [], _, _ => by simp [AdjustHistoryLoop]
  | H :: rest, k, 0 => by simp [AdjustHistoryLoop]
  | H :: rest, k, j + 1 => by
    simp only [AdjustHistoryLoop, List.getElem?_cons_succ]
    rw [AdjustHistoryLoop_getElem? B DeltaTime rest (k + 1) j]
    have : k + 1 + j = k + (j + 1) := by omega
    rw [this]

/-- The temporary adjustment that the loop body of `UpdateActionScoreAdjustments` leaves
in a history entry. -/
theorem AdjustHistoryEntry_TempScoreAdjust (B : USussBrainComponent) (DeltaTime : ℚ) (i : Nat)
    (H : FSussActionHistory) :
    (AdjustHistoryEntry B DeltaTime i H).TempScoreAdjust
      = if (!IsNearlyZero H.TempScoreAdjust && !IsNearlyZero H.TempScoreAdjustCooldownRate)
          = true then
          if H.TempScoreAdjust > 0 then
            max (H.TempScoreAdjust - H.TempScoreAdjustCooldownRate * DeltaTime) 0
          else min (H.TempScoreAdjust + H.TempScoreAdjustCooldownRate * DeltaTime) 0
        else H.TempScoreAdjust := by
  unfold AdjustHistoryEntry
  simp only
  split_ifs <;> rfl

/-- The repetition penalty that the loop body of `UpdateActionScoreAdjustments` leaves in
a history entry. -/
theorem AdjustHistoryEntry_RepetitionPenalty (B : USussBrainComponent) (DeltaTime : ℚ)
    (i : Nat) (H : FSussActionHistory) :
    (AdjustHistoryEntry B DeltaTime i H).RepetitionPenalty
      = if H.RepetitionPenalty > 0 then
          if (i : Int) ≠ B.CurrentActionResult.ActionDefIndex then
            if (TArray.At B.CombinedActionsByPriority i).RepetitionPenaltyCooldown > 0 then
              max (H.RepetitionPenalty
                - (TArray.At B.CombinedActionsByPriority i).RepetitionPenalty
                  * (DeltaTime / (TArray.At B.CombinedActionsByPriority i).RepetitionPenaltyCooldown))
                0
            else 0
          else H.RepetitionPenalty
        else H.RepetitionPenalty := by
  unfold AdjustHistoryEntry
  simp only
  split_ifs <;> rfl

/-- A positive temporary adjustment with a cooldown rate that is not negative does not
grow and does not fall below 0 in `UpdateActionScoreAdjustments`. -/
theorem AdjustHistoryEntry_positive_adjust_shrinks (B : USussBrainComponent) (DeltaTime : ℚ)
    (i : Nat) (H : FSussActionHistory) (hdt : 0 ≤ DeltaTime) (hT : 0 < H.TempScoreAdjust)
    (hR : 0 ≤ H.TempScoreAdjustCooldownRate) :
    0 ≤ (AdjustHistoryEntry B DeltaTime i H).TempScoreAdjust ∧
    (AdjustHistoryEntry B DeltaTime i H).TempScoreAdjust ≤ H.TempScoreAdjust := by
  rw [AdjustHistoryEntry_TempScoreAdjust]
  have hmul : 0 ≤ H.TempScoreAdjustCooldownRate * DeltaTime := mul_nonneg hR hdt
  split_ifs with h1
  · exact ⟨le_max_right _ _, max_le (by linarith) hT.le⟩
  · exact ⟨hT.le, le_refl _⟩

/-- C22: the temporary adjustment -2 installed with the cooldown time 4, by
`SetTemporaryActionScoreAdjustment` or by `AddTemporaryActionScoreAdjustment`, has the
cooldown rate -2 / 4 = -1/2; `UpdateActionScoreAdjustments(1)` adds the rate times the
time to the negative adjustment and leaves min(-2 + (-1/2) * 1, 0) = -5/2, whose magnitude
5/2 exceeds the magnitude 2 before the call.  The adjustment 2 installed the same way
goes to 3/2. -/
theorem UpdateActionScoreAdjustments_negative_adjust_grows :
    (TArray.At BrainNegativeAdjust.ActionHistory 0).TempScoreAdjust = -2 ∧
    (TArray.At BrainNegativeAdjust.ActionHistory 0).TempScoreAdjustCooldownRate = -1 / 2 ∧
    (TArray.At (UpdateActionScoreAdjustments BrainNegativeAdjust 1).ActionHistory 0).TempScoreAdjust
      = -5 / 2 ∧
    ¬ (|(TArray.At (UpdateActionScoreAdjustments BrainNegativeAdjust 1).ActionHistory
          0).TempScoreAdjust|
        ≤ |(TArray.At BrainNegativeAdjust.ActionHistory 0).TempScoreAdjust|) ∧
    (TArray.At BrainNegativeAdjustAdded.ActionHistory 0).TempScoreAdjust = -2 ∧
    (TArray.At (UpdateActionScoreAdjustments BrainNegativeAdjustAdded 1).ActionHistory
      0).TempScoreAdjust = -5 / 2 ∧
    (TArray.At (UpdateActionScoreAdjustments BrainPositiveAdjust 1).ActionHistory
      0).TempScoreAdjust = 3 / 2 := by
  refine ⟨by decide!, by decide!, by decide!, by decide!, by decide!, by decide!, by decide!⟩

/-- C23: `UpdateActionScoreAdjustments` never flips the sign of a temporary adjustment,
whatever the cooldown rate and the time: every history entry is still present after the
call, a positive `TempScoreAdjust` stays at or above 0, a negative one stays at or below
0, and an adjustment of 0 stays 0. -/
theorem UpdateActionScoreAdjustments_keeps_sign (B : USussBrainComponent) (DeltaTime : ℚ)
    (i : Nat) (H : FSussActionHistory) (hH : B.ActionHistory[i]? = some H) :
    ∃ H', (UpdateActionScoreAdjustments B DeltaTime).ActionHistory[i]? = some H' ∧
      (0 < H.TempScoreAdjust → 0 ≤ H'.TempScoreAdjust) ∧
      (H.TempScoreAdjust < 0 → H'.TempScoreAdjust ≤ 0) ∧
      (H.TempScoreAdjust = 0 → H'.TempScoreAdjust = 0) := by
  refine ⟨AdjustHistoryEntry B DeltaTime i H, ?_, ?_, ?_, ?_⟩
  · show (AdjustHistoryLoop B DeltaTime 0 B.ActionHistory)[i]? = _
    rw [AdjustHistoryLoop_getElem?, hH]
    simp
  · intro hpos
    rw [AdjustHistoryEntry_TempScoreAdjust]
    split_ifs with h1
    · exact le_max_right _ _
    · exact hpos.le
  · intro hneg
    rw [AdjustHistoryEntry_TempScoreAdjust]
    split_ifs with h1 h2
    · exact absurd h2 (not_lt.2 hneg.le)
    · exact min_le_right _ _
    · exact hneg.le
  · intro hz
    rw [AdjustHistoryEntry_TempScoreAdjust]
    have hN : IsNearlyZero H.TempScoreAdjust = true := by
      rw [hz]
      decide!
    rw [if_neg (by simp [hN]), hz]

/-- Witness for C23 on the brains of C22: the adjustment -2 with the rate -1/2 stays
negative (it goes to -5/2), and the adjustment 2 with the rate 1/2 stays positive after
the time 100, where it stops at 0. -/
theorem UpdateActionScoreAdjustments_keeps_sign_witness :
    BrainNegativeAdjust.ActionHistory[0]?
      = some { TempScoreAdjust := -2, TempScoreAdjustCooldownRate := -1 / 2 } ∧
    (∃ H', (UpdateActionScoreAdjustments BrainNegativeAdjust 1).ActionHistory[0]? = some H' ∧
      (0 < (-2 : ℚ) → 0 ≤ H'.TempScoreAdjust) ∧
      ((-2 : ℚ) < 0 → H'.TempScoreAdjust ≤ 0) ∧
      ((-2 : ℚ) = 0 → H'.TempScoreAdjust = 0)) ∧
    (TArray.At (UpdateActionScoreAdjustments BrainPositiveAdjust 100).ActionHistory
      0).TempScoreAdjust = 0 :=
  ⟨by decide!,
    UpdateActionScoreAdjustments_keeps_sign BrainNegativeAdjust 1 0
      { TempScoreAdjust := -2, TempScoreAdjustCooldownRate := -1 / 2 } (by decide!),
    by decide!⟩

/-- Writing through `Array[Index]` keeps the number of elements. -/
theorem TArray.Modify_length {α : Type} [Inhabited α] (l : List α) (Index : Int) (f : α → α) :
    (TArray.Modify l Index f).length = l.length := by
  unfold TArray.Modify
  split <;> simp

/-- Entry `i` of an array after a write through `Array[Index]`. -/
theorem TArray.Modify_getElem? {α : Type} [Inhabited α] (l : List α) (Index : Int) (f : α → α)
    (i : Nat) :
    (TArray.Modify l Index f)[i]? = (l[i]?).map (fun x => if Index = (i : Int) then f x else x) := by
  unfold TArray.Modify
  split
  · rename_i h0
    by_cases hi : Index = (i : Int)
    · have hn : Index.toNat = i := by omega
      rw [hn]
      by_cases hlt : i < l.length
      · rw [List.getElem?_set_self hlt, List.getElem?_eq_getElem hlt]
        simp [hi, List.getD_eq_getElem?_getD, List.getElem?_eq_getElem hlt]
      · rw [List.getElem?_eq_none (by simpa using hlt), List.getElem?_eq_none (by simpa using hlt)]
        rfl
    · have hn : Index.toNat ≠ i := by omega
      rw [List.getElem?_set_ne hn]
      cases l[i]? <;> simp [hi]
  · rename_i h0
    have hi : Index ≠ (i : Int) := by omega
    cases l[i]? <;> simp [hi]

/-- A brain agrees with itself outside the action slot. -/
theorem SameOutsideActionSlot_refl (B : USussBrainComponent) : SameOutsideActionSlot B B :=
  ⟨rfl, rfl, rfl, rfl, rfl, rfl, rfl, rfl, rfl, rfl, rfl, rfl⟩

/-- Agreement outside the action slot carries over two steps. -/
theorem SameOutsideActionSlot_trans {B X Y : USussBrainComponent}
    (h1 : SameOutsideActionSlot B X) (h2 : SameOutsideActionSlot X Y) :
    SameOutsideActionSlot B Y := by
  obtain ⟨a1, a2, a3, a4, a5, a6, a7, a8, a9, a10, a11, a12⟩ := h1
  obtain ⟨b1, b2, b3, b4, b5, b6, b7, b8, b9, b10, b11, b12⟩ := h2
  exact ⟨b1.trans a1, b2.trans a2, b3.trans a3, b4.trans a4, b5.trans a5, b6.trans a6,
    b7.trans a7, b8.trans a8, b9.trans a9, b10.trans a10, b11.trans a11, b12.trans a12⟩

/-- Function `RecordAndResetCurrentAction` writes the history entry and the action slot only. -/
theorem RecordAndResetCurrentAction_outside (W : World) (B : USussBrainComponent) :
    SameOutsideActionSlot B (RecordAndResetCurrentAction W B) := by
  refine ⟨rfl, rfl, rfl, rfl, rfl, ?_, rfl, rfl, rfl, rfl, rfl, rfl⟩
  simp only [RecordAndResetCurrentAction, TArray.Modify_length]

/-- Function `CancelCurrentAction` writes the history, the action slot and the calls only. -/
theorem CancelCurrentAction_outside (W : World) (B : USussBrainComponent)
    (Interrupter : Option FActionClass) :
    SameOutsideActionSlot B (CancelCurrentAction W B Interrupter) := by
  unfold CancelCurrentAction
  cases B.CurrentActionInstance with
  | none => exact SameOutsideActionSlot_refl B
  | some Instance => exact RecordAndResetCurrentAction_outside W _

/-- Function `StartNewAction` writes the history, the action slot and the calls only. -/
theorem StartNewAction_outside (W : World) (B : USussBrainComponent)
    (C : FSussActionScoringResult) : SameOutsideActionSlot B (StartNewAction W B C) := by
  have h := CancelCurrentAction_outside W B none
  obtain ⟨a1, a2, a3, a4, a5, a6, a7, a8, a9, a10, a11, a12⟩ := h
  unfold StartNewAction
  simp only
  split
  · refine ⟨a1, a2, a3, a4, a5, ?_, a7, a8, a9, a10, a11, a12⟩
    simp only [TArray.Modify_length]
    exact a6
  · exact ⟨a1, a2, a3, a4, a5, a6, a7, a8, a9, a10, a11, a12⟩

/-- Function `ChooseAction` writes the history, the action slot and the calls only. -/
theorem ChooseAction_outside (W : World) (B : USussBrainComponent)
    (C : FSussActionScoringResult) : SameOutsideActionSlot B (ChooseAction W B C) := by
  unfold ChooseAction
  simp only
  split
  · split
    · exact SameOutsideActionSlot_refl B
    · exact StartNewAction_outside W B C
  · exact StartNewAction_outside W B C

/-- What `ChooseActionFromCandidates` does, for any sort: nothing, or it sorts the
candidates, or it also passes some candidate to `ChooseAction`. -/
theorem ChooseActionFromCandidates_shape (W : World)
    (SortFn : TArraySort FSussActionScoringResult) (B : USussBrainComponent) :
    ChooseActionFromCandidates W SortFn B = B ∨
    ChooseActionFromCandidates W SortFn B
      = { B with CandidateActions := SortFn ScoreGreater B.CandidateActions } ∨
    ∃ C, ChooseActionFromCandidates W SortFn B
      = ChooseAction W { B with CandidateActions := SortFn ScoreGreater B.CandidateActions } C := by
  unfold ChooseActionFromCandidates
  simp only
  split
  · exact Or.inl rfl
  · split
    · exact Or.inr (Or.inr ⟨_, rfl⟩)
    · split
      · exact Or.inr (Or.inr ⟨_, rfl⟩)
      · exact Or.inr (Or.inl rfl)

/-- Function `ChooseActionFromCandidates` writes the candidates, the history, the action slot and
the calls only. -/
theorem ChooseActionFromCandidates_outside (W : World)
    (SortFn : TArraySort FSussActionScoringResult) (B : USussBrainComponent) :
    SameOutsideActionSlot B (ChooseActionFromCandidates W SortFn B) := by
  rcases ChooseActionFromCandidates_shape W SortFn B with h | h | ⟨C, h⟩
  · rw [h]; exact SameOutsideActionSlot_refl B
  · rw [h]; exact SameOutsideActionSlot_refl B
  · rw [h]
    have h2 := ChooseAction_outside W
      { B with CandidateActions := SortFn ScoreGreater B.CandidateActions } C
    exact h2

/-- Function `Update` clears `bQueuedForUpdate` and otherwise writes the candidates, the history,
the action slot and the calls only. -/
theorem Update_outside (W : World) (SortFn : TArraySort FSussActionScoringResult)
    (B : USussBrainComponent) :
    SameOutsideActionSlot { B with bQueuedForUpdate := false } (Update W SortFn B) := by
  rcases Update_cases W SortFn B with h | h
  · rw [h]; exact SameOutsideActionSlot_refl _
  · rw [h]
    have h2 := ChooseActionFromCandidates_outside W SortFn
      { UpdateEntry B with CandidateActions := UpdateCandidates W (UpdateEntry B) }
    exact h2

/-- A property that holds of the brain and is kept by every call of `Apply` holds after
the loop over the actions with a given tag. -/
theorem ForEachActionWithTag_induction (P : USussBrainComponent → Prop)
    (B : USussBrainComponent) (ActionTag : FGameplayTag)
    (Apply : USussBrainComponent → Int → USussBrainComponent)
    (h0 : P B) (hStep : ∀ (X : USussBrainComponent) (i : Int), P X → P (Apply X i)) :
    P (ForEachActionWithTag B ActionTag Apply) := by
  unfold ForEachActionWithTag
  have hAll : ∀ (l : List Nat) (X : USussBrainComponent), P X →
      P (l.foldl (fun X (i : Nat) =>
        if (TArray.At X.CombinedActionsByPriority (i : Int)).ActionTag = ActionTag then
          Apply X (i : Int)
        else X) X) := by
    intro l
    induction l with
    | nil => intro X hX; exact hX
    | cons i rest ih =>
      intro X hX
      rw [List.foldl_cons]
      apply ih
      split
      · exact hStep X _ hX
      · exact hX
  exact hAll _ B h0

/-- Function `QueueForUpdate` does nothing on a brain that is already queued. -/
theorem QueueForUpdate_of_queued (W : World) (B : USussBrainComponent)
    (hQ : B.bQueuedForUpdate = true) : QueueForUpdate W B = B := by
  simp [QueueForUpdate, hQ]

/-- Function `UpdateDistanceCategory` writes the distance tier, the update interval and the timer
only. -/
theorem UpdateDistanceCategory_eq (W : World) (B : USussBrainComponent) :
    UpdateDistanceCategory W B
      = { B with
          DistanceCategory := (UpdateDistanceCategory W B).DistanceCategory
          CurrentUpdateInterval := (UpdateDistanceCategory W B).CurrentUpdateInterval
          UpdateRequestTimer := (UpdateDistanceCategory W B).UpdateRequestTimer } := by
  unfold UpdateDistanceCategory
  simp only
  split_ifs <;> rfl

/-- Function `InitActions` writes the catalogue and the history only. -/
theorem InitActions_eq (SortFn : TArraySort FSussActionDef) (B : USussBrainComponent) :
    InitActions SortFn B
      = { B with
          CombinedActionsByPriority := (InitActions SortFn B).CombinedActionsByPriority
          ActionHistory := (InitActions SortFn B).ActionHistory } := rfl

/-- The functions that install, add to or reset a temporary score adjustment write the
history only. -/
theorem SetTemporaryActionScoreAdjustment_eq (B : USussBrainComponent) (ActionIndex : Int)
    (Value CooldownTime : ℚ) :
    SetTemporaryActionScoreAdjustment B ActionIndex Value CooldownTime
      = { B with ActionHistory :=
            (SetTemporaryActionScoreAdjustment B ActionIndex Value CooldownTime).ActionHistory } := by
  unfold SetTemporaryActionScoreAdjustment
  split <;> rfl

/-- Function `AddTemporaryActionScoreAdjustment` writes the history only. -/
theorem AddTemporaryActionScoreAdjustment_eq (B : USussBrainComponent) (ActionIndex : Int)
    (Value CooldownTime : ℚ) :
    AddTemporaryActionScoreAdjustment B ActionIndex Value CooldownTime
      = { B with ActionHistory :=
            (AddTemporaryActionScoreAdjustment B ActionIndex Value CooldownTime).ActionHistory } := by
  unfold AddTemporaryActionScoreAdjustment
  split <;> rfl

/-- Function `ResetTemporaryActionScoreAdjustment` writes the history only. -/
theorem ResetTemporaryActionScoreAdjustment_eq (B : USussBrainComponent) (ActionIndex : Int) :
    ResetTemporaryActionScoreAdjustment B ActionIndex
      = { B with ActionHistory :=
            (ResetTemporaryActionScoreAdjustment B ActionIndex).ActionHistory } := by
  unfold ResetTemporaryActionScoreAdjustment
  split <;> rfl

/-- While `bQueuedForUpdate` is set, no operation other than `Update` clears it or calls
`QueueBrainUpdate`. -/
theorem Perform_keeps_queued (SortActions : TArraySort FSussActionDef)
    (SortCandidates : TArraySort FSussActionScoringResult) (X : USussBrainComponent)
    (Op : BrainOperation) (hOp : Op.IsUpdate = false) (hQ : X.bQueuedForUpdate = true) :
    StillQueued X (Perform SortActions SortCandidates X Op) := by
  have hStop : ∀ (W : World) (Y : USussBrainComponent) (I : Option FActionClass),
      (CancelCurrentAction W Y I).bQueuedForUpdate = Y.bQueuedForUpdate ∧
      (CancelCurrentAction W Y I).QueueBrainUpdateCalls = Y.QueueBrainUpdateCalls :=
    fun W Y I => ⟨(CancelCurrentAction_outside W Y I).1, (CancelCurrentAction_outside W Y I).2.2.2.2.2.2.1⟩
  have hDist : ∀ (W : World) (Y : USussBrainComponent),
      (UpdateDistanceCategory W Y).bQueuedForUpdate = Y.bQueuedForUpdate ∧
      (UpdateDistanceCategory W Y).QueueBrainUpdateCalls = Y.QueueBrainUpdateCalls := by
    intro W Y
    rw [UpdateDistanceCategory_eq]
    exact ⟨rfl, rfl⟩
  have hTag : ∀ (T : FGameplayTag) (Apply : USussBrainComponent → Int → USussBrainComponent),
      (∀ (Y : USussBrainComponent) (i : Int),
        (Apply Y i).bQueuedForUpdate = Y.bQueuedForUpdate ∧
        (Apply Y i).QueueBrainUpdateCalls = Y.QueueBrainUpdateCalls) →
      StillQueued X (ForEachActionWithTag X T Apply) := by
    intro T Apply hA
    exact ForEachActionWithTag_induction
      (fun Y => Y.bQueuedForUpdate = true ∧ Y.QueueBrainUpdateCalls = X.QueueBrainUpdateCalls)
      X T Apply ⟨hQ, rfl⟩
      (fun Y i hY => ⟨(hA Y i).1.trans hY.1, (hA Y i).2.trans hY.2⟩)
  cases Op with
  | Update W => exact absurd hOp (by simp [BrainOperation.IsUpdate])
  | StartLogic W =>
    show StillQueued X (StartLogic W SortActions X)
    unfold StartLogic
    simp only
    split
    · split
      · simp only [SetBrainConfigFromAsset, BrainConfigChanged]
        split
        · rw [InitActions_eq]; exact ⟨(hDist _ _).1.trans hQ, (hDist _ _).2⟩
        · exact ⟨(hDist _ _).1.trans hQ, (hDist _ _).2⟩
      · simp only [BrainConfigChanged]
        split
        · rw [InitActions_eq]; exact ⟨(hDist _ _).1.trans hQ, (hDist _ _).2⟩
        · exact ⟨(hDist _ _).1.trans hQ, (hDist _ _).2⟩
    · exact ⟨hQ, rfl⟩
  | SetBrainConfig W NewConfig =>
    show StillQueued X (SetBrainConfig W SortActions X NewConfig)
    simp only [SetBrainConfig, BrainConfigChanged]
    split
    · rw [InitActions_eq]; exact ⟨hQ, rfl⟩
    · exact ⟨hQ, rfl⟩
  | SetBrainConfigFromAsset W Asset =>
    show StillQueued X (SetBrainConfigFromAsset W SortActions X Asset)
    simp only [SetBrainConfigFromAsset, BrainConfigChanged]
    split
    · rw [InitActions_eq]; exact ⟨hQ, rfl⟩
    · exact ⟨hQ, rfl⟩
  | StopLogic W Reason =>
    show StillQueued X (StopLogic W X Reason)
    unfold StopLogic StopCurrentAction
    simp only
    split
    · exact ⟨(hStop _ _ _).1.trans hQ, (hStop _ _ _).2⟩
    · exact ⟨(hStop _ _ _).1.trans hQ, (hStop _ _ _).2⟩
  | RestartLogic W =>
    show StillQueued X (RestartLogic W X)
    unfold RestartLogic StopCurrentAction
    simp only
    exact ⟨(hDist _ _).1.trans ((hStop _ _ _).1.trans hQ), (hDist _ _).2.trans (hStop _ _ _).2⟩
  | PauseLogic Reason =>
    show StillQueued X (PauseLogic X Reason)
    unfold PauseLogic
    simp only
    split <;> exact ⟨hQ, rfl⟩
  | ResumeLogic W Reason =>
    show StillQueued X (ResumeLogic W X Reason).1
    unfold ResumeLogic
    split
    · simp only [RestartLogic, StopCurrentAction]
      exact ⟨(hDist _ _).1.trans ((hStop _ _ _).1.trans hQ), (hDist _ _).2.trans (hStop _ _ _).2⟩
    · simp only
      split <;> exact ⟨hQ, rfl⟩
  | RequestUpdate W =>
    show StillQueued X (RequestUpdate W X)
    unfold RequestUpdate
    split
    · rw [QueueForUpdate_of_queued W X hQ]; exact ⟨hQ, rfl⟩
    · exact ⟨hQ, rfl⟩
  | OnActionCompleted W SussAction =>
    show StillQueued X (OnActionCompleted W X SussAction)
    unfold OnActionCompleted
    split
    · split
      · have h := RecordAndResetCurrentAction_outside W X
        have hQ2 : (RecordAndResetCurrentAction W X).bQueuedForUpdate = true := h.1.trans hQ
        rw [QueueForUpdate_of_queued W _ hQ2]
        exact ⟨hQ2, h.2.2.2.2.2.2.1⟩
      · exact ⟨hQ, rfl⟩
    · exact ⟨hQ, rfl⟩
  | OnGameplayTagEvent W InTag NewCount =>
    show StillQueued X (OnGameplayTagEvent W X InTag NewCount)
    unfold OnGameplayTagEvent
    split
    · rw [QueueForUpdate_of_queued W X hQ]; exact ⟨hQ, rfl⟩
    · exact ⟨hQ, rfl⟩
  | TimerCallback W =>
    show StillQueued X (TimerCallback W X)
    unfold TimerCallback
    simp only
    have hQ2 : (UpdateDistanceCategory W
        (UpdateActionScoreAdjustments X X.CurrentUpdateInterval)).bQueuedForUpdate = true :=
      (hDist _ _).1.trans hQ
    split
    · rw [QueueForUpdate_of_queued W _ hQ2]
      exact ⟨hQ2, (hDist _ _).2⟩
    · exact ⟨hQ2, (hDist _ _).2⟩
  | OnPerceptionUpdated W =>
    show StillQueued X (OnPerceptionUpdated W X)
    unfold OnPerceptionUpdated
    split
    · rw [QueueForUpdate_of_queued W X hQ]; exact ⟨hQ, rfl⟩
    · exact ⟨hQ, rfl⟩
  | UpdateActionScoreAdjustments DeltaTime => exact ⟨hQ, rfl⟩
  | StopCurrentAction W => exact ⟨(hStop _ _ _).1.trans hQ, (hStop _ _ _).2⟩
  | CancelCurrentAction W Interrupter => exact ⟨(hStop _ _ _).1.trans hQ, (hStop _ _ _).2⟩
  | SetTemporaryActionScoreAdjustment ActionIndex Value CooldownTime =>
    show StillQueued X (SetTemporaryActionScoreAdjustment X ActionIndex Value CooldownTime)
    rw [SetTemporaryActionScoreAdjustment_eq]; exact ⟨hQ, rfl⟩
  | AddTemporaryActionScoreAdjustment ActionIndex Value CooldownTime =>
    show StillQueued X (AddTemporaryActionScoreAdjustment X ActionIndex Value CooldownTime)
    rw [AddTemporaryActionScoreAdjustment_eq]; exact ⟨hQ, rfl⟩
  | ResetTemporaryActionScoreAdjustment ActionIndex =>
    show StillQueued X (ResetTemporaryActionScoreAdjustment X ActionIndex)
    rw [ResetTemporaryActionScoreAdjustment_eq]; exact ⟨hQ, rfl⟩
  | SetTemporaryActionScoreAdjustmentByTag ActionTag Value CooldownTime =>
    exact hTag ActionTag _ (fun Y i => by rw [SetTemporaryActionScoreAdjustment_eq]; exact ⟨rfl, rfl⟩)
  | AddTemporaryActionScoreAdjustmentByTag ActionTag Value CooldownTime =>
    exact hTag ActionTag _ (fun Y i => by rw [AddTemporaryActionScoreAdjustment_eq]; exact ⟨rfl, rfl⟩)
  | ResetTemporaryActionScoreAdjustmentByTag ActionTag =>
    exact hTag ActionTag _ (fun Y i => by rw [ResetTemporaryActionScoreAdjustment_eq]; exact ⟨rfl, rfl⟩)
  | ResetAllTemporaryActionScoreAdjustments => exact ⟨hQ, rfl⟩

/-- Further calls of `QueueForUpdate` leave a queued brain as it is. -/
theorem QueueForUpdateRepeatedly_of_queued : ∀ (Worlds : List World) (X : USussBrainComponent),
    X.bQueuedForUpdate = true → QueueForUpdateRepeatedly X Worlds = X
  | [], _, _ => rfl
  | W :: rest, X, hQ => by
    show QueueForUpdateRepeatedly (QueueForUpdate W X) rest = X
    rw [QueueForUpdate_of_queued W X hQ]
    exact QueueForUpdateRepeatedly_of_queued rest X hQ

/-- The brain after one or more calls of `QueueForUpdate` that nothing prevents. -/
theorem QueueForUpdateRepeatedly_eq (B : USussBrainComponent) (Worlds : List World)
    (hN : 1 ≤ Worlds.length) (hQ : B.bQueuedForUpdate = false)
    (hW : ∀ W ∈ Worlds, IsUpdatePrevented W B = false ∧ W.HasWorldSubsystem = true) :
    QueueForUpdateRepeatedly B Worlds
      = { B with
          QueueBrainUpdateCalls := B.QueueBrainUpdateCalls + 1
          bQueuedForUpdate := true
          bWasPreventedFromUpdating := false } := by
  cases Worlds with
  | nil => simp at hN
  | cons W rest =>
    obtain ⟨hP, hS⟩ := hW W (List.mem_cons_self _ _)
    have h1 : QueueForUpdate W B
        = { B with
            QueueBrainUpdateCalls := B.QueueBrainUpdateCalls + 1
            bQueuedForUpdate := true
            bWasPreventedFromUpdating := false } := by
      simp [QueueForUpdate, hQ, hP, hS]
    show QueueForUpdateRepeatedly (QueueForUpdate W B) rest = _
    rw [h1]
    exact QueueForUpdateRepeatedly_of_queued rest _ rfl

/-- C24: `QueueForUpdate` called N >= 1 times on a brain that is not queued, each time
while updates are not prevented and the world subsystem exists, calls `QueueBrainUpdate`
exactly once and leaves `bQueuedForUpdate` set.  From then on no operation other than
`Update` clears the flag or calls `QueueBrainUpdate`; `Update` clears the flag without
calling `QueueBrainUpdate`, and the next `QueueForUpdate` enqueues the brain again. -/
theorem QueueForUpdate_repeated_enqueues_once (SortActions : TArraySort FSussActionDef)
    (SortCandidates : TArraySort FSussActionScoringResult) (B : USussBrainComponent)
    (Worlds : List World) (hN : 1 ≤ Worlds.length) (hQ : B.bQueuedForUpdate = false)
    (hW : ∀ W ∈ Worlds, IsUpdatePrevented W B = false ∧ W.HasWorldSubsystem = true) :
    (QueueForUpdateRepeatedly B Worlds).QueueBrainUpdateCalls = B.QueueBrainUpdateCalls + 1 ∧
    (QueueForUpdateRepeatedly B Worlds).bQueuedForUpdate = true ∧
    (∀ Op : BrainOperation, Op.IsUpdate = false →
      (Perform SortActions SortCandidates (QueueForUpdateRepeatedly B Worlds)
        Op).bQueuedForUpdate = true ∧
      (Perform SortActions SortCandidates (QueueForUpdateRepeatedly B Worlds)
        Op).QueueBrainUpdateCalls = B.QueueBrainUpdateCalls + 1) ∧
    (∀ W : World,
      (Update W SortCandidates (QueueForUpdateRepeatedly B Worlds)).bQueuedForUpdate = false ∧
      (Update W SortCandidates (QueueForUpdateRepeatedly B Worlds)).QueueBrainUpdateCalls
        = B.QueueBrainUpdateCalls + 1 ∧
      (IsUpdatePrevented W B = false → W.HasWorldSubsystem = true →
        (QueueForUpdate W
          (Update W SortCandidates (QueueForUpdateRepeatedly B Worlds))).QueueBrainUpdateCalls
          = B.QueueBrainUpdateCalls + 2)) := by
  have hR := QueueForUpdateRepeatedly_eq B Worlds hN hQ hW
  have hC : (QueueForUpdateRepeatedly B Worlds).QueueBrainUpdateCalls
      = B.QueueBrainUpdateCalls + 1 := by rw [hR]
  have hF : (QueueForUpdateRepeatedly B Worlds).bQueuedForUpdate = true := by rw [hR]
  have hCfg : (QueueForUpdateRepeatedly B Worlds).BrainConfig = B.BrainConfig := by rw [hR]
  refine ⟨hC, hF, ?_, ?_⟩
  · intro Op hOp
    have h := Perform_keeps_queued SortActions SortCandidates _ Op hOp hF
    exact ⟨h.1, h.2.trans hC⟩
  · intro W
    obtain ⟨u1, _, _, u4, _, _, u7, _⟩ :=
      Update_outside W SortCandidates (QueueForUpdateRepeatedly B Worlds)
    have u1 : (Update W SortCandidates (QueueForUpdateRepeatedly B Worlds)).bQueuedForUpdate
        = false := u1
    have u7 : (Update W SortCandidates (QueueForUpdateRepeatedly B Worlds)).QueueBrainUpdateCalls
        = B.QueueBrainUpdateCalls + 1 := u7.trans hC
    have u4 : (Update W SortCandidates (QueueForUpdateRepeatedly B Worlds)).BrainConfig
        = B.BrainConfig := u4.trans hCfg
    refine ⟨u1, u7, ?_⟩
    intro hP hS
    have hP2 : IsUpdatePrevented W
        (Update W SortCandidates (QueueForUpdateRepeatedly B Worlds)) = false := by
      unfold IsUpdatePrevented at hP ⊢
      rw [u4]
      exact hP
    simp only [QueueForUpdate, u1, hP2, hS, Bool.not_false, if_true, Bool.false_eq_true,
      if_false, u7]

/-- Witness for C24 on the brain of scenario S1: three calls of `QueueForUpdate` call
`QueueBrainUpdate` once; after `Update` a fourth call enqueues the brain a second time. -/
theorem QueueForUpdate_repeated_enqueues_once_witness :
    BrainS1.bQueuedForUpdate = false ∧
    (∀ W ∈ [WorldS1, WorldS1Later, WorldS1],
      IsUpdatePrevented W BrainS1 = false ∧ W.HasWorldSubsystem = true) ∧
    (QueueForUpdateRepeatedly BrainS1 [WorldS1, WorldS1Later, WorldS1]).QueueBrainUpdateCalls
      = 1 ∧
    (QueueForUpdate WorldS1
      (Update WorldS1 SimpleSort
        (QueueForUpdateRepeatedly BrainS1
          [WorldS1, WorldS1Later, WorldS1]))).QueueBrainUpdateCalls = 2 :=
  have hW : ∀ W ∈ [WorldS1, WorldS1Later, WorldS1],
      IsUpdatePrevented W BrainS1 = false ∧ W.HasWorldSubsystem = true := by
    intro W hMem
    simp only [List.mem_cons, List.mem_singleton, List.not_mem_nil, or_false] at hMem
    rcases hMem with h | h | h <;> subst h <;> exact ⟨by decide, by decide⟩
  ⟨by decide, hW,
    (QueueForUpdate_repeated_enqueues_once SimpleSort SimpleSort BrainS1
      [WorldS1, WorldS1Later, WorldS1] (by decide) (by decide) hW).1,
    ((QueueForUpdate_repeated_enqueues_once SimpleSort SimpleSort BrainS1
      [WorldS1, WorldS1Later, WorldS1] (by decide) (by decide) hW).2.2.2 WorldS1).2.2
      (by decide) (by decide)⟩

/-- C25: the brain of scenario S1 is queued for update before the tag that prevents
updates appears.  While the brain is update-prevented, `QueueForUpdate` leaves
`bWasPreventedFromUpdating` unset because the brain is already queued, and the `Update`
that was queued runs and performs the action `A`: `Update` does not test
`IsUpdatePrevented`. -/
theorem Update_runs_while_prevented :
    BrainS1Queued.bQueuedForUpdate = true ∧
    IsUpdatePrevented WorldS1Prevented BrainS1Queued = true ∧
    (QueueForUpdate WorldS1Prevented BrainS1Queued).bWasPreventedFromUpdating = false ∧
    IsActionInProgress BrainS1Queued = false ∧
    IsActionInProgress (Update WorldS1Prevented SimpleSort BrainS1Queued) = true ∧
    (Update WorldS1Prevented SimpleSort BrainS1Queued).ActionCalls
      = [FActionCall.PerformAction 7 { Self := 0 } [] none] := by
  refine ⟨by decide, by decide, by decide, by decide, by decide!, by decide!⟩

/-- What `QueueForUpdate` does while the brain is update-prevented: on a brain that is not
already queued it does not enqueue it (the flag stays clear and `QueueBrainUpdate` is not
called) and sets `bWasPreventedFromUpdating`; it starts and cancels no action.  On a brain
that is already queued it changes nothing. -/
theorem QueueForUpdate_while_prevented (W : World) (B : USussBrainComponent)
    (hP : IsUpdatePrevented W B = true) :
    (B.bQueuedForUpdate = false →
      QueueForUpdate W B = { B with bWasPreventedFromUpdating := true } ∧
      (QueueForUpdate W B).bQueuedForUpdate = false ∧
      (QueueForUpdate W B).QueueBrainUpdateCalls = B.QueueBrainUpdateCalls ∧
      (QueueForUpdate W B).bWasPreventedFromUpdating = true ∧
      (QueueForUpdate W B).CurrentActionInstance = B.CurrentActionInstance ∧
      (QueueForUpdate W B).CurrentActionResult = B.CurrentActionResult ∧
      (QueueForUpdate W B).ActionCalls = B.ActionCalls) ∧
    (B.bQueuedForUpdate = true → QueueForUpdate W B = B) := by
  constructor
  · intro hQ
    have h : QueueForUpdate W B = { B with bWasPreventedFromUpdating := true } := by
      simp [QueueForUpdate, hQ, hP]
    rw [h]
    exact ⟨rfl, hQ, rfl, rfl, rfl, rfl, rfl⟩
  · intro hQ
    exact QueueForUpdate_of_queued W B hQ

/-- The behaviour of `QueueForUpdate` while update-prevented, on the brain of scenario S1
running `A`, which is not queued, in the world where the tag that prevents updates is
present. -/
theorem QueueForUpdate_while_prevented_witness :
    IsUpdatePrevented WorldS1Prevented BrainS1Running = true ∧
    BrainS1Running.bQueuedForUpdate = false ∧
    (QueueForUpdate WorldS1Prevented BrainS1Running).bQueuedForUpdate = false ∧
    (QueueForUpdate WorldS1Prevented BrainS1Running).bWasPreventedFromUpdating = true ∧
    (QueueForUpdate WorldS1Prevented BrainS1Running).QueueBrainUpdateCalls = 0 ∧
    QueueForUpdate WorldS1Prevented BrainS1Queued = BrainS1Queued :=
  ⟨by decide!, by decide!,
    ((QueueForUpdate_while_prevented WorldS1Prevented BrainS1Running (by decide!)).1
      (by decide!)).2.1,
    ((QueueForUpdate_while_prevented WorldS1Prevented BrainS1Running (by decide!)).1
      (by decide!)).2.2.2.1,
    by decide!,
    (QueueForUpdate_while_prevented WorldS1Prevented BrainS1Queued (by decide)).2 (by decide)⟩

/-- C26, counterexample: after `PauseLogic` the brain of scenario S1 still runs the
action `A`: the instance is there, `CurrentActionResult` refers to action 0, and
`CancelAction` was not called. -/
theorem PauseLogic_keeps_current_action :
    IsActionInProgress BrainS1Started = true ∧
    IsActionInProgress (PauseLogic BrainS1Started "Pause") = true ∧
    (PauseLogic BrainS1Started "Pause").CurrentActionResult.ActionDefIndex = 0 ∧
    (PauseLogic BrainS1Started "Pause").ActionCalls
      = [FActionCall.PerformAction 7 { Self := 0 } [] none] ∧
    (PauseLogic BrainS1Started "Pause").UpdateRequestTimer.bIsPaused = true := by
  refine ⟨by decide!, by decide!, by decide!, by decide!, by decide!⟩

/-- C26, amended: `PauseLogic` does not cancel the current action: `CurrentActionInstance`,
`CurrentActionResult`, the history and the calls made on actions are as before.  It sets
the stopped flag and records the reason, and pauses the update timer when the timer is
valid. -/
theorem PauseLogic_sets_flag_and_pauses_timer (B : USussBrainComponent) (Reason : String) :
    (PauseLogic B Reason).CurrentActionInstance = B.CurrentActionInstance ∧
    (PauseLogic B Reason).CurrentActionResult = B.CurrentActionResult ∧
    (PauseLogic B Reason).ActionHistory = B.ActionHistory ∧
    (PauseLogic B Reason).ActionCalls = B.ActionCalls ∧
    (PauseLogic B Reason).bIsLogicStopped = true ∧
    (PauseLogic B Reason).LogicStoppedReason = Reason ∧
    (B.UpdateRequestTimer.bIsValid = true →
      (PauseLogic B Reason).UpdateRequestTimer.bIsValid = true ∧
      (PauseLogic B Reason).UpdateRequestTimer.bIsPaused = true) ∧
    (B.UpdateRequestTimer.bIsValid = false →
      (PauseLogic B Reason).UpdateRequestTimer = B.UpdateRequestTimer) := by
  unfold PauseLogic
  simp only
  split
  · rename_i hV
    refine ⟨rfl, rfl, rfl, rfl, rfl, rfl, ?_, ?_⟩
    · intro _
      have hV2 : B.UpdateRequestTimer.bIsValid = true := hV
      simp [FTimerHandle.PauseTimer, hV2]
    · intro hN
      have hV2 : B.UpdateRequestTimer.bIsValid = true := hV
      rw [hV2] at hN
      exact absurd hN (by simp)
  · rename_i hV
    refine ⟨rfl, rfl, rfl, rfl, rfl, rfl, ?_, ?_⟩
    · intro hT
      exact absurd hT hV
    · intro _
      rfl

/-- Witness for C26 on the brain of scenario S1 after `StartLogic`, whose update timer is
valid: `PauseLogic` pauses the timer. -/
theorem PauseLogic_sets_flag_and_pauses_timer_witness :
    BrainS1Started.UpdateRequestTimer.bIsValid = true ∧
    (PauseLogic BrainS1Started "Pause").UpdateRequestTimer.bIsValid = true ∧
    (PauseLogic BrainS1Started "Pause").UpdateRequestTimer.bIsPaused = true :=
  ⟨by decide!,
    ((PauseLogic_sets_flag_and_pauses_timer BrainS1Started "Pause").2.2.2.2.2.2.1
      (by decide!)).1,
    ((PauseLogic_sets_flag_and_pauses_timer BrainS1Started "Pause").2.2.2.2.2.2.1
      (by decide!)).2⟩

/-- One iteration of the loop of `GenerateContexts`, in terms of `ContextsStep` and
`ProvidedStep`. -/
theorem GenerateContextsLoop_cons (W : World) (B : USussBrainComponent) (Self : AActor)
    (Query : FSussQuery) (rest : List FSussQuery) (CE : List ESussQueryContextElement)
    (NQV : List FName) (Out : List FSussContext) :
    GenerateContextsLoop W B Self (Query :: rest) CE NQV Out
      = match ContextsStep W B Self (CE, NQV) Out Query with
        | none => []
        | some Next =>
          GenerateContextsLoop W B Self rest (ProvidedStep W (CE, NQV) Query).1
            (ProvidedStep W (CE, NQV) Query).2 Next := by
  rw [GenerateContextsLoop]
  unfold ContextsStep ProvidedStep IsDuplicateQuery
  cases hP : W.GetQueryProvider Query.QueryTag with
  | none => rfl
  | some QueryProvider =>
    simp only
    by_cases hE : QueryProvider.ProvidedContextElement = ESussQueryContextElement.NamedValue
    · simp only [hE, ne_eq, not_true_eq_false, false_and, if_false, if_true]
      cases hN : QueryProvider.QueryValueName with
      | some ValueName =>
        simp only
        by_cases hS : ValueName ∈ NQV
        · simp only [hS, decide_True, if_true]
        · simp only [hS, decide_False, Bool.false_eq_true, if_false]
          by_cases hC : QueryProvider.bIsCorrelatedWithContext = true
          · simp only [hC, if_true]
          · simp only [hC, Bool.false_eq_true, if_false]
            split <;> simp_all
      | none =>
        simp only [Bool.false_eq_true, if_false]
        by_cases hC : QueryProvider.bIsCorrelatedWithContext = true
        · simp only [hC, if_true]
        · simp only [hC, Bool.false_eq_true, if_false]
          split <;> simp_all
    · simp only [hE, ne_eq, not_false_eq_true, true_and, if_false]
      by_cases hS : QueryProvider.ProvidedContextElement ∈ CE
      · simp only [hS, if_true, decide_True]
      · simp only [hS, if_false, decide_False, Bool.false_eq_true]
        by_cases hC : QueryProvider.bIsCorrelatedWithContext = true
        · simp only [hC, if_true]
        · simp only [hC, Bool.false_eq_true, if_false]
          split <;> simp_all

/-- The loop of `GenerateContexts` over a list of queries in two parts. -/
theorem GenerateContextsLoop_append (W : World) (B : USussBrainComponent) (Self : AActor)
    (After : List FSussQuery) :
    ∀ (Before : List FSussQuery) (CE : List ESussQueryContextElement) (NQV : List FName)
      (Out : List FSussContext),
      GenerateContextsLoop W B Self (Before ++ After) CE NQV Out
        = match ContextsAfter W B Self Before (CE, NQV) Out with
          | none => []
          | some Next =>
            GenerateContextsLoop W B Self After (ProvidedAfter W Before (CE, NQV)).1
              (ProvidedAfter W Before (CE, NQV)).2 Next
  | [], CE, NQV, Out => rfl
  | Query :: rest, CE, NQV, Out => by
    rw [List.cons_append, GenerateContextsLoop_cons]
    simp only [ContextsAfter, ProvidedAfter, List.foldl_cons]
    cases hS : ContextsStep W B Self (CE, NQV) Out Query with
    | none => rfl
    | some Next =>
      simp only
      exact GenerateContextsLoop_append W B Self After rest _ _ Next

/-- Whether a query is a duplicate depends on `ContextElements` only through the kinds
`Target` and `Location`. -/
theorem IsDuplicateQuery_congr (CE CE' : List ESussQueryContextElement) (NQV : List FName)
    (QueryProvider : USussQueryProvider)
    (h : ∀ E, E ≠ ESussQueryContextElement.NamedValue → (E ∈ CE ↔ E ∈ CE')) :
    IsDuplicateQuery (CE, NQV) QueryProvider = IsDuplicateQuery (CE', NQV) QueryProvider := by
  unfold IsDuplicateQuery
  by_cases hE : QueryProvider.ProvidedContextElement = ESussQueryContextElement.NamedValue
  · simp only [hE, if_true]
  · simp only [hE, if_false]
    exact decide_eq_decide.2 (h _ hE)

/-- One iteration of the loop keeps two sets `ContextElements` that agree on `Target` and
`Location` in agreement, and treats `NamedQueryValues` alike. -/
theorem ProvidedStep_congr (W : World) (CE CE' : List ESussQueryContextElement)
    (NQV : List FName) (Query : FSussQuery)
    (h : ∀ E, E ≠ ESussQueryContextElement.NamedValue → (E ∈ CE ↔ E ∈ CE')) :
    (ProvidedStep W (CE, NQV) Query).2 = (ProvidedStep W (CE', NQV) Query).2 ∧
    ∀ E, E ≠ ESussQueryContextElement.NamedValue →
      (E ∈ (ProvidedStep W (CE, NQV) Query).1 ↔ E ∈ (ProvidedStep W (CE', NQV) Query).1) := by
  unfold ProvidedStep
  cases hP : W.GetQueryProvider Query.QueryTag with
  | none => exact ⟨rfl, h⟩
  | some QueryProvider =>
    simp only
    by_cases hE : QueryProvider.ProvidedContextElement = ESussQueryContextElement.NamedValue
    · simp only [hE, if_true]
      cases hN : QueryProvider.QueryValueName with
      | some ValueName =>
        simp only
        by_cases hS : ValueName ∈ NQV
        · simp only [hS, if_true, true_and]
          intro E hNe
          simp only [List.mem_cons, hNe, false_or]
          exact h E hNe
        · simp only [hS, if_false, true_and]
          intro E hNe
          simp only [List.mem_cons, hNe, false_or]
          exact h E hNe
      | none =>
        simp only [true_and]
        intro E hNe
        simp only [List.mem_cons, hNe, false_or]
        exact h E hNe
    · simp only [hE, if_false]
      by_cases hS : QueryProvider.ProvidedContextElement ∈ CE
      · have hS' : QueryProvider.ProvidedContextElement ∈ CE' := (h _ hE).1 hS
        simp only [hS, hS', if_true, true_and]
        exact h
      · have hS' : QueryProvider.ProvidedContextElement ∉ CE' := fun x => hS ((h _ hE).2 x)
        simp only [hS, hS', if_false, true_and]
        intro E hNe
        simp only [List.mem_cons]
        rw [h E hNe]

/-- The loop of `GenerateContexts` depends on `ContextElements` only through the kinds
`Target` and `Location`. -/
theorem GenerateContextsLoop_congr (W : World) (B : USussBrainComponent) (Self : AActor) :
    ∀ (Queries : List FSussQuery) (CE CE' : List ESussQueryContextElement) (NQV : List FName)
      (Out : List FSussContext),
      (∀ E, E ≠ ESussQueryContextElement.NamedValue → (E ∈ CE ↔ E ∈ CE')) →
      GenerateContextsLoop W B Self Queries CE NQV Out
        = GenerateContextsLoop W B Self Queries CE' NQV Out
  | [], _, _, _, _, _ => rfl
  | Query :: rest, CE, CE', NQV, Out, h => by
    rw [GenerateContextsLoop_cons, GenerateContextsLoop_cons]
    have hStep : ContextsStep W B Self (CE, NQV) Out Query
        = ContextsStep W B Self (CE', NQV) Out Query := by
      unfold ContextsStep
      cases hP : W.GetQueryProvider Query.QueryTag with
      | none => rfl
      | some QueryProvider =>
        simp only [IsDuplicateQuery_congr CE CE' NQV QueryProvider h]
    rw [hStep]
    cases ContextsStep W B Self (CE', NQV) Out Query with
    | none => rfl
    | some Next =>
      simp only
      obtain ⟨h2, h1⟩ := ProvidedStep_congr W CE CE' NQV Query h
      rw [h2]
      exact GenerateContextsLoop_congr W B Self rest _ _ _ Next h1

/-- A query that the loop passes over leaves the contexts as they are, and the sets of
provided elements in agreement on `Target` and `Location`. -/
theorem ContextsStep_of_skipped (W : World) (B : USussBrainComponent) (Self : AActor)
    (CE : List ESussQueryContextElement) (NQV : List FName) (Out : List FSussContext)
    (Query : FSussQuery) (hS : IsQuerySkipped W (CE, NQV) Query = true) :
    ContextsStep W B Self (CE, NQV) Out Query = some Out ∧
    (ProvidedStep W (CE, NQV) Query).2 = NQV ∧
    ∀ E, E ≠ ESussQueryContextElement.NamedValue →
      (E ∈ (ProvidedStep W (CE, NQV) Query).1 ↔ E ∈ CE) := by
  unfold IsQuerySkipped at hS
  unfold ContextsStep ProvidedStep
  cases hP : W.GetQueryProvider Query.QueryTag with
  | none => exact ⟨rfl, rfl, fun _ _ => Iff.rfl⟩
  | some QueryProvider =>
    rw [hP] at hS
    simp only at hS
    simp only [hS, if_true, true_and]
    unfold IsDuplicateQuery at hS
    by_cases hE : QueryProvider.ProvidedContextElement = ESussQueryContextElement.NamedValue
    · simp only [hE, if_true] at hS ⊢
      cases hN : QueryProvider.QueryValueName with
      | some ValueName =>
        rw [hN] at hS
        simp only [decide_eq_true_eq] at hS
        simp only [hS, if_true, true_and]
        intro E hNe
        simp only [List.mem_cons, hNe, false_or]
      | none =>
        rw [hN] at hS
        exact absurd hS (by simp)
    · simp only [hE, if_false, decide_eq_true_eq] at hS ⊢
      simp [hS]

/-- The loop of `GenerateContexts` gives the same contexts with and without a query that
it passes over. -/
theorem GenerateContextsLoop_skip (W : World) (B : USussBrainComponent) (Self : AActor)
    (Before After : List FSussQuery) (Query : FSussQuery)
    (CE : List ESussQueryContextElement) (NQV : List FName) (Out : List FSussContext)
    (hS : IsQuerySkipped W (ProvidedAfter W Before (CE, NQV)) Query = true) :
    GenerateContextsLoop W B Self (Before ++ Query :: After) CE NQV Out
      = GenerateContextsLoop W B Self (Before ++ After) CE NQV Out := by
  rw [GenerateContextsLoop_append, GenerateContextsLoop_append]
  cases ContextsAfter W B Self Before (CE, NQV) Out with
  | none => rfl
  | some Next =>
    simp only
    rw [GenerateContextsLoop_cons]
    obtain ⟨h1, h2, h3⟩ := ContextsStep_of_skipped W B Self
      (ProvidedAfter W Before (CE, NQV)).1 (ProvidedAfter W Before (CE, NQV)).2 Next Query hS
    rw [h1]
    simp only
    rw [h2]
    exact GenerateContextsLoop_congr W B Self After _ _ _ Next h3

/-- Every position in `QueriesRun` is at or after the position the count starts from. -/
theorem QueriesRun_ge (W : World) (B : USussBrainComponent) (Self : AActor) :
    ∀ (Queries : List FSussQuery) (k : Nat) (Seen : List ESussQueryContextElement × List FName)
      (Out : List FSussContext) (j : Nat), j ∈ QueriesRun W B Self k Queries Seen Out → k ≤ j
  | [], _, _, _, _, h => by simp [QueriesRun] at h
  | Query :: rest, k, Seen, Out, j, h => by
    unfold QueriesRun at h
    simp only at h
    have hLater : ∀ j, j ∈ (match ContextsStep W B Self Seen Out Query with
        | none => []
        | some Next => QueriesRun W B Self (k + 1) rest (ProvidedStep W Seen Query) Next) →
        k ≤ j := by
      intro j hj
      cases hC : ContextsStep W B Self Seen Out Query with
      | none => rw [hC] at hj; simp at hj
      | some Next =>
        rw [hC] at hj
        exact Nat.le_of_succ_le (QueriesRun_ge W B Self rest _ _ _ j hj)
    split at h
    · exact hLater j h
    · rcases List.mem_cons.1 h with h | h
      · exact h.ge
      · exact hLater j h

/-- A query that the loop passes over is not among the queries run. -/
theorem QueriesRun_skip (W : World) (B : USussBrainComponent) (Self : AActor)
    (After : List FSussQuery) (Query : FSussQuery) :
    ∀ (Before : List FSussQuery) (k : Nat) (Seen : List ESussQueryContextElement × List FName)
      (Out : List FSussContext),
      IsQuerySkipped W (ProvidedAfter W Before Seen) Query = true →
      k + Before.length ∉ QueriesRun W B Self k (Before ++ Query :: After) Seen Out
  | [], k, Seen, Out, hS => by
    intro hMem
    simp only [List.nil_append, List.length_nil, Nat.add_zero] at hMem
    unfold QueriesRun at hMem
    have hS' : IsQuerySkipped W Seen Query = true := hS
    simp only [hS', if_true] at hMem
    cases hC : ContextsStep W B Self Seen Out Query with
    | none => rw [hC] at hMem; simp at hMem
    | some Next =>
      rw [hC] at hMem
      have := QueriesRun_ge W B Self After _ _ _ k hMem
      omega
  | P :: rest, k, Seen, Out, hS => by
    intro hMem
    rw [List.cons_append] at hMem
    unfold QueriesRun at hMem
    simp only [List.length_cons] at hMem
    have hLater : k + (rest.length + 1) ∉ (match ContextsStep W B Self Seen Out P with
        | none => []
        | some Next =>
          QueriesRun W B Self (k + 1) (rest ++ Query :: After) (ProvidedStep W Seen P) Next) := by
      cases hC : ContextsStep W B Self Seen Out P with
      | none => simp
      | some Next =>
        simp only
        have hIH := QueriesRun_skip W B Self After Query rest (k + 1) (ProvidedStep W Seen P)
          Next hS
        have hEq : k + 1 + rest.length = k + (rest.length + 1) := by omega
        rw [hEq] at hIH
        exact hIH
    split at hMem
    · exact hLater hMem
    · rcases List.mem_cons.1 hMem with h | h
      · omega
      · exact hLater h

/-- What one iteration of the loop adds to the sets of provided elements and names. -/
theorem ProvidedStep_mem (W : World) (Seen : List ESussQueryContextElement × List FName)
    (Query : FSussQuery) :
    (∀ E, E ∈ (ProvidedStep W Seen Query).1 ↔
      E ∈ Seen.1 ∨ ∃ P, W.GetQueryProvider Query.QueryTag = some P ∧ P.ProvidedContextElement = E) ∧
    (∀ n, n ∈ (ProvidedStep W Seen Query).2 ↔
      n ∈ Seen.2 ∨ ∃ P, W.GetQueryProvider Query.QueryTag = some P ∧
        P.ProvidedContextElement = ESussQueryContextElement.NamedValue ∧
        P.QueryValueName = some n) := by
  unfold ProvidedStep
  cases hP : W.GetQueryProvider Query.QueryTag with
  | none => simp
  | some QueryProvider =>
    simp only [Option.some.injEq, exists_eq_left']
    by_cases hE : QueryProvider.ProvidedContextElement = ESussQueryContextElement.NamedValue
    · cases hN : QueryProvider.QueryValueName with
      | some ValueName =>
        by_cases hS : ValueName ∈ Seen.2
        · simp only [hE, hS, if_true, List.mem_cons, Option.some.injEq, true_and]
          refine ⟨fun E => ?_, fun n => ?_⟩
          · rw [or_comm, eq_comm]
          · constructor
            · exact Or.inl
            · rintro (h | h)
              · exact h
              · exact h ▸ hS
        · simp only [hE, hS, if_true, if_false, List.mem_cons, Option.some.injEq, true_and]
          refine ⟨fun E => ?_, fun n => ?_⟩
          · rw [or_comm, eq_comm]
          · rw [or_comm, eq_comm]
      | none =>
        simp only [hE, if_true, List.mem_cons, true_and, or_false]
        refine ⟨fun E => ?_, fun n => ?_⟩
        · rw [or_comm, eq_comm]
        · simp
    · by_cases hS : QueryProvider.ProvidedContextElement ∈ Seen.1
      · simp only [hE, hS, if_true, if_false, false_and, or_false]
        refine ⟨fun E => ?_, fun n => trivial⟩
        constructor
        · exact Or.inl
        · rintro (h | h)
          · exact h
          · exact h ▸ hS
      · simp only [hE, hS, if_false, false_and, or_false, List.mem_cons]
        refine ⟨fun E => ?_, fun n => trivial⟩
        rw [or_comm, eq_comm]

/-- The sets of provided elements and names after a list of queries: what was there
before, and what the queries of the list with a registered provider provide. -/
theorem ProvidedAfter_mem (W : World) :
    ∀ (Before : List FSussQuery) (Seen : List ESussQueryContextElement × List FName),
      (∀ E, E ∈ (ProvidedAfter W Before Seen).1 ↔
        E ∈ Seen.1 ∨ ∃ Earlier ∈ Before, ∃ P, W.GetQueryProvider Earlier.QueryTag = some P ∧
          P.ProvidedContextElement = E) ∧
      (∀ n, n ∈ (ProvidedAfter W Before Seen).2 ↔
        n ∈ Seen.2 ∨ ∃ Earlier ∈ Before, ∃ P, W.GetQueryProvider Earlier.QueryTag = some P ∧
          P.ProvidedContextElement = ESussQueryContextElement.NamedValue ∧
          P.QueryValueName = some n)
  | [], Seen => by simp [ProvidedAfter]
  | Query :: rest, Seen => by
    have hRec := ProvidedAfter_mem W rest (ProvidedStep W Seen Query)
    have hStep := ProvidedStep_mem W Seen Query
    have hUnfold : ProvidedAfter W (Query :: rest) Seen
        = ProvidedAfter W rest (ProvidedStep W Seen Query) := rfl
    rw [hUnfold]
    constructor
    · intro E
      rw [hRec.1 E, hStep.1 E]
      simp only [List.mem_cons, exists_eq_or_imp, or_assoc]
    · intro n
      rw [hRec.2 n, hStep.2 n]
      simp only [List.mem_cons, exists_eq_or_imp, or_assoc]

/-- The loop of `GenerateContexts` passes over a query as a duplicate exactly when an
earlier query with a registered provider provides the same element kind and, for named
values, the same value name. -/
theorem IsDuplicateQuery_iff (W : World) (Before : List FSussQuery)
    (QueryProvider : USussQueryProvider) :
    IsDuplicateQuery (ProvidedAfter W Before ([], [])) QueryProvider = true
      ↔ IsProvidedBefore W Before QueryProvider := by
  obtain ⟨h1, h2⟩ := ProvidedAfter_mem W Before ([], [])
  unfold IsDuplicateQuery IsProvidedBefore
  by_cases hE : QueryProvider.ProvidedContextElement = ESussQueryContextElement.NamedValue
  · simp only [hE, if_true, true_implies]
    cases hN : QueryProvider.QueryValueName with
    | some ValueName =>
      simp only [decide_eq_true_eq, h2, List.not_mem_nil, false_or, Option.some.injEq]
      constructor
      · rintro ⟨Earlier, hMem, P, hP, hPE, hPN⟩
        exact ⟨Earlier, hMem, P, hP, hPE, ValueName, hPN, rfl⟩
      · rintro ⟨Earlier, hMem, P, hP, hPE, n, hPN, hn⟩
        exact ⟨Earlier, hMem, P, hP, hPE, hn ▸ hPN⟩
    | none =>
      simp only [Bool.false_eq_true, false_iff, not_exists, not_and]
      intro Earlier _ P _ _ n _ hn
      exact absurd hn (by simp)
  · simp only [hE, if_false, decide_eq_true_eq, h1, List.not_mem_nil, false_or, false_implies,
      and_true]

/-- C27: if a query of an action has a registered provider, is uncorrelated, is not a
duplicate of an earlier query of the action, and returns no results, then
`GenerateContexts` returns the empty array, whatever the queries before and after it are
and return, and scoring the action in `Update` leaves the candidates as they are. -/
theorem GenerateContexts_empty_of_empty_uncorrelated (W : World) (B : USussBrainComponent)
    (Self : AActor) (Action : FSussActionDef) (Before After : List FSussQuery)
    (Query : FSussQuery) (QueryProvider : USussQueryProvider)
    (hQ : Action.Queries = Before ++ Query :: After)
    (hP : W.GetQueryProvider Query.QueryTag = some QueryProvider)
    (hD : ¬ IsProvidedBefore W Before QueryProvider)
    (hU : QueryProvider.bIsCorrelatedWithContext = false)
    (hE : QueryProvider.GetResults B Self Query.MaxFrequency
      (ResolveParameters W B Self Query.Params []) = []) :
    GenerateContexts W B Self Action = [] ∧
    (Self = W.Self → ∀ (i : Nat) (S : FUpdateScoring), ScoreAction W B i Action S = S) := by
  have hG : GenerateContexts W B Self Action = [] := by
    unfold GenerateContexts
    rw [hQ, if_pos (by simp), GenerateContextsLoop_append]
    cases ContextsAfter W B Self Before ([], []) [] with
    | none => rfl
    | some Next =>
      simp only
      rw [GenerateContextsLoop_cons]
      have hDup : IsDuplicateQuery ((ProvidedAfter W Before ([], [])).1,
          (ProvidedAfter W Before ([], [])).2) QueryProvider = false := by
        have h := (IsDuplicateQuery_iff W Before QueryProvider).not.2 hD
        simpa using h
      have hStep : ContextsStep W B Self ((ProvidedAfter W Before ([], [])).1,
          (ProvidedAfter W Before ([], [])).2) Next Query = none := by
        unfold ContextsStep
        rw [hP]
        simp only [hDup, hU, Bool.false_eq_true, if_false]
        have hR : (AppendUncorrelatedContexts B Self Query QueryProvider
            (ResolveParameters W B Self Query.Params []) Next).1 = false := by
          unfold AppendUncorrelatedContexts
          simp only
          split
          · rfl
          · simp [hE]
        simp only [hR, Bool.false_eq_true, if_false]
      rw [hStep]
  refine ⟨hG, ?_⟩
  intro hSelf i S
  unfold ScoreAction
  split
  · rfl
  · rw [← hSelf, hG]
    rfl

/-- Witness for C27 on scenario S3: the uncorrelated location query returns no results
and the target query returns `t1` and `t2`; `GenerateContexts` returns the empty array
with the location query first and with the location query last. -/
theorem GenerateContexts_empty_of_empty_uncorrelated_witness :
    GenerateContexts WorldS3 {} 0 ActionS3 = [] ∧
    GenerateContexts WorldS3 {} 0 ActionS3Reversed = [] ∧
    GenerateContexts WorldS3 {} 0 { ActionS3 with Queries := [{ QueryTag := TagTargetQuery }] }
      = [{ Self := 0, Target := some 1 }, { Self := 0, Target := some 2 }] :=
  ⟨(GenerateContexts_empty_of_empty_uncorrelated WorldS3 {} 0 ActionS3 []
      [{ QueryTag := TagTargetQuery }] { QueryTag := TagLocationQuery }
      { ProvidedContextElement := ESussQueryContextElement.Location
        GetResults := fun _ _ _ _ => []
        GetResultsInContext := fun _ _ _ _ => [] }
      rfl rfl (by simp [IsProvidedBefore]) rfl rfl).1,
    (GenerateContexts_empty_of_empty_uncorrelated WorldS3 {} 0 ActionS3Reversed
      [{ QueryTag := TagTargetQuery }] [] { QueryTag := TagLocationQuery }
      { ProvidedContextElement := ESussQueryContextElement.Location
        GetResults := fun _ _ _ _ => []
        GetResultsInContext := fun _ _ _ _ => [] }
      rfl rfl
      (fun h => by
        have h2 := (IsDuplicateQuery_iff WorldS3 [{ QueryTag := TagTargetQuery }] _).2 h
        revert h2
        decide)
      rfl rfl).1,
    by decide!⟩

/-- The loop of `IntersectCorrelatedContexts`: of the contexts that take the place of each
incoming context, the first is left in place and the others are added at the end. -/
theorem IntersectCorrelatedContextsLoop_eq (B : USussBrainComponent) (Self : AActor)
    (QueryProvider : USussQueryProvider) (Params : TMap FName FSussParameter)
    (hNamed : QueryProvider.ProvidedContextElement = ESussQueryContextElement.NamedValue →
      QueryProvider.QueryValueName.isSome = true) :
    ∀ (InContexts Kept Appended : List FSussContext),
      IntersectCorrelatedContextsLoop B Self QueryProvider Params InContexts Kept Appended
        = (Kept ++ InContexts.flatMap (fun C =>
              (CorrelatedReplacements B Self QueryProvider Params C).take 1))
          ++ (Appended ++ InContexts.flatMap (fun C =>
              (CorrelatedReplacements B Self QueryProvider Params C).drop 1))
  | [], Kept, Appended => by simp [IntersectCorrelatedContextsLoop]
  | SourceContext :: rest, Kept, Appended => by
    have hResults : CorrelatedResults B Self QueryProvider Params SourceContext
        = QueryProvider.GetResultsInContext B Self SourceContext Params := by
      unfold CorrelatedResults
      split
      · rename_i hE hN
        have := hNamed hE
        rw [hN] at this
        exact absurd this (by simp)
      · rfl
    rw [IntersectCorrelatedContextsLoop]
    simp only [hResults]
    cases hR : QueryProvider.GetResultsInContext B Self SourceContext Params with
    | nil =>
      simp only [List.length_nil, gt_iff_lt, lt_self_iff_false, if_false]
      rw [IntersectCorrelatedContextsLoop_eq B Self QueryProvider Params hNamed rest Kept Appended]
      simp [CorrelatedReplacements, hR]
    | cons First More =>
      simp only [List.length_cons, gt_iff_lt, Nat.zero_lt_succ, if_true,
        AppendCorrelatedContextsT]
      rw [IntersectCorrelatedContextsLoop_eq B Self QueryProvider Params hNamed rest _ _]
      simp [CorrelatedReplacements, hR]

/-- C28: `IntersectCorrelatedContexts` replaces every incoming context by the contexts
`CorrelatedReplacements`: one per result of the query in that context, equal to the
incoming context with the slot of the query overwritten by the result, and none for an
incoming context without results.  The output holds exactly these contexts (the first
replacement of each context in its place, the others at the end), and their number is the
sum of the numbers of results.  A provider of named values is a
`USussNamedValueQueryProvider`, which has a value name. -/
theorem IntersectCorrelatedContexts_replaces_each_context (B : USussBrainComponent)
    (Self : AActor) (QueryProvider : USussQueryProvider) (Params : TMap FName FSussParameter)
    (InContexts : List FSussContext)
    (hNamed : QueryProvider.ProvidedContextElement = ESussQueryContextElement.NamedValue →
      QueryProvider.QueryValueName.isSome = true) :
    (IntersectCorrelatedContexts B Self QueryProvider Params InContexts).Perm
      (InContexts.flatMap (CorrelatedReplacements B Self QueryProvider Params)) ∧
    (IntersectCorrelatedContexts B Self QueryProvider Params InContexts).length
      = (InContexts.map (fun C =>
          (QueryProvider.GetResultsInContext B Self C Params).length)).sum ∧
    IntersectCorrelatedContexts B Self QueryProvider Params InContexts
      = InContexts.flatMap (fun C =>
          (CorrelatedReplacements B Self QueryProvider Params C).take 1)
        ++ InContexts.flatMap (fun C =>
          (CorrelatedReplacements B Self QueryProvider Params C).drop 1) := by
  have hEq : IntersectCorrelatedContexts B Self QueryProvider Params InContexts
      = InContexts.flatMap (fun C =>
          (CorrelatedReplacements B Self QueryProvider Params C).take 1)
        ++ InContexts.flatMap (fun C =>
          (CorrelatedReplacements B Self QueryProvider Params C).drop 1) := by
    unfold IntersectCorrelatedContexts
    rw [IntersectCorrelatedContextsLoop_eq B Self QueryProvider Params hNamed]
    simp
  have hPerm : (IntersectCorrelatedContexts B Self QueryProvider Params InContexts).Perm
      (InContexts.flatMap (CorrelatedReplacements B Self QueryProvider Params)) := by
    rw [hEq]
    have h := List.flatMap_append_perm InContexts
      (fun C => (CorrelatedReplacements B Self QueryProvider Params C).take 1)
      (fun C => (CorrelatedReplacements B Self QueryProvider Params C).drop 1)
    simp only [List.take_append_drop] at h
    exact h
  refine ⟨hPerm, ?_, hEq⟩
  rw [hPerm.length_eq, List.flatMap, List.length_flatten, List.map_map]
  congr 1
  apply List.map_congr_left
  intro C _
  simp [CorrelatedReplacements]

/-- Witness for C28 on scenario S4: of the incoming contexts with the targets `t1` and
`t2`, the correlated location query has no results for `t1` and the result `L1` for `t2`;
the output is the one context with target `t2` and location `L1`, and `GenerateContexts`
returns the same for the action of the scenario. -/
theorem IntersectCorrelatedContexts_replaces_each_context_witness :
    (IntersectCorrelatedContexts {} 0 LocationProviderS4 []
      [{ Self := 0, Target := some 1 }, { Self := 0, Target := some 2 }]).Perm
      [{ Self := 0, Target := some 2, Location := LocationL1 }] ∧
    IntersectCorrelatedContexts {} 0 LocationProviderS4 []
      [{ Self := 0, Target := some 1 }, { Self := 0, Target := some 2 }]
      = [{ Self := 0, Target := some 2, Location := LocationL1 }] ∧
    GenerateContexts WorldS4 {} 0 ActionS4
      = [{ Self := 0, Target := some 2, Location := LocationL1 }] :=
  ⟨(IntersectCorrelatedContexts_replaces_each_context {} 0 LocationProviderS4 []
      [{ Self := 0, Target := some 1 }, { Self := 0, Target := some 2 }]
      (fun h => absurd h (by decide))).1,
    by decide!, by decide!⟩

/-- C29, counterexample: an action whose only query has no registered provider.  The
query is passed over, but `GenerateContexts` returns no context, whereas for the query
list without it, which is empty, it returns the context holding only Self; `Update` finds
no candidate for the action, and starts it when the query is removed. -/
theorem GenerateContexts_lone_query_without_provider :
    ActionUnknownQuery.Queries.map (fun Q => Q.QueryTag) = [⟨["Suss", "Query", "Unknown"]⟩] ∧
    WorldS4.GetQueryProvider ⟨["Suss", "Query", "Unknown"]⟩ = none ∧
    QueriesRun WorldS4 {} 0 0 ActionUnknownQuery.Queries ([], []) [] = [] ∧
    GenerateContexts WorldS4 {} 0 ActionUnknownQuery = [] ∧
    GenerateContexts WorldS4 {} 0 { ActionUnknownQuery with Queries := [] } = [{ Self := 0 }] ∧
    UpdateCandidates WorldS4
      (InitActions SimpleSort { BrainConfig := { ActionDefs := [ActionUnknownQuery] } }) = [] ∧
    UpdateCandidates WorldS4
      (InitActions SimpleSort
        { BrainConfig := { ActionDefs := [{ ActionUnknownQuery with Queries := [] }] } })
      = [CandidateOf 0 1] := by
  refine ⟨by decide, rfl, by decide!, by decide!, by decide!, by decide!, by decide!⟩

/-- C29, amended: a query that duplicates what an earlier query with a registered provider
provides (the element kind `Target` or `Location`, or a named value of the same name) is
not among the queries run, and `GenerateContexts` returns the same contexts as for the
action without that query.  A query without a registered provider is not run either and
the loop goes on from it with the same contexts; `GenerateContexts` returns the same
contexts as for the action without it if other queries remain, and no context if it is
the only query. -/
theorem GenerateContexts_skips_duplicate_query (W : World) (B : USussBrainComponent)
    (Self : AActor) (Action : FSussActionDef) (Before After : List FSussQuery)
    (Query : FSussQuery) (hQ : Action.Queries = Before ++ Query :: After) :
    (∀ QueryProvider, W.GetQueryProvider Query.QueryTag = some QueryProvider →
      IsProvidedBefore W Before QueryProvider →
      Before.length ∉ QueriesRun W B Self 0 Action.Queries ([], []) [] ∧
      GenerateContexts W B Self Action
        = GenerateContexts W B Self { Action with Queries := Before ++ After }) ∧
    (W.GetQueryProvider Query.QueryTag = none →
      Before.length ∉ QueriesRun W B Self 0 Action.Queries ([], []) [] ∧
      GenerateContextsLoop W B Self Action.Queries [] [] []
        = GenerateContextsLoop W B Self (Before ++ After) [] [] [] ∧
      (Before ++ After ≠ [] →
        GenerateContexts W B Self Action
          = GenerateContexts W B Self { Action with Queries := Before ++ After }) ∧
      (Before ++ After = [] → GenerateContexts W B Self Action = [])) := by
  have hMain : IsQuerySkipped W (ProvidedAfter W Before ([], [])) Query = true →
      Before.length ∉ QueriesRun W B Self 0 Action.Queries ([], []) [] ∧
      GenerateContextsLoop W B Self Action.Queries [] [] []
        = GenerateContextsLoop W B Self (Before ++ After) [] [] [] ∧
      (Before ++ After ≠ [] →
        GenerateContexts W B Self Action
          = GenerateContexts W B Self { Action with Queries := Before ++ After }) := by
    intro hS
    have hRun := QueriesRun_skip W B Self After Query Before 0 ([], []) [] hS
    rw [Nat.zero_add, ← hQ] at hRun
    have hLoop := GenerateContextsLoop_skip W B Self Before After Query [] [] [] hS
    rw [← hQ] at hLoop
    refine ⟨hRun, hLoop, ?_⟩
    intro hNe
    have hLen : (Before ++ After).length > 0 := List.length_pos.2 hNe
    unfold GenerateContexts
    rw [if_pos (by rw [hQ]; simp), if_pos hLen]
    exact hLoop
  constructor
  · intro QueryProvider hP hD
    have hS : IsQuerySkipped W (ProvidedAfter W Before ([], [])) Query = true := by
      unfold IsQuerySkipped
      rw [hP]
      exact (IsDuplicateQuery_iff W Before QueryProvider).2 hD
    obtain ⟨hRun, _, hGen⟩ := hMain hS
    refine ⟨hRun, hGen ?_⟩
    obtain ⟨Earlier, hMem, _⟩ := hD
    intro hNil
    have : Earlier ∈ Before ++ After := List.mem_append_left _ hMem
    rw [hNil] at this
    exact absurd this (List.not_mem_nil _)
  · intro hP
    have hS : IsQuerySkipped W (ProvidedAfter W Before ([], [])) Query = true := by
      unfold IsQuerySkipped
      rw [hP]
    obtain ⟨hRun, hLoop, hGen⟩ := hMain hS
    refine ⟨hRun, hLoop, hGen, ?_⟩
    intro hNil
    unfold GenerateContexts
    rw [if_pos (by rw [hQ]; simp), hLoop, hNil]
    rfl

/-- Witness for C29 on scenario S4 with a second target query at the end and a query
without a registered provider in the middle: neither is run, and `GenerateContexts`
returns the one context of scenario S4. -/
theorem GenerateContexts_skips_duplicate_query_witness :
    IsProvidedBefore WorldS4
      [{ QueryTag := TagTargetQuery }, { QueryTag := ⟨["Suss", "Query", "Unknown"]⟩ },
       { QueryTag := TagLocationQuery }] TargetProvider ∧
    GenerateContexts WorldS4 {} 0 ActionS4Duplicate
      = GenerateContexts WorldS4 {} 0
          { ActionS4Duplicate with
            Queries := [{ QueryTag := TagTargetQuery },
                        { QueryTag := ⟨["Suss", "Query", "Unknown"]⟩ },
                        { QueryTag := TagLocationQuery }] } ∧
    QueriesRun WorldS4 {} 0 0 ActionS4Duplicate.Queries ([], []) [] = [0, 2] ∧
    GenerateContexts WorldS4 {} 0 ActionS4Duplicate
      = [{ Self := 0, Target := some 2, Location := LocationL1 }] :=
  have hD : IsProvidedBefore WorldS4
      [{ QueryTag := TagTargetQuery }, { QueryTag := ⟨["Suss", "Query", "Unknown"]⟩ },
       { QueryTag := TagLocationQuery }] TargetProvider :=
    ⟨{ QueryTag := TagTargetQuery }, List.mem_cons_self _ _, TargetProvider, rfl, rfl,
      fun h => absurd h (by decide)⟩
  ⟨hD,
    ((GenerateContexts_skips_duplicate_query WorldS4 {} 0 ActionS4Duplicate
      [{ QueryTag := TagTargetQuery }, { QueryTag := ⟨["Suss", "Query", "Unknown"]⟩ },
       { QueryTag := TagLocationQuery }] [] { QueryTag := TagTargetQuery } rfl).1
      TargetProvider rfl hD).2,
    by decide!, by decide!⟩

/-- C30: in the world `WorldAllDropped` the target query gives the contexts for `t1` and
`t2`, the correlated location query has no results for either and drops both, and the
later uncorrelated query for the named value `Cover` creates a context again:
`GenerateContexts` returns one context, which holds the named value but no target, and
`Update` scores the action in it and starts the action. -/
theorem GenerateContexts_recreates_contexts_after_all_dropped :
    GenerateContexts WorldAllDropped BrainAllDropped 0
      { ActionAllDropped with
        Queries := [{ QueryTag := TagTargetQuery }, { QueryTag := TagLocationQuery }] } = [] ∧
    GenerateContexts WorldAllDropped BrainAllDropped 0 ActionAllDropped
      = [{ Self := 0, NamedValues := [("Cover", FSussContextValue.Float 1)] }] ∧
    UpdateCandidates WorldAllDropped BrainAllDropped
      = [{ ActionDefIndex := 0
           Context := { Self := 0, NamedValues := [("Cover", FSussContextValue.Float 1)] }
           Score := 1 }] ∧
    (Update WorldAllDropped SimpleSort BrainAllDropped).ActionCalls
      = [FActionCall.PerformAction 7
          { Self := 0, NamedValues := [("Cover", FSussContextValue.Float 1)] } [] none] := by
  refine ⟨by decide!, by decide!, by decide!, by decide!⟩

/-- A write through `Array[Index]` with a function that keeps `φ` keeps the values of `φ`
over the array. -/
theorem TArray.Modify_map_of_kept {α β : Type} [Inhabited α] (l : List α) (Index : Int)
    (f : α → α) (φ : α → β) (h : ∀ x, φ (f x) = φ x) :
    (TArray.Modify l Index f).map φ = l.map φ := by
  apply List.ext_getElem?
  intro i
  rw [List.getElem?_map, List.getElem?_map, TArray.Modify_getElem?]
  cases l[i]? with
  | none => rfl
  | some x =>
    simp only [Option.map_some']
    split
    · rw [h]
    · rfl

/-- Two writes through `Array[Index]` with functions that agree under `φ` give the same
values of `φ` over the array. -/
theorem TArray.Modify_map_congr {α β : Type} [Inhabited α] (l : List α) (Index : Int)
    (f g : α → α) (φ : α → β) (h : ∀ x, φ (f x) = φ (g x)) :
    (TArray.Modify l Index f).map φ = (TArray.Modify l Index g).map φ := by
  apply List.ext_getElem?
  intro i
  rw [List.getElem?_map, List.getElem?_map, TArray.Modify_getElem?, TArray.Modify_getElem?]
  cases l[i]? with
  | none => rfl
  | some x =>
    simp only [Option.map_some']
    split
    · rw [h]
    · rfl

/-- A read of `Array[Index]` gives an element of the array or a default-constructed
value. -/
theorem TArray.At_mem_or_default {α : Type} [Inhabited α] (l : List α) (Index : Int) :
    TArray.At l Index ∈ l ∨ TArray.At l Index = default := by
  unfold TArray.At
  split
  · by_cases h : Index.toNat < l.length
    · left
      rw [List.getD_eq_getElem _ _ h]
      exact List.getElem_mem _
    · right
      exact List.getD_eq_default _ _ (not_lt.1 h)
  · exact Or.inr rfl

/-- A brain has the same catalogue as itself. -/
theorem SameCatalogue_refl (B : USussBrainComponent) : SameCatalogue B B := ⟨rfl, rfl, rfl⟩

/-- Having the same catalogue carries over two steps. -/
theorem SameCatalogue_trans {B X Y : USussBrainComponent} (h1 : SameCatalogue B X)
    (h2 : SameCatalogue X Y) : SameCatalogue B Y :=
  ⟨h2.1.trans h1.1, h2.2.1.trans h1.2.1, h2.2.2.trans h1.2.2⟩

/-- Brains that agree outside the action slot have the same catalogue. -/
theorem SameCatalogue_of_outside {B X : USussBrainComponent} (h : SameOutsideActionSlot B X) :
    SameCatalogue B X :=
  ⟨h.2.2.2.1, h.2.2.2.2.2.2.2.2.1, h.2.2.2.2.1⟩

/-- Function `QueueForUpdate` writes the update request flags and counter only. -/
theorem QueueForUpdate_same (W : World) (B : USussBrainComponent) :
    SameCatalogue B (QueueForUpdate W B) ∧ SameActionState B (QueueForUpdate W B) := by
  unfold QueueForUpdate
  split_ifs <;> exact ⟨⟨rfl, rfl, rfl⟩, ⟨rfl, rfl, rfl⟩⟩

/-- Function `UpdateDistanceCategory` writes the distance tier, the interval and the timer only. -/
theorem UpdateDistanceCategory_same (W : World) (B : USussBrainComponent) :
    SameCatalogue B (UpdateDistanceCategory W B) ∧
    SameActionState B (UpdateDistanceCategory W B) := by
  rw [UpdateDistanceCategory_eq]
  exact ⟨⟨rfl, rfl, rfl⟩, ⟨rfl, rfl, rfl⟩⟩

/-- The effect of `CancelCurrentAction` on the penalties: none without a current
instance; otherwise the action ends. -/
theorem CancelCurrentAction_effect (W : World) (B : USussBrainComponent)
    (Interrupter : Option FActionClass) :
    (B.CurrentActionInstance = none ∧ CancelCurrentAction W B Interrupter = B) ∨
    (∃ Instance, B.CurrentActionInstance = some Instance ∧
      (CancelCurrentAction W B Interrupter).CurrentActionInstance = none ∧
      (CancelCurrentAction W B Interrupter).ActionCalls
        = B.ActionCalls ++ [FActionCall.CancelAction Instance.Class Interrupter] ∧
      Penalties (CancelCurrentAction W B Interrupter) = PenaltiesAfterEnd B) := by
  cases hI : B.CurrentActionInstance with
  | none =>
    left
    refine ⟨rfl, ?_⟩
    simp only [CancelCurrentAction, hI]
  | some Instance =>
    right
    have hC : CancelCurrentAction W B Interrupter
        = RecordAndResetCurrentAction W { B with
            ActionCalls := B.ActionCalls ++ [FActionCall.CancelAction Instance.Class Interrupter] } := by
      simp only [CancelCurrentAction, hI]
    rw [hC]
    refine ⟨Instance, rfl, rfl, rfl, ?_⟩
    show (TArray.Modify B.ActionHistory B.CurrentActionResult.ActionDefIndex (fun History =>
        { History with
          LastEndTime := W.TimeSeconds
          RepetitionPenalty := History.RepetitionPenalty
            + (TArray.At B.CombinedActionsByPriority
                B.CurrentActionResult.ActionDefIndex).RepetitionPenalty })).map
        (fun H => H.RepetitionPenalty)
      = (TArray.Modify B.ActionHistory B.CurrentActionResult.ActionDefIndex (fun H =>
        { H with RepetitionPenalty := H.RepetitionPenalty
            + (TArray.At B.CombinedActionsByPriority
                B.CurrentActionResult.ActionDefIndex).RepetitionPenalty })).map
        (fun H => H.RepetitionPenalty)
    exact TArray.Modify_map_congr _ _ _ _ _ (fun _ => rfl)

/-- The effect of `CancelCurrentAction`: none, or the current action ends. -/
theorem CancelCurrentAction_ends (W : World) (B : USussBrainComponent)
    (Interrupter : Option FActionClass) :
    Penalties (CancelCurrentAction W B Interrupter) = Penalties B ∨
    EndsCurrentAction B (CancelCurrentAction W B Interrupter) := by
  rcases CancelCurrentAction_effect W B Interrupter with ⟨_, h⟩ | ⟨Instance, hI, hN, _, hP⟩
  · rw [h]; exact Or.inl rfl
  · exact Or.inr ⟨⟨Instance, hI, Or.inl hN⟩, hP⟩

/-- The effect of `StartNewAction` on the penalties: none, or the current action ends. -/
theorem StartNewAction_ends (W : World) (B : USussBrainComponent)
    (C : FSussActionScoringResult) :
    Penalties (StartNewAction W B C) = Penalties B ∨
    EndsCurrentAction B (StartNewAction W B C) := by
  have hKeep : ∀ (l : List FSussActionHistory),
      (TArray.Modify l C.ActionDefIndex (fun History =>
        { History with
          LastStartTime := W.TimeSeconds
          LastRunScore := C.Score
          LastContext := some C.Context })).map (fun H => H.RepetitionPenalty)
        = l.map (fun H => H.RepetitionPenalty) :=
    fun l => TArray.Modify_map_of_kept l _ _ _ (fun _ => rfl)
  rcases CancelCurrentAction_effect W B none with ⟨hN, h⟩ | ⟨Instance, hI, _, hCalls, hP⟩
  · left
    unfold StartNewAction StopCurrentAction
    simp only [h]
    split
    · exact hKeep _
    · rfl
  · right
    unfold StartNewAction StopCurrentAction
    simp only
    split
    · refine ⟨⟨Instance, hI, Or.inr ⟨none, _, by
        show (CancelCurrentAction W B none).ActionCalls ++ _ = _
        rw [hCalls, List.append_assoc]
        rfl⟩⟩, ?_⟩
      exact (hKeep _).trans hP
    · exact ⟨⟨Instance, hI, Or.inl rfl⟩, hP⟩

/-- The effect of `ChooseAction` on the penalties: none, or the current action ends. -/
theorem ChooseAction_ends (W : World) (B : USussBrainComponent)
    (C : FSussActionScoringResult) :
    Penalties (ChooseAction W B C) = Penalties B ∨
    EndsCurrentAction B (ChooseAction W B C) := by
  unfold ChooseAction
  simp only
  split
  · split
    · exact Or.inl rfl
    · exact StartNewAction_ends W B C
  · exact StartNewAction_ends W B C

/-- The effect of `Update` on the penalties: none, or the current action ends. -/
theorem Update_ends (W : World) (SortFn : TArraySort FSussActionScoringResult)
    (B : USussBrainComponent) :
    Penalties (Update W SortFn B) = Penalties B ∨ EndsCurrentAction B (Update W SortFn B) := by
  rcases Update_cases W SortFn B with h | h
  · rw [h]; exact Or.inl rfl
  · rw [h]
    rcases ChooseActionFromCandidates_shape W SortFn
      { UpdateEntry B with CandidateActions := UpdateCandidates W (UpdateEntry B) }
      with h2 | h2 | ⟨C, h2⟩
    · rw [h2]; exact Or.inl rfl
    · rw [h2]; exact Or.inl rfl
    · rw [h2]
      exact ChooseAction_ends W
        { UpdateEntry B with
          CandidateActions := SortFn ScoreGreater (UpdateCandidates W (UpdateEntry B)) } C

/-- The effect of `RecordAndResetCurrentAction` when there is a current instance. -/
theorem RecordAndResetCurrentAction_ends (W : World) (B : USussBrainComponent)
    (Instance : USussAction) (hI : B.CurrentActionInstance = some Instance) :
    EndsCurrentAction B (RecordAndResetCurrentAction W B) := by
  refine ⟨⟨Instance, hI, Or.inl rfl⟩, ?_⟩
  show (TArray.Modify B.ActionHistory B.CurrentActionResult.ActionDefIndex (fun History =>
      { History with
        LastEndTime := W.TimeSeconds
        RepetitionPenalty := History.RepetitionPenalty
          + (TArray.At B.CombinedActionsByPriority
              B.CurrentActionResult.ActionDefIndex).RepetitionPenalty })).map
      (fun H => H.RepetitionPenalty)
    = (TArray.Modify B.ActionHistory B.CurrentActionResult.ActionDefIndex (fun H =>
      { H with RepetitionPenalty := H.RepetitionPenalty
          + (TArray.At B.CombinedActionsByPriority
              B.CurrentActionResult.ActionDefIndex).RepetitionPenalty })).map
      (fun H => H.RepetitionPenalty)
  exact TArray.Modify_map_congr _ _ _ _ _ (fun _ => rfl)

/-- A step that keeps the history, the instance and the calls keeps what the steps before
it did to the penalties. -/
theorem ends_of_same {B Y X : USussBrainComponent}
    (h : Penalties Y = Penalties B ∨ EndsCurrentAction B Y) (hS : SameActionState Y X) :
    Penalties X = Penalties B ∨ EndsCurrentAction B X := by
  obtain ⟨h1, h2, h3⟩ := hS
  have hP : Penalties X = Penalties Y := by unfold Penalties; rw [h1]
  rcases h with h | ⟨⟨Instance, hI, hE⟩, hQ⟩
  · exact Or.inl (hP.trans h)
  · right
    refine ⟨⟨Instance, hI, ?_⟩, hP.trans hQ⟩
    rw [h2, h3]
    exact hE

/-- Keeping the penalties and ending the current action are two of the effects an
operation can have on the penalties. -/
theorem PenaltyEffect_of_ends {B X : USussBrainComponent}
    (h : Penalties X = Penalties B ∨ EndsCurrentAction B X) : PenaltyEffect B X :=
  h.elim Or.inl (fun h => Or.inr (Or.inl h))

/-- A brain with the same catalogue as one without negative penalties has none either. -/
theorem CatalogueNonNegative_of_same {B X : USussBrainComponent} (h : SameCatalogue B X)
    (hB : CatalogueNonNegative B) : CatalogueNonNegative X := by
  obtain ⟨h1, h2, h3⟩ := h
  unfold CatalogueNonNegative
  rw [h1, h2, h3]
  exact hB

/-- Function `BrainConfigChanged` leaves the history as it is or resizes it, and builds the
catalogue from the configuration. -/
theorem BrainConfigChanged_effect (SortFn : TArraySort FSussActionDef)
    (hSort : IsTArraySort SortFn) (W : World) (Y : USussBrainComponent)
    (hY : CatalogueNonNegative Y) :
    CatalogueNonNegative (BrainConfigChanged W SortFn Y) ∧
    ((BrainConfigChanged W SortFn Y).ActionHistory = Y.ActionHistory ∨
      ∃ n : Nat, (BrainConfigChanged W SortFn Y).ActionHistory = TArray.SetNum Y.ActionHistory n) := by
  unfold BrainConfigChanged
  split
  · refine ⟨⟨hY.1, hY.2.1, ?_⟩, Or.inr ⟨_, rfl⟩⟩
    intro D hD
    have hPerm := (hSort PriorityLess (CollectActions Y.BrainConfig)
      PriorityLess_isSortPredicate).1
    exact hY.1 D (hPerm.subset hD)
  · exact ⟨hY, Or.inl rfl⟩

/-- The functions that install, add to or reset a temporary score adjustment keep the
penalties. -/
theorem SetTemporaryActionScoreAdjustment_penalties (B : USussBrainComponent) (ActionIndex : Int)
    (Value CooldownTime : ℚ) :
    Penalties (SetTemporaryActionScoreAdjustment B ActionIndex Value CooldownTime) = Penalties B ∧
    SameCatalogue B (SetTemporaryActionScoreAdjustment B ActionIndex Value CooldownTime) := by
  unfold SetTemporaryActionScoreAdjustment
  split
  · refine ⟨?_, rfl, rfl, rfl⟩
    unfold Penalties
    dsimp only
    refine TArray.Modify_map_of_kept B.ActionHistory _ _ _ ?_
    intro H
    rfl
  · exact ⟨rfl, rfl, rfl, rfl⟩

/-- Function `AddTemporaryActionScoreAdjustment` keeps the penalties and the catalogue. -/
theorem AddTemporaryActionScoreAdjustment_penalties (B : USussBrainComponent) (ActionIndex : Int)
    (Value CooldownTime : ℚ) :
    Penalties (AddTemporaryActionScoreAdjustment B ActionIndex Value CooldownTime) = Penalties B ∧
    SameCatalogue B (AddTemporaryActionScoreAdjustment B ActionIndex Value CooldownTime) := by
  unfold AddTemporaryActionScoreAdjustment
  split
  · refine ⟨?_, rfl, rfl, rfl⟩
    unfold Penalties
    dsimp only
    refine TArray.Modify_map_of_kept B.ActionHistory _ _ _ ?_
    intro H
    rfl
  · exact ⟨rfl, rfl, rfl, rfl⟩

/-- Function `ResetTemporaryActionScoreAdjustment` keeps the penalties and the catalogue. -/
theorem ResetTemporaryActionScoreAdjustment_penalties (B : USussBrainComponent)
    (ActionIndex : Int) :
    Penalties (ResetTemporaryActionScoreAdjustment B ActionIndex) = Penalties B ∧
    SameCatalogue B (ResetTemporaryActionScoreAdjustment B ActionIndex) := by
  unfold ResetTemporaryActionScoreAdjustment
  split
  · refine ⟨?_, rfl, rfl, rfl⟩
    unfold Penalties
    dsimp only
    refine TArray.Modify_map_of_kept B.ActionHistory _ _ _ ?_
    intro H
    rfl
  · exact ⟨rfl, rfl, rfl, rfl⟩

/-- The loop over the actions with a tag keeps the penalties and the catalogue if every
call of `Apply` does. -/
theorem ForEachActionWithTag_penalties (B : USussBrainComponent) (ActionTag : FGameplayTag)
    (Apply : USussBrainComponent → Int → USussBrainComponent)
    (h : ∀ (Y : USussBrainComponent) (i : Int),
      Penalties (Apply Y i) = Penalties Y ∧ SameCatalogue Y (Apply Y i)) :
    Penalties (ForEachActionWithTag B ActionTag Apply) = Penalties B ∧
    SameCatalogue B (ForEachActionWithTag B ActionTag Apply) :=
  ForEachActionWithTag_induction (fun Y => Penalties Y = Penalties B ∧ SameCatalogue B Y)
    B ActionTag Apply ⟨rfl, SameCatalogue_refl B⟩
    (fun Y i hY => ⟨(h Y i).1.trans hY.1, SameCatalogue_trans hY.2 (h Y i).2⟩)

/-- What one operation does to the configuration, the catalogue and the penalties of a
brain without negative penalties. -/
theorem Perform_effect (SortActions : TArraySort FSussActionDef)
    (SortCandidates : TArraySort FSussActionScoringResult) (hSort : IsTArraySort SortActions)
    (B : USussBrainComponent) (hInv : CatalogueNonNegative B) (Op : BrainOperation)
    (hOk : OperationOk B Op) :
    CatalogueNonNegative (Perform SortActions SortCandidates B Op) ∧
    PenaltyEffect B (Perform SortActions SortCandidates B Op) := by
  have hKeep : ∀ X : USussBrainComponent, SameCatalogue B X →
      (Penalties X = Penalties B ∨ EndsCurrentAction B X) →
      CatalogueNonNegative X ∧ PenaltyEffect B X :=
    fun X hC hE => ⟨CatalogueNonNegative_of_same hC hInv, PenaltyEffect_of_ends hE⟩
  have hConfig : ∀ (W : World) (Y : USussBrainComponent), CatalogueNonNegative Y →
      Y.ActionHistory = B.ActionHistory →
      CatalogueNonNegative (BrainConfigChanged W SortActions Y) ∧
      PenaltyEffect B (BrainConfigChanged W SortActions Y) := by
    intro W Y hY hH
    obtain ⟨h1, h2⟩ := BrainConfigChanged_effect SortActions hSort W Y hY
    refine ⟨h1, ?_⟩
    rcases h2 with h2 | ⟨n, h2⟩
    · left
      unfold Penalties
      rw [h2, hH]
    · right; right; right
      exact ⟨n, by rw [h2, hH]⟩
  have hStop : ∀ (W : World) (Y : USussBrainComponent) (I : Option FActionClass),
      SameCatalogue Y (CancelCurrentAction W Y I) :=
    fun W Y I => SameCatalogue_of_outside (CancelCurrentAction_outside W Y I)
  have hQueue : ∀ (W : World) (Y : USussBrainComponent),
      SameCatalogue B Y → (Penalties Y = Penalties B ∨ EndsCurrentAction B Y) →
      CatalogueNonNegative (QueueForUpdate W Y) ∧ PenaltyEffect B (QueueForUpdate W Y) :=
    fun W Y hC hE => hKeep _ (SameCatalogue_trans hC (QueueForUpdate_same W Y).1)
      (ends_of_same hE (QueueForUpdate_same W Y).2)
  cases Op with
  | StartLogic W =>
    show CatalogueNonNegative (StartLogic W SortActions B) ∧
      PenaltyEffect B (StartLogic W SortActions B)
    unfold StartLogic
    simp only
    split
    · obtain ⟨hC, hA⟩ := UpdateDistanceCategory_same W
        { B with bIsLogicStopped := false, LogicStoppedReason := "" }
      have hInv2 : CatalogueNonNegative (UpdateDistanceCategory W
          { B with bIsLogicStopped := false, LogicStoppedReason := "" }) :=
        CatalogueNonNegative_of_same hC hInv
      split
      · rename_i Asset hAsset
        simp only [SetBrainConfigFromAsset]
        exact hConfig W
          { UpdateDistanceCategory W
              { B with bIsLogicStopped := false, LogicStoppedReason := "" } with
            BrainConfig := Asset }
          ⟨hInv2.2.1 Asset hAsset, hInv2.2.1, hInv2.2.2⟩ hA.1
      · exact hConfig W _ hInv2 hA.1
    · exact hKeep _ ⟨rfl, rfl, rfl⟩ (Or.inl rfl)
  | SetBrainConfig W NewConfig =>
    exact hConfig W { B with BrainConfig := NewConfig } ⟨hOk, hInv.2.1, hInv.2.2⟩ rfl
  | SetBrainConfigFromAsset W Asset =>
    exact hConfig W { B with BrainConfig := Asset } ⟨hOk, hInv.2.1, hInv.2.2⟩ rfl
  | StopLogic W Reason =>
    show CatalogueNonNegative (StopLogic W B Reason) ∧
      PenaltyEffect B (StopLogic W B Reason)
    have hE : Penalties (CancelCurrentAction W
          { B with bIsLogicStopped := true, LogicStoppedReason := Reason } none) = Penalties B ∨
        EndsCurrentAction B (CancelCurrentAction W
          { B with bIsLogicStopped := true, LogicStoppedReason := Reason } none) :=
      CancelCurrentAction_ends W { B with bIsLogicStopped := true, LogicStoppedReason := Reason } none
    have hC := hStop W { B with bIsLogicStopped := true, LogicStoppedReason := Reason } none
    unfold StopLogic StopCurrentAction
    simp only
    split
    · exact hKeep _ hC (ends_of_same hE ⟨rfl, rfl, rfl⟩)
    · exact hKeep _ hC hE
  | RestartLogic W =>
    show CatalogueNonNegative (RestartLogic W B) ∧
      PenaltyEffect B (RestartLogic W B)
    have hE : Penalties (CancelCurrentAction W
          { B with bIsLogicStopped := true, LogicStoppedReason := "" } none) = Penalties B ∨
        EndsCurrentAction B (CancelCurrentAction W
          { B with bIsLogicStopped := true, LogicStoppedReason := "" } none) :=
      CancelCurrentAction_ends W { B with bIsLogicStopped := true, LogicStoppedReason := "" } none
    have hC := hStop W { B with bIsLogicStopped := true, LogicStoppedReason := "" } none
    unfold RestartLogic StopCurrentAction
    simp only
    exact hKeep _ (SameCatalogue_trans hC (UpdateDistanceCategory_same W _).1)
      (ends_of_same hE (UpdateDistanceCategory_same W _).2)
  | PauseLogic Reason =>
    show CatalogueNonNegative (PauseLogic B Reason) ∧
      PenaltyEffect B (PauseLogic B Reason)
    unfold PauseLogic
    simp only
    split <;> exact hKeep _ ⟨rfl, rfl, rfl⟩ (Or.inl rfl)
  | ResumeLogic W Reason =>
    show CatalogueNonNegative (ResumeLogic W B Reason).1 ∧
      PenaltyEffect B (ResumeLogic W B Reason).1
    unfold ResumeLogic
    split
    · have hE : Penalties (CancelCurrentAction W
            { B with bIsLogicStopped := true, LogicStoppedReason := "" } none) = Penalties B ∨
          EndsCurrentAction B (CancelCurrentAction W
            { B with bIsLogicStopped := true, LogicStoppedReason := "" } none) :=
        CancelCurrentAction_ends W { B with bIsLogicStopped := true, LogicStoppedReason := "" } none
      have hC := hStop W { B with bIsLogicStopped := true, LogicStoppedReason := "" } none
      simp only [RestartLogic, StopCurrentAction]
      exact hKeep _ (SameCatalogue_trans hC (UpdateDistanceCategory_same W _).1)
        (ends_of_same hE (UpdateDistanceCategory_same W _).2)
    · simp only
      split <;> exact hKeep _ ⟨rfl, rfl, rfl⟩ (Or.inl rfl)
  | RequestUpdate W =>
    show CatalogueNonNegative (RequestUpdate W B) ∧
      PenaltyEffect B (RequestUpdate W B)
    unfold RequestUpdate
    split
    · exact hQueue W B (SameCatalogue_refl B) (Or.inl rfl)
    · exact hKeep _ ⟨rfl, rfl, rfl⟩ (Or.inl rfl)
  | Update W =>
    have hO := Update_outside W SortCandidates B
    have hC : SameCatalogue B (Update W SortCandidates B) :=
      ⟨hO.2.2.2.1, hO.2.2.2.2.2.2.2.2.1, hO.2.2.2.2.1⟩
    exact hKeep _ hC (Update_ends W SortCandidates B)
  | OnActionCompleted W SussAction =>
    show CatalogueNonNegative (OnActionCompleted W B SussAction) ∧
      PenaltyEffect B (OnActionCompleted W B SussAction)
    unfold OnActionCompleted
    split
    · rename_i Instance hI
      split
      · exact hQueue W _ (SameCatalogue_of_outside (RecordAndResetCurrentAction_outside W B))
          (Or.inr (RecordAndResetCurrentAction_ends W B Instance hI))
      · exact hKeep _ ⟨rfl, rfl, rfl⟩ (Or.inl rfl)
    · exact hKeep _ ⟨rfl, rfl, rfl⟩ (Or.inl rfl)
  | OnGameplayTagEvent W InTag NewCount =>
    show CatalogueNonNegative (OnGameplayTagEvent W B InTag NewCount) ∧
      PenaltyEffect B (OnGameplayTagEvent W B InTag NewCount)
    unfold OnGameplayTagEvent
    split
    · exact hQueue W B (SameCatalogue_refl B) (Or.inl rfl)
    · exact hKeep _ ⟨rfl, rfl, rfl⟩ (Or.inl rfl)
  | TimerCallback W =>
    show CatalogueNonNegative (TimerCallback W B) ∧
      PenaltyEffect B (TimerCallback W B)
    have hdt : 0 ≤ B.CurrentUpdateInterval := hOk
    obtain ⟨hC, hA⟩ := UpdateDistanceCategory_same W
      (UpdateActionScoreAdjustments B B.CurrentUpdateInterval)
    have hC2 : SameCatalogue B (UpdateDistanceCategory W
        (UpdateActionScoreAdjustments B B.CurrentUpdateInterval)) := hC
    have hP : Penalties (UpdateDistanceCategory W
        (UpdateActionScoreAdjustments B B.CurrentUpdateInterval))
        = Penalties (UpdateActionScoreAdjustments B B.CurrentUpdateInterval) := by
      unfold Penalties
      rw [hA.1]
    unfold TimerCallback
    simp only
    split
    · obtain ⟨hC3, hA3⟩ := QueueForUpdate_same W (UpdateDistanceCategory W
        (UpdateActionScoreAdjustments B B.CurrentUpdateInterval))
      refine ⟨CatalogueNonNegative_of_same (SameCatalogue_trans hC2 hC3) hInv,
        Or.inr (Or.inr (Or.inl ⟨B.CurrentUpdateInterval, hdt, ?_⟩))⟩
      rw [← hP]
      unfold Penalties
      rw [hA3.1]
    · exact ⟨CatalogueNonNegative_of_same hC2 hInv,
        Or.inr (Or.inr (Or.inl ⟨B.CurrentUpdateInterval, hdt, hP⟩))⟩
  | OnPerceptionUpdated W =>
    show CatalogueNonNegative (OnPerceptionUpdated W B) ∧
      PenaltyEffect B (OnPerceptionUpdated W B)
    unfold OnPerceptionUpdated
    split
    · exact hQueue W B (SameCatalogue_refl B) (Or.inl rfl)
    · exact hKeep _ ⟨rfl, rfl, rfl⟩ (Or.inl rfl)
  | UpdateActionScoreAdjustments DeltaTime =>
    exact ⟨CatalogueNonNegative_of_same ⟨rfl, rfl, rfl⟩ hInv,
      Or.inr (Or.inr (Or.inl ⟨DeltaTime, hOk, rfl⟩))⟩
  | StopCurrentAction W =>
    exact hKeep _ (hStop W B none) (CancelCurrentAction_ends W B none)
  | CancelCurrentAction W Interrupter =>
    exact hKeep _ (hStop W B Interrupter) (CancelCurrentAction_ends W B Interrupter)
  | SetTemporaryActionScoreAdjustment ActionIndex Value CooldownTime =>
    obtain ⟨h1, h2⟩ := SetTemporaryActionScoreAdjustment_penalties B ActionIndex Value CooldownTime
    exact hKeep _ h2 (Or.inl h1)
  | AddTemporaryActionScoreAdjustment ActionIndex Value CooldownTime =>
    obtain ⟨h1, h2⟩ := AddTemporaryActionScoreAdjustment_penalties B ActionIndex Value CooldownTime
    exact hKeep _ h2 (Or.inl h1)
  | ResetTemporaryActionScoreAdjustment ActionIndex =>
    obtain ⟨h1, h2⟩ := ResetTemporaryActionScoreAdjustment_penalties B ActionIndex
    exact hKeep _ h2 (Or.inl h1)
  | SetTemporaryActionScoreAdjustmentByTag ActionTag Value CooldownTime =>
    obtain ⟨h1, h2⟩ := ForEachActionWithTag_penalties B ActionTag
      (fun X i => SetTemporaryActionScoreAdjustment X i Value CooldownTime)
      (fun Y i => SetTemporaryActionScoreAdjustment_penalties Y i Value CooldownTime)
    exact hKeep _ h2 (Or.inl h1)
  | AddTemporaryActionScoreAdjustmentByTag ActionTag Value CooldownTime =>
    obtain ⟨h1, h2⟩ := ForEachActionWithTag_penalties B ActionTag
      (fun X i => AddTemporaryActionScoreAdjustment X i Value CooldownTime)
      (fun Y i => AddTemporaryActionScoreAdjustment_penalties Y i Value CooldownTime)
    exact hKeep _ h2 (Or.inl h1)
  | ResetTemporaryActionScoreAdjustmentByTag ActionTag =>
    obtain ⟨h1, h2⟩ := ForEachActionWithTag_penalties B ActionTag
      (fun X i => ResetTemporaryActionScoreAdjustment X i)
      (fun Y i => ResetTemporaryActionScoreAdjustment_penalties Y i)
    exact hKeep _ h2 (Or.inl h1)
  | ResetAllTemporaryActionScoreAdjustments =>
    refine hKeep _ ⟨rfl, rfl, rfl⟩ (Or.inl ?_)
    show (B.ActionHistory.map _).map _ = B.ActionHistory.map _
    rw [List.map_map]
    rfl

/-- An element of an array after a write through `Array[Index]` was in the array before,
or is the image of such an element. -/
theorem TArray.Modify_mem {α : Type} [Inhabited α] (l : List α) (Index : Int) (f : α → α)
    (y : α) (h : y ∈ TArray.Modify l Index f) : y ∈ l ∨ ∃ x ∈ l, y = f x := by
  obtain ⟨i, hi⟩ := List.getElem?_of_mem h
  rw [TArray.Modify_getElem?] at hi
  cases hx : l[i]? with
  | none => rw [hx] at hi; simp at hi
  | some x =>
    rw [hx] at hi
    simp only [Option.map_some', Option.some.injEq] at hi
    have hxl : x ∈ l := List.getElem?_mem hx
    split at hi
    · exact Or.inr ⟨x, hxl, hi.symm⟩
    · exact Or.inl (hi ▸ hxl)

/-- An entry of the history after the loop of `UpdateActionScoreAdjustments` is the loop
body applied to an entry of the history before. -/
theorem AdjustHistoryLoop_mem (B : USussBrainComponent) (DeltaTime : ℚ)
    (l : List FSussActionHistory) (k : Nat) (H' : FSussActionHistory)
    (h : H' ∈ AdjustHistoryLoop B DeltaTime k l) :
    ∃ H ∈ l, ∃ i : Nat, H' = AdjustHistoryEntry B DeltaTime i H := by
  obtain ⟨j, hj⟩ := List.getElem?_of_mem h
  rw [AdjustHistoryLoop_getElem?] at hj
  cases hx : l[j]? with
  | none => rw [hx] at hj; simp at hj
  | some H =>
    rw [hx] at hj
    simp only [Option.map_some', Option.some.injEq] at hj
    exact ⟨H, List.getElem?_mem hx, k + j, hj.symm⟩

/-- An entry of an array after `SetNum` at an index that was valid before is the entry
before, if the index is still valid. -/
theorem TArray.SetNum_getElem?_of_lt {α : Type} [Inhabited α] (l : List α) (n i : Nat)
    (hi : i < l.length) : (TArray.SetNum l n)[i]? = if i < n then l[i]? else none := by
  unfold TArray.SetNum
  by_cases hn : i < n
  · rw [if_pos hn, List.getElem?_append_left (by simp; omega), List.getElem?_take_of_lt hn]
  · rw [if_neg hn]
    have hle : n ≤ l.length := by omega
    have hRep : n - l.length = 0 := by omega
    rw [hRep]
    simp only [List.replicate_zero, List.append_nil]
    exact List.getElem?_eq_none (by simp; omega)

/-- An element of an array after `SetNum` was in the array before or is
default-constructed. -/
theorem TArray.SetNum_mem {α : Type} [Inhabited α] (l : List α) (n : Nat) (y : α)
    (h : y ∈ TArray.SetNum l n) : y ∈ l ∨ y = default := by
  unfold TArray.SetNum at h
  rcases List.mem_append.1 h with h | h
  · exact Or.inl (List.mem_of_mem_take h)
  · exact Or.inr (List.eq_of_mem_replicate h)

/-- The penalty of the definition that `CombinedActionsByPriority[Index]` reads is not
negative when no definition of the catalogue has a negative penalty. -/
theorem At_penalty_nonneg (B : USussBrainComponent) (hB : CatalogueNonNegative B) (Index : Int) :
    0 ≤ (TArray.At B.CombinedActionsByPriority Index).RepetitionPenalty := by
  rcases TArray.At_mem_or_default B.CombinedActionsByPriority Index with h | h
  · exact hB.2.2 _ h
  · rw [h]
    exact le_refl _

/-- The loop body of `UpdateActionScoreAdjustments` keeps a penalty that is not negative
between 0 and its value before, when the time and the penalty of the definition are not
negative. -/
theorem AdjustHistoryEntry_penalty_bounds (B : USussBrainComponent) (hB : CatalogueNonNegative B)
    (DeltaTime : ℚ) (hdt : 0 ≤ DeltaTime) (i : Nat) (H : FSussActionHistory)
    (hH : 0 ≤ H.RepetitionPenalty) :
    0 ≤ (AdjustHistoryEntry B DeltaTime i H).RepetitionPenalty ∧
    (AdjustHistoryEntry B DeltaTime i H).RepetitionPenalty ≤ H.RepetitionPenalty := by
  rw [AdjustHistoryEntry_RepetitionPenalty]
  have hD := At_penalty_nonneg B hB i
  split_ifs with h1 h2 h3
  · have hDecay : 0 ≤ (TArray.At B.CombinedActionsByPriority i).RepetitionPenalty
        * (DeltaTime / (TArray.At B.CombinedActionsByPriority i).RepetitionPenaltyCooldown) :=
      mul_nonneg hD (div_nonneg hdt h3.le)
    exact ⟨le_max_right _ _, max_le (by linarith) hH⟩
  · exact ⟨le_refl _, hH⟩
  · exact ⟨hH, le_refl _⟩
  · exact ⟨hH, le_refl _⟩

/-- The penalties of a brain after an operation are not negative if they were not before
and none of the catalogue is. -/
theorem Perform_nonNegative (SortActions : TArraySort FSussActionDef)
    (SortCandidates : TArraySort FSussActionScoringResult) (hSort : IsTArraySort SortActions)
    (B : USussBrainComponent) (hInv : PenaltiesNonNegative B) (Op : BrainOperation)
    (hOk : OperationOk B Op) :
    PenaltiesNonNegative (Perform SortActions SortCandidates B Op) := by
  obtain ⟨hC, hE⟩ := Perform_effect SortActions SortCandidates hSort B hInv.1 Op hOk
  refine ⟨hC, ?_⟩
  have hHist : ∀ H ∈ B.ActionHistory, 0 ≤ H.RepetitionPenalty := by
    intro H hH
    exact hInv.2 _ (List.mem_map.2 ⟨H, hH, rfl⟩)
  rcases hE with hK | ⟨_, hP⟩ | ⟨dt, hdt, hP⟩ | ⟨n, hN⟩
  · rw [hK]
    exact hInv.2
  · rw [hP]
    intro p hp
    obtain ⟨H', hH', rfl⟩ := List.mem_map.1 hp
    rcases TArray.Modify_mem _ _ _ _ hH' with h | ⟨H, hH, rfl⟩
    · exact hHist _ h
    · exact add_nonneg (hHist _ hH) (At_penalty_nonneg B hInv.1 _)
  · rw [hP]
    intro p hp
    obtain ⟨H', hH', rfl⟩ := List.mem_map.1 hp
    obtain ⟨H, hH, i, rfl⟩ := AdjustHistoryLoop_mem B dt B.ActionHistory 0 H' hH'
    exact (AdjustHistoryEntry_penalty_bounds B hInv.1 dt hdt i H (hHist _ hH)).1
  · intro p hp
    obtain ⟨H', hH', rfl⟩ := List.mem_map.1 hp
    rw [hN] at hH'
    rcases TArray.SetNum_mem _ _ _ hH' with h | h
    · exact hHist _ h
    · rw [h]
      exact le_refl _

/-- Every reachable brain is without negative penalties. -/
theorem PerformAll_nonNegative (SortActions : TArraySort FSussActionDef)
    (SortCandidates : TArraySort FSussActionScoringResult) (hSort : IsTArraySort SortActions) :
    ∀ (Operations : List BrainOperation) (B : USussBrainComponent),
      PenaltiesNonNegative B → OperationsOk SortActions SortCandidates B Operations →
      PenaltiesNonNegative (PerformAll SortActions SortCandidates B Operations)
  | [], _, hInv, _ => hInv
  | Op :: rest, B, hInv, hOk =>
    PerformAll_nonNegative SortActions SortCandidates hSort rest _
      (Perform_nonNegative SortActions SortCandidates hSort B hInv Op hOk.1) hOk.2

/-- Every reachable brain state is without negative penalties. -/
theorem IsReachable_nonNegative {SortActions : TArraySort FSussActionDef}
    {SortCandidates : TArraySort FSussActionScoringResult} (hSort : IsTArraySort SortActions)
    {B : USussBrainComponent} (hB : IsReachable SortActions SortCandidates B) :
    PenaltiesNonNegative B := by
  obtain ⟨Config, Asset, Operations, hConfig, hAsset, hOk, rfl⟩ := hB
  apply PerformAll_nonNegative SortActions SortCandidates hSort Operations _ _ hOk
  refine ⟨⟨hConfig, hAsset, ?_⟩, ?_⟩
  · intro D hD
    exact absurd hD (List.not_mem_nil _)
  · intro p hp
    exact absurd hp (List.not_mem_nil _)

/-- Invariants of the repetition penalty: in every brain state reached by operations with
`dt >= 0` from a configuration without negative `RepetitionPenalty`, no history entry has
a negative `RepetitionPenalty`; `UpdateActionScoreAdjustments(dt)` with `dt >= 0` keeps
every entry at or below its value and at or above 0, and takes an entry whose index is not
`CurrentActionResult.ActionDefIndex` and whose definition has a cooldown above 0 to
max(p - def.RepetitionPenalty * dt / def.RepetitionPenaltyCooldown, 0); and an operation
raises the penalty of an entry only if it ends the action of that entry, which was the
current one, and then by the `RepetitionPenalty` of its definition. -/
theorem RepetitionPenalty_nonNegative_and_rises_only_at_end
    (SortActions : TArraySort FSussActionDef)
    (SortCandidates : TArraySort FSussActionScoringResult) (hSort : IsTArraySort SortActions)
    (B : USussBrainComponent) (hB : IsReachable SortActions SortCandidates B) :
    (∀ H ∈ B.ActionHistory, 0 ≤ H.RepetitionPenalty) ∧
    (∀ DeltaTime : ℚ, 0 ≤ DeltaTime → ∀ (i : Nat) (H : FSussActionHistory),
      B.ActionHistory[i]? = some H →
      ∃ H', (UpdateActionScoreAdjustments B DeltaTime).ActionHistory[i]? = some H' ∧
        0 ≤ H'.RepetitionPenalty ∧ H'.RepetitionPenalty ≤ H.RepetitionPenalty ∧
        ((i : Int) ≠ B.CurrentActionResult.ActionDefIndex →
          0 < (TArray.At B.CombinedActionsByPriority i).RepetitionPenaltyCooldown →
          H'.RepetitionPenalty
            = max (H.RepetitionPenalty
                - (TArray.At B.CombinedActionsByPriority i).RepetitionPenalty * DeltaTime
                  / (TArray.At B.CombinedActionsByPriority i).RepetitionPenaltyCooldown) 0)) ∧
    (∀ Op : BrainOperation, OperationOk B Op → ∀ (i : Nat) (H H' : FSussActionHistory),
      B.ActionHistory[i]? = some H →
      (Perform SortActions SortCandidates B Op).ActionHistory[i]? = some H' →
      H.RepetitionPenalty < H'.RepetitionPenalty →
      CurrentActionEnded B (Perform SortActions SortCandidates B Op) i ∧
      H'.RepetitionPenalty
        = H.RepetitionPenalty + (TArray.At B.CombinedActionsByPriority i).RepetitionPenalty) := by
  have hInv := IsReachable_nonNegative hSort hB
  have hHist : ∀ H ∈ B.ActionHistory, 0 ≤ H.RepetitionPenalty := by
    intro H hH
    exact hInv.2 _ (List.mem_map.2 ⟨H, hH, rfl⟩)
  have hPen : ∀ (X : USussBrainComponent) (i : Nat),
      (Penalties X)[i]? = (X.ActionHistory[i]?).map (fun H => H.RepetitionPenalty) := by
    intro X i
    unfold Penalties
    rw [List.getElem?_map]
  refine ⟨hHist, ?_, ?_⟩
  · intro DeltaTime hdt i H hH
    have hMem : H ∈ B.ActionHistory := List.getElem?_mem hH
    refine ⟨AdjustHistoryEntry B DeltaTime i H, ?_, ?_⟩
    · show (AdjustHistoryLoop B DeltaTime 0 B.ActionHistory)[i]? = _
      rw [AdjustHistoryLoop_getElem?, hH]
      simp
    · obtain ⟨h0, h1⟩ := AdjustHistoryEntry_penalty_bounds B hInv.1 DeltaTime hdt i H
        (hHist _ hMem)
      refine ⟨h0, h1, ?_⟩
      intro hNe hCool
      rw [AdjustHistoryEntry_RepetitionPenalty]
      have hD := At_penalty_nonneg B hInv.1 i
      by_cases hp : H.RepetitionPenalty > 0
      · simp only [hp, hNe, hCool, if_true, ne_eq, not_false_eq_true, gt_iff_lt, mul_div_assoc]
      · have hz : H.RepetitionPenalty = 0 := le_antisymm (not_lt.1 hp) (hHist _ hMem)
        rw [if_neg hp, hz]
        have hDecay : 0 ≤ (TArray.At B.CombinedActionsByPriority i).RepetitionPenalty * DeltaTime
            / (TArray.At B.CombinedActionsByPriority i).RepetitionPenaltyCooldown :=
          div_nonneg (mul_nonneg hD hdt) hCool.le
        rw [max_eq_right (by linarith)]
  · intro Op hOk i H H' hH hH' hLt
    have hMem : H ∈ B.ActionHistory := List.getElem?_mem hH
    obtain ⟨_, hE⟩ := Perform_effect SortActions SortCandidates hSort B hInv.1 Op hOk
    have hX : (Penalties (Perform SortActions SortCandidates B Op))[i]?
        = some H'.RepetitionPenalty := by
      rw [hPen, hH']
      rfl
    rcases hE with hK | ⟨⟨Instance, hI, hEnd⟩, hP⟩ | ⟨dt, hdt, hP⟩ | ⟨n, hN⟩
    · rw [hK, hPen, hH] at hX
      simp only [Option.map_some', Option.some.injEq] at hX
      exact absurd hLt (by rw [hX]; exact lt_irrefl _)
    · rw [hP] at hX
      unfold PenaltiesAfterEnd at hX
      rw [List.getElem?_map, TArray.Modify_getElem?, hH] at hX
      simp only [Option.map_some', Option.some.injEq] at hX
      split at hX
      · rename_i hIdx
        refine ⟨⟨Instance, hI, hIdx, hEnd⟩, ?_⟩
        rw [← hX, hIdx]
      · exact absurd hLt (by rw [hX]; exact lt_irrefl _)
    · rw [hP, hPen] at hX
      have hA : (UpdateActionScoreAdjustments B dt).ActionHistory[i]?
          = some (AdjustHistoryEntry B dt i H) := by
        show (AdjustHistoryLoop B dt 0 B.ActionHistory)[i]? = _
        rw [AdjustHistoryLoop_getElem?, hH]
        simp
      rw [hA] at hX
      simp only [Option.map_some', Option.some.injEq] at hX
      have hLe := (AdjustHistoryEntry_penalty_bounds B hInv.1 dt hdt i H (hHist _ hMem)).2
      rw [hX] at hLe
      exact absurd hLt (not_lt.2 hLe)
    · have hiLt : i < B.ActionHistory.length := by
        by_contra hge
        rw [List.getElem?_eq_none (not_lt.1 hge)] at hH
        exact absurd hH (by simp)
      rw [hN, TArray.SetNum_getElem?_of_lt _ _ _ hiLt] at hH'
      split at hH'
      · rw [hH] at hH'
        have hEq : H = H' := Option.some.inj hH'
        rw [hEq] at hLt
        exact absurd hLt (lt_irrefl _)
      · exact absurd hH' (by simp)

/-- The invariants of the repetition penalty on the brain `BrainPenalised`: the action `A`
has ended once, so its entry carries the penalty 1/2; no entry is negative, and
`UpdateActionScoreAdjustments(1)` takes the entry to max(1/2 - 1/2 * 1 / 4, 0) = 3/8. -/
theorem RepetitionPenalty_nonNegative_and_rises_only_at_end_witness :
    IsReachable SimpleSort SimpleSort BrainPenalised ∧
    (TArray.At BrainPenalised.ActionHistory 0).RepetitionPenalty = 1 / 2 ∧
    (∀ H ∈ BrainPenalised.ActionHistory, 0 ≤ H.RepetitionPenalty) ∧
    (∃ H', (UpdateActionScoreAdjustments BrainPenalised 1).ActionHistory[0]? = some H' ∧
      0 ≤ H'.RepetitionPenalty ∧
      H'.RepetitionPenalty ≤ (TArray.At BrainPenalised.ActionHistory 0).RepetitionPenalty ∧
      (((0 : Nat) : Int) ≠ BrainPenalised.CurrentActionResult.ActionDefIndex →
        0 < (TArray.At BrainPenalised.CombinedActionsByPriority
              ((0 : Nat) : Int)).RepetitionPenaltyCooldown →
        H'.RepetitionPenalty
          = max ((TArray.At BrainPenalised.ActionHistory 0).RepetitionPenalty
              - (TArray.At BrainPenalised.CombinedActionsByPriority
                  ((0 : Nat) : Int)).RepetitionPenalty * 1
                / (TArray.At BrainPenalised.CombinedActionsByPriority
                    ((0 : Nat) : Int)).RepetitionPenaltyCooldown) 0)) ∧
    (TArray.At (UpdateActionScoreAdjustments BrainPenalised 1).ActionHistory
      0).RepetitionPenalty = 3 / 8 :=
  have hConfig : HasNonNegativePenalties ConfigPenalised := by
    intro D hD
    simp only [CollectActions, CollectActionSets, ConfigPenalised, List.nil_append,
      List.mem_singleton] at hD
    rw [hD]
    norm_num
  have hR : IsReachable SimpleSort SimpleSort BrainPenalised :=
    ⟨ConfigPenalised, none,
      [BrainOperation.StartLogic WorldS1, BrainOperation.Update WorldS1,
       BrainOperation.OnActionCompleted WorldS1Later {}],
      hConfig, fun A h => absurd h (by simp), ⟨trivial, trivial, trivial, trivial⟩, rfl⟩
  ⟨hR, by decide!,
    (RepetitionPenalty_nonNegative_and_rises_only_at_end SimpleSort SimpleSort
      SimpleSort_isTArraySort BrainPenalised hR).1,
    (RepetitionPenalty_nonNegative_and_rises_only_at_end SimpleSort SimpleSort
      SimpleSort_isTArraySort BrainPenalised hR).2.1 1 (by norm_num) 0
      (TArray.At BrainPenalised.ActionHistory 0) (by decide!),
    by decide!⟩

/-- Function `QueueForUpdate` leaves the stopped flag as it is. -/
theorem QueueForUpdate_stopped (W : World) (B : USussBrainComponent) :
    (QueueForUpdate W B).bIsLogicStopped = B.bIsLogicStopped := by
  unfold QueueForUpdate
  split_ifs <;> rfl

/-- Function `RestartLogic` sets the stopped flag. -/
theorem RestartLogic_stopped (W : World) (B : USussBrainComponent) :
    (RestartLogic W B).bIsLogicStopped = true := by
  unfold RestartLogic StopCurrentAction
  simp only
  rw [UpdateDistanceCategory_eq]
  exact (CancelCurrentAction_outside W _ none).2.2.1

/-- While the stopped flag is set, every operation other than `StartLogic` and a
`ResumeLogic` that does not restart leaves it set. -/
theorem Perform_keeps_stopped (SortActions : TArraySort FSussActionDef)
    (SortCandidates : TArraySort FSussActionScoringResult) (X : USussBrainComponent)
    (Op : BrainOperation) (hOp : Op.ClearsStoppedFlag = false) (hS : X.bIsLogicStopped = true) :
    (Perform SortActions SortCandidates X Op).bIsLogicStopped = true := by
  have hStop : ∀ (W : World) (Y : USussBrainComponent) (I : Option FActionClass),
      (CancelCurrentAction W Y I).bIsLogicStopped = Y.bIsLogicStopped :=
    fun W Y I => (CancelCurrentAction_outside W Y I).2.2.1
  have hDist : ∀ (W : World) (Y : USussBrainComponent),
      (UpdateDistanceCategory W Y).bIsLogicStopped = Y.bIsLogicStopped := by
    intro W Y
    rw [UpdateDistanceCategory_eq]
  have hTag : ∀ (T : FGameplayTag) (Apply : USussBrainComponent → Int → USussBrainComponent),
      (∀ (Y : USussBrainComponent) (i : Int), (Apply Y i).bIsLogicStopped = Y.bIsLogicStopped) →
      (ForEachActionWithTag X T Apply).bIsLogicStopped = true := by
    intro T Apply hA
    exact ForEachActionWithTag_induction (fun Y => Y.bIsLogicStopped = true) X T Apply hS
      (fun Y i hY => (hA Y i).trans hY)
  cases Op with
  | StartLogic W => exact absurd hOp (by simp [BrainOperation.ClearsStoppedFlag])
  | Update W =>
    show (Update W SortCandidates X).bIsLogicStopped = true
    exact (Update_outside W SortCandidates X).2.2.1.trans hS
  | SetBrainConfig W NewConfig =>
    show (SetBrainConfig W SortActions X NewConfig).bIsLogicStopped = true
    simp only [SetBrainConfig, BrainConfigChanged]
    split
    · rw [InitActions_eq]; exact hS
    · exact hS
  | SetBrainConfigFromAsset W Asset =>
    show (SetBrainConfigFromAsset W SortActions X Asset).bIsLogicStopped = true
    simp only [SetBrainConfigFromAsset, BrainConfigChanged]
    split
    · rw [InitActions_eq]; exact hS
    · exact hS
  | StopLogic W Reason =>
    show (StopLogic W X Reason).bIsLogicStopped = true
    unfold StopLogic StopCurrentAction
    simp only
    split
    · exact hStop _ _ _
    · exact hStop _ _ _
  | RestartLogic W => exact RestartLogic_stopped W X
  | PauseLogic Reason =>
    show (PauseLogic X Reason).bIsLogicStopped = true
    unfold PauseLogic
    simp only
    split <;> rfl
  | ResumeLogic W Reason =>
    show (ResumeLogic W X Reason).1.bIsLogicStopped = true
    have hR : W.bDoLogicRestartOnUnlock = true := by
      simpa [BrainOperation.ClearsStoppedFlag] using hOp
    simp only [ResumeLogic, hR, if_true]
    exact RestartLogic_stopped W X
  | RequestUpdate W =>
    show (RequestUpdate W X).bIsLogicStopped = true
    unfold RequestUpdate
    split
    · exact (QueueForUpdate_stopped W X).trans hS
    · exact hS
  | OnActionCompleted W SussAction =>
    show (OnActionCompleted W X SussAction).bIsLogicStopped = true
    unfold OnActionCompleted
    split
    · split
      · exact (QueueForUpdate_stopped W _).trans
          ((RecordAndResetCurrentAction_outside W X).2.2.1.trans hS)
      · exact hS
    · exact hS
  | OnGameplayTagEvent W InTag NewCount =>
    show (OnGameplayTagEvent W X InTag NewCount).bIsLogicStopped = true
    unfold OnGameplayTagEvent
    split
    · exact (QueueForUpdate_stopped W X).trans hS
    · exact hS
  | TimerCallback W =>
    show (TimerCallback W X).bIsLogicStopped = true
    unfold TimerCallback
    simp only
    have h2 : (UpdateDistanceCategory W
        (UpdateActionScoreAdjustments X X.CurrentUpdateInterval)).bIsLogicStopped = true :=
      (hDist _ _).trans hS
    split
    · exact (QueueForUpdate_stopped W _).trans h2
    · exact h2
  | OnPerceptionUpdated W =>
    show (OnPerceptionUpdated W X).bIsLogicStopped = true
    unfold OnPerceptionUpdated
    split
    · exact (QueueForUpdate_stopped W X).trans hS
    · exact hS
  | UpdateActionScoreAdjustments DeltaTime => exact hS
  | StopCurrentAction W => exact (hStop _ _ _).trans hS
  | CancelCurrentAction W Interrupter => exact (hStop _ _ _).trans hS
  | SetTemporaryActionScoreAdjustment ActionIndex Value CooldownTime =>
    show (SetTemporaryActionScoreAdjustment X ActionIndex Value CooldownTime).bIsLogicStopped = true
    rw [SetTemporaryActionScoreAdjustment_eq]; exact hS
  | AddTemporaryActionScoreAdjustment ActionIndex Value CooldownTime =>
    show (AddTemporaryActionScoreAdjustment X ActionIndex Value CooldownTime).bIsLogicStopped = true
    rw [AddTemporaryActionScoreAdjustment_eq]; exact hS
  | ResetTemporaryActionScoreAdjustment ActionIndex =>
    show (ResetTemporaryActionScoreAdjustment X ActionIndex).bIsLogicStopped = true
    rw [ResetTemporaryActionScoreAdjustment_eq]; exact hS
  | SetTemporaryActionScoreAdjustmentByTag ActionTag Value CooldownTime =>
    exact hTag ActionTag _ (fun Y i => by rw [SetTemporaryActionScoreAdjustment_eq])
  | AddTemporaryActionScoreAdjustmentByTag ActionTag Value CooldownTime =>
    exact hTag ActionTag _ (fun Y i => by rw [AddTemporaryActionScoreAdjustment_eq])
  | ResetTemporaryActionScoreAdjustmentByTag ActionTag =>
    exact hTag ActionTag _ (fun Y i => by rw [ResetTemporaryActionScoreAdjustment_eq])
  | ResetAllTemporaryActionScoreAdjustments => exact hS

/-- While the stopped flag is set, a sequence of operations none of which clears it leaves
it set. -/
theorem PerformAll_keeps_stopped (SortActions : TArraySort FSussActionDef)
    (SortCandidates : TArraySort FSussActionScoringResult) :
    ∀ (Operations : List BrainOperation) (X : USussBrainComponent),
    (∀ Op ∈ Operations, Op.ClearsStoppedFlag = false) → X.bIsLogicStopped = true →
    (PerformAll SortActions SortCandidates X Operations).bIsLogicStopped = true
  | [], _, _, hS => hS
  | Op :: rest, X, hOps, hS =>
    PerformAll_keeps_stopped SortActions SortCandidates rest
      (Perform SortActions SortCandidates X Op)
      (fun O hO => hOps O (List.mem_cons_of_mem _ hO))
      (Perform_keeps_stopped SortActions SortCandidates X Op
        (hOps Op (List.mem_cons_self _ _)) hS)

/-- While the stopped flag is set, `Update` clears `bQueuedForUpdate` and returns. -/
theorem Update_of_stopped (W : World) (SortFn : TArraySort FSussActionScoringResult)
    (B : USussBrainComponent) (hS : B.bIsLogicStopped = true) :
    Update W SortFn B = { B with bQueuedForUpdate := false } := by
  unfold Update
  simp only [hS, if_true]
  split <;> rfl

/-- Function `StartLogic` clears the stopped flag. -/
theorem StartLogic_not_stopped (W : World) (SortFn : TArraySort FSussActionDef)
    (B : USussBrainComponent) : (StartLogic W SortFn B).bIsLogicStopped = false := by
  have hC : ∀ Y : USussBrainComponent,
      (BrainConfigChanged W SortFn Y).bIsLogicStopped = Y.bIsLogicStopped := by
    intro Y
    unfold BrainConfigChanged
    split
    · rw [InitActions_eq]
    · rfl
  have hD : ∀ Y : USussBrainComponent,
      (UpdateDistanceCategory W Y).bIsLogicStopped = Y.bIsLogicStopped := by
    intro Y
    rw [UpdateDistanceCategory_eq]
  unfold StartLogic
  simp only
  split
  · split
    · unfold SetBrainConfigFromAsset
      rw [hC]
      exact hD _
    · rw [hC]
      exact hD _
  · rfl

/-- C38: `RestartLogic` cancels the current action (no instance is left, and `CancelAction`
is called on the instance that was running) and leaves `bIsLogicStopped` set.  After any
sequence of operations that holds neither a `StartLogic` nor a `ResumeLogic` that does not
restart, the flag is still set and an `Update`, in whatever world, only clears
`bQueuedForUpdate`: it scores nothing, calls no action and leaves the action slot as it
is.  `StartLogic` clears the flag, and so does a `ResumeLogic` that the engine does not
turn into a restart; one that restarts leaves it set. -/
theorem RestartLogic_leaves_logic_stopped (SortActions : TArraySort FSussActionDef)
    (SortCandidates : TArraySort FSussActionScoringResult) (W : World)
    (B : USussBrainComponent) (Operations : List BrainOperation)
    (hOps : ∀ Op ∈ Operations, Op.ClearsStoppedFlag = false) (W2 : World) (Reason : String) :
    (RestartLogic W B).CurrentActionInstance = none ∧
    (∀ Instance, B.CurrentActionInstance = some Instance →
      (RestartLogic W B).ActionCalls
        = B.ActionCalls ++ [FActionCall.CancelAction Instance.Class none]) ∧
    (RestartLogic W B).bIsLogicStopped = true ∧
    (PerformAll SortActions SortCandidates (RestartLogic W B) Operations).bIsLogicStopped
      = true ∧
    Update W2 SortCandidates (PerformAll SortActions SortCandidates (RestartLogic W B) Operations)
      = { PerformAll SortActions SortCandidates (RestartLogic W B) Operations with
          bQueuedForUpdate := false } ∧
    (StartLogic W2 SortActions
      (PerformAll SortActions SortCandidates (RestartLogic W B) Operations)).bIsLogicStopped
      = false ∧
    (W2.bDoLogicRestartOnUnlock = false →
      (ResumeLogic W2
        (PerformAll SortActions SortCandidates (RestartLogic W B) Operations) Reason).1.bIsLogicStopped
        = false) ∧
    (W2.bDoLogicRestartOnUnlock = true →
      (ResumeLogic W2
        (PerformAll SortActions SortCandidates (RestartLogic W B) Operations) Reason).1.bIsLogicStopped
        = true) := by
  have hS := PerformAll_keeps_stopped SortActions SortCandidates Operations (RestartLogic W B)
    hOps (RestartLogic_stopped W B)
  have hCancel : (RestartLogic W B).CurrentActionInstance = none ∧
      (∀ Instance, B.CurrentActionInstance = some Instance →
        (RestartLogic W B).ActionCalls
          = B.ActionCalls ++ [FActionCall.CancelAction Instance.Class none]) := by
    unfold RestartLogic StopCurrentAction
    simp only
    rw [UpdateDistanceCategory_eq]
    rcases CancelCurrentAction_effect W
      { B with bIsLogicStopped := true, LogicStoppedReason := "" } none with ⟨h1, h2⟩ | ⟨I, h1, h2, h3, _⟩
    · rw [h2]
      refine ⟨h1, ?_⟩
      intro Instance hI
      have h1' : B.CurrentActionInstance = none := h1
      rw [h1'] at hI
      exact absurd hI (by simp)
    · refine ⟨h2, ?_⟩
      intro Instance hI
      have h1' : B.CurrentActionInstance = some I := h1
      rw [h1'] at hI
      rw [← Option.some.inj hI]
      exact h3
  refine ⟨hCancel.1, hCancel.2, RestartLogic_stopped W B, hS, Update_of_stopped W2 _ _ hS, ?_, ?_, ?_⟩
  · exact StartLogic_not_stopped W2 SortActions _
  · intro hR
    simp only [ResumeLogic, hR]
    simp
  · intro hR
    simp only [ResumeLogic, hR, if_true]
    exact RestartLogic_stopped W2 _

/-- C38, witness: the brain of scenario S1 runs `A`; after `RestartLogic`, a timer
callback, an update and a `ResumeLogic` that restarts, the flag is still set. -/
theorem RestartLogic_leaves_logic_stopped_witness :
    (∀ Op ∈ [BrainOperation.TimerCallback WorldS1Later, BrainOperation.Update WorldS1Later,
        BrainOperation.ResumeLogic WorldS1Restarting ""], Op.ClearsStoppedFlag = false) ∧
    IsActionInProgress BrainS1Started = true ∧
    (RestartLogic WorldS1Later BrainS1Started).CurrentActionInstance = none ∧
    (PerformAll SimpleSort SimpleSort (RestartLogic WorldS1Later BrainS1Started)
      [BrainOperation.TimerCallback WorldS1Later, BrainOperation.Update WorldS1Later,
        BrainOperation.ResumeLogic WorldS1Restarting ""]).bIsLogicStopped = true := by
  have hOps : ∀ Op ∈ [BrainOperation.TimerCallback WorldS1Later, BrainOperation.Update WorldS1Later,
      BrainOperation.ResumeLogic WorldS1Restarting ""], Op.ClearsStoppedFlag = false := by
    intro Op hOp
    simp only [List.mem_cons, List.mem_singleton, List.not_mem_nil, or_false] at hOp
    rcases hOp with h | h | h <;> subst h <;> rfl
  have h := RestartLogic_leaves_logic_stopped SimpleSort SimpleSort WorldS1Later BrainS1Started
    [BrainOperation.TimerCallback WorldS1Later, BrainOperation.Update WorldS1Later,
      BrainOperation.ResumeLogic WorldS1Restarting ""] hOps WorldS1Later ""
  exact ⟨hOps, by decide!, h.1, h.2.2.2.1⟩

/-- C34: in scenario S5 with `ScoreCooldownTime` = 10, `ChooseAction` starts the action
with the candidate score 2 and the inertia 3.  The stored live score is 5, but the recorded
`LastRunScore` is 2, the candidate score without the inertia.  After 10 seconds of timer
ticks (ten ticks of one second, or one of ten) the live score is 3, not 0; it is still
positive after 24 seconds and reaches 0 after 25. -/
theorem ChooseAction_last_run_score_omits_inertia :
    (TArray.At BrainS5Cooling.CombinedActionsByPriority 0).Inertia = 3 ∧
    (TArray.At BrainS5Cooling.CombinedActionsByPriority 0).ScoreCooldownTime = 10 ∧
    IsActionInProgress BrainS5Cooling = true ∧
    BrainS5Cooling.CurrentActionResult.ActionDefIndex = 0 ∧
    BrainS5Cooling.CurrentActionResult.Score = 5 ∧
    (TArray.At BrainS5Cooling.ActionHistory 0).LastRunScore = 2 ∧
    (TimerTicks BrainS5Cooling (List.replicate 10 1)).CurrentActionResult.Score = 3 ∧
    (TimerTicks BrainS5Cooling [10]).CurrentActionResult.Score = 3 ∧
    (TimerTicks BrainS5Cooling (List.replicate 24 1)).CurrentActionResult.Score = 1 / 5 ∧
    (TimerTicks BrainS5Cooling (List.replicate 25 1)).CurrentActionResult.Score = 0 := by
  refine ⟨by decide!, by decide!, by decide!, by decide!, by decide!, by decide!, by decide!,
    by decide!, by decide!, by decide!⟩

/-- C35: in scenario S6 (method `WeightedRandomTopNPercent`, `TopN` = 20, candidate scores
5, 10, 1, 9) the eligible candidates are those with the scores 10 and 9 and the total is
19.  For the draw 19, the upper end of the range, the accumulated score never exceeds the
draw: `ChooseActionFromCandidates` sorts the candidates and returns without calling
`ChooseAction`, so no action is performed.  For the draw 19 - 1/1000 it performs the action
of the second candidate. -/
theorem ChooseActionFromCandidates_no_choice_at_total :
    WeightedTotals BrainS6 (SimpleSort ScoreGreater BrainS6.CandidateActions) = (19, 2) ∧
    WorldDrawMax.RandRange 0 19 = 19 ∧
    WeightedPick 19 2 (SimpleSort ScoreGreater BrainS6.CandidateActions) 0 = none ∧
    (ChooseActionFromCandidates WorldDrawMax SimpleSort BrainS6).CandidateActions
      = [CandidateOf 0 10, CandidateOf 1 9, CandidateOf 2 5, CandidateOf 3 1] ∧
    (ChooseActionFromCandidates WorldDrawMax SimpleSort BrainS6).ActionCalls = [] ∧
    (ChooseActionFromCandidates WorldDrawMax SimpleSort BrainS6).CurrentActionInstance = none ∧
    (ChooseActionFromCandidates WorldDrawMax SimpleSort BrainS6).CurrentActionResult
      = BrainS6.CurrentActionResult ∧
    (ChooseActionFromCandidates WorldDrawBelowMax SimpleSort BrainS6).ActionCalls
      = [FActionCall.PerformAction 7 { Self := 0 } [] none] ∧
    (ChooseActionFromCandidates WorldDrawBelowMax SimpleSort BrainS6).CurrentActionResult
      = CandidateOf 1 9 := by
  refine ⟨by decide!, by decide!, by decide!, by decide!, by decide!, by decide!, by decide!,
    by decide!, by decide!⟩

/-- C36: in scenario S1 the action `A` (weight 1, inertia 2) carries the temporary
adjustment 2 and runs with the live score 5.  An `Update` continues it with the live score
7; a second `Update` right after, with the same world, history and configuration,
continues it again and leaves the live score 9: every update adds the adjustment to the
retained score once more. -/
theorem Update_adds_adjustment_again :
    IsActionInProgress BrainAdjustedRunning = true ∧
    (TArray.At BrainAdjustedRunning.ActionHistory 0).TempScoreAdjust = 2 ∧
    BrainAdjustedRunning.CurrentActionResult.Score = 5 ∧
    (Update WorldS1 SimpleSort BrainAdjustedRunning).CurrentActionResult.Score = 7 ∧
    (Update WorldS1 SimpleSort BrainAdjustedRunning).ActionCalls
      = BrainAdjustedRunning.ActionCalls ++ [FActionCall.ContinueAction 7 { Self := 0 } []] ∧
    (Update WorldS1 SimpleSort BrainAdjustedRunning).ActionHistory
      = BrainAdjustedRunning.ActionHistory ∧
    (Update WorldS1 SimpleSort
      (Update WorldS1 SimpleSort BrainAdjustedRunning)).CurrentActionResult.Score = 9 ∧
    (Update WorldS1 SimpleSort (Update WorldS1 SimpleSort BrainAdjustedRunning)).ActionCalls
      = BrainAdjustedRunning.ActionCalls
        ++ [FActionCall.ContinueAction 7 { Self := 0 } [],
            FActionCall.ContinueAction 7 { Self := 0 } []] ∧
    (Update WorldS1 SimpleSort (Update WorldS1 SimpleSort BrainAdjustedRunning)).ActionHistory
      = BrainAdjustedRunning.ActionHistory := by
  refine ⟨by decide!, by decide!, by decide!, by decide!, by decide!, by decide!, by decide!,
    by decide!, by decide!⟩

/-- C37: the action `A` (priority 0, weight 1, repetition penalty 2) has run once and has
ended, `B` (priority 1, weight 10) has not run.  In the next `Update` the score of `A`
after the repetition penalty is 1 - 2 = -1, which is not nearly zero, so `A` is added to
`CandidateActions` with the score -1.  The group of priority 0 then has a candidate, the
loop stops before `B` (which would score 10), and `A` is chosen and performed with the
score -1. -/
theorem Update_adds_negative_candidate :
    IsActionInProgress BrainRepeated = false ∧
    (TArray.At BrainRepeated.ActionHistory 0).RepetitionPenalty = 2 ∧
    FinalScore WorldS1Later BrainRepeated 0 (TArray.At BrainRepeated.CombinedActionsByPriority 0)
      { Self := 0 } = -1 ∧
    FinalScore WorldS1Later BrainRepeated 1 (TArray.At BrainRepeated.CombinedActionsByPriority 1)
      { Self := 0 } = 10 ∧
    (Update WorldS1Later SimpleSort BrainRepeated).CandidateActions
      = [{ ActionDefIndex := 0, Context := { Self := 0 }, Score := -1 }] ∧
    IsActionInProgress (Update WorldS1Later SimpleSort BrainRepeated) = true ∧
    (Update WorldS1Later SimpleSort BrainRepeated).CurrentActionResult
      = { ActionDefIndex := 0, Context := { Self := 0 }, Score := -1 } ∧
    (Update WorldS1Later SimpleSort BrainRepeated).ActionCalls
      = BrainRepeated.ActionCalls ++ [FActionCall.PerformAction 7 { Self := 0 } [] none] := by
  refine ⟨by decide!, by decide!, by decide!, by decide!, by decide!, by decide!, by decide!,
    by decide!⟩

/-- An entry that `TMap::Find` returns is in the map. -/
theorem TMap.mem_of_Find {V : Type} (M : TMap FName V) (Key : FName) (v : V)
    (h : TMap.Find M Key = some v) : (Key, v) ∈ M := by
  unfold TMap.Find at h
  cases hF : List.find? (fun KV => decide (KV.1 = Key)) M with
  | none => rw [hF] at h; simp at h
  | some KV =>
    rw [hF] at h
    have h1 : KV.1 = Key := by simpa using List.find?_some hF
    have h2 : KV.2 = v := by simpa using h
    have h3 : KV ∈ M := List.mem_of_find?_eq_some hF
    have h4 : KV = (Key, v) := by
      rw [← h1, ← h2]
    rw [← h4]
    exact h3

/-- Function `TMap::Find` finds a value exactly for the keys of the map. -/
theorem TMap.Find_isSome_iff {V : Type} (M : TMap FName V) (Key : FName) :
    (∃ v, TMap.Find M Key = some v) ↔ Key ∈ M.map Prod.fst := by
  constructor
  · rintro ⟨v, h⟩
    exact List.mem_map.2 ⟨(Key, v), TMap.mem_of_Find M Key v h, rfl⟩
  · intro h
    obtain ⟨KV, hKV, hK⟩ := List.mem_map.1 h
    cases hF : List.find? (fun X : FName × V => decide (X.1 = Key)) M with
    | none =>
      have := List.find?_eq_none.1 hF KV hKV
      simp [hK] at this
    | some X => exact ⟨X.2, by simp [TMap.Find, hF]⟩

/-- Two maps with unique keys have the same number of entries and every entry of the first
is found in the second with an equal value, if and only if they bind the same keys to
equal values. -/
theorem SameNamedValues_iff (M N : TMap FName FSussContextValue)
    (hM : (M.map Prod.fst).Nodup) (hN : (N.map Prod.fst).Nodup) :
    (M.length = N.length ∧ ∀ KV ∈ M, TMap.Find N KV.1 = some KV.2) ↔ SameNamedValues M N := by
  constructor
  · rintro ⟨hLen, hAll⟩ Key
    have hSub : M.map Prod.fst ⊆ N.map Prod.fst := by
      intro K hK
      obtain ⟨KV, hKV, rfl⟩ := List.mem_map.1 hK
      exact (TMap.Find_isSome_iff N KV.1).1 ⟨KV.2, hAll KV hKV⟩
    have hPerm : (M.map Prod.fst).Perm (N.map Prod.fst) :=
      (List.Nodup.subperm hM hSub).perm_of_length_le (by simp [hLen])
    by_cases hK : Key ∈ M.map Prod.fst
    · obtain ⟨KV, hKV, rfl⟩ := List.mem_map.1 hK
      rw [TMap.Find_of_mem M hM KV hKV, hAll KV hKV]
    · have h1 : TMap.Find M Key = none := by
        cases h : TMap.Find M Key with
        | none => rfl
        | some v => exact absurd ((TMap.Find_isSome_iff M Key).1 ⟨v, h⟩) hK
      have hK2 : Key ∉ N.map Prod.fst := fun h => hK (hPerm.mem_iff.2 h)
      have h2 : TMap.Find N Key = none := by
        cases h : TMap.Find N Key with
        | none => rfl
        | some v => exact absurd ((TMap.Find_isSome_iff N Key).1 ⟨v, h⟩) hK2
      rw [h1, h2]
  · intro hSame
    have hKeys : ∀ Key, Key ∈ M.map Prod.fst ↔ Key ∈ N.map Prod.fst := by
      intro Key
      rw [← TMap.Find_isSome_iff M Key, ← TMap.Find_isSome_iff N Key, hSame Key]
    have hPerm : (M.map Prod.fst).Perm (N.map Prod.fst) :=
      (List.perm_ext_iff_of_nodup hM hN).2 hKeys
    refine ⟨by simpa using hPerm.length_eq, ?_⟩
    intro KV hKV
    rw [← hSame KV.1]
    exact TMap.Find_of_mem M hM KV hKV

/-- C32: `IsActionSameAsCurrent(i, ctx)` returns true if and only if an action is in
progress, `i` is `CurrentActionResult.ActionDefIndex`, `ctx` has the target of the current
context, the squared distance between the two locations is at most 900, and the two
named-value maps bind the same keys to equal values.  The named values are `TMap`s, whose
keys are unique. -/
theorem IsActionSameAsCurrent_iff (B : USussBrainComponent) (i : Int) (Ctx : FSussContext)
    (hCurr : (B.CurrentActionResult.Context.NamedValues.map Prod.fst).Nodup)
    (hNew : (Ctx.NamedValues.map Prod.fst).Nodup) :
    IsActionSameAsCurrent B i Ctx = true ↔
      IsActionInProgress B = true ∧
      i = B.CurrentActionResult.ActionDefIndex ∧
      Ctx.Target = B.CurrentActionResult.Context.Target ∧
      FVector.DistSquared B.CurrentActionResult.Context.Location Ctx.Location ≤ 900 ∧
      SameNamedValues B.CurrentActionResult.Context.NamedValues Ctx.NamedValues := by
  have hAll : (B.CurrentActionResult.Context.NamedValues.all (fun KV =>
        match TMap.Find Ctx.NamedValues KV.1 with
        | some Val => decide (KV.2 = Val)
        | none => false)) = true
      ↔ ∀ KV ∈ B.CurrentActionResult.Context.NamedValues,
          TMap.Find Ctx.NamedValues KV.1 = some KV.2 := by
    rw [List.all_eq_true]
    constructor
    · intro h KV hKV
      have h2 := h KV hKV
      cases hF : TMap.Find Ctx.NamedValues KV.1 with
      | none => rw [hF] at h2; simp at h2
      | some v =>
        rw [hF] at h2
        have h3 : KV.2 = v := by simpa using h2
        rw [h3]
    · intro h KV hKV
      rw [h KV hKV]
      simp
  have hSame := SameNamedValues_iff B.CurrentActionResult.Context.NamedValues Ctx.NamedValues
    hCurr hNew
  have hTol : LocationToleranceSq = 900 := by norm_num [LocationToleranceSq]
  unfold IsActionSameAsCurrent
  by_cases hP : IsActionInProgress B = true
  swap
  · simp [hP]
  by_cases hI : i = B.CurrentActionResult.ActionDefIndex
  swap
  · simp [hI]
  by_cases hT : B.CurrentActionResult.Context.Target = Ctx.Target
  swap
  · have hT2 : ¬ Ctx.Target = B.CurrentActionResult.Context.Target := fun h => hT h.symm
    simp [hP, hI, hT, hT2]
  by_cases hD : FVector.DistSquared B.CurrentActionResult.Context.Location Ctx.Location
      > LocationToleranceSq
  · have hD2 : ¬ FVector.DistSquared B.CurrentActionResult.Context.Location Ctx.Location ≤ 900 := by
      rw [← hTol]; exact not_le.2 hD
    simp [hP, hI, hT, hD, hD2]
  have hD2 : FVector.DistSquared B.CurrentActionResult.Context.Location Ctx.Location ≤ 900 := by
    rw [← hTol]; exact not_lt.1 hD
  by_cases hL : B.CurrentActionResult.Context.NamedValues.length = Ctx.NamedValues.length
  swap
  · have hNo : ¬ SameNamedValues B.CurrentActionResult.Context.NamedValues Ctx.NamedValues :=
      fun h => hL (hSame.2 h).1
    simp [hP, hI, hT, hD, hL, hNo]
  simp only [hP, hI, decide_True, Bool.and_self, if_true, hT, ne_eq, not_true_eq_false, if_false,
    hD, hL, true_and, hD2]
  refine Iff.trans hAll ?_
  rw [← hSame]
  exact ⟨fun h => ⟨hL, h⟩, fun h => h.2⟩

/-- C32, witness: the action with index 1 runs for the target 5; a context with the same
target and named values whose location is 30 units away is the same as the current one. -/
theorem IsActionSameAsCurrent_iff_witness :
    (BrainWithContext.CurrentActionResult.Context.NamedValues.map Prod.fst).Nodup ∧
    (ContextNearby.NamedValues.map Prod.fst).Nodup ∧
    FVector.DistSquared BrainWithContext.CurrentActionResult.Context.Location
      ContextNearby.Location = 900 ∧
    (IsActionSameAsCurrent BrainWithContext 1 ContextNearby = true ↔
      IsActionInProgress BrainWithContext = true ∧
      (1 : Int) = BrainWithContext.CurrentActionResult.ActionDefIndex ∧
      ContextNearby.Target = BrainWithContext.CurrentActionResult.Context.Target ∧
      FVector.DistSquared BrainWithContext.CurrentActionResult.Context.Location
        ContextNearby.Location ≤ 900 ∧
      SameNamedValues BrainWithContext.CurrentActionResult.Context.NamedValues
        ContextNearby.NamedValues) ∧
    IsActionSameAsCurrent BrainWithContext 1 ContextNearby = true :=
  ⟨by decide, by decide, by decide!,
    IsActionSameAsCurrent_iff BrainWithContext 1 ContextNearby (by decide) (by decide),
    by decide!⟩

/-- Function `TMap::Add` with a key that the map does not hold appends the entry. -/
theorem TMap.Add_of_not_mem {V : Type} : ∀ (M : TMap FName V) (Key : FName) (Value : V),
    Key ∉ M.map Prod.fst → TMap.Add M Key Value = M ++ [(Key, Value)]
  | [], _, _, _ => rfl
  | KV :: M, Key, Value, h => by
    have h1 : KV.1 ≠ Key := fun hEq => h (by simp [hEq])
    have h2 : Key ∉ M.map Prod.fst := fun hIn => h (by simp at hIn ⊢; exact Or.inr hIn)
    simp only [TMap.Add, h1, if_false, List.cons_append]
    rw [TMap.Add_of_not_mem M Key Value h2]

/-- The loop of `ResolveParameters` over parameters with unique keys, none of them in
`OutParams`, appends every parameter with its value resolved against `SelfContext`. -/
theorem ResolveParametersLoop_eq (W : World) (B : USussBrainComponent)
    (SelfContext : FSussContext) :
    ∀ (InParams OutParams : TMap FName FSussParameter),
    ((OutParams ++ InParams).map Prod.fst).Nodup →
    ResolveParametersLoop W B SelfContext InParams OutParams
      = OutParams ++ InParams.map (fun P => (P.1, ResolveParameter W B SelfContext P.2))
  | [], OutParams, _ => by simp [ResolveParametersLoop]
  | Param :: rest, OutParams, h => by
    have hNot : Param.1 ∉ OutParams.map Prod.fst := by
      intro hIn
      rw [List.map_append, List.map_cons] at h
      have := (List.nodup_append.1 h).2.2
      exact this hIn (List.mem_cons_self _ _)
    rw [ResolveParametersLoop, TMap.Add_of_not_mem _ _ _ hNot]
    have h2 : (((OutParams ++ [(Param.1, ResolveParameter W B SelfContext Param.2)]) ++ rest).map
        Prod.fst).Nodup := by
      simpa using h
    rw [ResolveParametersLoop_eq W B SelfContext rest _ h2]
    simp

/-- Function `TMap::Find` on a map whose values have been transformed. -/
theorem TMap.Find_map_values {V U : Type} (f : V → U) : ∀ (M : TMap FName V) (Key : FName),
    TMap.Find (M.map (fun P => (P.1, f P.2))) Key = (TMap.Find M Key).map f
  | [], _ => rfl
  | KV :: M, Key => by
    have ih := TMap.Find_map_values f M Key
    simp only [TMap.Find] at ih ⊢
    by_cases h : KV.1 = Key
    · simp only [List.map_cons, List.find?_cons, h, decide_True, Option.map_some']
    · simp only [List.map_cons, List.find?_cons, h, decide_False]
      exact ih

/-- C31, counterexample: the parameter provider answers 1 for the context with the target
1 and 1/4 for the context with the target 2, but the parameters that `Update` hands to the
input provider are in both contexts the answer 1/2 that the provider gives for the context
holding only Self; both contexts are scored 1/2. -/
theorem ResolveParameters_ignores_target :
    GenerateContexts WorldParams BrainParams 0 (TArray.At BrainParams.CombinedActionsByPriority 0)
      = [ContextWithTarget 1, ContextWithTarget 2] ∧
    ResolveParametersLoop WorldParams BrainParams (ContextWithTarget 1) ParamsRange []
      = [("Range", FSussParameter.ofFloat 1)] ∧
    ResolveParametersLoop WorldParams BrainParams (ContextWithTarget 2) ParamsRange []
      = [("Range", FSussParameter.ofFloat (1 / 4))] ∧
    ResolveParameters WorldParams BrainParams 0 ParamsRange []
      = [("Range", FSussParameter.ofFloat (1 / 2))] ∧
    ScoreConsiderations WorldParams BrainParams 0 (ContextWithTarget 1) 1 [ConsiderationRange]
      = 1 / 2 ∧
    ScoreConsiderations WorldParams BrainParams 0 (ContextWithTarget 2) 1 [ConsiderationRange]
      = 1 / 2 ∧
    UpdateCandidates WorldParams BrainParams
      = [{ ActionDefIndex := 0, Context := ContextWithTarget 1, Score := 1 / 2 },
         { ActionDefIndex := 0, Context := ContextWithTarget 2, Score := 1 / 2 }] := by
  refine ⟨by decide!, by decide!, by decide!, by decide!, by decide!, by decide!, by decide!⟩

/-- C31, amended: when `Update` scores a consideration for a context, the input provider
is evaluated in that context, but the parameters it is given are resolved against the
context that holds only Self, with no target, the default location and no named values:
each parameter has the value `ResolveParameter` gives it in that context, whatever the
evaluation context is.  So the resolved parameters are the same for two contexts that
differ only in target. -/
theorem ConsiderationScore_resolves_against_self (W : World) (B : USussBrainComponent)
    (Self : AActor) (Ctx : FSussContext) (InputProvider : USussInputProvider)
    (Consideration : FSussConsideration)
    (hKeys : (Consideration.Parameters.map Prod.fst).Nodup) (Key : FName) :
    ConsiderationScore W B Self Ctx InputProvider Consideration
      = Consideration.EvaluateCurve (NormalisedInput W B Ctx Consideration
          (InputProvider.Evaluate B Ctx
            (ResolveParameters W B Self Consideration.Parameters []))) ∧
    ResolveParameters W B Self Consideration.Parameters []
      = Consideration.Parameters.map (fun P =>
          (P.1, ResolveParameter W B
            { Self := Self, Target := none, Location := { X := 0, Y := 0, Z := 0 },
              NamedValues := [] } P.2)) ∧
    TMap.Find (ResolveParameters W B Self Consideration.Parameters []) Key
      = (TMap.Find Consideration.Parameters Key).map
          (ResolveParameter W B
            { Self := Self, Target := none, Location := { X := 0, Y := 0, Z := 0 },
              NamedValues := [] }) := by
  have h := ResolveParametersLoop_eq W B { Self := Self } Consideration.Parameters []
    (by simpa using hKeys)
  have h2 : ResolveParameters W B Self Consideration.Parameters []
      = Consideration.Parameters.map (fun P =>
          (P.1, ResolveParameter W B { Self := Self } P.2)) := by
    unfold ResolveParameters
    rw [h]
    simp
  refine ⟨rfl, h2, ?_⟩
  rw [h2]
  exact TMap.Find_map_values _ _ _

/-- C31, witness: the consideration of the scenario in the context with the target 1. -/
theorem ConsiderationScore_resolves_against_self_witness :
    (ConsiderationRange.Parameters.map Prod.fst).Nodup ∧
    TMap.Find (ResolveParameters WorldParams BrainParams 0 ConsiderationRange.Parameters [])
        "Range"
      = (TMap.Find ConsiderationRange.Parameters "Range").map
          (ResolveParameter WorldParams BrainParams
            { Self := 0, Target := none, Location := { X := 0, Y := 0, Z := 0 },
              NamedValues := [] }) ∧
    TMap.Find (ResolveParameters WorldParams BrainParams 0 ConsiderationRange.Parameters [])
        "Range" = some (FSussParameter.ofFloat (1 / 2)) :=
  ⟨by decide,
    (ConsiderationScore_resolves_against_self WorldParams BrainParams 0 (ContextWithTarget 1)
      { Evaluate := fun _ _ _ => 0 } ConsiderationRange (by decide) "Range").2.2,
    by decide!⟩

/-- Function `TArray::SetNum` leaves an array of the requested length. -/
theorem TArray.SetNum_length {α : Type} [Inhabited α] (l : List α) (n : Nat) :
    (TArray.SetNum l n).length = n := by
  unfold TArray.SetNum
  simp only [List.length_append, List.length_take, List.length_replicate]
  omega

/-- The loop of `UpdateActionScoreAdjustments` keeps the length of the history. -/
theorem AdjustHistoryLoop_length (B : USussBrainComponent) (DeltaTime : ℚ) :
    ∀ (l : List FSussActionHistory) (k : Nat), (AdjustHistoryLoop B DeltaTime k l).length = l.length
  | [], _ => rfl
  | H :: rest, k => by
    simp only [AdjustHistoryLoop, List.length_cons, AdjustHistoryLoop_length B DeltaTime rest (k + 1)]

/-- After `InitActions` the history is as long as the catalogue. -/
theorem InitActions_lengths (SortFn : TArraySort FSussActionDef) (B : USussBrainComponent) :
    HistoryMatchesCatalogue (InitActions SortFn B) := by
  unfold HistoryMatchesCatalogue InitActions
  simp only
  exact TArray.SetNum_length _ _

/-- Agreement outside the action slot keeps the history as long as the catalogue. -/
theorem HistoryMatchesCatalogue_of_outside {B X : USussBrainComponent}
    (h : SameOutsideActionSlot B X) (hB : HistoryMatchesCatalogue B) :
    HistoryMatchesCatalogue X := by
  unfold HistoryMatchesCatalogue at hB ⊢
  rw [h.2.2.2.2.2.1, h.2.2.2.2.1]
  exact hB

/-- Every operation keeps the history as long as the catalogue. -/
theorem Perform_lengths (SortActions : TArraySort FSussActionDef)
    (SortCandidates : TArraySort FSussActionScoringResult) (X : USussBrainComponent)
    (Op : BrainOperation) (hX : HistoryMatchesCatalogue X) :
    HistoryMatchesCatalogue (Perform SortActions SortCandidates X Op) := by
  have hStop : ∀ (W : World) (Y : USussBrainComponent) (I : Option FActionClass),
      HistoryMatchesCatalogue Y → HistoryMatchesCatalogue (CancelCurrentAction W Y I) :=
    fun W Y I hY => HistoryMatchesCatalogue_of_outside (CancelCurrentAction_outside W Y I) hY
  have hDist : ∀ (W : World) (Y : USussBrainComponent),
      HistoryMatchesCatalogue Y → HistoryMatchesCatalogue (UpdateDistanceCategory W Y) := by
    intro W Y hY
    rw [UpdateDistanceCategory_eq]
    exact hY
  have hQueue : ∀ (W : World) (Y : USussBrainComponent),
      HistoryMatchesCatalogue Y → HistoryMatchesCatalogue (QueueForUpdate W Y) := by
    intro W Y hY
    unfold QueueForUpdate
    split_ifs <;> exact hY
  have hChanged : ∀ (W : World) (Y : USussBrainComponent),
      HistoryMatchesCatalogue Y → HistoryMatchesCatalogue (BrainConfigChanged W SortActions Y) := by
    intro W Y hY
    unfold BrainConfigChanged
    split
    · exact InitActions_lengths SortActions Y
    · exact hY
  have hSet : ∀ (Y : USussBrainComponent) (i : Int) (V C : ℚ),
      HistoryMatchesCatalogue Y →
      HistoryMatchesCatalogue (SetTemporaryActionScoreAdjustment Y i V C) := by
    intro Y i V C hY
    unfold SetTemporaryActionScoreAdjustment
    split
    · unfold HistoryMatchesCatalogue at hY ⊢
      simp only [TArray.Modify_length]
      exact hY
    · exact hY
  have hAdd : ∀ (Y : USussBrainComponent) (i : Int) (V C : ℚ),
      HistoryMatchesCatalogue Y →
      HistoryMatchesCatalogue (AddTemporaryActionScoreAdjustment Y i V C) := by
    intro Y i V C hY
    unfold AddTemporaryActionScoreAdjustment
    split
    · unfold HistoryMatchesCatalogue at hY ⊢
      simp only [TArray.Modify_length]
      exact hY
    · exact hY
  have hReset : ∀ (Y : USussBrainComponent) (i : Int),
      HistoryMatchesCatalogue Y →
      HistoryMatchesCatalogue (ResetTemporaryActionScoreAdjustment Y i) := by
    intro Y i hY
    unfold ResetTemporaryActionScoreAdjustment
    split
    · unfold HistoryMatchesCatalogue at hY ⊢
      simp only [TArray.Modify_length]
      exact hY
    · exact hY
  have hAdjust : ∀ (Y : USussBrainComponent) (D : ℚ),
      HistoryMatchesCatalogue Y → HistoryMatchesCatalogue (UpdateActionScoreAdjustments Y D) := by
    intro Y D hY
    unfold HistoryMatchesCatalogue UpdateActionScoreAdjustments at *
    simp only [AdjustHistoryLoop_length]
    exact hY
  cases Op with
  | StartLogic W =>
    show HistoryMatchesCatalogue (StartLogic W SortActions X)
    unfold StartLogic
    simp only
    split
    · split
      · exact hChanged W _ (hDist W _ hX)
      · exact hChanged W _ (hDist W _ hX)
    · exact hX
  | SetBrainConfig W NewConfig => exact hChanged W _ hX
  | SetBrainConfigFromAsset W Asset => exact hChanged W _ hX
  | StopLogic W Reason =>
    show HistoryMatchesCatalogue (StopLogic W X Reason)
    unfold StopLogic StopCurrentAction
    simp only
    split
    · exact hStop W _ none hX
    · exact hStop W _ none hX
  | RestartLogic W => exact hDist W _ (hStop W _ none hX)
  | PauseLogic Reason =>
    show HistoryMatchesCatalogue (PauseLogic X Reason)
    unfold PauseLogic
    simp only
    split <;> exact hX
  | ResumeLogic W Reason =>
    show HistoryMatchesCatalogue (ResumeLogic W X Reason).1
    unfold ResumeLogic
    split
    · exact hDist W _ (hStop W _ none hX)
    · simp only
      split <;> exact hX
  | RequestUpdate W =>
    show HistoryMatchesCatalogue (RequestUpdate W X)
    unfold RequestUpdate
    split
    · exact hQueue W X hX
    · exact hX
  | Update W =>
    exact HistoryMatchesCatalogue_of_outside (Update_outside W SortCandidates X) hX
  | OnActionCompleted W SussAction =>
    show HistoryMatchesCatalogue (OnActionCompleted W X SussAction)
    unfold OnActionCompleted
    split
    · split
      · exact hQueue W _
          (HistoryMatchesCatalogue_of_outside (RecordAndResetCurrentAction_outside W X) hX)
      · exact hX
    · exact hX
  | OnGameplayTagEvent W InTag NewCount =>
    show HistoryMatchesCatalogue (OnGameplayTagEvent W X InTag NewCount)
    unfold OnGameplayTagEvent
    split
    · exact hQueue W X hX
    · exact hX
  | TimerCallback W =>
    show HistoryMatchesCatalogue (TimerCallback W X)
    unfold TimerCallback
    simp only
    split
    · exact hQueue W _ (hDist W _ (hAdjust X _ hX))
    · exact hDist W _ (hAdjust X _ hX)
  | OnPerceptionUpdated W =>
    show HistoryMatchesCatalogue (OnPerceptionUpdated W X)
    unfold OnPerceptionUpdated
    split
    · exact hQueue W X hX
    · exact hX
  | UpdateActionScoreAdjustments DeltaTime => exact hAdjust X DeltaTime hX
  | StopCurrentAction W => exact hStop W X none hX
  | CancelCurrentAction W Interrupter => exact hStop W X Interrupter hX
  | SetTemporaryActionScoreAdjustment ActionIndex Value CooldownTime =>
    exact hSet X ActionIndex Value CooldownTime hX
  | AddTemporaryActionScoreAdjustment ActionIndex Value CooldownTime =>
    exact hAdd X ActionIndex Value CooldownTime hX
  | ResetTemporaryActionScoreAdjustment ActionIndex => exact hReset X ActionIndex hX
  | SetTemporaryActionScoreAdjustmentByTag ActionTag Value CooldownTime =>
    exact ForEachActionWithTag_induction HistoryMatchesCatalogue X ActionTag _ hX
      (fun Y i hY => hSet Y i Value CooldownTime hY)
  | AddTemporaryActionScoreAdjustmentByTag ActionTag Value CooldownTime =>
    exact ForEachActionWithTag_induction HistoryMatchesCatalogue X ActionTag _ hX
      (fun Y i hY => hAdd Y i Value CooldownTime hY)
  | ResetTemporaryActionScoreAdjustmentByTag ActionTag =>
    exact ForEachActionWithTag_induction HistoryMatchesCatalogue X ActionTag _ hX
      (fun Y i hY => hReset Y i hY)
  | ResetAllTemporaryActionScoreAdjustments =>
    show HistoryMatchesCatalogue (ResetAllTemporaryActionScoreAdjustments X)
    unfold HistoryMatchesCatalogue ResetAllTemporaryActionScoreAdjustments at *
    simp only [List.length_map]
    exact hX

/-- Every sequence of operations keeps the history as long as the catalogue. -/
theorem PerformAll_lengths (SortActions : TArraySort FSussActionDef)
    (SortCandidates : TArraySort FSussActionScoringResult) :
    ∀ (Operations : List BrainOperation) (X : USussBrainComponent),
    HistoryMatchesCatalogue X →
    HistoryMatchesCatalogue (PerformAll SortActions SortCandidates X Operations)
  | [], _, hX => hX
  | Op :: rest, X, hX =>
    PerformAll_lengths SortActions SortCandidates rest (Perform SortActions SortCandidates X Op)
      (Perform_lengths SortActions SortCandidates X Op hX)

/-- C33: in every state that a sequence of operations reaches from a new brain,
`ActionHistory` is as long as `CombinedActionsByPriority`.  But the index of the current
action does not stay valid: the brain of scenario S2 runs `B`, the action with index 1 of
a catalogue of two, where the index is valid; `SetBrainConfig` with a configuration of a
single action rebuilds the catalogue and resizes the history to the length 1 and leaves
the current action alone, so that an action is in progress whose index 1 is valid in
neither array. -/
theorem SetBrainConfig_leaves_stale_index (SortActions : TArraySort FSussActionDef)
    (SortCandidates : TArraySort FSussActionScoringResult) (Config : FSussBrainConfig)
    (Asset : Option FSussBrainConfig) (Operations : List BrainOperation) :
    HistoryMatchesCatalogue
      (PerformAll SortActions SortCandidates (NewBrain Config Asset) Operations) ∧
    IsActionInProgress BrainBeforeShrink = true ∧
    BrainBeforeShrink.CurrentActionResult.ActionDefIndex = 1 ∧
    BrainBeforeShrink.CombinedActionsByPriority.length = 2 ∧
    IsCurrentIndexValid BrainBeforeShrink = true ∧
    IsActionInProgress BrainShrunk = true ∧
    BrainShrunk.CurrentActionResult.ActionDefIndex = 1 ∧
    BrainShrunk.CombinedActionsByPriority.length = 1 ∧
    BrainShrunk.ActionHistory.length = 1 ∧
    TArray.IsValidIndex BrainShrunk.CombinedActionsByPriority
      BrainShrunk.CurrentActionResult.ActionDefIndex = false ∧
    TArray.IsValidIndex BrainShrunk.ActionHistory
      BrainShrunk.CurrentActionResult.ActionDefIndex = false ∧
    IsCurrentIndexValid BrainShrunk = false := by
  refine ⟨PerformAll_lengths SortActions SortCandidates Operations _ rfl, by decide!, by decide!,
    by decide!, by decide!, by decide!, by decide!, by decide!, by decide!, by decide!,
    by decide!, by decide!⟩

/-- Reading an entry at a valid index after a write through `Array[Index]`. -/
theorem TArray.At_Modify_valid {α : Type} [Inhabited α] (l : List α) (i Index : Int)
    (f : α → α) (h0 : 0 ≤ i) (h1 : i.toNat < l.length) :
    TArray.At (TArray.Modify l Index f) i
      = if Index = i then f (TArray.At l i) else TArray.At l i := by
  have hG := TArray.Modify_getElem? l Index f i.toNat
  have hi : ((i.toNat : Nat) : Int) = i := Int.toNat_of_nonneg h0
  rw [hi, List.getElem?_eq_getElem h1] at hG
  simp only [TArray.At, h0, if_true, List.getD_eq_getElem?_getD, hG,
    List.getElem?_eq_getElem h1, Option.map_some', Option.getD_some]

/-- C15: `ChooseAction` on a candidate that does not match the running action and
context, whose tag has the registered class `Class`.  `CurrentActionResult` becomes the
candidate with its score increased by `Def.Inertia`, and the current instance is the
reserved instance of `Class`, initialised with the candidate's context and index.  If no
action was running, the only call is `PerformAction` on the new instance and the only
change of the history is the start record at the candidate's index.  If the instance
`Instance` was running, it is cancelled first: `CancelAction` is called on it before
`PerformAction` (which is told its class), and the history entry of the old index records
the end (`LastEndTime` is the current time and the definition's `RepetitionPenalty` is
added) before the start record is written.  The start record sets `LastStartTime`,
`LastRunScore` and `LastContext` in the entry of the candidate's index. -/
theorem ChooseAction_new_action (W : World) (B : USussBrainComponent)
    (ActionResult : FSussActionScoringResult) (Class : FActionClass)
    (hNotSame : IsActionSameAsCurrent B ActionResult.ActionDefIndex ActionResult.Context = false)
    (hClass : W.GetActionClass
      (TArray.At B.CombinedActionsByPriority ActionResult.ActionDefIndex).ActionTag = some Class) :
    (ChooseAction W B ActionResult).CurrentActionResult
      = { ActionResult with
          Score := ActionResult.Score
            + (TArray.At B.CombinedActionsByPriority ActionResult.ActionDefIndex).Inertia } ∧
    (ChooseAction W B ActionResult).CurrentActionInstance
      = some ((W.ReserveAction Class).Init ActionResult.Context ActionResult.ActionDefIndex) ∧
    (B.CurrentActionInstance = none →
      (ChooseAction W B ActionResult).ActionCalls
        = B.ActionCalls
          ++ [FActionCall.PerformAction (W.ReserveAction Class).Class ActionResult.Context
                (TArray.At B.CombinedActionsByPriority ActionResult.ActionDefIndex).ActionParams
                none] ∧
      (ChooseAction W B ActionResult).ActionHistory
        = TArray.Modify B.ActionHistory ActionResult.ActionDefIndex
            (fun History =>
              { History with
                LastStartTime := W.TimeSeconds
                LastRunScore := ActionResult.Score
                LastContext := some ActionResult.Context })) ∧
    (∀ Instance, B.CurrentActionInstance = some Instance →
      (ChooseAction W B ActionResult).ActionCalls
        = B.ActionCalls
          ++ [FActionCall.CancelAction Instance.Class none,
              FActionCall.PerformAction (W.ReserveAction Class).Class ActionResult.Context
                (TArray.At B.CombinedActionsByPriority ActionResult.ActionDefIndex).ActionParams
                (some Instance.Class)] ∧
      (ChooseAction W B ActionResult).ActionHistory
        = TArray.Modify
            (TArray.Modify B.ActionHistory B.CurrentActionResult.ActionDefIndex
              (fun History =>
                { History with
                  LastEndTime := W.TimeSeconds
                  RepetitionPenalty := History.RepetitionPenalty
                    + (TArray.At B.CombinedActionsByPriority
                        B.CurrentActionResult.ActionDefIndex).RepetitionPenalty }))
            ActionResult.ActionDefIndex
            (fun History =>
              { History with
                LastStartTime := W.TimeSeconds
                LastRunScore := ActionResult.Score
                LastContext := some ActionResult.Context }) ∧
      (0 ≤ B.CurrentActionResult.ActionDefIndex →
        B.CurrentActionResult.ActionDefIndex.toNat < B.ActionHistory.length →
        (TArray.At (ChooseAction W B ActionResult).ActionHistory
            B.CurrentActionResult.ActionDefIndex).LastEndTime = W.TimeSeconds ∧
        (TArray.At (ChooseAction W B ActionResult).ActionHistory
            B.CurrentActionResult.ActionDefIndex).RepetitionPenalty
          = (TArray.At B.ActionHistory B.CurrentActionResult.ActionDefIndex).RepetitionPenalty
            + (TArray.At B.CombinedActionsByPriority
                B.CurrentActionResult.ActionDefIndex).RepetitionPenalty)) ∧
    (0 ≤ ActionResult.ActionDefIndex →
      ActionResult.ActionDefIndex.toNat < B.ActionHistory.length →
      (TArray.At (ChooseAction W B ActionResult).ActionHistory
          ActionResult.ActionDefIndex).LastStartTime = W.TimeSeconds ∧
      (TArray.At (ChooseAction W B ActionResult).ActionHistory
          ActionResult.ActionDefIndex).LastRunScore = ActionResult.Score ∧
      (TArray.At (ChooseAction W B ActionResult).ActionHistory
          ActionResult.ActionDefIndex).LastContext = some ActionResult.Context) := by
  have hStart : ChooseAction W B ActionResult = StartNewAction W B ActionResult := by
    unfold ChooseAction
    cases hI : B.CurrentActionInstance with
    | none => rfl
    | some Instance => simp only [hNotSame, Bool.false_eq_true, if_false]
  have hNone : B.CurrentActionInstance = none →
      (ChooseAction W B ActionResult).ActionCalls
        = B.ActionCalls
          ++ [FActionCall.PerformAction (W.ReserveAction Class).Class ActionResult.Context
                (TArray.At B.CombinedActionsByPriority ActionResult.ActionDefIndex).ActionParams
                none] ∧
      (ChooseAction W B ActionResult).ActionHistory
        = TArray.Modify B.ActionHistory ActionResult.ActionDefIndex
            (fun History =>
              { History with
                LastStartTime := W.TimeSeconds
                LastRunScore := ActionResult.Score
                LastContext := some ActionResult.Context }) := by
    intro hI
    rw [hStart]
    simp only [StartNewAction, StopCurrentAction, CancelCurrentAction, hI, hClass, USussAction.Init,
      Option.map_none', and_self]
  have hSome : ∀ Instance, B.CurrentActionInstance = some Instance →
      (ChooseAction W B ActionResult).ActionCalls
        = B.ActionCalls
          ++ [FActionCall.CancelAction Instance.Class none,
              FActionCall.PerformAction (W.ReserveAction Class).Class ActionResult.Context
                (TArray.At B.CombinedActionsByPriority ActionResult.ActionDefIndex).ActionParams
                (some Instance.Class)] ∧
      (ChooseAction W B ActionResult).ActionHistory
        = TArray.Modify
            (TArray.Modify B.ActionHistory B.CurrentActionResult.ActionDefIndex
              (fun History =>
                { History with
                  LastEndTime := W.TimeSeconds
                  RepetitionPenalty := History.RepetitionPenalty
                    + (TArray.At B.CombinedActionsByPriority
                        B.CurrentActionResult.ActionDefIndex).RepetitionPenalty }))
            ActionResult.ActionDefIndex
            (fun History =>
              { History with
                LastStartTime := W.TimeSeconds
                LastRunScore := ActionResult.Score
                LastContext := some ActionResult.Context }) := by
    intro Instance hI
    rw [hStart]
    simp only [StartNewAction, StopCurrentAction, CancelCurrentAction, RecordAndResetCurrentAction,
      hI, hClass, USussAction.Init, Option.map_some', List.append_assoc, List.singleton_append,
      and_self]
  refine ⟨?_, ?_, hNone, ?_, ?_⟩
  · rw [hStart]
    simp only [StartNewAction, hClass]
  · rw [hStart]
    simp only [StartNewAction, hClass]
  · intro Instance hI
    refine ⟨(hSome Instance hI).1, (hSome Instance hI).2, ?_⟩
    intro h0 h1
    rw [(hSome Instance hI).2]
    rw [TArray.At_Modify_valid _ _ _ _ h0 (by rw [TArray.Modify_length]; exact h1),
      TArray.At_Modify_valid _ _ _ _ h0 h1]
    simp only [if_true]
    split <;> exact ⟨rfl, rfl⟩
  · intro h0 h1
    cases hI : B.CurrentActionInstance with
    | none =>
      rw [(hNone hI).2, TArray.At_Modify_valid _ _ _ _ h0 h1]
      simp only [if_true, and_self]
    | some Instance =>
      rw [(hSome Instance hI).2,
        TArray.At_Modify_valid _ _ _ _ h0 (by rw [TArray.Modify_length]; exact h1)]
      simp only [if_true, and_self]

/-- Witness for C15.  The action `B` (index 1) runs in an instance of class 8 since time 4;
at time 9 `ChooseAction` is called on a candidate for `A` (index 0, score 1).  `B` is
cancelled and its end recorded (`LastEndTime` 9, penalty 1/2), `A` is performed, and the
live score is 1 + 2.  Scenario S1: the single action with weight 1 and inertia 2 is started
by `Update` with the live score 1 + 2, in the context holding only the agent. -/
theorem ChooseAction_new_action_witness :
    IsActionSameAsCurrent BrainSwitch (CandidateOf 0 1).ActionDefIndex (CandidateOf 0 1).Context
      = false ∧
    WorldSwitch.GetActionClass
      (TArray.At BrainSwitch.CombinedActionsByPriority (CandidateOf 0 1).ActionDefIndex).ActionTag
      = some 7 ∧
    BrainSwitch.CurrentActionInstance
      = some { Class := 8, CurrentContext := some { Self := 0 }, BrainActionIndex := 1 } ∧
    BrainSwitch.CurrentActionResult.ActionDefIndex = 1 ∧
    BrainSwitch.ActionHistory
      = [{}, { LastStartTime := 4, LastRunScore := 10, LastContext := some { Self := 0 } }] ∧
    (ChooseAction WorldSwitch BrainSwitch (CandidateOf 0 1)).CurrentActionResult
      = { CandidateOf 0 1 with
          Score := (CandidateOf 0 1).Score
            + (TArray.At BrainSwitch.CombinedActionsByPriority
                (CandidateOf 0 1).ActionDefIndex).Inertia } ∧
    (ChooseAction WorldSwitch BrainSwitch (CandidateOf 0 1)).CurrentActionResult
      = CandidateOf 0 3 ∧
    (ChooseAction WorldSwitch BrainSwitch (CandidateOf 0 1)).CurrentActionInstance
      = some { Class := 7, CurrentContext := some { Self := 0 }, BrainActionIndex := 0 } ∧
    (ChooseAction WorldSwitch BrainSwitch (CandidateOf 0 1)).ActionCalls
      = [FActionCall.PerformAction 8 { Self := 0 } [] none,
         FActionCall.CancelAction 8 none,
         FActionCall.PerformAction 7 { Self := 0 } [] (some 8)] ∧
    (ChooseAction WorldSwitch BrainSwitch (CandidateOf 0 1)).ActionHistory
      = [{ LastStartTime := 9, LastRunScore := 1, LastContext := some { Self := 0 } },
         { LastStartTime := 4, LastEndTime := 9, LastRunScore := 10,
           LastContext := some { Self := 0 }, RepetitionPenalty := 1 / 2 }] ∧
    UpdateCandidates WorldS1 BrainS1 = [CandidateOf 0 1] ∧
    (Update WorldS1 SimpleSort BrainS1).CurrentActionResult = CandidateOf 0 3 ∧
    (Update WorldS1 SimpleSort BrainS1).CurrentActionInstance
      = some { Class := 7, CurrentContext := some { Self := 0 }, BrainActionIndex := 0 } ∧
    (Update WorldS1 SimpleSort BrainS1).ActionHistory
      = [{ LastStartTime := 4, LastRunScore := 1, LastContext := some { Self := 0 } }] ∧
    (Update WorldS1 SimpleSort BrainS1).ActionCalls
      = [FActionCall.PerformAction 7 { Self := 0 } [] none] :=
  ⟨by decide!, by decide!, by decide!, by decide!, by decide!,
    (ChooseAction_new_action WorldSwitch BrainSwitch (CandidateOf 0 1) 7 (by decide!)
      (by decide!)).1,
    by decide!, by decide!, by decide!, by decide!, by decide!, by decide!, by decide!, by decide!,
    by decide!⟩

/-- C21: the action `A` (repetition penalty 1/2, cooldown 4) has run and ended, so its
entry carries the penalty 1/2, and `UpdateActionScoreAdjustments(1)` would take it to
max(1/2 - 1/2 * 1 / 4, 0) = 3/8.  An `Update` in a world without a class for `A` chooses
`A` and creates no instance: no action is in progress, but `CurrentActionResult` keeps the
index 0.  From then on `UpdateActionScoreAdjustments` leaves the penalty of `A` at 1/2,
after one second and after eight, although `A` is not the current action.  The same
happens with an unchanged class registry when `SetBrainConfig` installs an action without
a class at index 0. -/
theorem UpdateActionScoreAdjustments_skips_stale_index :
    IsActionInProgress BrainPenalised = false ∧
    BrainPenalised.CurrentActionResult.ActionDefIndex = -1 ∧
    (TArray.At BrainPenalised.ActionHistory 0).RepetitionPenalty = 1 / 2 ∧
    (TArray.At BrainPenalised.CombinedActionsByPriority 0).RepetitionPenalty = 1 / 2 ∧
    (TArray.At BrainPenalised.CombinedActionsByPriority 0).RepetitionPenaltyCooldown = 4 ∧
    (TArray.At (UpdateActionScoreAdjustments BrainPenalised 1).ActionHistory
      0).RepetitionPenalty = 3 / 8 ∧
    IsActionInProgress BrainPenalisedStale = false ∧
    BrainPenalisedStale.CurrentActionResult.ActionDefIndex = 0 ∧
    (TArray.At BrainPenalisedStale.ActionHistory 0).RepetitionPenalty = 1 / 2 ∧
    (TArray.At (UpdateActionScoreAdjustments BrainPenalisedStale 1).ActionHistory
      0).RepetitionPenalty = 1 / 2 ∧
    (TArray.At (UpdateActionScoreAdjustments BrainPenalisedStale 1).ActionHistory
      0).RepetitionPenalty
      ≠ max ((TArray.At BrainPenalisedStale.ActionHistory 0).RepetitionPenalty
          - (TArray.At BrainPenalisedStale.CombinedActionsByPriority 0).RepetitionPenalty * 1
            / (TArray.At BrainPenalisedStale.CombinedActionsByPriority
                0).RepetitionPenaltyCooldown) 0 ∧
    (TArray.At (TimerTicks BrainPenalisedStale (List.replicate 8 1)).ActionHistory
      0).RepetitionPenalty = 1 / 2 ∧
    IsActionInProgress BrainOtherStale = false ∧
    BrainOtherStale.CurrentActionResult.ActionDefIndex = 0 ∧
    (TArray.At BrainOtherStale.CombinedActionsByPriority 0).RepetitionPenaltyCooldown = 4 ∧
    (TArray.At BrainOtherStale.ActionHistory 0).RepetitionPenalty = 1 / 2 ∧
    (TArray.At (UpdateActionScoreAdjustments BrainOtherStale 1).ActionHistory
      0).RepetitionPenalty = 1 / 2 := by
  refine ⟨by decide!, by decide!, by decide!, by decide!, by decide!, by decide!, by decide!,
    by decide!, by decide!, by decide!, by decide!, by decide!, by decide!, by decide!,
    by decide!, by decide!, by decide!⟩

end SUSS
